import Mathlib

/-!
# emdlib: datasets, data spaces, frames and data groups

A shallow embedding of the parts of emdlib (`src/src/*.cpp`, `src/include/*.h`)
that compute element addresses, extract frames, validate, load and unload data
groups, and maintain the tree of nodes, together with theorems about them.

Conventions of the embedding.

* A C++ `int` is an `Int` kept in the 32-bit two's-complement range by
  `wrapInt32` after every arithmetic operation whose result can leave the range.
* A raw buffer (`char *m_data`) is a list of bytes; a read that leaves the
  buffer has no defined result in the source and is `none` here.
* A pointer into the child list of a node is the position of the child in that
  list. Where a method compares pointers, follows `m_parent` or creates and
  deletes nodes, the nodes are objects in a memory and a pointer is an address
  (`NodeObject`, `Memory`).
* A recursion of the source that need not end (over `m_parent`, over the child
  lists) is run with fuel; its outcome is a `Run`.
-/

namespace Emd

/-! ## Machine integers -/

/-- Two's-complement reduction of an integer to the range of a 32-bit `int`. -/
def wrapInt32 (x : Int) : Int := Int.bmod x 4294967296

/-- Two's-complement reduction of an integer to the range of a 64-bit `int64_t`. -/
def wrapInt64 (x : Int) : Int := Int.bmod x 18446744073709551616

/-- Two's-complement reduction to a signed integer of `w` bytes. -/
def wrapSigned (w : Nat) (x : Int) : Int := Int.bmod x (2 ^ (8 * w))

/-- Reduction to an unsigned integer of `w` bytes. -/
def wrapUnsigned (w : Nat) (x : Int) : Int := x % (2 ^ (8 * w) : Nat)

/-! ## Util.h / Util.cpp -/

/-- The enumeration `emd::DataType` of `Util.h`. -/
inductive DataType where
  | DataTypeUnknown
  | DataTypeInt8
  | DataTypeInt16
  | DataTypeInt32
  | DataTypeInt64
  | DataTypeUInt8
  | DataTypeUInt16
  | DataTypeUInt32
  | DataTypeUInt64
  | DataTypeFloat32
  | DataTypeFloat64
  | DataTypeString
  | DataTypeBool
  | DataTypeArray
  deriving DecidableEq, Repr

open DataType

/-- The function `emdTypeDepth` of `Util.cpp`: the byte width of a kind. The
kinds without a case (`Bool`, `Unknown`, `Array`) keep the initial `-1`; the
`String` case sets `0` and falls through to `default`. -/
def emdTypeDepth (type : DataType) : Int :=
  match type with
  | DataTypeInt8 | DataTypeUInt8 => 1
  | DataTypeInt16 | DataTypeUInt16 => 2
  | DataTypeInt32 | DataTypeUInt32 | DataTypeFloat32 => 4
  | DataTypeInt64 | DataTypeUInt64 | DataTypeFloat64 => 8
  | DataTypeString => 0
  | _ => -1

/-! ## DataSpace.h / DataSpace.cpp -/

/-- The class `DataSpace`: a rank and the list of dimension lengths. -/
structure DataSpace where
  m_rank : Int
  m_dimLengths : List Int
  deriving DecidableEq, Repr

namespace DataSpace

/-- The constructor `DataSpace(int rank, const int *dimLengths)`; a null
`dimLengths` is `none`. The lengths are copied only for a positive rank. -/
def create (rank : Int) (dimLengths : Option (List Int)) : DataSpace :=
  match dimLengths with
  | some ls => if rank > 0 then ⟨rank, ls.take rank.toNat⟩ else ⟨rank, []⟩
  | none => ⟨rank, []⟩

/-- The constructor `DataSpace(int length)`: rank one. -/
def ofLength (length : Int) : DataSpace := ⟨1, [length]⟩

/-- The accessor `DataSpace::rank`. -/
def rank (s : DataSpace) : Int := s.m_rank

/-- The accessor `DataSpace::dimLength`: `0` outside `[0, rank)`, else the stored
length (a space that `isValid` always has one). -/
def dimLength (s : DataSpace) (index : Int) : Int :=
  if index < 0 ∨ index > s.m_rank - 1 then 0
  else s.m_dimLengths.getD index.toNat 0

/-- The predicate `DataSpace::isValid`. -/
def isValid (s : DataSpace) : Bool :=
  decide (s.m_rank > 0) && decide (s.m_rank = (s.m_dimLengths.length : Int))

end DataSpace

/-! ## Dataset.h / Dataset.cpp -/

/-- The data members of the class `Dataset` (those of its base `Node` are kept
in the tree, see `Node`). `m_data = none` is the null buffer. -/
structure Dataset where
  m_data : Option (List Nat)
  m_space : DataSpace
  m_dataType : DataType
  m_dataTypeSize : Int
  m_descendingData : Bool
  m_complexIndex : Int
  m_truncatedDim : Bool
  m_trueLength : Int
  deriving DecidableEq, Repr

/-- The value of `Dataset::HorizontalDimension`. -/
def HorizontalDimension : Int := -1

/-- The value of `Dataset::VerticalDimension`. -/
def VerticalDimension : Int := -2

/-- The axes in the order in which the loops
`for(int iii = cStart; iii != cEnd; iii += cStep)` of `Dataset.cpp` visit them,
for a rank that is not negative: last to first when the data is descending,
first to last otherwise. -/
def axisOrder (rank : Int) (descendingData : Bool) : List Nat :=
  if descendingData then (List.range rank.toNat).reverse else List.range rank.toNat

namespace Dataset

/-- The constructor `Dataset(const int &rank, int const *dimLengths, DataType type,
char *data, bool descendingData)`. The member `m_trueLength` is not initialised
by the source and is read only in truncated mode; it is `0` here. -/
def create (rank : Int) (dimLengths : List Int) (type : DataType)
    (data : Option (List Nat)) (descendingData : Bool) : Dataset :=
  { m_data := data
    m_space := DataSpace.create rank (some dimLengths)
    m_dataType := type
    m_dataTypeSize := emdTypeDepth type
    m_descendingData := descendingData
    m_complexIndex := -1
    m_truncatedDim := false
    m_trueLength := 0 }

/-- The accessor `Dataset::dimCount`. -/
def dimCount (d : Dataset) : Int := d.m_space.rank

/-- The accessor `Dataset::dimLength`. -/
def dimLength (d : Dataset) (dimIndex : Int) : Int :=
  if d.m_truncatedDim ∧ dimIndex = 0 then d.m_trueLength
  else d.m_space.dimLength dimIndex

/-- The guard loop of `Dataset::variantDataValue(const Slice &)`: some axis has
`m_space.dimLength(iii) <= slice[iii]`. -/
def sliceExceeds (d : Dataset) (slice : List Int) : Bool :=
  (List.range d.m_space.rank.toNat).any
    (fun iii => decide (d.m_space.dimLength iii ≤ slice.getD iii 0))

/-- One pass of the body of the offset loop of
`Dataset::variantDataValue(const Slice &)` on the pair `(offset, step)`. -/
def offsetStep (d : Dataset) (slice : List Int) (st : Int × Int) (iii : Nat) : Int × Int :=
  (wrapInt32 (st.1 + wrapInt32 (slice.getD iii 0 * st.2)),
   wrapInt32 (st.2 * d.m_space.dimLength iii))

/-- The part of `Dataset::variantDataValue(const Slice &)` before the final
call: `none` when one of the two guards returns the invalid `QVariant()`, else
the value of `offset` after the loop. -/
def sliceOffset (d : Dataset) (slice : List Int) : Option Int :=
  if (slice.length : Int) ≠ d.m_space.rank then none
  else if d.sliceExceeds slice then none
  else
    some ((axisOrder d.m_space.rank d.m_descendingData).foldl
      (d.offsetStep slice) (0, 1)).1

end Dataset

/-! ## Buffers and typed reads -/

/-- The bytes `[off, off + n)` of a buffer; `none` when the window leaves the
buffer. -/
def readBytes (buf : List Nat) (off : Int) (n : Nat) : Option (List Nat) :=
  if 0 ≤ off ∧ off + n ≤ buf.length then some ((buf.drop off.toNat).take n) else none

/-- The unsigned number that a list of bytes holds, least significant byte first. -/
def decodeLE : List Nat → Nat
  | [] => 0
  | b :: r => b % 256 + 256 * decodeLE r

/-- The `w` bytes of an unsigned number, least significant byte first. -/
def encodeLE : Nat → Nat → List Nat
  | 0, _ => []
  | w + 1, v => (v % 256) :: encodeLE w (v / 256)

/-- The value of `sizeof(T)` for the C++ type `T` that `Dataset.cpp` reads a
numeric kind with (`int8_t` ... `uint64_t`, `float`, `double`). -/
def typeWidth (type : DataType) : Nat :=
  match type with
  | DataTypeInt8 | DataTypeUInt8 => 1
  | DataTypeInt16 | DataTypeUInt16 => 2
  | DataTypeInt32 | DataTypeUInt32 | DataTypeFloat32 => 4
  | DataTypeInt64 | DataTypeUInt64 | DataTypeFloat64 => 8
  | _ => 0

/-- The kind is one of the ten numeric kinds that `Dataset.cpp` reads with a
C++ type of its own. -/
def isNumeric (type : DataType) : Bool :=
  match type with
  | DataTypeInt8 | DataTypeInt16 | DataTypeInt32 | DataTypeInt64
  | DataTypeUInt8 | DataTypeUInt16 | DataTypeUInt32 | DataTypeUInt64
  | DataTypeFloat32 | DataTypeFloat64 => true
  | _ => false

/-- The C++ type of the kind is a signed integer type. -/
def typeSigned (type : DataType) : Bool :=
  match type with
  | DataTypeInt8 | DataTypeInt16 | DataTypeInt32 | DataTypeInt64 => true
  | _ => false

/-- The value of type `T` that `sizeof(T)` bytes hold: a two's-complement
integer for the signed kinds, an unsigned integer for the unsigned kinds, and
the bit pattern itself for `float` and `double`. -/
def decodeValue (type : DataType) (bytes : List Nat) : Int :=
  if typeSigned type then wrapSigned (typeWidth type) (decodeLE bytes) else decodeLE bytes

/-- The object representation of a value of type `T`: the inverse of
`decodeValue` on the values of the kind. -/
def encodeValue (type : DataType) (v : Int) : List Nat :=
  encodeLE (typeWidth type) (wrapUnsigned (typeWidth type) v).toNat

/-- The value `v` belongs to the C++ type of the kind. -/
def validValue (type : DataType) (v : Int) : Prop :=
  if typeSigned type then
    -(2 ^ (8 * typeWidth type - 1) : Int) ≤ v ∧ v < (2 ^ (8 * typeWidth type - 1) : Int)
  else 0 ≤ v ∧ v < (2 ^ (8 * typeWidth type) : Int)

/-- The buffer of a typed array: the object representations of its elements,
one after the other. -/
def storeElements (type : DataType) (vs : List Int) : List Nat :=
  (vs.map (encodeValue type)).flatten

/-- A `float` or `double` held by a `QVariant`: a bit pattern read from a
buffer, or the unevaluated result of `data[0] + index * (data[1] - data[0])`
on two such patterns (floating-point arithmetic is not evaluated). -/
inductive FloatVal where
  | bits (b : Int)
  | extrapolated (d0 d1 index : Int)
  deriving DecidableEq, Repr

/-- The values that the `QVariant`s of the library hold, by constructor of
`QVariant`; `Vector` is a `QVector<T>` of the C++ type of a kind (numbers, bit
patterns of floats, `0` and `1` for `bool`), `StringVector` a `QVector<QString>`. -/
inductive QVariant where
  | invalid
  | int (v : Int)
  | uint (v : Int)
  | longLong (v : Int)
  | uLongLong (v : Int)
  | float (v : FloatVal)
  | double (v : FloatVal)
  | bool (b : Bool)
  | string (s : String)
  | vector (elemType : DataType) (items : List Int)
  | stringVector (items : List String)
  deriving DecidableEq, Repr

/-- The `QVariant` that the implicit conversion of a returned `T` builds:
`int8_t`, `uint8_t`, `int16_t` and `uint16_t` promote to `int`. -/
def toVariant (type : DataType) (v : Int) : QVariant :=
  match type with
  | DataTypeInt8 | DataTypeInt16 | DataTypeInt32 | DataTypeUInt8 | DataTypeUInt16 =>
    QVariant.int v
  | DataTypeUInt32 => QVariant.uint v
  | DataTypeInt64 => QVariant.longLong v
  | DataTypeUInt64 => QVariant.uLongLong v
  | DataTypeFloat32 => QVariant.float (FloatVal.bits v)
  | DataTypeFloat64 => QVariant.double (FloatVal.bits v)
  | _ => QVariant.invalid

/-- The arithmetic type of the expression `data[0] + index * (data[1] - data[0])`
for integer `T` and `int index`: `int` after promotion for the types up to
`int32_t`, `unsigned` for `uint32_t`, and the 64-bit types themselves. -/
def arith (type : DataType) (x : Int) : Int :=
  match type with
  | DataTypeInt8 | DataTypeInt16 | DataTypeInt32 | DataTypeUInt8 | DataTypeUInt16 =>
    wrapInt32 x
  | DataTypeUInt32 => wrapUnsigned 4 x
  | DataTypeInt64 => wrapInt64 x
  | DataTypeUInt64 => wrapUnsigned 8 x
  | _ => x

/-- The conversion of the result of the expression back to `T` on return. -/
def narrow (type : DataType) (x : Int) : Int :=
  match type with
  | DataTypeInt8 => wrapSigned 1 x
  | DataTypeInt16 => wrapSigned 2 x
  | DataTypeUInt8 => wrapUnsigned 1 x
  | DataTypeUInt16 => wrapUnsigned 2 x
  | _ => x

/-- The text of a zero-terminated `char` array: the bytes before the first
zero, one character per byte. -/
def cString (bytes : List Nat) : String :=
  String.mk ((bytes.takeWhile (fun b => b != 0)).map Char.ofNat)

namespace Dataset

/-- The constructor `Dataset(const int &length, const emd::DataType &type,
bool createDefault)`. With `createDefault` the buffer has
`length * m_dataTypeSize` bytes, filled with `1 .. length` for `Int32`; for the
other kinds the source leaves the bytes unset, and they are `0` here. -/
def ofLength (length : Int) (type : DataType) (createDefault : Bool) : Dataset :=
  { m_data :=
      if createDefault then
        if type = DataTypeInt32 then
          some (storeElements DataTypeInt32
            ((List.range length.toNat).map (fun iii => wrapInt32 ((iii : Int) + 1))))
        else some (List.replicate (wrapInt32 (length * emdTypeDepth type)).toNat 0)
      else none
    m_space := DataSpace.create 1 (some [length])
    m_dataType := type
    m_dataTypeSize := emdTypeDepth type
    m_descendingData := false
    m_complexIndex := -1
    m_truncatedDim := false
    m_trueLength := 0 }

/-- The template `Dataset::value<T>`: element `index` of the buffer seen as an
array of `T`; `none` when the element is not inside the buffer. -/
def value (buf : List Nat) (type : DataType) (index : Int) : Option Int :=
  (readBytes buf (index * typeWidth type) (typeWidth type)).map (decodeValue type)

/-- The template `Dataset::extrapolate<T>` for the integer types:
`data[0] + index * (data[1] - data[0])` in the arithmetic type, converted to `T`. -/
def extrapolate (buf : List Nat) (type : DataType) (index : Int) : Option Int :=
  match value buf type 0, value buf type 1 with
  | some d0, some d1 =>
    some (narrow type (arith type (d0 + arith type (index * arith type (d1 - d0)))))
  | _, _ => none

/-- The template `Dataset::extrapolate<T>` for `float` and `double`. -/
def extrapolateFloat (buf : List Nat) (type : DataType) (index : Int) : Option FloatVal :=
  match value buf type 0, value buf type 1 with
  | some d0, some d1 => some (FloatVal.extrapolated d0 d1 index)
  | _, _ => none

/-- One integer case of the `switch` of `Dataset::variantDataValue(const int &)`. -/
def integerCase (d : Dataset) (buf : List Nat) (type : DataType) (index : Int) :
    Option QVariant :=
  if d.m_truncatedDim then (extrapolate buf type index).map (toVariant type)
  else (value buf type index).map (toVariant type)

/-- The method `Dataset::variantDataValue(const int &index)`; `none` when the
source reads outside the buffer. -/
def variantDataValue (d : Dataset) (index : Int) : Option QVariant :=
  match d.m_data with
  | none => some (QVariant.int (wrapInt32 (index + 1)))
  | some buf =>
    match d.m_dataType with
    | DataTypeInt8 => d.integerCase buf DataTypeInt8 index
    | DataTypeInt16 => d.integerCase buf DataTypeInt16 index
    | DataTypeInt32 => d.integerCase buf DataTypeInt32 index
    | DataTypeInt64 => d.integerCase buf DataTypeInt64 index
    | DataTypeUInt8 => d.integerCase buf DataTypeUInt8 index
    | DataTypeUInt16 => d.integerCase buf DataTypeUInt16 index
    | DataTypeUInt32 => d.integerCase buf DataTypeUInt32 index
    | DataTypeUInt64 => d.integerCase buf DataTypeUInt64 index
    | DataTypeFloat32 =>
      if d.m_truncatedDim then
        (extrapolateFloat buf DataTypeFloat32 index).map QVariant.float
      else (value buf DataTypeFloat32 index).map (toVariant DataTypeFloat32)
    | DataTypeFloat64 =>
      if d.m_truncatedDim then
        (extrapolateFloat buf DataTypeFloat64 index).map QVariant.double
      else (value buf DataTypeFloat64 index).map (toVariant DataTypeFloat64)
    | DataTypeString =>
      if d.m_truncatedDim ∧ index > 1 then some (QVariant.string "invalid")
      else
        let byteSize := emdTypeDepth d.m_dataType
        let offset := wrapInt32 (index * byteSize)
        (readBytes buf offset byteSize.toNat).map (fun val => QVariant.string (cString val))
    | _ => some (QVariant.int index)

/-- The method `Dataset::variantDataValue(const Slice &slice)`: the invalid
`QVariant()` when a guard fails, else the scalar at the resolved offset. -/
def variantDataValueSlice (d : Dataset) (slice : List Int) : Option QVariant :=
  match d.sliceOffset slice with
  | none => some QVariant.invalid
  | some offset => d.variantDataValue offset

/-- The method `Dataset::setTrueLength`. -/
def setTrueLength (d : Dataset) (length : Int) : Dataset :=
  if d.dimCount ≠ 1 then d
  else if d.dimLength 0 ≠ 2 then d
  else { d with m_trueLength := length, m_truncatedDim := true }

end Dataset

/-! ## Frame.h / Frame.cpp and `Dataset::frame` -/

/-- A pointer obtained from the buffer pointer `m_data` of a Dataset by adding a
number of bytes: into the buffer when `m_data` is not null; the null pointer or
a bare address when it is. -/
inductive Pointer where
  | null
  | address (bytes : Int)
  | inBuffer (bytes : Int)
  deriving DecidableEq, Repr

/-- The expression `m_data + bytes`. -/
def ptrAdd (m_data : Option (List Nat)) (bytes : Int) : Pointer :=
  match m_data with
  | some _ => Pointer.inBuffer bytes
  | none => if bytes = 0 then Pointer.null else Pointer.address bytes

/-- The value of `Frame::AttributeComplex`. -/
def AttributeComplex : Int := 0x010

/-- The struct `Frame::Data<void>`. -/
structure FrameData where
  attributes : Int
  hStep : Int
  vStep : Int
  hSize : Int
  vSize : Int
  real : Pointer
  imaginary : Pointer
  deriving DecidableEq, Repr

/-- The data members of the class `Frame`. The display range is `none` while it
holds `kInvalidFloatValue`; `m_index` is not set by the constructor and is `0`
until `setIndex`. -/
structure Frame where
  m_data : FrameData
  m_dataType : DataType
  m_ownsData : Bool
  m_index : Int
  m_minValue : Option Int
  m_maxValue : Option Int
  deriving DecidableEq, Repr

namespace Frame

/-- The constructor `Frame(void *real, void *imaginary, int hStep, int vStep,
int hSize, int vSize, DataType type, bool ownsData)`. -/
def create (real imaginary : Pointer) (hStep vStep hSize vSize : Int) (type : DataType)
    (ownsData : Bool) : Frame :=
  { m_data :=
      { attributes := if imaginary ≠ Pointer.null then AttributeComplex else 0
        hStep := hStep
        vStep := vStep
        hSize := hSize
        vSize := vSize
        real := real
        imaginary := imaginary }
    m_dataType := type
    m_ownsData := ownsData
    m_index := 0
    m_minValue := none
    m_maxValue := none }

/-- The method `Frame::setIndex`. -/
def setIndex (f : Frame) (index : Int) : Frame := { f with m_index := index }

end Frame

/-- The local variables of `Dataset::frame` that its loop changes. The source
leaves `hStep`, `vStep` and `complexStep` unset at first; `hStep` and `vStep`
are read only after `hor` and `ver` were assigned together with them, so their
initial `0` is never seen, and an unset `complexStep` is `none`. -/
structure FrameLoop where
  hor : Int
  ver : Int
  hStep : Int
  vStep : Int
  complexStep : Option Int
  offset : Int
  step : Int
  deriving DecidableEq, Repr

namespace Dataset

/-- The state of the locals of `Dataset::frame` before its loop. -/
def frameInit : FrameLoop :=
  { hor := -1, ver := -1, hStep := 0, vStep := 0, complexStep := none, offset := 0, step := 1 }

/-- One pass of the body of the loop of `Dataset::frame`; `none` when `slice[iii]`
is read outside the slice. -/
def frameStep (d : Dataset) (slice : List Int) (st : FrameLoop) (iii : Nat) :
    Option FrameLoop :=
  match slice.get? iii with
  | none => none
  | some s =>
    let dimLength := d.m_space.dimLength iii
    let st' :=
      if s = HorizontalDimension then { st with hor := iii, hStep := st.step }
      else if s = VerticalDimension then { st with ver := iii, vStep := st.step }
      else if (iii : Int) = d.m_complexIndex then { st with complexStep := some st.step }
      else { st with offset := wrapInt32 (st.offset + wrapInt32 (s * st.step)) }
    some { st' with step := wrapInt32 (st'.step * dimLength) }

/-- The part of `Dataset::frame` after its loop: the null frame (`some none`)
when an axis role is unassigned, else the frame; `none` when `complexStep` is
read unset. -/
def frameFinish (d : Dataset) (st : FrameLoop) : Option (Option Frame) :=
  if st.hor < 0 ∨ st.ver < 0 then some none
  else
    let hor := if st.hor > st.ver then st.ver else st.hor
    let ver := if st.hor > st.ver then st.hor else st.ver
    let hStep := if st.hor > st.ver then st.vStep else st.hStep
    let vStep := if st.hor > st.ver then st.hStep else st.vStep
    let real := ptrAdd d.m_data (wrapInt32 (st.offset * d.m_dataTypeSize))
    if d.m_complexIndex ≥ 0 then
      match st.complexStep with
      | none => none
      | some complexStep =>
        let imaginary :=
          ptrAdd d.m_data (wrapInt32 (wrapInt32 (st.offset + complexStep) * d.m_dataTypeSize))
        some (some ((Frame.create real imaginary hStep vStep (d.m_space.dimLength hor)
          (d.m_space.dimLength ver) d.m_dataType false).setIndex st.offset))
    else
      some (some ((Frame.create real Pointer.null hStep vStep (d.m_space.dimLength hor)
        (d.m_space.dimLength ver) d.m_dataType false).setIndex st.offset))

/-- The method `Dataset::frame`: `some (some f)` for a frame, `some none` for
the null result, `none` when the source has no defined result (a read outside
the slice or of the unset `complexStep`; a negative rank, for which the loop
does not reach its end value). -/
def frame (d : Dataset) (slice : List Int) : Option (Option Frame) :=
  if d.m_space.rank < 0 then none
  else
    match (axisOrder d.m_space.rank d.m_descendingData).foldlM (d.frameStep slice) frameInit with
    | none => none
    | some st => d.frameFinish st

end Dataset

/-! ## Node.h / Node.cpp, Attribute.h / Attribute.cpp, Group.cpp -/

/-- The value of `Node::DIRTY`. -/
def DIRTY : Nat := 0x00000010

/-- The value of `Node::GROUP`. -/
def GROUP : Nat := 0x00001000

/-- The value of `Node::DATASET`. -/
def DATASET : Nat := 0x00002000

/-- The value of `Node::ATTRIBUTE`. -/
def ATTRIBUTE : Nat := 0x00004000

/-- The value of `Node::DATATYPE`. -/
def DATATYPE : Nat := 0x00008000

/-- The value of `Node::DATAGROUP`. -/
def DATAGROUP : Nat := 0x00011000

/-- The value of `MAX_ARRAY_DISPLAY_SIZE` of `Attribute.cpp`. -/
def MAX_ARRAY_DISPLAY_SIZE : Nat := 4

/-- The data members that the class `Attribute` adds to `Node`. -/
structure Attribute where
  m_value : QVariant
  m_type : DataType
  m_length : Int
  m_isArray : Bool
  deriving DecidableEq, Repr

/-- The dynamic type of a node with the data members that the class adds to
`Node`. In a `DataGroup`, the pointers `m_data` and `m_dims` are positions in
the child list of the group, and `m_model` tells whether a model is set. -/
inductive NodeSelf where
  | node
  | group
  | dataGroup (m_data : Option Nat) (m_dims : List Nat) (m_model : Bool)
  | dataset (d : Dataset)
  | attribute (a : Attribute)
  deriving DecidableEq, Repr

/-- The class `Node` with its subclasses: name, status bits, the owned children
in order, and the members of the dynamic type. -/
inductive Node where
  | mk (m_name : String) (m_status : Nat) (m_children : List Node) (self : NodeSelf)
  deriving Repr

/-- The conversions of the Qt library that this development does not define and
takes as a parameter: the text of a floating-point `QVariant`, its conversion to
`int`, and the conversion `QString::toInt` of a string. -/
structure QtConv where
  floatText : QVariant → String
  floatToInt : QVariant → Int
  stringToInt : String → Int

/-- The function `emdTypeString` of `Util.cpp`. -/
def emdTypeString (type : DataType) : String :=
  match type with
  | DataTypeInt8 => "int8"
  | DataTypeUInt8 => "uint8"
  | DataTypeInt16 => "int16"
  | DataTypeUInt16 => "uint16"
  | DataTypeInt32 => "int32"
  | DataTypeUInt32 => "uint32"
  | DataTypeFloat32 => "float"
  | DataTypeInt64 => "int64"
  | DataTypeUInt64 => "uint64"
  | DataTypeFloat64 => "double"
  | DataTypeString => "string"
  | DataTypeBool => "bool"
  | _ => ""

namespace QVariant

/-- The method `QVariant::toString` on the values of the library: decimal text
for the integers, `true` and `false`, the string itself, and the empty string
for an invalid value and for a vector. -/
def toString (ft : QtConv) (v : QVariant) : String :=
  match v with
  | invalid => ""
  | int x => ToString.toString x
  | uint x => ToString.toString x
  | longLong x => ToString.toString x
  | uLongLong x => ToString.toString x
  | float x => ft.floatText (float x)
  | double x => ft.floatText (double x)
  | bool b => if b then "true" else "false"
  | string s => s
  | vector _ _ => ""
  | stringVector _ => ""

/-- The method `QVariant::toInt` on the values of the library; a wider integer
is cut to 32 bits. -/
def toInt (ft : QtConv) (v : QVariant) : Int :=
  match v with
  | invalid => 0
  | int x => x
  | uint x => wrapInt32 x
  | longLong x => wrapInt32 x
  | uLongLong x => wrapInt32 x
  | float x => ft.floatToInt (float x)
  | double x => ft.floatToInt (double x)
  | bool b => if b then 1 else 0
  | string s => ft.stringToInt s
  | vector _ _ => 0
  | stringVector _ => 0

end QVariant

/-- The `QVariant` built from one item of a `QVector<T>`. -/
def itemVariant (type : DataType) (v : Int) : QVariant :=
  match type with
  | DataTypeBool => QVariant.bool (decide (v ≠ 0))
  | t => toVariant t v

/-- The conversion `m_value.value<QVector<T> >()` for the C++ type of a kind,
item by item as `QVariant`: empty when the value holds another type. -/
def vectorItems (type : DataType) (v : QVariant) : List QVariant :=
  match v with
  | QVariant.vector t items => if t = type then items.map (itemVariant type) else []
  | QVariant.stringVector items =>
    if type = DataTypeString then items.map QVariant.string else []
  | _ => []

/-- The template `variantValueString` of `Attribute.cpp`. -/
def variantValueString (ft : QtConv) (vec : List QVariant) (type : DataType) : QVariant :=
  if vec.length ≤ MAX_ARRAY_DISPLAY_SIZE then
    QVariant.string
      ((if type = DataTypeString then ", " else " ").intercalate (vec.map (QVariant.toString ft)))
  else
    QVariant.string (emdTypeString type ++ " array " ++ "1 x " ++ toString vec.length)

namespace DataSpace

/-- The method `DataSpace::stringRepresentation`. -/
def stringRepresentation (s : DataSpace) : String :=
  " x ".intercalate ((List.range s.m_rank.toNat).map
    (fun iii => toString (s.m_dimLengths.getD iii 0)))

end DataSpace

namespace Attribute

/-- The constructor `Attribute(Node *parent)`. -/
def create : Attribute :=
  { m_value := QVariant.int 0, m_type := DataTypeUnknown, m_length := 1, m_isArray := false }

/-- The method `Attribute::variantRepresentation`. -/
def variantRepresentation (ft : QtConv) (a : Attribute) : QVariant :=
  if ¬ a.m_isArray then a.m_value
  else
    match a.m_type with
    | DataTypeInt8 | DataTypeUInt8 | DataTypeInt16 | DataTypeUInt16 | DataTypeInt32
    | DataTypeUInt32 | DataTypeInt64 | DataTypeUInt64 | DataTypeFloat32 | DataTypeFloat64
    | DataTypeString | DataTypeBool =>
      variantValueString ft (vectorItems a.m_type a.m_value) a.m_type
    | _ => QVariant.invalid

end Attribute

namespace Node

/-- The accessor `Node::name`. -/
def name : Node → String
  | mk n _ _ _ => n

/-- The accessor `Node::status`. -/
def status : Node → Nat
  | mk _ s _ _ => s

/-- The accessor `Node::children`. -/
def children : Node → List Node
  | mk _ _ cs _ => cs

/-- The members of the dynamic type of the node. -/
def self : Node → NodeSelf
  | mk _ _ _ x => x

/-- The node with another child list (`Node::setChildren`). -/
def setChildren : Node → List Node → Node
  | mk n s _ x, cs => mk n s cs x

/-- The node with other members of its dynamic type. -/
def setSelf : Node → NodeSelf → Node
  | mk n s cs _, x => mk n s cs x

/-- The method `Node::child(const QString &name)`: the first child of that name. -/
def child (n : Node) (name : String) : Option Node :=
  n.children.find? (fun c => c.name == name)

/-- The position in the child list of the pointer that
`Node::child(const QString &name)` returns. -/
def childIndex (n : Node) (name : String) : Option Nat :=
  n.children.findIdx? (fun c => c.name == name)

/-- The result of `dynamic_cast<Dataset*>` on the node. -/
def asDataset (n : Node) : Option Dataset :=
  match n.self with
  | NodeSelf.dataset d => some d
  | _ => none

/-- The result of `dynamic_cast<Attribute*>` on the node. -/
def asAttribute (n : Node) : Option Attribute :=
  match n.self with
  | NodeSelf.attribute a => some a
  | _ => none

/-- The virtual method `variantRepresentation` of `Node`, `Group` (also for a
`DataGroup`), `Dataset` and `Attribute`. -/
def variantRepresentation (ft : QtConv) (n : Node) : QVariant :=
  match n.self with
  | NodeSelf.node => QVariant.string "Node base class"
  | NodeSelf.group => QVariant.string (toString n.children.length ++ " children")
  | NodeSelf.dataGroup _ _ _ => QVariant.string (toString n.children.length ++ " children")
  | NodeSelf.dataset d => QVariant.string d.m_space.stringRepresentation
  | NodeSelf.attribute a => a.variantRepresentation ft

/-- The node with `f` applied to its members when it is a `Dataset`. -/
def mapDataset (f : Dataset → Dataset) (n : Node) : Node :=
  match n.self with
  | NodeSelf.dataset d => n.setSelf (NodeSelf.dataset (f d))
  | _ => n

/-- The node at a path of child positions below the node. -/
def at? : Node → List Nat → Option Node
  | n, [] => some n
  | mk _ _ cs _, i :: p =>
    match cs.get? i with
    | some c => c.at? p
    | none => none

/-- The tree in which the node at a path of child positions is replaced. -/
def replaceAt : Node → List Nat → Node → Node
  | _, [], r => r
  | mk n s cs x, i :: p, r =>
    match cs.get? i with
    | some c => mk n s (cs.set i (c.replaceAt p r)) x
    | none => mk n s cs x

end Node

mutual
/-- The number of nodes of the tree below and including the node. -/
def Node.size : Node → Nat
  | Node.mk _ _ cs _ => 1 + Node.sizeList cs
/-- The number of nodes of a list of trees. -/
def Node.sizeList : List Node → Nat
  | [] => 0
  | c :: cs => c.size + Node.sizeList cs
end

/-! ## DataGroup.h / DataGroup.cpp -/

/-- A node of dynamic type `DataGroup` as one record: the members of `Node` and
those of `DataGroup`. -/
structure DataGroup where
  m_name : String
  m_status : Nat
  m_children : List Node
  m_data : Option Nat
  m_dims : List Nat
  m_model : Bool
  deriving Repr

/-- The result of `static_cast<DataGroup*>` on a node that is a `DataGroup`;
`none` for a node of another dynamic type, for which the cast is not defined. -/
def Node.asDataGroup (n : Node) : Option DataGroup :=
  match n with
  | Node.mk nm st cs (NodeSelf.dataGroup d ds m) =>
    some { m_name := nm, m_status := st, m_children := cs, m_data := d, m_dims := ds,
           m_model := m }
  | _ => none

/-- The test `a.compare(b, Qt::CaseInsensitive) == 0` of `QString`, on the
letters `A` to `Z`. -/
def equalsIgnoreCase (a b : String) : Bool :=
  a.data.map Char.toLower == b.data.map Char.toLower

namespace DataGroup

/-- The record as a node of the tree. -/
def toNode (g : DataGroup) : Node :=
  Node.mk g.m_name g.m_status g.m_children (NodeSelf.dataGroup g.m_data g.m_dims g.m_model)

/-- The constructor `DataGroup(Node *parent)`. -/
def create : DataGroup :=
  { m_name := "", m_status := DATAGROUP, m_children := [], m_data := none, m_dims := [],
    m_model := false }

/-- The method `Node::child(const QString &name)` on a `DataGroup`. -/
def child (g : DataGroup) (name : String) : Option Node := g.toNode.child name

/-- The position of the child that `child(name)` returns. -/
def childIndex (g : DataGroup) (name : String) : Option Nat := g.toNode.childIndex name

/-- The Dataset at a position of the child list; `none` when there is no such
child or it is no Dataset. -/
def datasetAt (g : DataGroup) (pos : Nat) : Option Dataset :=
  (g.m_children.get? pos).bind Node.asDataset

/-- The Dataset that the pointer `m_data` points to; `none` when the pointer is
null or does not point to a Dataset. -/
def dataNode (g : DataGroup) : Option Dataset :=
  match g.m_data with
  | some pos => g.datasetAt pos
  | none => none

/-- The method `DataGroup::dimCount`: `m_data->dimCount()`. -/
def dimCount (g : DataGroup) : Option Int := g.dataNode.map Dataset.dimCount

/-- The method `DataGroup::dimData`: the pointer at `index` of `m_dims`, null
(`none`) outside the list. -/
def dimData (g : DataGroup) (index : Int) : Option Nat :=
  if index ≥ 0 ∧ index < g.m_dims.length then g.m_dims.get? index.toNat else none

/-- The method `DataGroup::setModel`. -/
def setModel (g : DataGroup) : DataGroup := { g with m_model := true }

/-- The group with `f` applied to the Dataset at a position of the child list. -/
def updateDataset (g : DataGroup) (pos : Nat) (f : Dataset → Dataset) : DataGroup :=
  match g.m_children.get? pos with
  | some c => { g with m_children := g.m_children.set pos (c.mapDataset f) }
  | none => g

/-- The method `DataGroup::setData` for a Dataset that is already a child, at
position `pos`: `m_children.contains(data)` holds and nothing is appended. -/
def setData (g : DataGroup) (pos : Nat) : DataGroup := { g with m_data := some pos }

/-- The method `DataGroup::setData` for a Dataset that is not a child yet: it
is appended to the child list. -/
def setDataNew (g : DataGroup) (data : Node) : DataGroup :=
  { g with m_data := some g.m_children.length, m_children := g.m_children ++ [data] }

/-- The method `DataGroup::addDim` for a Dataset that is already a child, at
position `pos`. -/
def addDim (g : DataGroup) (pos : Nat) : DataGroup := { g with m_dims := g.m_dims ++ [pos] }

/-- The method `DataGroup::addDim` for a Dataset that is not a child yet. -/
def addDimNew (g : DataGroup) (dim : Node) : DataGroup :=
  { g with m_dims := g.m_dims ++ [g.m_children.length], m_children := g.m_children ++ [dim] }

/-- The method `Node::addChild` on a `DataGroup`, for a node that is not a child
yet. -/
def addChildNew (g : DataGroup) (c : Node) : DataGroup :=
  { g with m_children := g.m_children ++ [c] }

/-- The method `DataGroup::setDataOrder`: `m_data->setDataOrder(descending)`;
`none` when `m_data` does not point to a Dataset. -/
def setDataOrder (g : DataGroup) (descending : Bool) : Option DataGroup :=
  match g.m_data, g.dataNode with
  | some pos, some _ =>
    some (g.updateDataset pos (fun d => { d with m_descendingData := descending }))
  | _, _ => none

/-- The loop of `DataGroup::checkDimLengths` over the axes `index`; `none` when
`m_data` or `dimData(index)` is null or no Dataset. -/
def checkDimLengthsLoop : List Nat → DataGroup → Option DataGroup
  | [], g => some g
  | index :: rest, g =>
    match g.dataNode, g.dimData index with
    | some data, some dimPos =>
      match g.datasetAt dimPos with
      | some dim =>
        if data.dimLength index ≠ dim.dimLength 0 then
          checkDimLengthsLoop rest
            (g.updateDataset dimPos (fun d => d.setTrueLength (data.dimLength index)))
        else checkDimLengthsLoop rest g
      | none => none
    | _, _ => none

/-- The method `DataGroup::checkDimLengths`. The bound `this->dimCount()` of the
loop is the rank of the primary Dataset, which the loop does not change. -/
def checkDimLengths (g : DataGroup) : Option DataGroup :=
  match g.dimCount with
  | some n => checkDimLengthsLoop (List.range n.toNat) g
  | none => none

/-- The part of the loop body of `DataGroup::validate` that reads the `name`
child of the dimension Dataset at `dimPos` and, when its text is `complex`
whatever the case of the letters, calls `data->setComplexIndex(iii)`. -/
def noteComplexDim (ft : QtConv) (dataPos iii dimPos : Nat) (g : DataGroup) : DataGroup :=
  match (g.m_children.get? dimPos).bind (fun dim => dim.child "name") with
  | some nameNode =>
    if equalsIgnoreCase ((nameNode.variantRepresentation ft).toString ft) "complex" then
      g.updateDataset dataPos (fun d => { d with m_complexIndex := iii })
    else g
  | none => g

/-- The loop of `DataGroup::validate` over the axes `iii`, for the primary
Dataset at position `dataPos`: `false` with the group as changed so far when a
child `dim{iii+1}` is missing. -/
def validateLoop (ft : QtConv) (dataPos : Nat) : List Nat → DataGroup → Bool × DataGroup
  | [], g => (true, g)
  | iii :: rest, g =>
    match g.childIndex ("dim" ++ toString (iii + 1)) with
    | none => (false, g)
    | some dimPos =>
      validateLoop ft dataPos rest (noteComplexDim ft dataPos iii dimPos (g.addDim dimPos))

/-- The end of `DataGroup::validate`: the attribute `data_order` with integer
value 0 sets the ascending layout. The path `"data_order"` has no `/`, so
`childAtPath` is `child`. -/
def applyDataOrder (ft : QtConv) (g : DataGroup) : Option DataGroup :=
  match (g.child "data_order").bind Node.asAttribute with
  | some dataOrderAttr =>
    if dataOrderAttr.m_value.toInt ft = 0 then g.setDataOrder false else some g
  | none => some g

/-- The method `DataGroup::validate`: the returned flag and the group after the
call; `none` when `checkDimLengths` has no defined result. -/
def validate (ft : QtConv) (g : DataGroup) : Option (Bool × DataGroup) :=
  match g.childIndex "data" with
  | none => some (false, g)
  | some dataPos =>
    match g.datasetAt dataPos with
    | none => some (false, g)
    | some data =>
      match validateLoop ft dataPos (List.range data.dimCount.toNat) g with
      | (false, g1) => some (false, g1)
      | (true, g1) =>
        match (g1.setData dataPos).checkDimLengths with
        | none => none
        | some g3 => (applyDataOrder ft g3).map (fun g4 => (true, g4))

end DataGroup

/-! ## Model.h / Model.cpp -/

/-- The outcome of a loop that is run with fuel. -/
inductive Run (α : Type) where
  | outOfFuel
  | undefined
  | done (a : α)
  deriving Repr

/-- The members `m_root` and `m_dataGroups` of the class `Model`; a pointer to
a `DataGroup` of the tree is its path of child positions from the root. -/
structure Model where
  m_root : Node
  m_dataGroups : List (List Nat)
  deriving Repr

namespace Model

/-- The loop `while(!nodes.empty())` of `Model::validateDataGroups` on the tree,
the list `nodes` and the list `m_dataGroups`, for at most `fuel` passes. A node
with the status bits of `DATAGROUP` that is no `DataGroup` has no defined
result. -/
def validateWalk (ft : QtConv) :
    Nat → Node → List (List Nat) → List (List Nat) → Run (Node × List (List Nat))
  | _, root, [], dataGroups => Run.done (root, dataGroups)
  | 0, _, _ :: _, _ => Run.outOfFuel
  | fuel + 1, root, p :: rest, dataGroups =>
    match root.at? p with
    | none => Run.undefined
    | some node =>
      let nodes := rest ++ (List.range node.children.length).map (fun i => p ++ [i])
      if node.status &&& DATAGROUP = DATAGROUP then
        match node.asDataGroup with
        | none => Run.undefined
        | some dataGroup =>
          match dataGroup.validate ft with
          | none => Run.undefined
          | some (true, g) =>
            validateWalk ft fuel (root.replaceAt p g.setModel.toNode) nodes (dataGroups ++ [p])
          | some (false, g) =>
            validateWalk ft fuel (root.replaceAt p g.toNode) nodes dataGroups
      else validateWalk ft fuel root nodes dataGroups

/-- The method `Model::validateDataGroups`, with one unit of fuel per node of
the tree. -/
def validateDataGroups (ft : QtConv) (m : Model) : Run Model :=
  match validateWalk ft m.m_root.size m.m_root [[]] [] with
  | Run.done (root, dataGroups) => Run.done { m_root := root, m_dataGroups := dataGroups }
  | Run.undefined => Run.undefined
  | Run.outOfFuel => Run.outOfFuel

end Model

/-! ## The positional reading of the offset loop -/

/-- The positional value of a list of `(index, length)` digits, least significant first. -/
def mixedRadix : List (Int × Int) → Int
  | [] => 0
  | p :: r => p.1 + p.2 * mixedRadix r

/-- The product of the lengths of a list of `(index, length)` digits. -/
def radixProd : List (Int × Int) → Int
  | [] => 1
  | p :: r => p.2 * radixProd r

/-- Every digit of the list is within its length. -/
def digitsOk (l : List (Int × Int)) : Prop := ∀ p ∈ l, 0 ≤ p.1 ∧ p.1 < p.2

namespace Dataset

/-- The index vector is in bounds: one index per axis, `0 <= idx[a] < dimLength(a)`. -/
def inBounds (d : Dataset) (idx : List Int) : Bool :=
  decide ((idx.length : Int) = d.dimCount) &&
  (List.range d.dimCount.toNat).all
    (fun a => decide (0 ≤ idx.getD a 0) && decide (idx.getD a 0 < d.dimLength a))

/-- The number of elements of the buffer: the product of the dimension lengths. -/
def elementCount (d : Dataset) : Int := d.m_space.m_dimLengths.prod

end Dataset

/-- The digits that the offset loop visits, in visiting order. -/
def visitedDigits (d : Dataset) (idx : List Int) : List (Int × Int) :=
  if d.m_descendingData then (idx.zip d.m_space.m_dimLengths).reverse
  else idx.zip d.m_space.m_dimLengths

/-! ## The relation between two runs of the frame loop -/

/-- The two runs of the loop of `Dataset::frame` on a slice and on the slice
with the roles of the axes `a` and `b` exchanged are in step: same offset, step
and complex step, and the horizontal pair of one is the vertical pair of the
other. -/
def RolesSwapped (a b : Nat) (s t : FrameLoop) : Prop :=
  s.offset = t.offset ∧ s.step = t.step ∧ s.complexStep = t.complexStep ∧
  s.hor = t.ver ∧ s.ver = t.hor ∧ s.hStep = t.vStep ∧ s.vStep = t.hStep ∧
  (s.hor = -1 ∨ s.hor = a) ∧ (s.ver = -1 ∨ s.ver = b)

/-! ## What `DataGroup::validate` leaves unchanged -/

/-- A Dataset without the members that `DataGroup::validate` can change: layout
flag, complex axis and truncated mode. -/
def Dataset.skeleton (d : Dataset) : Dataset :=
  { d with m_descendingData := false, m_complexIndex := 0, m_truncatedDim := false,
           m_trueLength := 0 }

/-- The members of a dynamic type without those that `DataGroup::validate` and
`Model::validateDataGroups` can change. -/
def NodeSelf.skeleton : NodeSelf → NodeSelf
  | NodeSelf.dataGroup _ _ _ => NodeSelf.dataGroup none [] false
  | NodeSelf.dataset d => NodeSelf.dataset d.skeleton
  | x => x

mutual
/-- The tree without the members that `DataGroup::validate` and
`Model::validateDataGroups` can change: names, status bits, dynamic types,
child lists, data spaces, kinds, buffers and attribute values stay. -/
def Node.skeleton : Node → Node
  | Node.mk n s cs x => Node.mk n s (Node.skeletonList cs) x.skeleton
/-- The skeletons of a list of trees. -/
def Node.skeletonList : List Node → List Node
  | [] => []
  | c :: cs => c.skeleton :: Node.skeletonList cs
end

/-- The primary Dataset of the group exists with some rank, and a child
`dim{k}` with `1 <= k <= rank` is missing. -/
def Node.lacksDim (n : Node) : Prop :=
  ∃ (dataPos : Nat) (data : Dataset) (k : Nat),
    n.childIndex "data" = some dataPos ∧
    (n.children.get? dataPos).bind Node.asDataset = some data ∧
    1 ≤ k ∧ (k : Int) ≤ data.dimCount ∧
    n.childIndex ("dim" ++ toString k) = none

/-- The number of nodes below the paths of a list, in a tree. -/
def Node.sizeAt (root : Node) (nodes : List (List Nat)) : Nat :=
  (nodes.map (fun q => ((root.at? q).map Node.size).getD 0)).sum

/-- The two groups have the same name, status bits and children up to the
members that `DataGroup::validate` can change. -/
def DataGroup.SameSkeleton (g g' : DataGroup) : Prop :=
  g'.m_name = g.m_name ∧ g'.m_status = g.m_status ∧
    g'.m_children.map Node.skeleton = g.m_children.map Node.skeleton

/-- The two Datasets have the same data space and truncated mode, hence the
same rank and lengths. -/
def Dataset.SameLengths (d d' : Dataset) : Prop :=
  d'.m_space = d.m_space ∧ d'.m_truncatedDim = d.m_truncatedDim ∧
    d'.m_trueLength = d.m_trueLength

/-- The value of a decimal digit character. -/
def digitValue (c : Char) : Nat := c.toNat - 48

/-- The number that a list of decimal digit characters writes, after the
number `acc` written so far. -/
def readDecimal : List Char → Nat → Nat
  | [], acc => acc
  | c :: cs, acc => readDecimal cs (10 * acc + digitValue c)

/-! ## Concrete trees used by the witnesses -/

/-- Conversions of Qt for the concrete examples; no example converts a
floating-point value or a string. -/
def exampleQt : QtConv :=
  { floatText := fun _ => "", floatToInt := fun _ => 0, stringToInt := fun _ => 0 }

/-- An attribute node holding a scalar, as `new Attribute` followed by `setName`,
`setValue` and `setType` leaves it: `setValue` sets `DIRTY`. -/
def attributeNode (name : String) (value : QVariant) (type : DataType) : Node :=
  Node.mk name DIRTY []
    (NodeSelf.attribute { Attribute.create with m_value := value, m_type := type })

/-- A dimension Dataset `dim{k}` as the decoders build it: `Int32` values
`1 .. length` and the attributes `units` and `name`. -/
def dimensionNode (k : Nat) (length : Int) : Node :=
  Node.mk ("dim" ++ toString k) 0
    [attributeNode "units" (QVariant.string "[px]") DataTypeString,
     attributeNode "name" (QVariant.string ("dim" ++ toString k)) DataTypeString]
    (NodeSelf.dataset (Dataset.ofLength length DataTypeInt32 true))

/-- A calibration Dataset `dim{k}` of declared length `n` holding `Int32` values. -/
def calibrationNode (k : Nat) (values : List Int) : Node :=
  Node.mk ("dim" ++ toString k) 0 []
    (NodeSelf.dataset (Dataset.create 1 [values.length] DataTypeInt32
      (some (storeElements DataTypeInt32 values)) true))

/-- A primary Dataset `data` of `UInt8` zeros with the given dimension lengths. -/
def primaryNode (dimLengths : List Int) (descendingData : Bool) : Node :=
  Node.mk "data" 0 []
    (NodeSelf.dataset (Dataset.create dimLengths.length dimLengths DataTypeUInt8
      (some (List.replicate dimLengths.prod.toNat 0)) descendingData))

/-- A group with a rank-2 `data` and `dim1` but no `dim2`. -/
def groupMissingDim2 : DataGroup :=
  { DataGroup.create with
    m_name := "incomplete"
    m_children := [primaryNode [4, 2] true, dimensionNode 1 4] }

/-- A group with a rank-2 `data`, `dim1` and `dim2`, no dimension registered. -/
def groupComplete : DataGroup :=
  { DataGroup.create with
    m_name := "complete"
    m_children := [primaryNode [4, 2] true, dimensionNode 1 4, dimensionNode 2 2] }

/-- A model whose root holds the group `"data"` with one complete and one
incomplete data group. -/
def exampleModel : Model :=
  { m_root := Node.mk "" 0
      [Node.mk "data" GROUP [groupComplete.toNode, groupMissingDim2.toNode] NodeSelf.group]
      NodeSelf.node
    m_dataGroups := [] }

/-- A group with a rank-1 `data` of length 5 and a calibration Dataset `dim1`
holding the given values, no dimension registered. -/
def calibratedGroup (values : List Int) : DataGroup :=
  { DataGroup.create with
    m_name := "calibrated"
    m_children := [primaryNode [5] true, calibrationNode 1 values] }

/-- The data group that `FileManager::loadSer` builds for a series of one
element of 4 x 2 pixels of type `UInt8`: `setData`, the two marker attributes,
the cascade of `DIRTY`, then `addDim` for `dim1` and `dim2`. -/
def serFileGroup : DataGroup :=
  (((({ DataGroup.create with m_name := "ser_file", m_status := DATAGROUP ||| DIRTY }
    ).setDataNew
      (Node.mk "data" DIRTY []
        (NodeSelf.dataset (Dataset.create 2 [4, 2] DataTypeUInt8
          (some (List.replicate 8 0)) false)))
    ).addChildNew
      (Node.mk "emd_group_type" DIRTY []
        (NodeSelf.attribute
          { Attribute.create with m_value := QVariant.int 1, m_type := DataTypeInt32 }))
    ).addChildNew
      (Node.mk "data_order" DIRTY []
        (NodeSelf.attribute
          { Attribute.create with m_value := QVariant.int 0, m_type := DataTypeInt32 }))
    ).addDimNew (dimensionNode 1 4) |>.addDimNew (dimensionNode 2 2)

/-! ## Loading and unloading: Dataset.cpp, DataGroup.cpp -/

/-- The value of `MEMORY_LIMIT` of `Dataset.cpp`:
`2048LL * 1024LL * 1024LL * 1024LL`. -/
def MEMORY_LIMIT : Int := 2048 * 1024 * 1024 * 1024

/-- The type classes of HDF5 that `Dataset::loadData` tells apart. -/
inductive H5T_class_t where
  | H5T_INTEGER
  | H5T_FLOAT
  | H5T_STRING
  | H5T_OTHER
  deriving DecidableEq, Repr

/-- What `Dataset::loadData` uses of an `H5::DataSet`: the class of its type,
whether a string type has variable length, the size `type.getSize()` of its
type, and the bytes that `dataSet.read` leaves in a buffer of a given size. -/
structure H5DataSet where
  typeClass : H5T_class_t
  isVariableStr : Bool
  typeSize : Nat
  read : Nat → List Nat

namespace Dataset

/-- The constructor `Dataset(Node *p)`: `m_space(0)` is the data space
`DataSpace(int length)` of length 0, there is no buffer, and the layout is
descending. The member `m_trueLength` is not initialised; it is `0` here. -/
def ofParent : Dataset :=
  { m_data := none
    m_space := DataSpace.ofLength 0
    m_dataType := DataTypeUnknown
    m_dataTypeSize := 0
    m_descendingData := true
    m_complexIndex := -1
    m_truncatedDim := false
    m_trueLength := 0 }

/-- The method `Dataset::setDataSpace`. -/
def setDataSpace (d : Dataset) (space : DataSpace) : Dataset := { d with m_space := space }

/-- The method `Dataset::setDataType`. -/
def setDataType (d : Dataset) (type : DataType) : Dataset :=
  { d with m_dataType := type, m_dataTypeSize := emdTypeDepth type }

/-- The member `m_dataTypeSize` after the first part of `Dataset::loadData`:
only a string type of fixed length replaces it, by `(int)type.getSize()`. -/
def loadTypeSize (d : Dataset) (dataSet : H5DataSet) : Int :=
  if dataSet.typeClass = H5T_class_t.H5T_STRING ∧ dataSet.isVariableStr = false then
    wrapInt32 dataSet.typeSize
  else d.m_dataTypeSize

/-- The variable `size` of `Dataset::loadData` after the loop
`for(int iii = 0; iii < m_space.rank(); ++iii) size *= m_space.dimLength(iii);`
that starts from `unsigned long long size = m_dataTypeSize`: every `int` is
converted to `unsigned long long` and the products are taken modulo `2^64`. -/
def loadSize (d : Dataset) (m_dataTypeSize : Int) : Int :=
  (List.range d.m_space.rank.toNat).foldl
    (fun (size : Int) (iii : Nat) =>
      wrapUnsigned 8 (size * wrapUnsigned 8 (d.m_space.dimLength iii)))
    (wrapUnsigned 8 m_dataTypeSize)

/-- The method `Dataset::loadData`: below `MEMORY_LIMIT` a buffer of `size`
bytes is allocated and filled by `dataSet.read`; otherwise `m_data` is not
touched. -/
def loadData (d : Dataset) (dataSet : H5DataSet) : Dataset :=
  let m_dataTypeSize := d.loadTypeSize dataSet
  let size := d.loadSize m_dataTypeSize
  if size < MEMORY_LIMIT then
    { d with m_dataTypeSize := m_dataTypeSize, m_data := some (dataSet.read size.toNat) }
  else { d with m_dataTypeSize := m_dataTypeSize }

/-- The method `Dataset::unloadData` on a Dataset whose node has the status
`m_status`: the buffer is freed when there is one and `DIRTY` is not set. -/
def unloadData (m_status : Nat) (d : Dataset) : Dataset :=
  if d.m_data.isSome ∧ m_status &&& DIRTY = 0 then { d with m_data := none } else d

/-- The method `Dataset::isLoaded`: `m_data != NULL`. -/
def isLoaded (d : Dataset) : Bool := d.m_data.isSome

end Dataset

namespace Node

/-- The call `unloadData()` on a node that is a `Dataset`; a node of another
dynamic type is returned as it is. -/
def unloadData : Node → Node
  | mk n s cs (NodeSelf.dataset d) => mk n s cs (NodeSelf.dataset (d.unloadData s))
  | n => n

end Node

namespace DataGroup

/-- The method `DataGroup::unload`: `m_data->unloadData()`; `none` when `m_data`
does not point to a Dataset. -/
def unload (g : DataGroup) : Option DataGroup :=
  match g.m_data, g.dataNode with
  | some pos, some _ =>
    match g.m_children.get? pos with
    | some c => some { g with m_children := g.m_children.set pos c.unloadData }
    | none => none
  | _, _ => none

/-- The method `DataGroup::isLoaded`: `false` for a null `m_data`, else
`m_data->isLoaded()`; `none` when `m_data` does not point to a Dataset. -/
def isLoaded (g : DataGroup) : Option Bool :=
  match g.m_data with
  | none => some false
  | some pos => (g.datasetAt pos).map Dataset.isLoaded

/-- The loop `for(Dataset *dim : m_dims)` of `DataGroup::load`, where `file`
gives the data set that `H5Oopen` finds at the path of the child at a position;
`none` when a pointer of `m_dims` does not point to a Dataset. -/
def loadDims (file : Nat → H5DataSet) : List Nat → DataGroup → Option DataGroup
  | [], g => some g
  | dimPos :: rest, g =>
    match g.datasetAt dimPos with
    | some _ => loadDims file rest (g.updateDataset dimPos (fun d => d.loadData (file dimPos)))
    | none => none

/-- The method `DataGroup::load`: the returned flag and the group after the
call; `false` for a null `m_data`, else `loadData` on the primary Dataset and
on every Dataset of `m_dims`. -/
def load (file : Nat → H5DataSet) (g : DataGroup) : Option (Bool × DataGroup) :=
  match g.m_data with
  | none => some (false, g)
  | some pos =>
    match g.datasetAt pos with
    | some _ =>
      (loadDims file g.m_dims (g.updateDataset pos (fun d => d.loadData (file pos)))).map
        (fun g' => (true, g'))
    | none => none

end DataGroup
/-! ## Attribute.h / Attribute.cpp: the setters -/

namespace Attribute

/-- The method `Attribute::setValue` on an attribute whose node has the status
`m_status`: the returned flag, the members of the attribute and the status
after the call. `setStatus(Node::DIRTY)` has `cascade = false`. -/
def setValue (a : Attribute) (m_status : Nat) (value : QVariant) : Bool × Attribute × Nat :=
  if a.m_isArray then (false, a, m_status)
  else (true, { a with m_value := value }, m_status ||| DIRTY)

/-- The method `Attribute::setType`. -/
def setType (a : Attribute) (type : DataType) : Attribute := { a with m_type := type }

/-- The method `Attribute::setIsArray`. -/
def setIsArray (a : Attribute) (isArray : Bool) : Attribute := { a with m_isArray := isArray }

/-- The template `Attribute::storeData<T>` for the C++ type `T` of a numeric
kind or of `Bool`, on the array `data`: `none` when the method reads an element
that the array does not have. -/
def storeData (a : Attribute) (T : DataType) (data : List Int) (length : Int) :
    Option Attribute :=
  if length = 1 then
    match data.get? 0 with
    | some x => some { a with m_length := length, m_value := itemVariant T x }
    | none => none
  else if (data.length : Int) < length then none
  else
    some { a with m_length := length
                  m_value := QVariant.vector T (data.take length.toNat)
                  m_isArray := true }

/-- The template `Attribute::storeData<QString>`. -/
def storeStrings (a : Attribute) (data : List String) (length : Int) : Option Attribute :=
  if length = 1 then
    match data.get? 0 with
    | some x => some { a with m_length := length, m_value := QVariant.string x }
    | none => none
  else if (data.length : Int) < length then none
  else
    some { a with m_length := length
                  m_value := QVariant.stringVector (data.take length.toNat)
                  m_isArray := true }

end Attribute
/-! ## Node.h / Node.cpp on objects in memory

The methods of `Node` that follow or compare pointers (`m_parent`, the items of
`m_children`) or create and delete nodes are embedded on a memory of objects:
a pointer is an address, the null pointer is `none`. -/

/-- An object of the class `Node` or of one of its subclasses in memory: the
members of `Node`, with `m_parent` and the items of `m_children` as addresses,
and the members of the dynamic type. -/
structure NodeObject where
  m_name : String
  m_status : Nat
  m_parent : Option Nat
  m_children : List Nat
  self : NodeSelf
  deriving DecidableEq, Repr

/-- The memory that holds the nodes: the object at each address, `none` at an
address whose object has been deleted. Every address from the length of the
list on is free. -/
abbrev Memory := List (Option NodeObject)

namespace NodeObject

/-- The constructors `Group(Node *p)`, `DataGroup(Node *parent)`,
`Attribute(Node *p)`, `Dataset(Node *p)` and `Node(Node *parent)`, as the
`switch(type)` of `Node::addChildren` selects them. -/
def create (type : Int) (parent : Option Nat) : NodeObject :=
  if type = GROUP then
    { m_name := "", m_status := 0, m_parent := parent, m_children := [],
      self := NodeSelf.group }
  else if type = DATAGROUP then
    { m_name := "", m_status := DATAGROUP, m_parent := parent, m_children := [],
      self := NodeSelf.dataGroup none [] false }
  else if type = ATTRIBUTE then
    { m_name := "", m_status := 0, m_parent := parent, m_children := [],
      self := NodeSelf.attribute Attribute.create }
  else if type = DATASET then
    { m_name := "", m_status := 0, m_parent := parent, m_children := [],
      self := NodeSelf.dataset Dataset.ofParent }
  else
    { m_name := "", m_status := 0, m_parent := parent, m_children := [],
      self := NodeSelf.node }

end NodeObject

/-! ### The methods of `QString` that `Node::childAtPath` calls -/

/-- The method `QString::indexOf(QChar)`: the position of the first occurrence,
`-1` when there is none. -/
def indexOf (s : String) (ch : Char) : Int :=
  if ch ∈ s.data then (s.data.indexOf ch : Int) else -1

/-- The method `QString::truncate(int position)`. -/
def truncate (s : String) (position : Int) : String := String.mk (s.data.take position.toNat)

/-- The method `QString::remove(0, n)`: the string without its first `n`
characters. -/
def removeFirst (s : String) (n : Int) : String := String.mk (s.data.drop n.toNat)

/-- The names of a list joined by `/`. -/
def joinPath : List String → String
  | [] => ""
  | [a] => a
  | a :: b :: rest => a ++ "/" ++ joinPath (b :: rest)

namespace Run

/-- The outcome with `f` applied to the result of a loop that is done. -/
def map {α β : Type} (f : α → β) : Run α → Run β
  | done a => done (f a)
  | undefined => undefined
  | outOfFuel => outOfFuel

/-- The outcome of a second loop that starts from the result of a first one. -/
def bind {α β : Type} (r : Run α) (f : α → Run β) : Run β :=
  match r with
  | done a => f a
  | undefined => undefined
  | outOfFuel => outOfFuel

end Run

namespace Memory

/-- The object at an address; `none` when there is none. -/
def obj (m : Memory) (a : Nat) : Option NodeObject := m.getD a none

/-- The memory after an assignment to members of the object at an address. -/
def store (m : Memory) (a : Nat) (o : NodeObject) : Memory := m.set a (some o)

/-- The memory after the object at an address is freed. -/
def free (m : Memory) (a : Nat) : Memory := m.set a none

/-- The memory after `new` and the address of the new object. -/
def alloc (m : Memory) (o : NodeObject) : Memory × Nat := (m ++ [some o], m.length)

/-- The method `Node::setName`; `none` when `node` is no object. -/
def setName (m : Memory) (node : Nat) (name : String) : Option Memory :=
  match m.obj node with
  | some o => some (m.store node { o with m_name := name })
  | none => none

/-- The loop of `Node::child(const QString &name)` over the child list: the
first child whose name compares equal; `none` when a pointer of the list is no
object. -/
def childLoop (m : Memory) (name : String) : List Nat → Option (Option Nat)
  | [] => some none
  | c :: rest =>
    match m.obj c with
    | some o => if name = o.m_name then some (some c) else childLoop m name rest
    | none => none

/-- The method `Node::child(const QString &name)`: the pointer returned, null
(`some none`) when no child has the name. -/
def child (m : Memory) (node : Nat) (name : String) : Option (Option Nat) :=
  match m.obj node with
  | some o => childLoop m name o.m_children
  | none => none

/-- The method `Node::path`, for at most `fuel` calls. -/
def path (m : Memory) : Nat → Nat → Run String
  | 0, _ => Run.outOfFuel
  | fuel + 1, node =>
    match m.obj node with
    | none => Run.undefined
    | some o =>
      match o.m_parent with
      | some parent => (path m fuel parent).map (fun s => s ++ "/" ++ o.m_name)
      | none => Run.done ""

/-- The method `Node::childAtPath`, for at most `fuel` calls. -/
def childAtPathLoop (m : Memory) : Nat → Nat → String → Run (Option Nat)
  | 0, _, _ => Run.outOfFuel
  | fuel + 1, node, path =>
    let index := indexOf path '/'
    if index > 0 then
      match m.child node (truncate path index) with
      | none => Run.undefined
      | some none => Run.done none
      | some (some c) => childAtPathLoop m fuel c (removeFirst path (index + 1))
    else
      match m.child node path with
      | none => Run.undefined
      | some r => Run.done r

/-- The method `Node::childAtPath`, with one call per character of the path and
one more. -/
def childAtPath (m : Memory) (node : Nat) (path : String) : Run (Option Nat) :=
  childAtPathLoop m (path.length + 1) node path

/-- The method `Node::addChild`: the returned flag and the memory after the
call; `none` when `node` or `child` is no object. -/
def addChild (m : Memory) (node child : Nat) : Option (Bool × Memory) :=
  match m.obj node with
  | none => none
  | some o =>
    if child ∈ o.m_children then some (false, m)
    else
      let m1 := m.store node { o with m_children := o.m_children ++ [child] }
      match m1.obj child with
      | none => none
      | some oc => some (true, m1.store child { oc with m_parent := some node })

/-- The loops `for(int row = 0; row < count; ++row)` of `Node::addChildren`,
for the passes that are left: a new object with parent `node` is inserted at
`position` of the child list. -/
def addChildrenLoop (type : Int) (node position : Nat) : Nat → Memory → Option Memory
  | 0, m => some m
  | rows + 1, m =>
    match (m.alloc (NodeObject.create type (some node))).1.obj node with
    | none => none
    | some o =>
      addChildrenLoop type node position rows
        ((m.alloc (NodeObject.create type (some node))).1.store node
          { o with m_children :=
              o.m_children.insertIdx position (m.alloc (NodeObject.create type (some node))).2 })

/-- The method `Node::addChildren`: the returned flag and the memory after the
call; `none` when `node` is no object. -/
def addChildren (m : Memory) (node : Nat) (position count type : Int) :
    Option (Bool × Memory) :=
  match m.obj node with
  | none => none
  | some o =>
    if position < 0 ∨ position > o.m_children.length then some (false, m)
    else (addChildrenLoop type node position.toNat count.toNat m).map (fun m' => (true, m'))

/-- The statement `delete node` for at most `fuel` nested calls of the
destructor `Node::~Node`, which deletes the children of the node first. An
address that is no object (any more) has no defined result. -/
def destroy : Nat → Memory → Nat → Run Memory
  | 0, _, _ => Run.outOfFuel
  | fuel + 1, m, node =>
    match m.obj node with
    | none => Run.undefined
    | some o =>
      (o.m_children.foldl (fun r c => r.bind (fun m' => destroy fuel m' c)) (Run.done m)).map
        (fun m' => m'.free node)

/-- The loop `for (int row = 0; row < count; ++row) delete m_children.takeAt(position);`
of `Node::removeChildren`, for the passes that are left. -/
def removeChildrenLoop (fuel node position : Nat) : Nat → Memory → Run Memory
  | 0, m => Run.done m
  | rows + 1, m =>
    match m.obj node with
    | none => Run.undefined
    | some o =>
      match o.m_children.get? position with
      | none => Run.undefined
      | some c =>
        (destroy fuel (m.store node { o with m_children := o.m_children.eraseIdx position })
          c).bind (removeChildrenLoop fuel node position rows)

/-- The method `Node::removeChildren`, with `fuel` nested calls of the
destructor for each deleted child: the returned flag and the memory after the
call. -/
def removeChildren (fuel : Nat) (m : Memory) (node : Nat) (position count : Int) :
    Run (Bool × Memory) :=
  match m.obj node with
  | none => Run.undefined
  | some o =>
    if position < 0 ∨ wrapInt32 (position + count) > o.m_children.length then
      Run.done (false, m)
    else
      (removeChildrenLoop fuel node position.toNat count.toNat m).map (fun m' => (true, m'))

/-- The method `Node::setStatus`, for at most `fuel` nested calls. -/
def setStatus (status : Nat) : Nat → Memory → Nat → Bool → Run Memory
  | 0, _, _, _ => Run.outOfFuel
  | fuel + 1, m, node, cascade =>
    match m.obj node with
    | none => Run.undefined
    | some o =>
      if cascade then
        o.m_children.foldl (fun r c => r.bind (fun m' => setStatus status fuel m' c true))
          (Run.done (m.store node { o with m_status := o.m_status ||| status }))
      else Run.done (m.store node { o with m_status := o.m_status ||| status })

/-- The method `Attribute::setValue` on the object at an address: the returned
flag and the memory after the call; `none` when there is no `Attribute` at the
address. -/
def setValue (m : Memory) (node : Nat) (value : QVariant) : Option (Bool × Memory) :=
  match m.obj node with
  | some o =>
    match o.self with
    | NodeSelf.attribute a =>
      some ((a.setValue o.m_status value).1,
        m.store node
          { o with self := NodeSelf.attribute (a.setValue o.m_status value).2.1
                   m_status := (a.setValue o.m_status value).2.2 })
    | _ => none
  | none => none

end Memory

/-- The lists that `sub` gives for the pointers of a child list, one after the
other; `none` when it gives none for one of them. -/
def collect (sub : Nat → Option (List Nat)) : List Nat → Option (List Nat)
  | [] => some []
  | c :: cs =>
    match sub c, collect sub cs with
    | some l, some ls => some (l ++ ls)
    | _, _ => none

/-- The addresses of the nodes of the subtree of a node: the node, then the
subtrees of its children in the order of its child list, down to at most `fuel`
levels; `none` when a pointer is no object or the levels do not suffice. -/
def Memory.subtree (m : Memory) : Nat → Nat → Option (List Nat)
  | 0, _ => none
  | fuel + 1, node =>
    match m.obj node with
    | none => none
    | some o => (collect (Memory.subtree m fuel) o.m_children).map (fun l => node :: l)

namespace Memory

/-- The memory `m'` is `m` with the bits of `status` set on the objects at the
addresses of `S`, and nothing else changed. -/
def Marked (status : Nat) (S : List Nat) (m m' : Memory) : Prop :=
  m'.length = m.length ∧
  ∀ b, m'.obj b
    = (m.obj b).map (fun o => if b ∈ S then { o with m_status := o.m_status ||| status } else o)

/-- The memory `m'` is `m` without the objects at the addresses of `S`, and
nothing else changed. -/
def Freed (S : List Nat) (m m' : Memory) : Prop :=
  m'.length = m.length ∧ ∀ b, m'.obj b = if b ∈ S then none else m.obj b

/-- The pointer `c` is in the child list `cs`, and every pointer before its
first occurrence is an object with another name than `name`: `c` is the first
child of that name. -/
def isFirstNamed (m : Memory) (cs : List Nat) (c : Nat) (name : String) : Bool :=
  decide (c ∈ cs) &&
    (cs.takeWhile (fun b => b != c)).all (fun b =>
      match m.obj b with
      | some ob => decide (ob.m_name ≠ name)
      | none => false)

/-- The nodes of `chain` lead down from `node`, each the child of the one
before: each is an object whose parent is the node before it, its name is not
empty and has no `/`, and it is the first child of that name in its parent. -/
def isBranch (m : Memory) : Nat → List Nat → Bool
  | _, [] => true
  | node, c :: rest =>
    (match m.obj node, m.obj c with
      | some o, some oc =>
        decide (oc.m_parent = some node) && decide (oc.m_name ≠ "") &&
          decide ('/' ∉ oc.m_name.data) && m.isFirstNamed o.m_children c oc.m_name
      | _, _ => false) && isBranch m c rest

/-- The names of the objects at the addresses of a list. -/
def names (m : Memory) (l : List Nat) : List String :=
  l.map (fun a => ((m.obj a).map NodeObject.m_name).getD "")

end Memory
/-! ## Concrete groups and memories used by the witnesses (continued) -/

/-- A group with a rank-2 `data` of the given layout flag, `dim1`, `dim2` and,
when a value is given, a `data_order` attribute holding it. -/
def orderedGroup (descendingData : Bool) (dataOrder : Option Int) : DataGroup :=
  { DataGroup.create with
    m_name := "ordered"
    m_children :=
      [primaryNode [4, 2] descendingData, dimensionNode 1 4, dimensionNode 2 2] ++
        match dataOrder with
        | some v => [attributeNode "data_order" (QVariant.int v) DataTypeInt32]
        | none => [] }

/-- A Dataset node as `parseFileNode` of `Model.cpp` builds it: `addPath` with
the type `Node::DATASET`, then `setDataSpace` and `setDataType`. It has no
buffer and its status is not `DIRTY`. -/
def fileDatasetNode (name : String) (dimLengths : List Int) (type : DataType) : Node :=
  Node.mk name DATASET []
    (NodeSelf.dataset
      ((Dataset.ofParent.setDataSpace (DataSpace.create dimLengths.length (some dimLengths))
        ).setDataType type))

/-- A data group as `Model::open` builds it from a file: the marker attribute
`emd_group_type`, a `data` of 4 x 2 `UInt8` elements, `dim1` and `dim2`. No node
is `DIRTY` and no Dataset is loaded. -/
def fileGroup : DataGroup :=
  { DataGroup.create with
    m_name := "image"
    m_children :=
      [Node.mk "emd_group_type" ATTRIBUTE []
         (NodeSelf.attribute
           { Attribute.create with m_value := QVariant.int 1, m_type := DataTypeInt32 }),
       fileDatasetNode "data" [4, 2] DataTypeUInt8,
       fileDatasetNode "dim1" [4] DataTypeInt32,
       fileDatasetNode "dim2" [2] DataTypeInt32] }

/-- A file whose data sets are of integer class and hold zero bytes only. -/
def exampleFile : Nat → H5DataSet :=
  fun _ =>
    { typeClass := H5T_class_t.H5T_INTEGER, isVariableStr := false, typeSize := 4,
      read := fun size => List.replicate size 0 }

/-- A plain node object with a name, a parent and children. -/
def plainObject (name : String) (parent : Option Nat) (children : List Nat) : NodeObject :=
  { m_name := name, m_status := 0, m_parent := parent, m_children := children,
    self := NodeSelf.node }

/-- An attribute object holding the `int` 1, not an array. -/
def attributeObject (name : String) (parent : Option Nat) : NodeObject :=
  { m_name := name, m_status := ATTRIBUTE, m_parent := parent, m_children := [],
    self := NodeSelf.attribute { Attribute.create with m_value := QVariant.int 1,
                                                        m_type := DataTypeInt32 } }

/-- A memory with the tree
`root(0) -> [data(1) -> [dim1(3), dim1(4), image(5)], notes(2) -> [version(7)]]`
and a node `data(6)` that has no parent yet. The two children of `data(1)`
called `dim1` are different nodes of the same name, and `version(7)` is an
attribute. No node is `DIRTY`. -/
def exampleMemory : Memory :=
  [some (plainObject "" none [1, 2]),
   some (plainObject "data" (some 0) [3, 4, 5]),
   some (plainObject "notes" (some 0) [7]),
   some (plainObject "dim1" (some 1) []),
   some (plainObject "dim1" (some 1) []),
   some (plainObject "image" (some 1) []),
   some (plainObject "data" none []),
   some (attributeObject "version" (some 2))]
/-! ## FileManager.cpp: the kinds of the DM3 format -/

/-- The function `FileManager::dm3ToEmdType`. -/
def dm3ToEmdType (type : Int) : DataType :=
  if type = 8 then DataTypeBool
  else if type = 9 then DataTypeInt8
  else if type = 10 then DataTypeInt8
  else if type = 2 then DataTypeInt16
  else if type = 4 then DataTypeUInt16
  else if type = 3 then DataTypeInt32
  else if type = 5 then DataTypeUInt32
  else if type = 6 then DataTypeFloat32
  else if type = 7 then DataTypeFloat64
  else DataTypeUnknown

/-- The function `FileManager::dm3TypeDepth`: the size in bytes of a DM3 type. -/
def dm3TypeDepth (type : Int) : Int :=
  if type = 8 ∨ type = 9 ∨ type = 10 then 1
  else if type = 2 ∨ type = 4 then 2
  else if type = 3 ∨ type = 5 ∨ type = 6 then 4
  else if type = 7 then 8
  else -1

/-- The value of `uint byteSize = depth * info[2]` in the array case of the tag
reader of `FileManager.cpp`, for an array of `length` items of the DM3 type
`type`, where `depth = emd::emdTypeDepth(dm3ToEmdType(type))`; `none` for a type
that `dm3ToEmdType` does not know, for which the statement is not reached. -/
def dm3ArrayByteSize (type length : Int) : Option Int :=
  if dm3ToEmdType type ≠ DataTypeUnknown then
    some (wrapUnsigned 4 (wrapInt32 (emdTypeDepth (dm3ToEmdType type) * length)))
  else none
/-! ## Util.cpp: `emdTypeFromString` -/

/-- The number conversions of `QString` that this development does not define
and takes as a parameter: `none` when the conversion sets `ok` to `false`, else
the number read (for `toFloat` and `toDouble` its bit pattern). -/
structure QStringConv where
  toShort : String → Option Int
  toUShort : String → Option Int
  toInt : String → Option Int
  toUInt : String → Option Int
  toLong : String → Option Int
  toULong : String → Option Int
  toFloat : String → Option Int
  toDouble : String → Option Int

/-- The function `emdTypeFromString` of `Util.cpp`. The result of a conversion
is stored in the local `result` of the type that the source declares for the
kind (`int16_t` for `UInt16`, `int32_t` for `UInt32`, `int64_t` for `UInt64`),
and `QVariant(result)` promotes the types below `int` to `int`. -/
def emdTypeFromString (qs : QStringConv) (string : String) (type : DataType) : QVariant :=
  match type with
  | DataTypeInt8 =>
    match qs.toShort string with
    | some result => QVariant.int (wrapSigned 1 result)
    | none => QVariant.int 0
  | DataTypeUInt8 =>
    match qs.toUShort string with
    | some result => QVariant.int (wrapUnsigned 1 result)
    | none => QVariant.int 0
  | DataTypeInt16 =>
    match qs.toShort string with
    | some result => QVariant.int (wrapSigned 2 result)
    | none => QVariant.int 0
  | DataTypeUInt16 =>
    match qs.toUShort string with
    | some result => QVariant.int (wrapSigned 2 result)
    | none => QVariant.int 0
  | DataTypeInt32 =>
    match qs.toInt string with
    | some result => QVariant.int (wrapInt32 result)
    | none => QVariant.int 0
  | DataTypeUInt32 =>
    match qs.toUInt string with
    | some result => QVariant.int (wrapInt32 result)
    | none => QVariant.int 0
  | DataTypeInt64 =>
    match qs.toLong string with
    | some result => QVariant.longLong (wrapInt64 result)
    | none => QVariant.int 0
  | DataTypeUInt64 =>
    match qs.toULong string with
    | some result => QVariant.longLong (wrapInt64 result)
    | none => QVariant.int 0
  | DataTypeFloat32 =>
    match qs.toFloat string with
    | some result => QVariant.float (FloatVal.bits result)
    | none => QVariant.int 0
  | DataTypeFloat64 =>
    match qs.toDouble string with
    | some result => QVariant.double (FloatVal.bits result)
    | none => QVariant.int 0
  | DataTypeString => QVariant.string string
  | _ => QVariant.int 0

/-- The conversion of `QString` that the case of a numeric kind in the switch
of `emdTypeFromString` calls. -/
def QStringConv.ofKind (qs : QStringConv) (type : DataType) : String → Option Int :=
  match type with
  | DataTypeInt8 | DataTypeInt16 => qs.toShort
  | DataTypeUInt8 | DataTypeUInt16 => qs.toUShort
  | DataTypeInt32 => qs.toInt
  | DataTypeUInt32 => qs.toUInt
  | DataTypeInt64 => qs.toLong
  | DataTypeUInt64 => qs.toULong
  | DataTypeFloat32 => qs.toFloat
  | DataTypeFloat64 => qs.toDouble
  | _ => fun _ => none

/-- The number that a text of decimal digits denotes; `none` for the empty text
and for a text with another character. -/
def readDigits (text : String) : Option Int :=
  if text.data ≠ [] ∧ text.data.all Char.isDigit = true then
    some (text.data.foldl (fun a c => 10 * a + ((c.toNat : Int) - 48)) 0)
  else none

/-- An instance of the conversions of `QString` for the examples: the integer
conversions read a text of decimal digits, `toFloat` and `toDouble` only the
text `0`. -/
def exampleQString : QStringConv :=
  { toShort := readDigits, toUShort := readDigits, toInt := readDigits, toUInt := readDigits
    toLong := readDigits, toULong := readDigits
    toFloat := fun s => if s = "0" then some 0 else none
    toDouble := fun s => if s = "0" then some 0 else none }

/-- An instance of the conversions of `QString` that, as those of Qt, read a
text of decimal digits only when the number is in the range of the type of the
conversion; `toFloat` and `toDouble` read only the text `0`. -/
def rangeQString : QStringConv :=
  { toShort := fun s => (readDigits s).bind (fun n => if n < 32768 then some n else none)
    toUShort := fun s => (readDigits s).bind (fun n => if n < 65536 then some n else none)
    toInt := fun s => (readDigits s).bind (fun n => if n < 2147483648 then some n else none)
    toUInt := fun s => (readDigits s).bind (fun n => if n < 4294967296 then some n else none)
    toLong := fun s =>
      (readDigits s).bind (fun n => if n < 9223372036854775808 then some n else none)
    toULong := fun s =>
      (readDigits s).bind (fun n => if n < 18446744073709551616 then some n else none)
    toFloat := fun s => if s = "0" then some 0 else none
    toDouble := fun s => if s = "0" then some 0 else none }
/-! ## FileManager.h / FileManager.cpp: `openFile` -/

/-- The method `std::string::find_last_of(char)` on the characters of a string:
the position of the last occurrence, `none` for `npos`. -/
def findLastOf (c : Char) : List Char → Option Nat
  | [] => none
  | x :: r =>
    match findLastOf c r with
    | some i => some (i + 1)
    | none => if x = c then some 0 else none

namespace FileManager

/-- The enumeration `FileManager::Error`. -/
inductive Error where
  | ErrorNone
  | ErrorUnrecognizedFileType
  | ErrorFileOpenFailed
  | ErrorInvalidOperation
  | ErrorFileIncomplete
  | ErrorInvalidDataFormat
  | ErrorInvalidDataType
  | ErrorUnknown
  deriving DecidableEq, Repr

/-- The method `FileManager::openFile`, with the three decoders as parameters:
each gets the path and the model and gives the error code and the model after
the call, or `none` when it has no defined result. The function `::tolower`
changes the letters `A` to `Z`. -/
def openFile {M : Type} (loadSer loadDm3 loadTiff : String → M → Option (Error × M))
    (filePath : String) (model : M) : Option (Error × M) :=
  match findLastOf '.' filePath.data with
  | none => some (Error.ErrorUnrecognizedFileType, model)
  | some dotIndex =>
    let extension := String.mk ((filePath.data.drop (dotIndex + 1)).map Char.toLower)
    if extension = "ser" then loadSer filePath model
    else if extension = "dm3" then loadDm3 filePath model
    else if extension = "tif" ∨ extension = "tiff" then loadTiff filePath model
    else some (Error.ErrorUnrecognizedFileType, model)

end FileManager
/-! ## The steps of the axes in the frame loop -/

/-- The product of the lengths of the axes that come before the axis `a` in a
list of axes. -/
def stepBefore (dimLength : Nat → Int) : List Nat → Nat → Int
  | [], _ => 1
  | i :: l, a => if i = a then 1 else dimLength i * stepBefore dimLength l a

/-- The digit of an axis in the offset of a frame: `0` on the two display axes
`a` and `b`, the fixed index of the slice elsewhere. -/
def fixedDigit (d : Dataset) (slice : List Int) (a b : Nat) (i : Nat) : Int × Int :=
  (if i = a ∨ i = b then 0 else slice.getD i 0, d.m_space.dimLength i)
/-! ## Model.cpp: the tree mutators that the decoders call -/

mutual
/-- The method `Node::setStatus(status, true)`: the bits are set on the node
and on every node below it. -/
def Node.setStatusCascade (status : Nat) : Node → Node
  | Node.mk n s cs x => Node.mk n (s ||| status) (Node.setStatusCascadeList status cs) x
/-- The loop of `Node::setStatus(status, true)` over the children. -/
def Node.setStatusCascadeList (status : Nat) : List Node → List Node
  | [] => []
  | c :: cs => c.setStatusCascade status :: Node.setStatusCascadeList status cs
end

namespace Node

/-- The node that `Node::addChildren` constructs for a type, before it has a
parent in the tree. -/
def ofType (type : Int) : Node :=
  Node.mk "" (NodeObject.create type none).m_status [] (NodeObject.create type none).self

/-- The node with another name (`Node::setName`). -/
def setName : Node → String → Node
  | mk _ s cs x, name => mk name s cs x

/-- The node with status bits added (`Node::setStatus(status)`, no cascade). -/
def addStatus : Node → Nat → Node
  | mk n s cs x, status => mk n (s ||| status) cs x

end Node

/-- The parts of a text between the characters `sep`. -/
def splitChars (sep : Char) : List Char → List (List Char)
  | [] => [[]]
  | c :: r =>
    if c = sep then [] :: splitChars sep r
    else
      match splitChars sep r with
      | [] => [[c]]
      | p :: ps => (c :: p) :: ps

/-- The method `QString::split(sep, QString::SkipEmptyParts)`. -/
def splitSkipEmpty (s : String) (sep : Char) : List String :=
  ((splitChars sep s.data).filter (fun p => !p.isEmpty)).map String.mk

namespace Model

/-- The method `Model::addNode(name, type, parent)` on the tree: a node of the
type is appended to the children of the parent (the root for a null `parent`),
named, and given the status bits `type`. The result is the model and the path
of the new node; `none` when `parent` is no node of the tree. -/
def addNode (m : Model) (name : String) (type : Int) (parent : Option (List Nat)) :
    Option (Model × List Nat) :=
  let parentPath := parent.getD []
  match m.m_root.at? parentPath with
  | none => none
  | some p =>
    let node := ((Node.ofType type).setName name).addStatus type.toNat
    some ({ m with m_root := m.m_root.replaceAt parentPath (p.setChildren (p.children ++ [node])) },
      parentPath ++ [p.children.length])

/-- The constructor `Model()`: the root named `root` and the five top level
groups. -/
def create : Model :=
  ["data", "user", "microscope", "sample", "comments"].foldl
    (fun m name =>
      match m.addNode name GROUP none with
      | some (m', _) => m'
      | none => m)
    { m_root := Node.mk "root" 0 [] NodeSelf.node, m_dataGroups := [] }

/-- The loop of `Model::getPath` and `Model::addPath` that follows the names
but the last from the root: the path of the node reached, `none` when a name is
not found. -/
def walkNames (root : Node) : List String → List Nat → Option (List Nat)
  | [], parent => some parent
  | name :: rest, parent =>
    match (root.at? parent).bind (fun p => p.childIndex name) with
    | some i => walkNames root rest (parent ++ [i])
    | none => none

/-- The method `Model::getPath`: the path of the node, `some none` for the null
result, and `none` for a path without a name, for which the source reads
`nodes[-1]`. -/
def getPath (m : Model) (path : String) : Option (Option (List Nat)) :=
  let nodes := splitSkipEmpty path '/'
  match nodes.getLast? with
  | none => none
  | some last =>
    match walkNames m.m_root nodes.dropLast [] with
    | none => some none
    | some parent =>
      some (((m.m_root.at? parent).bind (fun p => p.childIndex last)).map
        (fun i => parent ++ [i]))

/-- The method `Model::addPath`: the model after the call and the path of the
node, null (`none`) when a name before the last is not found; `none` for a path
without a name. -/
def addPath (m : Model) (path : String) (type : Int) : Option (Model × Option (List Nat)) :=
  let nodes := splitSkipEmpty path '/'
  match nodes.getLast? with
  | none => none
  | some last =>
    match walkNames m.m_root nodes.dropLast [] with
    | none => some (m, none)
    | some parent =>
      match (m.m_root.at? parent).bind (fun p => p.childIndex last) with
      | some i => some (m, some (parent ++ [i]))
      | none => (m.addNode last type (some parent)).map (fun r => (r.1, some r.2))

end Model
/-! ## FileManager.cpp: `loadSer` -/

namespace FileManager

/-- The function `FileManager::serToEmdType`. -/
def serToEmdType (serType : Int) : DataType :=
  if serType = 1 then DataTypeUInt8
  else if serType = 2 then DataTypeUInt16
  else if serType = 3 then DataTypeUInt32
  else if serType = 4 then DataTypeInt8
  else if serType = 5 then DataTypeInt16
  else if serType = 6 then DataTypeInt32
  else if serType = 7 then DataTypeFloat32
  else if serType = 8 then DataTypeFloat64
  else DataTypeUnknown

/-- A call `fin.read((char*)&x, width)` for a signed integer `x` of `width`
bytes at a position of the file, on a little-endian machine; `none` when the
bytes are not all inside the file. -/
def readInt (bytes : List Nat) (pos : Int) (width : Nat) : Option Int :=
  (readBytes bytes pos width).map (fun b => wrapSigned width (decodeLE b))

/-- The struct `SerHeader` of `loadSer`. -/
structure SerHeader where
  byteOrder : Int
  seriesID : Int
  seriesVersion : Int
  dataTypeID : Int
  tagTypeID : Int
  totalElementCount : Int
  validElementCount : Int
  offsetArrayOffset : Int
  dimensionCount : Int
  deriving DecidableEq, Repr

/-- The four reads of `loadSer` that fill the header: three half words, then
six words. -/
def readSerHeader (bytes : List Nat) : Option SerHeader := do
  let byteOrder ← readInt bytes 0 2
  let seriesID ← readInt bytes 2 2
  let seriesVersion ← readInt bytes 4 2
  let dataTypeID ← readInt bytes 6 4
  let tagTypeID ← readInt bytes 10 4
  let totalElementCount ← readInt bytes 14 4
  let validElementCount ← readInt bytes 18 4
  let offsetArrayOffset ← readInt bytes 22 4
  let dimensionCount ← readInt bytes 26 4
  some { byteOrder := byteOrder, seriesID := seriesID, seriesVersion := seriesVersion,
         dataTypeID := dataTypeID, tagTypeID := tagTypeID,
         totalElementCount := totalElementCount, validElementCount := validElementCount,
         offsetArrayOffset := offsetArrayOffset, dimensionCount := dimensionCount }

/-- One pass of the loop of `loadSer` over the dimension arrays, from a
position of the file: the position after it; `none` when a read leaves the file
or a length is negative. -/
def readDimensionArray (bytes : List Nat) (pos : Int) : Option Int := do
  let _ ← readBytes bytes pos 24
  let descriptionLength ← readInt bytes (pos + 24) 4
  if descriptionLength < 0 then none
  else do
    let _ ← readBytes bytes (pos + 28) descriptionLength.toNat
    let unitsLength ← readInt bytes (pos + 28 + descriptionLength) 4
    if unitsLength < 0 then none
    else do
      let _ ← readBytes bytes (pos + 32 + descriptionLength) unitsLength.toNat
      some (pos + 32 + descriptionLength + unitsLength)

/-- The loop of `loadSer` over the dimension arrays, for `count` passes. -/
def readDimensionArrays (bytes : List Nat) : Nat → Int → Option Int
  | 0, pos => some pos
  | count + 1, pos =>
    match readDimensionArray bytes pos with
    | some next => readDimensionArrays bytes count next
    | none => none

/-- A call `fin.read` that fills an array of `count` words from a position. -/
def readIntArray (bytes : List Nat) (pos : Int) : Nat → Option (List Int)
  | 0 => some []
  | count + 1 =>
    match readInt bytes pos 4, readIntArray bytes (pos + 4) count with
    | some x, some rest => some (x :: rest)
    | _, _ => none

/-- The part of `loadSer` before the branch on `dataTypeID`: the header, the
loop over the dimension arrays, the seek to the offset arrays and the reads of
the data offset array and the tag offset array. The result is the header and
the data offset array; `none` when a read or the seek leaves the file, or a
count is negative. -/
def readSerTables (bytes : List Nat) : Option (SerHeader × List Int) := do
  let serHeader ← readSerHeader bytes
  if serHeader.dimensionCount < 0 then none
  else do
    let _ ← readDimensionArrays bytes serHeader.dimensionCount.toNat 30
    if serHeader.totalElementCount < 0 then none
    else do
      let dataOffsetArray ←
        readIntArray bytes serHeader.offsetArrayOffset serHeader.totalElementCount.toNat
      let _ ← readIntArray bytes
        (serHeader.offsetArrayOffset + 4 * serHeader.totalElementCount)
        serHeader.totalElementCount.toNat
      some (serHeader, dataOffsetArray)

/-- The loop of the branch of `loadSer` for 1-D data (`dataTypeID == 0x4120`)
over the elements `index`: the error code of the `return` in the loop, or
`ErrorNone` at its end; `none` when a read leaves the file or the offset array. -/
def loadSer1D (bytes : List Nat) (dataOffsetArray : List Int) : List Nat → Option Error
  | [] => some Error.ErrorNone
  | index :: rest =>
    match dataOffsetArray.get? index with
    | none => none
    | some offset =>
      match readBytes bytes offset 20, readInt bytes (offset + 20) 2 with
      | some _, some serDataType =>
        if serToEmdType serDataType = DataTypeUnknown then some Error.ErrorInvalidDataFormat
        else
          match readInt bytes (offset + 22) 4 with
          | some _ => loadSer1D bytes dataOffsetArray rest
          | none => none
      | _, _ => none

/-- The locals of the branch of `loadSer` for 2-D data that its loop changes.
The source leaves the sizes and the type unset until the first pass, which
finds `data` null and sets them. -/
structure Ser2D where
  data : Option (List Nat)
  dataSizeX : Int
  dataSizeY : Int
  elementSize : Int
  emdDataType : DataType
  deriving DecidableEq, Repr

/-- The locals that a pass of the loop for 2-D data reads from the element:
the type code, the width and the height, with the position of the file after
them, where the pixels start. -/
structure SerElement2D where
  serDataType : Int
  xSize : Int
  ySize : Int
  dataPos : Int
  deriving DecidableEq, Repr

/-- The start of a pass of the loop for 2-D data: the seek to
`dataOffsetArray[index]`, the reads of the two calibrations (20 bytes each), of
the type code and of the two sizes. -/
def readElement2D (bytes : List Nat) (dataOffsetArray : List Int) (index : Nat) :
    Option SerElement2D := do
  let offset ← dataOffsetArray.get? index
  let _ ← readBytes bytes offset 40
  let serDataType ← readInt bytes (offset + 40) 2
  let xSize ← readInt bytes (offset + 42) 4
  let ySize ← readInt bytes (offset + 46) 4
  some { serDataType := serDataType, xSize := xSize, ySize := ySize, dataPos := offset + 50 }

/-- The file presents element `index` of a 2-D series with this type code,
width, height and pixel block: the reads of a pass of the loop give them. -/
def hasElement2D (bytes : List Nat) (dataOffsetArray : List Int) (index : Nat)
    (serDataType xSize ySize : Int) (block : List Nat) : Bool :=
  match readElement2D bytes dataOffsetArray index with
  | some e =>
    decide (e.serDataType = serDataType) && decide (e.xSize = xSize) &&
    decide (e.ySize = ySize) && decide (readBytes bytes e.dataPos block.length = some block)
  | none => false

/-- The buffer with the bytes from `pos` on replaced by `block`; `none` when
the block does not fit into the buffer. -/
def writeBytes (buf : List Nat) (pos : Int) (block : List Nat) : Option (List Nat) :=
  if 0 ≤ pos ∧ pos + block.length ≤ buf.length then
    some (buf.take pos.toNat ++ block ++ buf.drop (pos.toNat + block.length))
  else none

/-- One pass of the loop of the branch of `loadSer` for 2-D data: the locals
after the pass, or `some none` for the `return ErrorInvalidDataFormat` of a
shape that differs; `none` when a read leaves the file or an array, or the size of the
allocation or of the read is negative. The bytes of `new char[dataSize]` are
unset in the source and `0` here. -/
def loadSer2DStep (bytes : List Nat) (validElementCount : Int) (dataOffsetArray : List Int)
    (st : Ser2D) (index : Nat) : Option (Option Ser2D) :=
  match readElement2D bytes dataOffsetArray index with
  | none => none
  | some e =>
    let alloc : Option Ser2D :=
      match st.data with
      | some _ => some st
      | none =>
        let emdDataType := serToEmdType e.serDataType
        let elementSize := wrapInt32 (wrapInt32 (e.xSize * e.ySize) * emdTypeDepth emdDataType)
        let dataSize := wrapInt32 (validElementCount * elementSize)
        if dataSize < 0 then none
        else
          some { data := some (List.replicate dataSize.toNat 0), dataSizeX := e.xSize,
                 dataSizeY := e.ySize, elementSize := elementSize, emdDataType := emdDataType }
    match alloc with
    | none => none
    | some st1 =>
      if st1.dataSizeX = e.xSize ∧ st1.dataSizeY = e.ySize then
        if st1.elementSize < 0 then none
        else
          match readBytes bytes e.dataPos st1.elementSize.toNat, st1.data with
          | some block, some data =>
            (writeBytes data (wrapInt32 (index * st1.elementSize)) block).map
              (fun data' => some { st1 with data := some data' })
          | _, _ => none
      else some none

/-- The loop of the branch of `loadSer` for 2-D data over the elements `index`. -/
def loadSer2DLoop (bytes : List Nat) (validElementCount : Int) (dataOffsetArray : List Int) :
    List Nat → Ser2D → Option (Option Ser2D)
  | [], st => some (some st)
  | index :: rest, st =>
    match loadSer2DStep bytes validElementCount dataOffsetArray st index with
    | none => none
    | some none => some none
    | some (some st') => loadSer2DLoop bytes validElementCount dataOffsetArray rest st'

/-- An Attribute as `new Attribute`, `setName`, `setValue` and `setType` leave
it; `setValue` sets `DIRTY`. -/
def newAttribute (name : String) (value : QVariant) (type : DataType) : Node :=
  Node.mk name DIRTY []
    (NodeSelf.attribute { Attribute.create with m_value := value, m_type := type })

/-- A dimension Dataset as the decoders build it: `new Dataset(length,
DataTypeInt32, true)`, `setName`, and the attributes `units` and `name` added
as children. -/
def newDimNode (index : Nat) (length : Int) (units : String) : Node :=
  Node.mk ("dim" ++ toString index) 0
    [newAttribute "units" (QVariant.string units) DataTypeString,
     newAttribute "name" (QVariant.string ("dim" ++ toString index)) DataTypeString]
    (NodeSelf.dataset (Dataset.ofLength length DataTypeInt32 true))

/-- The end of the branch of `loadSer` for 2-D data, for a group that `addPath`
returned: the primary Dataset, the two marker attributes, the cascade of
`DIRTY`, then the dimension Datasets. -/
def buildSerGroup (validElementCount : Int) (st : Ser2D) (dataGroup : DataGroup) : DataGroup :=
  let dimCount : Int := if validElementCount = 1 then 2 else 3
  let dimSizes : List Int :=
    if validElementCount = 1 then [st.dataSizeX, st.dataSizeY]
    else [st.dataSizeX, st.dataSizeY, validElementCount]
  let dataNode := Node.mk "data" 0 []
    (NodeSelf.dataset (Dataset.create dimCount dimSizes st.emdDataType st.data false))
  let g1 := dataGroup.setDataNew dataNode
  let g2 := g1.addChildNew (newAttribute "emd_group_type" (QVariant.int 1) DataTypeInt32)
  let g3 := g2.addChildNew (newAttribute "data_order" (QVariant.int 0) DataTypeInt32)
  let g4 : DataGroup :=
    { g3 with
      m_status := g3.m_status ||| DIRTY
      m_children := Node.setStatusCascadeList DIRTY g3.m_children }
  let g5 := (g4.addDimNew (newDimNode 1 st.dataSizeX "[px]")).addDimNew
    (newDimNode 2 st.dataSizeY "[px]")
  if dimCount = 3 then g5.addDimNew (newDimNode 3 validElementCount "[element]") else g5

/-- The method `FileManager::loadSer` on the content of the file (`none` for a
file that cannot be opened) and the model: the error code and the model after
the call. The result is `none` where the source has no defined result or does
not return: a read or a seek that leaves the file or an array, an allocation of
negative size, a series of 2-D data without element, a node at
`/data/ser_file` that is no `DataGroup`. -/
def loadSer (file : Option (List Nat)) (model : Model) : Option (Error × Model) :=
  match file with
  | none => some (Error.ErrorFileOpenFailed, model)
  | some bytes =>
    match readSerTables bytes with
    | none => none
    | some (serHeader, dataOffsetArray) =>
      if serHeader.dataTypeID = 0x4120 then
        if serHeader.validElementCount < 0 then none
        else
          (loadSer1D bytes dataOffsetArray
            (List.range serHeader.validElementCount.toNat)).map (fun e => (e, model))
      else if serHeader.dataTypeID = 0x4122 then
        match loadSer2DLoop bytes serHeader.validElementCount dataOffsetArray
            (List.range serHeader.validElementCount.toNat)
            { data := none, dataSizeX := 0, dataSizeY := 0, elementSize := 0,
              emdDataType := DataTypeUnknown } with
        | none => none
        | some none => some (Error.ErrorInvalidDataFormat, model)
        | some (some st) =>
          match model.addPath "/data/ser_file" DATAGROUP with
          | none => none
          | some (model1, none) => some (Error.ErrorNone, model1)
          | some (model1, some path) =>
            if serHeader.validElementCount < 1 then none
            else
              match (model1.m_root.at? path).bind Node.asDataGroup with
              | none => none
              | some dataGroup =>
                some (Error.ErrorNone,
                  { model1 with
                    m_root := model1.m_root.replaceAt path
                      (buildSerGroup serHeader.validElementCount st dataGroup).toNode })
      else some (Error.ErrorNone, model)

end FileManager
/-! ## Example SER files -/

/-- The `w` bytes of an integer in two's complement, least significant first. -/
def leBytes (w : Nat) (v : Int) : List Nat := encodeLE w (wrapUnsigned w v).toNat

/-- The bytes of an element of a 2-D series: two calibrations of 20 bytes, the
type code, the width, the height and the pixel block. -/
def serElement2D (serDataType xSize ySize : Int) (pixels : List Nat) : List Nat :=
  List.replicate 40 0 ++ leBytes 2 serDataType ++ leBytes 4 xSize ++ leBytes 4 ySize ++ pixels

/-- The bytes of an element of a 1-D series: a calibration of 20 bytes, the type
code, the array length and the values. -/
def serElement1D (serDataType arrayLength : Int) (values : List Nat) : List Nat :=
  List.replicate 20 0 ++ leBytes 2 serDataType ++ leBytes 4 arrayLength ++ values

/-- The offsets of the blocks of a list that starts at `start`. -/
def blockOffsets (start : Int) : List (List Nat) → List Int
  | [] => []
  | b :: r => start :: blockOffsets (start + b.length) r

/-- A SER file of the given layout without dimension arrays: the header of 30
bytes, the data offset array and the tag offset array, then the elements, all
of them valid. -/
def serFile (dataTypeID : Int) (elements : List (List Nat)) : List Nat :=
  leBytes 2 0x4949 ++ leBytes 2 0x0197 ++ leBytes 2 0x0210 ++ leBytes 4 dataTypeID ++
  leBytes 4 0x4152 ++ leBytes 4 elements.length ++ leBytes 4 elements.length ++
  leBytes 4 30 ++ leBytes 4 0 ++
  ((blockOffsets (30 + 8 * elements.length) elements).map (leBytes 4)).flatten ++
  (List.replicate (4 * elements.length) 0) ++ elements.flatten

/-- A series of two elements of type `UInt8` (code 1): `2 x 1` pixels, then
`1 x 2` pixels. -/
def serMismatch : List Nat :=
  serFile 0x4122 [serElement2D 1 2 1 [7, 8], serElement2D 1 1 2 [9, 10]]

/-- The header of a file that `serFile` builds for `count` elements. -/
def serFileHeader (dataTypeID count : Int) : FileManager.SerHeader :=
  { byteOrder := 0x4949, seriesID := 0x0197, seriesVersion := 0x0210, dataTypeID := dataTypeID,
    tagTypeID := 0x4152, totalElementCount := count, validElementCount := count,
    offsetArrayOffset := 30, dimensionCount := 0 }

/-- A series of two elements of `2 x 1` pixels of type `UInt8` (code 1). -/
def serPair : List Nat :=
  serFile 0x4122 [serElement2D 1 2 1 [7, 8], serElement2D 1 2 1 [9, 10]]

/-- The model that `Model()` builds, after `addPath("/data/ser_file",
Node::DATAGROUP)`. -/
def modelWithSerFile : Model :=
  { m_root := Node.mk "root" 0
      [Node.mk "data" GROUP
        [Node.mk "ser_file" DATAGROUP [] (NodeSelf.dataGroup none [] false)] NodeSelf.group,
       Node.mk "user" GROUP [] NodeSelf.group,
       Node.mk "microscope" GROUP [] NodeSelf.group,
       Node.mk "sample" GROUP [] NodeSelf.group,
       Node.mk "comments" GROUP [] NodeSelf.group]
      NodeSelf.node
    m_dataGroups := [] }

/-- A series of one element of `65536 x 65536` pixels of type `UInt8` (code 1)
with the given pixel block; the file is well-formed when the block has
`65536 * 65536` bytes. -/
def serHuge (pixels : List Nat) : List Nat :=
  serFile 0x4122 [serElement2D 1 65536 65536 pixels]

/-- A 1-D series of two elements of one value each, of the type codes 1 and
99; no type has the code 99. -/
def serUnknown1D : List Nat :=
  serFile 0x4120 [serElement1D 1 1 [7], serElement1D 99 1 [9]]

/-- A 2-D series of two elements of `1 x 1` pixels, of the type codes 1 and
99; no type has the code 99. -/
def serUnknown2D : List Nat :=
  serFile 0x4122 [serElement2D 1 1 1 [7], serElement2D 99 1 1 [9]]

/-- A 2-D series of two elements of `1 x 1` pixels whose first element has
the type code 99. -/
def serUnknownFirst : List Nat :=
  serFile 0x4122 [serElement2D 99 1 1 [7], serElement2D 1 1 1 [9]]

/-- The start of a 2-D series of two elements of type `UInt8` whose first
element declares `32768 x 32768` pixels and whose second element declares
`1 x 1`: the two element headers, without pixel bytes. -/
def serMismatchLarge : List Nat :=
  serFile 0x4122 [serElement2D 1 32768 32768 [], serElement2D 1 1 1 []]

/-- A 2-D series of two elements whose first element has the type code 99 and
`2 x 1` pixels and whose second element is `1 x 2`. -/
def serMismatchUnknown : List Nat :=
  serFile 0x4122 [serElement2D 99 2 1 [7, 8], serElement2D 1 1 2 [9, 10]]
/-! ## FileManager.cpp: `loadDm3`

The file is read through a `QDataStream` on a `QFile`: a position in the list
of bytes of the file. -/

namespace Node

/-- The loop of `Node::childAtPath` on the tree, for at most `fuel` calls. -/
def childAtPathLoop : Nat → Node → String → Run (Option Node)
  | 0, _, _ => Run.outOfFuel
  | fuel + 1, n, path =>
    let index := indexOf path '/'
    if index > 0 then
      match n.child (truncate path index) with
      | some c => childAtPathLoop fuel c (removeFirst path (index + 1))
      | none => Run.done none
    else Run.done (n.child path)

/-- The method `Node::childAtPath` on the tree, with one unit of fuel per
character of the path and one more. -/
def childAtPath (n : Node) (path : String) : Run (Option Node) :=
  childAtPathLoop (path.length + 1) n path

/-- The calls `setValue(value)` and `setType(type)` through a pointer to an
`Attribute`; a node of another dynamic type is left as it is. -/
def setAttribute (n : Node) (value : QVariant) (type : DataType) : Node :=
  match n with
  | mk nm st cs (NodeSelf.attribute a) =>
    mk nm (a.setValue st value).2.2 cs
      (NodeSelf.attribute ((a.setValue st value).2.1.setType type))
  | other => other

end Node

namespace FileManager

/-- The operator `>>` of `QDataStream` for an integer of `width` bytes at a
position of the file: the value and the position after the read. The bytes are
big-endian unless the byte order of the stream was set to little-endian. A
read past the end of the file gives `0` and leaves the file at its end. -/
def streamInt (bytes : List Nat) (pos width : Nat) (signed little : Bool) : Int × Nat :=
  if pos + width ≤ bytes.length then
    ((if signed then
        wrapSigned width
          (decodeLE (if little then (bytes.drop pos).take width
            else ((bytes.drop pos).take width).reverse))
      else
        (decodeLE (if little then (bytes.drop pos).take width
          else ((bytes.drop pos).take width).reverse) : Int)),
     pos + width)
  else (0, max pos bytes.length)

/-- The method `QDataStream::readRawData(buffer, len)`: the bytes read and the
position after them; `none` when `len` is negative or the file ends before
`len` bytes, which leaves bytes of the buffer unset. -/
def streamRaw (bytes : List Nat) (pos : Nat) (len : Int) : Option (List Nat × Nat) :=
  if 0 ≤ len ∧ pos + len.toNat ≤ bytes.length then
    some ((bytes.drop pos).take len.toNat, pos + len.toNat)
  else none

/-- The method `QDataStream::skipRawData(len)` on a file: the position after
the call. A skip past the end stops at the end, and a seek before the start of
the file fails and leaves the position. -/
def streamSkip (bytes : List Nat) (pos : Nat) (len : Int) : Nat :=
  if (pos : Int) + len > bytes.length then bytes.length
  else if (pos : Int) + len < 0 then pos
  else ((pos : Int) + len).toNat

/-- The function `readEmdType` of `FileManager.cpp`: the value and the position
after the read. The value is read in little-endian byte order; a `float` and a
`double` are kept as their bit patterns. -/
def readEmdType (bytes : List Nat) (pos : Nat) (emdType : DataType) : QVariant × Nat :=
  match emdType with
  | DataTypeBool =>
    (QVariant.bool (decide ((streamInt bytes pos 1 true true).1 ≠ 0)),
     (streamInt bytes pos 1 true true).2)
  | DataTypeInt8 =>
    (QVariant.int (streamInt bytes pos 1 true true).1, (streamInt bytes pos 1 true true).2)
  | DataTypeInt16 =>
    (QVariant.int (streamInt bytes pos 2 true true).1, (streamInt bytes pos 2 true true).2)
  | DataTypeUInt16 =>
    (QVariant.int (streamInt bytes pos 2 false true).1, (streamInt bytes pos 2 false true).2)
  | DataTypeInt32 =>
    (QVariant.int (streamInt bytes pos 4 true true).1, (streamInt bytes pos 4 true true).2)
  | DataTypeUInt32 =>
    (QVariant.uint (streamInt bytes pos 4 false true).1, (streamInt bytes pos 4 false true).2)
  | DataTypeFloat32 =>
    (QVariant.float (FloatVal.bits (streamInt bytes pos 4 false true).1),
     (streamInt bytes pos 4 false true).2)
  | DataTypeFloat64 =>
    (QVariant.double (FloatVal.bits (streamInt bytes pos 8 false true).1),
     (streamInt bytes pos 8 false true).2)
  | _ => (QVariant.invalid, pos)

/-- The loop of `readEmdArray` for `count` items: the text built so far with
the text of each value and a blank appended, and the position after the reads. -/
def readEmdArrayLoop (ft : QtConv) (bytes : List Nat) (emdType : DataType) :
    Nat → Nat → String → String × Nat
  | 0, pos, nameString => (nameString, pos)
  | count + 1, pos, nameString =>
    readEmdArrayLoop ft bytes emdType count (readEmdType bytes pos emdType).2
      (nameString ++ (readEmdType bytes pos emdType).1.toString ft ++ " ")

/-- The function `readEmdArray` of `FileManager.cpp`; the kinds without a case
read nothing. -/
def readEmdArray (ft : QtConv) (bytes : List Nat) (pos : Nat) (emdType : DataType)
    (size : Int) : QVariant × Nat :=
  match emdType with
  | DataTypeBool | DataTypeInt8 | DataTypeInt16 | DataTypeUInt16 | DataTypeInt32
  | DataTypeUInt32 | DataTypeFloat32 | DataTypeFloat64 =>
    (QVariant.string (readEmdArrayLoop ft bytes emdType size.toNat pos "").1,
     (readEmdArrayLoop ft bytes emdType size.toNat pos "").2)
  | _ => (QVariant.string "", pos)

/-- The loop `for(int iii = 0; iii < infoLength; ++iii) in >> info[iii]`. -/
def readInfo (bytes : List Nat) : Nat → Nat → List Int × Nat
  | 0, pos => ([], pos)
  | count + 1, pos =>
    ((streamInt bytes pos 4 true false).1 ::
        (readInfo bytes count (streamInt bytes pos 4 true false).2).1,
     (readInfo bytes count (streamInt bytes pos 4 true false).2).2)

/-- The text of `QString((QChar*)rawData, size)` for an array that holds `size`
pairs of bytes: one character per pair, the low byte first. -/
def utf16Text : Nat → List Nat → String
  | 0, _ => ""
  | size + 1, lo :: hi :: rest =>
    String.mk (Char.ofNat (lo % 256 + 256 * (hi % 256)) :: (utf16Text size rest).data)
  | _ + 1, _ => ""

/-- What the decoding of the value of a tag leaves: the position of the stream,
the value and type given to `setValue` and `setType` of the Attribute (`none`
when they are not called), and the block and type that were appended to
`dataList` and `dataTypeList`; or the `return ErrorInvalidDataType` with its
warning. -/
inductive TagValue where
  | decoded (pos : Nat) (value : Option (QVariant × DataType))
      (data : Option (List Nat × DataType))
  | invalidType (warning : String)
  deriving Repr

/-- The loop over the members of a struct in the case `0x0f` of `loadDm3`, for
the members `iii` of a list: the text of the values joined by blanks and the
position after them, or `some none` at a member of unknown type; `none` when
`info[2 + 2*iii]` is read outside the info array. -/
def readStructMembers (ft : QtConv) (bytes : List Nat) (info : List Int) :
    List Nat → Nat → String → Option (Option (String × Nat))
  | [], pos, nameString => some (some (nameString, pos))
  | iii :: rest, pos, nameString =>
    match info.get? (2 + 2 * iii) with
    | none => none
    | some type =>
      if dm3ToEmdType type ≠ DataTypeUnknown then
        readStructMembers ft bytes info rest (readEmdType bytes pos (dm3ToEmdType type)).2
          ((if iii > 1 then nameString ++ " " else nameString) ++
            (readEmdType bytes pos (dm3ToEmdType type)).1.toString ft)
      else some none

/-- The sum `depth` of the loop `for(index = 1; index <= info[3]; ++index)` in
the case of an array of structs; `none` when `info[3 + 2*index]` is read
outside the info array. -/
def structDepth (info : List Int) : List Nat → Int → Option Int
  | [], depth => some depth
  | index :: rest, depth =>
    match info.get? (3 + 2 * index) with
    | none => none
    | some type => structDepth info rest (wrapInt32 (depth + dm3TypeDepth type))

/-- The case of an array of a known element type in the decoding of the value
of a tag, for the name in `tagName`, the element type and the number of items
`info[2]`: `none` when a raw read cannot be filled from the file. -/
def readArrayValue (ft : QtConv) (bytes : List Nat) (pos : Nat) (name : List Nat)
    (emdType : DataType) (length : Int) : Option TagValue :=
  if cString name = "Data" then
    match streamRaw bytes pos
        (wrapInt32 (wrapUnsigned 4 (wrapInt32 (emdTypeDepth emdType * length)))) with
    | none => none
    | some raw =>
      some (TagValue.decoded raw.2 (some (QVariant.string "data array", DataTypeString))
        (some (raw.1, emdType)))
  else if emdType = DataTypeUInt16 ∧ (cString name = "Name" ∨ cString name = "Units") then
    match streamRaw bytes pos
        (wrapInt32 (wrapUnsigned 4 (wrapInt32 (emdTypeDepth emdType * length)))) with
    | none => none
    | some raw =>
      if length < 0 ∨ raw.1.length < 2 * length.toNat then none
      else
        some (TagValue.decoded raw.2
          (some (QVariant.string (utf16Text length.toNat raw.1), DataTypeString)) none)
  else if length > 4 then
    some (TagValue.decoded (streamSkip bytes pos (wrapInt32 (length * emdTypeDepth emdType)))
      (some (QVariant.string (toString length ++ " element array"), DataTypeString)) none)
  else
    some (TagValue.decoded (readEmdArray ft bytes pos emdType length).2
      (some ((readEmdArray ft bytes pos emdType length).1, DataTypeString)) none)

/-- The part of a pass of the loop of `loadDm3` that decodes the value of a tag
from its info array. A tag whose info array does not select a case leaves the
Attribute and the position as they are. The result is `none` where the source
has no defined result: an entry read outside the info array, `strcmp` on the
null `tagName`, a raw read that the file cannot fill. -/
def readTagValue (ft : QtConv) (bytes : List Nat) (pos : Nat) (tagName : Option (List Nat))
    (infoLength : Int) (info : List Int) : Option TagValue :=
  if infoLength = 1 then
    match info.get? 0 with
    | none => none
    | some type =>
      if dm3ToEmdType type ≠ DataTypeUnknown then
        some (TagValue.decoded (readEmdType bytes pos (dm3ToEmdType type)).2
          (some ((readEmdType bytes pos (dm3ToEmdType type)).1, dm3ToEmdType type)) none)
      else some (TagValue.invalidType "Non-simple single value")
  else
    match info.get? 0 with
    | none => none
    | some first =>
      if first = 0x0f then
        match info.get? 2 with
        | none => none
        | some members =>
          match readStructMembers ft bytes info
              ((List.range members.toNat).map (fun i => i + 1)) pos "" with
          | none => none
          | some none => some (TagValue.invalidType "Non-simple group value")
          | some (some r) =>
            some (TagValue.decoded r.2 (some (QVariant.string r.1, DataTypeString)) none)
      else if first = 0x14 then
        match info.get? 1 with
        | none => none
        | some elemType =>
          if dm3ToEmdType elemType ≠ DataTypeUnknown then
            match info.get? 2, tagName with
            | some length, some name =>
              readArrayValue ft bytes pos name (dm3ToEmdType elemType) length
            | _, _ => none
          else if elemType = 0x0f then
            match info.get? 3 with
            | none => none
            | some members =>
              match structDepth info ((List.range members.toNat).map (fun i => i + 1)) 0,
                  info.get? (2 + 2 * (members.toNat + 1)) with
              | some depth, some length =>
                some (TagValue.decoded (streamSkip bytes pos (wrapInt32 (depth * length)))
                  none none)
              | _, _ => none
          else some (TagValue.decoded pos none none)
      else some (TagValue.decoded pos none none)

/-- The locals of `loadDm3` that live across the passes of its loop, with the
model and the position of the stream. The stacks have their top first;
`tagName` is the character array of the last name read (`none` while it is
null), and `warnings` are the texts passed to `qWarning`. -/
structure Dm3Loop where
  pos : Nat
  model : Model
  nodeStack : List (List Nat)
  tagsRemainingStack : List Int
  utcStack : List Int
  tagsRemaining : Int
  unnamedTagCount : Int
  tagName : Option (List Nat)
  dataList : List (List Nat)
  dataTypeList : List DataType
  endOfFile : Bool
  readError : Bool
  warnings : List String
  deriving Repr

/-- The loop `while(tagsRemaining == 0 && tagsRemainingStack.size() > 0)` at
the end of a pass, by recursion on `tagsRemainingStack`; `none` when
`nodeStack` or `utcStack` is popped while empty. -/
def popStacks : List Int → Dm3Loop → Option Dm3Loop
  | [], s => some s
  | top :: rest, s =>
    if s.tagsRemaining = 0 then
      match s.nodeStack, s.utcStack with
      | _ :: nodes, utc :: utcs =>
        popStacks rest
          { s with nodeStack := nodes, tagsRemaining := wrapInt32 (top - 1),
                   tagsRemainingStack := rest, unnamedTagCount := utc, utcStack := utcs }
      | _, _ => none
    else some s

/-- How a pass of the loop of `loadDm3` ends: at the end of the loop body (or
at its `continue`) with the locals for the next test of the loop condition, or
at a `return` with the error code. -/
inductive Dm3Pass where
  | next (s : Dm3Loop)
  | exit (error : Error) (s : Dm3Loop)
  deriving Repr

/-- The start of a pass of the loop of `loadDm3`: the section type, the text
`nameString`, and the locals after the reads of the section type, the name
length and the name; `none` when the file ends inside the name. A name is read
as the text before its first zero byte, one character per byte. -/
def readSectionHeader (bytes : List Nat) (s : Dm3Loop) : Option (Int × String × Dm3Loop) :=
  let sectionType := streamInt bytes s.pos 1 true false
  let tagNameLength := streamInt bytes sectionType.2 2 false false
  if tagNameLength.1 > 0 then
    match streamRaw bytes tagNameLength.2 tagNameLength.1 with
    | none => none
    | some (tagName, pos) =>
      some (sectionType.1, cString tagName, { s with pos := pos, tagName := some tagName })
  else
    some (sectionType.1, toString s.unnamedTagCount,
      { s with pos := tagNameLength.2, unnamedTagCount := wrapInt32 (s.unnamedTagCount + 1) })

/-- The branch `20 == sectionType` of a pass: the stacks are pushed and a Group
is added below the node on top of `nodeStack`. -/
def openDirectory (bytes : List Nat) (nameString : String) (s : Dm3Loop) : Option Dm3Loop :=
  let fSorted := streamInt bytes s.pos 1 true false
  let fOpen := streamInt bytes fSorted.2 1 true false
  let tagCount := streamInt bytes fOpen.2 4 true false
  match s.nodeStack.head? with
  | none => none
  | some top =>
    match s.model.addNode nameString GROUP (some top) with
    | none => none
    | some (model, group) =>
      some { s with pos := tagCount.2
                    utcStack := s.unnamedTagCount :: s.utcStack
                    unnamedTagCount := 1
                    tagsRemainingStack := s.tagsRemaining :: s.tagsRemainingStack
                    tagsRemaining := tagCount.1
                    model := model
                    nodeStack := group :: s.nodeStack }

/-- The branch `21 == sectionType` of a pass, up to the end of the branch or to
its `continue` or `return`: `tagsRemaining` is decremented, an Attribute is
added below the node on top of `nodeStack`, and after the delimiter and the
info array the value is decoded and set through the pointer to the Attribute.
The flag tells whether the pass goes on to the loop that pops the stacks. -/
def readTag (ft : QtConv) (bytes : List Nat) (nameString : String) (s : Dm3Loop) :
    Option (Dm3Pass × Bool) :=
  match s.nodeStack.head? with
  | none => none
  | some top =>
    match s.model.addNode nameString ATTRIBUTE (some top) with
    | none => none
    | some (model, path) =>
      let s1 := { s with tagsRemaining := wrapInt32 (s.tagsRemaining - 1), model := model }
      match streamRaw bytes s.pos 4 with
      | none => none
      | some (delimiter, pos1) =>
        if cString delimiter ≠ "%%%%" then
          some (Dm3Pass.next
            { s1 with pos := pos1, readError := true
                      warnings := s1.warnings ++ ["Invalid file: missing delimiter"] }, false)
        else
          let infoLength := streamInt bytes pos1 4 true false
          if infoLength.1 < 0 then none
          else
            let info := readInfo bytes infoLength.1.toNat infoLength.2
            match model.m_root.at? path with
            | none => none
            | some tagNode =>
              match readTagValue ft bytes info.2 s.tagName infoLength.1 info.1 with
              | none => none
              | some (TagValue.invalidType warning) =>
                some (Dm3Pass.exit Error.ErrorInvalidDataType
                  { s1 with pos := info.2, warnings := s1.warnings ++ [warning] }, false)
              | some (TagValue.decoded pos2 value data) =>
                some (Dm3Pass.next
                  { s1 with
                    pos := pos2
                    model :=
                      { model with
                        m_root := model.m_root.replaceAt path
                          (match value with
                           | some v => tagNode.setAttribute v.1 v.2
                           | none => tagNode) }
                    dataList := s1.dataList ++ (data.map (fun d => d.1)).toList
                    dataTypeList := s1.dataTypeList ++ (data.map (fun d => d.2)).toList },
                  true)

/-- One pass of the body of the loop `while(!endOfFile && !readError)` of
`loadDm3`; `none` where the source has no defined result. -/
def loadDm3Pass (ft : QtConv) (bytes : List Nat) (s : Dm3Loop) : Option Dm3Pass :=
  match readSectionHeader bytes s with
  | none => none
  | some (sectionType, nameString, s1) =>
    if sectionType = 20 then
      match openDirectory bytes nameString s1 with
      | none => none
      | some s2 => (popStacks s2.tagsRemainingStack s2).map Dm3Pass.next
    else if sectionType = 21 then
      match readTag ft bytes nameString s1 with
      | none => none
      | some (Dm3Pass.next s2, true) => (popStacks s2.tagsRemainingStack s2).map Dm3Pass.next
      | some (pass, _) => some pass
    else if sectionType = 0 then
      (popStacks s1.tagsRemainingStack { s1 with endOfFile := true }).map Dm3Pass.next
    else
      (popStacks s1.tagsRemainingStack
        { s1 with readError := true
                  warnings := s1.warnings ++ ["Tag type read error: " ++ toString sectionType] }
        ).map Dm3Pass.next

/-- The loop `while(!endOfFile && !readError)` of `loadDm3`, for at most `fuel`
passes: the error code of a `return` inside the loop, if any, and the locals. -/
def loadDm3Loop (ft : QtConv) (bytes : List Nat) : Nat → Dm3Loop → Run (Option Error × Dm3Loop)
  | fuel, s =>
    if s.endOfFile ∨ s.readError then Run.done (none, s)
    else
      match fuel with
      | 0 => Run.outOfFuel
      | fuel + 1 =>
        match loadDm3Pass ft bytes s with
        | none => Run.undefined
        | some (Dm3Pass.exit error s') => Run.done (some error, s')
        | some (Dm3Pass.next s') => loadDm3Loop ft bytes fuel s'

/-- The loop of the post-pass of `loadDm3` over the children of the node
`Dimensions`: the list `dimSizes` and the product `dataLength`. -/
def dm3DimSizes (ft : QtConv) : List Node → List Int × Int → List Int × Int
  | [], r => r
  | dim :: rest, r =>
    dm3DimSizes ft rest
      (r.1 ++ [(dim.variantRepresentation ft).toInt ft],
       wrapInt32 (r.2 * (dim.variantRepresentation ft).toInt ft))

/-- The loop of the post-pass of `loadDm3` that creates the dimension Datasets
`dim{iii}`: the attribute `units` takes the value of the node
`Calibrations/Dimension/{iii}/Units` below the image data node when there is
one, else `[px]`. The result is `none` when that node is no `Attribute`, for
which the cast of the source is not defined. -/
def dm3AddDims (imageDataNode : Node) (dimSizes : List Int) :
    List Nat → DataGroup → Run DataGroup
  | [], g => Run.done g
  | iii :: rest, g =>
    match imageDataNode.childAtPath
        ("Calibrations/Dimension/" ++ toString iii ++ "/Units") with
    | Run.outOfFuel => Run.outOfFuel
    | Run.undefined => Run.undefined
    | Run.done unitNode =>
      let units : Option QVariant :=
        match unitNode with
        | none => some (QVariant.string "[px]")
        | some u => u.asAttribute.map (fun a => a.m_value)
      match units with
      | none => Run.undefined
      | some value =>
        dm3AddDims imageDataNode dimSizes rest
          (g.addDimNew
            (Node.mk ("dim" ++ toString iii) 0
              [newAttribute "units" value DataTypeString,
               newAttribute "name" (QVariant.string ("dim" ++ toString iii)) DataTypeString]
              (NodeSelf.dataset
                (Dataset.ofLength (dimSizes.getD (iii - 1) 0) DataTypeInt32 true))))

/-- The post-pass of `loadDm3`, entered when `dataList` is not empty: the model
after it. The result is undefined where the source follows a null pointer (no
node `ImageData`, no node `/data`), reads `dataTypeList` or the data block
outside their range, or allocates a negative size. -/
def dm3PostPass (ft : QtConv) (emdModel : Model) (dataList : List (List Nat))
    (dataTypeList : List DataType) : Run Model :=
  match emdModel.getPath "/dm3/ImageSourceList/1/ImageRef" with
  | none => Run.undefined
  | some none => Run.done emdModel
  | some (some refPath) =>
    match emdModel.m_root.at? refPath with
    | none => Run.undefined
    | some refNode =>
      let imgIndex := (refNode.variantRepresentation ft).toInt ft
      match emdModel.getPath
          ("/dm3/ImageList/" ++ toString (wrapInt32 (imgIndex + 1)) ++ "/ImageData") with
      | some (some imagePath) =>
        match emdModel.m_root.at? imagePath with
        | none => Run.undefined
        | some imageDataNode =>
          match imageDataNode.child "Dimensions" with
          | none => Run.done emdModel
          | some dimNode =>
            match emdModel.addPath "/data/dm3_file" DATAGROUP with
            | some (model1, some groupPath) =>
              match (model1.m_root.at? groupPath).bind Node.asDataGroup with
              | none => Run.undefined
              | some dataGroup =>
                let sizes := dm3DimSizes ft dimNode.children ([], 1)
                if imgIndex < 0 then Run.undefined
                else
                  match dataTypeList.get? imgIndex.toNat, dataList.get? imgIndex.toNat with
                  | some type, some rawData =>
                    let byteCount := wrapInt32 (sizes.2 * emdTypeDepth type)
                    if byteCount < 0 ∨ (rawData.length : Int) < byteCount then Run.undefined
                    else
                      let dataNode := Node.mk "data" DIRTY []
                        (NodeSelf.dataset
                          (Dataset.create dimNode.children.length sizes.1 type
                            (some (rawData.take byteCount.toNat)) false))
                      let g1 := dataGroup.setDataNew dataNode
                      let g2 := g1.addChildNew
                        (newAttribute "emd_group_type" (QVariant.int 1) DataTypeInt32)
                      let g3 := g2.addChildNew
                        (newAttribute "data_order" (QVariant.int 0) DataTypeInt32)
                      (dm3AddDims imageDataNode sizes.1
                        ((List.range dimNode.children.length).map (fun i => i + 1)) g3).map
                        (fun g =>
                          { model1 with
                            m_root := model1.m_root.replaceAt groupPath g.toNode })
                  | _, _ => Run.undefined
            | _ => Run.undefined
      | _ => Run.undefined

/-- The method `FileManager::loadDm3` on the content of the file (`none` for a
file that cannot be opened) and the model, with `fuel` passes for its loop: the
error code, the model after the call and the texts passed to `qWarning`. -/
def loadDm3 (ft : QtConv) (file : Option (List Nat)) (emdModel : Model) (fuel : Nat) :
    Run (Error × Model × List String) :=
  match file with
  | none => Run.done (Error.ErrorFileOpenFailed, emdModel, ["Failed to open dm3 file"])
  | some bytes =>
    let h1 := streamInt bytes 0 4 true false
    let h2 := streamInt bytes h1.2 4 true false
    let h3 := streamInt bytes h2.2 4 true false
    if 3 ≠ h1.1 then Run.done (Error.ErrorInvalidDataFormat, emdModel, ["Not a valid dm3 file"])
    else if 1 ≠ h3.1 then
      Run.done (Error.ErrorInvalidDataFormat, emdModel, ["Not a valid dm3 file"])
    else
      let fSorted := streamInt bytes h3.2 1 true false
      let fOpen := streamInt bytes fSorted.2 1 true false
      let tagCount := streamInt bytes fOpen.2 4 true false
      match emdModel.addNode "dm3" GROUP none with
      | none => Run.undefined
      | some (model, dm3Root) =>
        match loadDm3Loop ft bytes fuel
            { pos := tagCount.2, model := model, nodeStack := [dm3Root],
              tagsRemainingStack := [], utcStack := [], tagsRemaining := tagCount.1,
              unnamedTagCount := 1, tagName := none, dataList := [], dataTypeList := [],
              endOfFile := false, readError := false, warnings := [] } with
        | Run.outOfFuel => Run.outOfFuel
        | Run.undefined => Run.undefined
        | Run.done (some error, s) => Run.done (error, s.model, s.warnings)
        | Run.done (none, s) =>
          if s.readError then Run.done (Error.ErrorInvalidDataFormat, s.model, s.warnings)
          else
            let warnings :=
              s.warnings ++
              (if ¬ s.endOfFile then ["Ran out of tags to read before end of file"] else []) ++
              (if s.tagsRemaining > 0 then ["Reached end of file with tags remaining"] else [])
            if s.dataList.length > 0 then
              (dm3PostPass ft s.model s.dataList s.dataTypeList).map
                (fun m => (Error.ErrorNone, m, warnings))
            else Run.done (Error.ErrorNone, s.model, warnings)

end FileManager
/-! ## Example DM3 streams -/

/-- The `w` bytes of an integer in two's complement, most significant first. -/
def beBytes (w : Nat) (v : Int) : List Nat := (leBytes w v).reverse

/-- The bytes of the characters of a name, one byte per character. -/
def nameBytes (name : String) : List Nat := name.data.map Char.toNat

/-- The header of a DM3 stream: version 3, a size field, byte order 1, the flags
`sorted` and `open`, and the number of entries of the root directory. -/
def dm3Header (tagCount : Int) : List Nat :=
  beBytes 4 3 ++ beBytes 4 0 ++ beBytes 4 1 ++ [0, 0] ++ beBytes 4 tagCount

/-- A leaf tag: section code 21, the length of the name and the name, the
delimiter `%%%%`, the length of the info array, the info array and the bytes of
the value. -/
def dm3Tag (name : String) (info : List Int) (value : List Nat) : List Nat :=
  [21] ++ beBytes 2 name.length ++ nameBytes name ++ [37, 37, 37, 37] ++
  beBytes 4 info.length ++ (info.map (beBytes 4)).flatten ++ value

/-- The start of a directory: section code 20, the length of the name and the
name, the flags `sorted` and `open`, and the number of entries. -/
def dm3Directory (name : String) (tagCount : Int) : List Nat :=
  [20] ++ beBytes 2 name.length ++ nameBytes name ++ [0, 0] ++ beBytes 4 tagCount

/-- The minimal stream: the header with one root entry, one leaf tag with a
name and the value `v` of type `long` (code 3, `int32`), and the end-of-stream
section code. -/
def dm3Minimal (name : String) (v : Int) : List Nat :=
  dm3Header 1 ++ dm3Tag name [3] (leBytes 4 v) ++ [0]
/-! ## The nesting of a DM3 tag stream and the walk of `loadDm3` -/

/-- The tree in which nodes are appended to the children of the node at a path
of child positions; the tree itself when there is no such node. -/
def Node.appendAt : Node → List Nat → List Node → Node
  | Node.mk n s cs x, [], new => Node.mk n s (cs ++ new) x
  | Node.mk n s cs x, j :: p, new =>
    match cs.get? j with
    | some c => Node.mk n s (cs.set j (c.appendAt p new)) x
    | none => Node.mk n s cs x

/-- The nesting of the entries of a DM3 tag stream: a leaf tag, or a directory
with its entries in stream order; each with the name that the decoder gives it
(the text of the unnamed-tag counter for an entry without name). -/
inductive TagTree where
  | tag (name : String)
  | directory (name : String) (entries : List TagTree)
  deriving Repr

/-- What a pass of the loop of `loadDm3` reads at the start of an entry: a
directory with its name and the number of entries that it declares, or a leaf
tag with its name. -/
inductive Dm3Section where
  | directory (name : String) (tagCount : Int)
  | tag (name : String)
  deriving DecidableEq, Repr

mutual
/-- The sections of an entry in stream order: the entry itself, then, for a
directory, its entries one after the other; a directory declares exactly the
number of entries that it has. -/
def TagTree.sections : TagTree → List Dm3Section
  | TagTree.tag name => [Dm3Section.tag name]
  | TagTree.directory name entries =>
    Dm3Section.directory name entries.length :: TagTree.sectionsList entries
/-- The sections of a list of entries in stream order. -/
def TagTree.sectionsList : List TagTree → List Dm3Section
  | [] => []
  | e :: es => e.sections ++ TagTree.sectionsList es
end

mutual
/-- The node mirrors the entry: an Attribute without children with the name of
the leaf tag, or a Group with the name of the directory whose children mirror
the entries of the directory, one by one in the same order. -/
def TagTree.mirroredBy : TagTree → Node → Bool
  | TagTree.tag name, Node.mk n _ cs (NodeSelf.attribute _) => n == name && cs.isEmpty
  | TagTree.directory name entries, Node.mk n _ cs NodeSelf.group =>
    n == name && TagTree.mirroredByList entries cs
  | _, _ => false
/-- The nodes mirror the entries one by one in the same order. -/
def TagTree.mirroredByList : List TagTree → List Node → Bool
  | [], [] => true
  | e :: es, n :: ns => e.mirroredBy n && TagTree.mirroredByList es ns
  | _, _ => false
end

namespace FileManager

/-- The section that a pass of the loop of `loadDm3` reads from the locals `s`:
for the section type 20 the name and the number of entries that the branch of
the directory reads after the two flags, for the section type 21 the name;
`none` for another section type. -/
def sectionAt (bytes : List Nat) (s : Dm3Loop) : Option Dm3Section :=
  match readSectionHeader bytes s with
  | none => none
  | some (sectionType, nameString, s1) =>
    if sectionType = 20 then
      some (Dm3Section.directory nameString
        (streamInt bytes
          (streamInt bytes (streamInt bytes s1.pos 1 true false).2 1 true false).2
          4 true false).1)
    else if sectionType = 21 then some (Dm3Section.tag nameString)
    else none

/-- The sections that the next `n` passes of the loop of `loadDm3` read, and
the locals after these passes; `none` when the loop ends before the `n` passes
are done (a flag is set, a pass returns or has no defined result) or a pass
reads neither a directory nor a tag. -/
def sectionsFrom (ft : QtConv) (bytes : List Nat) :
    Nat → Dm3Loop → Option (List Dm3Section × Dm3Loop)
  | 0, s => some ([], s)
  | n + 1, s =>
    if s.endOfFile ∨ s.readError then none
    else
      match sectionAt bytes s, loadDm3Pass ft bytes s with
      | some sec, some (Dm3Pass.next s') =>
        if s'.readError then none
        else (sectionsFrom ft bytes n s').map (fun r => (sec :: r.1, r.2))
      | _, _ => none

/-- The directories that are open during the walk, innermost first: the path of
the Group of each and its entries that are still to come (for an enclosing
directory, those after the directory that is open inside it). -/
abbrev Dm3Frames := List (List Nat × List TagTree)

/-- The sections still to come for the open directories, in stream order. -/
def framesSections : Dm3Frames → List Dm3Section
  | [] => []
  | f :: rest => TagTree.sectionsList f.2 ++ framesSections rest

/-- The open directories without the innermost ones that have no entry left. -/
def normalizeFrames : Dm3Frames → Dm3Frames
  | [] => []
  | [f] => [f]
  | (_, []) :: g :: rest => normalizeFrames (g :: rest)
  | (p, e :: es) :: g :: rest => (p, e :: es) :: g :: rest

/-- The tree `T'` is the tree `T` with, for each open directory, nodes that
mirror its entries still to come appended to the children of its Group. -/
def Attached : Node → Dm3Frames → Node → Prop
  | T, [], T' => T' = T
  | T, f :: rest, T' =>
    ∃ nodes, TagTree.mirroredByList f.2 nodes = true ∧ Attached (T.appendAt f.1 nodes) rest T'

/-- The locals of the loop agree with the open directories: `nodeStack` holds
their Groups, `tagsRemaining` the number of entries still to come in the
innermost one, `tagsRemainingStack` for each enclosing directory one more than
the number of its entries still to come, and every path is a node of the tree. -/
def FramesOk (s : Dm3Loop) (frames : Dm3Frames) : Prop :=
  s.nodeStack = frames.map Prod.fst ∧
  (∀ f ∈ frames, (s.model.m_root.at? f.1).isSome = true) ∧
  match frames with
  | [] => False
  | f :: rest =>
    s.tagsRemaining = f.2.length ∧ (f.2.length : Int) < 2147483648 ∧
    s.tagsRemainingStack = rest.map (fun g => (g.2.length : Int) + 1) ∧
    (∀ g ∈ rest, (g.2.length : Int) + 1 < 2147483648) ∧
    s.utcStack.length = rest.length

end FileManager
/-! ## Example DM3 streams with nested directories -/

/-- The locals with which `loadDm3` enters its loop for a stream whose header
(18 bytes) declares `tagCount` root entries, on the model that `Model()`
builds: the Group `dm3` was added after the five top level groups. -/
def dm3Start (tagCount : Int) : FileManager.Dm3Loop :=
  { pos := 18
    model := ((Model.create.addNode "dm3" GROUP none).map Prod.fst).getD Model.create
    nodeStack := [[5]], tagsRemainingStack := [], utcStack := []
    tagsRemaining := tagCount, unnamedTagCount := 1, tagName := none, dataList := []
    dataTypeList := [], endOfFile := false, readError := false, warnings := [] }

/-- A stream with nested directories: the root holds the directory `A` and the
tag `y`; `A` holds the tag `x` and the empty directory `B`, which is its last
entry. -/
def dm3Nested : List Nat :=
  dm3Header 2 ++ dm3Directory "A" 2 ++ dm3Tag "x" [3] (leBytes 4 5) ++ dm3Directory "B" 0 ++
  dm3Tag "y" [3] (leBytes 4 6) ++ [0]

/-- The nesting of the entries of `dm3Nested`. -/
def dm3NestedForest : List TagTree :=
  [TagTree.directory "A" [TagTree.tag "x", TagTree.directory "B" []], TagTree.tag "y"]

/-- The locals of the loop of `loadDm3` after the four entries of `dm3Nested`. -/
def dm3NestedEnd : FileManager.Dm3Loop :=
  match FileManager.sectionsFrom exampleQt dm3Nested 4 (dm3Start 2) with
  | some r => r.2
  | none => dm3Start 2

/-- The result of a run that came to its end. -/
def Run.result? {α : Type} : Run α → Option α
  | Run.done a => some a
  | _ => none

/-- The run ended where the source has no defined result. -/
def Run.isUndefined {α : Type} : Run α → Bool
  | Run.undefined => true
  | _ => false

/-- A stream whose only tag `X` has an info array of two entries, the first of
which (`0x12`) is neither the struct marker nor the array marker; the
end-of-stream section code follows the info array. -/
def dm3Unrecognized : List Nat := dm3Header 1 ++ dm3Tag "X" [0x12, 0] [] ++ [0]

/-- A stream of two array tags of the element type `char` (code 10): the tag
`Data` with the bytes `1, 2`, then a tag without name with the bytes `3, 4, 5`. -/
def dm3StaleName : List Nat :=
  dm3Header 2 ++ dm3Tag "Data" [0x14, 10, 2] [1, 2] ++ dm3Tag "" [0x14, 10, 3] [3, 4, 5] ++ [0]

/-- A stream whose first tag is an array tag without name. -/
def dm3NullName : List Nat := dm3Header 1 ++ dm3Tag "" [0x14, 10, 3] [3, 4, 5] ++ [0]
/-! ## Node.cpp: `removeStatus` and `child(int)`; Model.cpp: `setData` and `isDirty` -/

namespace Node

/-- The method `Node::removeStatus(status)`: when a bit of `status` is set in
`m_status`, the member is changed by `m_status ^= status`. -/
def removeStatus : Node → Nat → Node
  | mk n s cs x, status => if s &&& status ≠ 0 then mk n (s ^^^ status) cs x else mk n s cs x

/-- The method `Node::child(const int &index)`: `some none` for the null
pointer, and `none` when `m_children.at(index)` is called with an index outside
the list, for which `QList::at` has no defined result. -/
def childByIndex : Node → Int → Option (Option Node)
  | mk _ _ cs _, index =>
    if index < 0 ∨ index > cs.length then some none
    else
      match cs.get? index.toNat with
      | some c => some (some c)
      | none => none

end Node

/-- A `QModelIndex` as `Model` reads it: row, column, the internal pointer (a
node of the tree by its path, `none` for null) and whether the index belongs to
a model. -/
structure QModelIndex where
  row : Int
  column : Int
  internalPointer : Option (List Nat)
  hasModel : Bool
  deriving DecidableEq, Repr

/-- The method `QModelIndex::isValid`. -/
def QModelIndex.isValid (index : QModelIndex) : Bool :=
  decide (0 ≤ index.row) && decide (0 ≤ index.column) && index.hasModel

/-- The value of `Qt::EditRole`. -/
def EditRole : Int := 2

namespace Model

/-- The method `Model::getNode`: the node of a valid index, else null. -/
def getNode (index : QModelIndex) : Option (List Nat) :=
  if index.isValid then index.internalPointer else none

/-- The method `Model::setData`: the returned flag and the model after the
call. The result is `none` when the internal pointer is no node of the tree, or
is a node with the bit `ATTRIBUTE` that is no `Attribute`, for which the cast
of the source is not defined. The signal `dataChanged` is not represented. -/
def setData (m : Model) (index : QModelIndex) (value : QVariant) (role : Int) :
    Option (Bool × Model) :=
  if role ≠ EditRole ∨ index.column ≠ 1 then some (false, m)
  else
    match getNode index with
    | none => some (false, m)
    | some path =>
      if path = [] then some (false, m)
      else
        match m.m_root.at? path with
        | none => none
        | some node =>
          if node.status &&& ATTRIBUTE = 0 then some (false, m)
          else
            match node with
            | Node.mk nm st cs (NodeSelf.attribute a) =>
              if (a.setValue st value).1 then
                some (true,
                  { m with
                    m_root := m.m_root.replaceAt path
                      (Node.mk nm ((a.setValue st value).2.2 ||| DIRTY) cs
                        (NodeSelf.attribute (a.setValue st value).2.1)) })
              else some (false, m)
            | _ => none

/-- The method `Model::isDirty`. -/
def isDirty (m : Model) : Bool := decide (m.m_root.status &&& DIRTY ≠ 0)

end Model

/-- The model that `Model()` builds with an Attribute `a` added below the root
by `addNode("a", Node::ATTRIBUTE)`; the Attribute is the sixth child of the
root. -/
def modelWithAttribute : Model :=
  ((Model.create.addNode "a" ATTRIBUTE none).map Prod.fst).getD Model.create
/-! ## Util.cpp: `randomIndexes` -/

/-- The static locals of `randomIndexes`: the arguments of the call that filled
the cache, the state of the generator (an `unsigned int`) and the cached
indexes. -/
structure RandomState where
  s_length : Int
  s_max : Int
  s_seed : Nat
  s_indexes : List Int
  deriving DecidableEq, Repr

/-- The static locals of `randomIndexes` before the first call. -/
def RandomState.initial : RandomState :=
  { s_length := 0, s_max := 0, s_seed := 0xfaceface, s_indexes := [] }

/-- The three statements `s_seed ^= (s_seed << 13); s_seed ^= (s_seed >> 17);
s_seed ^= (s_seed << 5);` on an `unsigned int` of 32 bits. -/
def xorshift (seed : Nat) : Nat :=
  let a := seed ^^^ ((seed <<< 13) % 4294967296)
  let b := a ^^^ (a >>> 17)
  b ^^^ ((b <<< 5) % 4294967296)

/-- The loop of `randomIndexes` for `count` passes: the state of the generator
and the indexes pushed. In `s_seed % max` the `int` is converted to `unsigned
int`, and `push_back` converts the result to `int`. -/
def randomIndexesLoop (max : Int) : Nat → Nat → List Int → Nat × List Int
  | 0, seed, indexes => (seed, indexes)
  | count + 1, seed, indexes =>
    randomIndexesLoop max count (xorshift seed)
      (indexes ++ [wrapInt32 ((xorshift seed : Int) % wrapUnsigned 4 max)])

/-- The function `randomIndexes(length, max)` on the static locals: the vector
returned and the static locals after the call. The result is `none` where the
call does not return a vector: `reserve` of a negative length throws, and
`s_seed % max` divides by zero for `max == 0`. -/
def randomIndexes (st : RandomState) (length max : Int) : Option (List Int × RandomState) :=
  if length ≠ st.s_length ∨ max ≠ st.s_max then
    if length < 0 then none
    else if 0 < length ∧ wrapUnsigned 4 max = 0 then none
    else
      some ((randomIndexesLoop max length.toNat st.s_seed []).2,
        { s_length := length, s_max := max
          s_seed := (randomIndexesLoop max length.toNat st.s_seed []).1
          s_indexes := (randomIndexesLoop max length.toNat st.s_seed []).2 })
  else some (st.s_indexes, st)

/-- The static locals after a sequence of calls of `randomIndexes`, each given
by its arguments `(length, max)`; `none` when a call does not return. -/
def randomIndexesCalls : List (Int × Int) → RandomState → Option RandomState
  | [], st => some st
  | call :: rest, st =>
    match randomIndexes st call.1 call.2 with
    | none => none
    | some r => randomIndexesCalls rest r.2

/-- The cache of `randomIndexes` agrees with the arguments that it was filled
for: it holds `s_length` indexes, and for a positive `s_max` each of them is in
`[0, s_max)`. -/
def RandomState.consistent (st : RandomState) : Prop :=
  (st.s_indexes.length : Int) = st.s_length ∧
  (0 < st.s_max → ∀ i ∈ st.s_indexes, 0 ≤ i ∧ i < st.s_max)
/-! ## The loop of `loadDm3`: the locals at the start of each pass -/

namespace FileManager

/-- The locals with which a pass of the loop of `loadDm3` ends. -/
def Dm3Pass.locals : Dm3Pass → Dm3Loop
  | Dm3Pass.next s => s
  | Dm3Pass.exit _ s => s

/-- The locals of `loadDm3` at the start of each pass of its loop, for at most
`fuel` passes, from the locals `s` at the first test of the loop condition. -/
def loadDm3Trace (ft : QtConv) (bytes : List Nat) : Nat → Dm3Loop → List Dm3Loop
  | 0, _ => []
  | fuel + 1, s =>
    if s.endOfFile ∨ s.readError then []
    else
      s :: (match loadDm3Pass ft bytes s with
            | some (Dm3Pass.next s') => loadDm3Trace ft bytes fuel s'
            | _ => [])

/-- The sizes of the three stacks of `loadDm3` agree: `nodeStack` holds one
entry more than `tagsRemainingStack`, and `utcStack` as many. -/
def Dm3Loop.stacksOk (s : Dm3Loop) : Prop :=
  s.nodeStack.length = s.tagsRemainingStack.length + 1 ∧
  s.utcStack.length = s.tagsRemainingStack.length

end FileManager

/-- The locals at the start of the passes of the loop of `loadDm3` over the
stream `dm3Nested`. -/
def dm3NestedTrace : List FileManager.Dm3Loop :=
  FileManager.loadDm3Trace exampleQt dm3Nested 5 (dm3Start 2)
/-! ## The names that `loadDm3` gives the entries without name -/

/-- The nesting of the entries of a DM3 tag stream with the names as the stream
holds them: `none` for an entry whose name length is 0. -/
inductive RawTree where
  | tag (name : Option String)
  | directory (name : Option String) (entries : List RawTree)
  deriving Repr

/-- What a pass of the loop of `loadDm3` reads at the start of an entry, with
the name as the stream holds it: `none` for the name length 0. -/
inductive RawSection where
  | directory (name : Option String) (tagCount : Int)
  | tag (name : Option String)
  deriving DecidableEq, Repr

/-- The entry has a name in the stream. -/
def RawTree.hasName : RawTree → Bool
  | RawTree.tag name => name.isSome
  | RawTree.directory name _ => name.isSome

mutual
/-- The sections of an entry in stream order; a directory declares exactly the
number of entries that it has. -/
def RawTree.sections : RawTree → List RawSection
  | RawTree.tag name => [RawSection.tag name]
  | RawTree.directory name entries =>
    RawSection.directory name entries.length :: RawTree.sectionsList entries
/-- The sections of a list of entries in stream order. -/
def RawTree.sectionsList : List RawTree → List RawSection
  | [] => []
  | e :: es => e.sections ++ RawTree.sectionsList es
end

mutual
/-- The entry with the names of the numbering: an entry without name takes the
decimal text of the number `c`, the entries of a directory are numbered from 1. -/
def RawTree.named : RawTree → Int → TagTree
  | RawTree.tag name, c => TagTree.tag (name.getD (toString c))
  | RawTree.directory name entries, c =>
    TagTree.directory (name.getD (toString c)) (RawTree.namedList entries 1)
/-- The entries of one directory with the names of the numbering, where `c` is
the number of the next entry without name: the entries without name take `c`,
`c + 1`, ... in stream order, and an entry with a name does not count. -/
def RawTree.namedList : List RawTree → Int → List TagTree
  | [], _ => []
  | e :: es, c => e.named c :: RawTree.namedList es (if e.hasName then c else c + 1)
end

/-- The section with the name that the decoder gives it when the counter of
entries without name is `c`. -/
def RawSection.named : RawSection → Int → Dm3Section
  | RawSection.directory name tagCount, c =>
    Dm3Section.directory (name.getD (toString c)) tagCount
  | RawSection.tag name, c => Dm3Section.tag (name.getD (toString c))

namespace FileManager

/-- The name that the start of a pass of the loop of `loadDm3` reads from the
stream: `some none` for the name length 0, and `none` when the file ends inside
the name. -/
def rawName (bytes : List Nat) (s : Dm3Loop) : Option (Option String) :=
  let sectionType := streamInt bytes s.pos 1 true false
  let tagNameLength := streamInt bytes sectionType.2 2 false false
  if tagNameLength.1 > 0 then
    match streamRaw bytes tagNameLength.2 tagNameLength.1 with
    | none => none
    | some (tagName, _) => some (some (cString tagName))
  else some none

/-- The section that a pass of the loop of `loadDm3` reads from the locals `s`,
with the name as the stream holds it; `none` for another section type than 20
and 21. -/
def rawSectionAt (bytes : List Nat) (s : Dm3Loop) : Option RawSection :=
  match readSectionHeader bytes s, rawName bytes s with
  | some (sectionType, _, s1), some name =>
    if sectionType = 20 then
      some (RawSection.directory name
        (streamInt bytes
          (streamInt bytes (streamInt bytes s1.pos 1 true false).2 1 true false).2
          4 true false).1)
    else if sectionType = 21 then some (RawSection.tag name)
    else none
  | _, _ => none

/-- The sections that the next `n` passes of the loop of `loadDm3` read, with
the names as the stream holds them, and the locals after these passes; `none`
when the loop ends before the `n` passes are done or a pass reads neither a
directory nor a tag. -/
def rawSectionsFrom (ft : QtConv) (bytes : List Nat) :
    Nat → Dm3Loop → Option (List RawSection × Dm3Loop)
  | 0, s => some ([], s)
  | n + 1, s =>
    if s.endOfFile ∨ s.readError then none
    else
      match rawSectionAt bytes s, loadDm3Pass ft bytes s with
      | some sec, some (Dm3Pass.next s') =>
        if s'.readError then none
        else (rawSectionsFrom ft bytes n s').map (fun r => (sec :: r.1, r.2))
      | _, _ => none

/-- The directories that are open during the walk, innermost first: the number
of the next entry without name of each and its entries that are still to come. -/
abbrev Dm3Counters := List (Int × List RawTree)

/-- The sections still to come for the open directories, in stream order, with
the names as the stream holds them. -/
def countersSections : Dm3Counters → List RawSection
  | [] => []
  | f :: rest => RawTree.sectionsList f.2 ++ countersSections rest

/-- The sections still to come for the open directories, in stream order, with
the names of the numbering. -/
def countersNamed : Dm3Counters → List Dm3Section
  | [] => []
  | f :: rest => TagTree.sectionsList (RawTree.namedList f.2 f.1) ++ countersNamed rest

/-- The open directories without the innermost ones that have no entry left. -/
def normalizeCounters : Dm3Counters → Dm3Counters
  | [] => []
  | [f] => [f]
  | (_, []) :: g :: rest => normalizeCounters (g :: rest)
  | (c, e :: es) :: g :: rest => (c, e :: es) :: g :: rest

/-- The counters of the loop agree with the open directories: `unnamedTagCount`
is the number of the next entry without name of the innermost one, `utcStack`
holds the numbers of the enclosing ones, `tagsRemaining` and
`tagsRemainingStack` count the entries still to come as in `FramesOk`, and no
number passes the bound `B`. -/
def CountersOk (s : Dm3Loop) (frames : Dm3Counters) (B : Int) : Prop :=
  (∀ f ∈ frames, 0 ≤ f.1 ∧ f.1 + (RawTree.sectionsList f.2).length ≤ B) ∧
  match frames with
  | [] => False
  | f :: rest =>
    s.unnamedTagCount = f.1 ∧ s.tagsRemaining = f.2.length ∧
    s.tagsRemainingStack = rest.map (fun g => (g.2.length : Int) + 1) ∧
    s.utcStack = rest.map Prod.fst

end FileManager

/-- A stream with entries without name: the root holds a tag without name, a
directory without name and another tag without name; the directory holds the
tag `x`, a tag without name and an empty directory without name. -/
def dm3Unnamed : List Nat :=
  dm3Header 3 ++ dm3Tag "" [3] (leBytes 4 5) ++ dm3Directory "" 3 ++
  dm3Tag "x" [3] (leBytes 4 6) ++ dm3Tag "" [3] (leBytes 4 7) ++ dm3Directory "" 0 ++
  dm3Tag "" [3] (leBytes 4 8) ++ [0]

/-- The nesting of the entries of `dm3Unnamed`, with the names as the stream
holds them. -/
def dm3UnnamedForest : List RawTree :=
  [RawTree.tag none,
   RawTree.directory none [RawTree.tag (some "x"), RawTree.tag none, RawTree.directory none []],
   RawTree.tag none]

/-- The locals of the loop of `loadDm3` after the six entries of `dm3Unnamed`. -/
def dm3UnnamedEnd : FileManager.Dm3Loop :=
  match FileManager.rawSectionsFrom exampleQt dm3Unnamed 6 (dm3Start 3) with
  | some r => r.2
  | none => dm3Start 3
/-! ## Frame.cpp: `Frame::getDataRange` -/

/-- The value of `SAMPLE_CUTOFF` of `Frame.cpp`. -/
def SAMPLE_CUTOFF : Nat := 10

/-- The value of `RANDOM_SAMPLE_SIZE` of `Frame.cpp`. -/
def RANDOM_SAMPLE_SIZE : Nat := 2000

/-- The value of `Frame::AttributeFourierTransformed`. -/
def AttributeFourierTransformed : Int := 0x0100

/-- The value of `Frame::AttributeFourierTransformedNoShift`. -/
def AttributeFourierTransformedNoShift : Int := 0x0200

/-- The C++ type of the kind is an integer type. -/
def isIntegerKind (type : DataType) : Bool :=
  match type with
  | DataTypeInt8 | DataTypeInt16 | DataTypeInt32 | DataTypeInt64
  | DataTypeUInt8 | DataTypeUInt16 | DataTypeUInt32 | DataTypeUInt64 => true
  | _ => false

/-- The value of `std::numeric_limits<T>::max()` for the integer type of a kind. -/
def typeMax (type : DataType) : Int :=
  if typeSigned type then 2 ^ (8 * typeWidth type - 1) - 1 else 2 ^ (8 * typeWidth type) - 1

/-- The value of `std::numeric_limits<T>::lowest()` for the integer type of a kind. -/
def typeLowest (type : DataType) : Int :=
  if typeSigned type then -(2 ^ (8 * typeWidth type - 1)) else 0

/-- The number of bits by which an integer of magnitude `m` exceeds the 24 bits
of the significand of a `float`: the least `shift` from `shift` on with
`m < 2 ^ (24 + shift)`, searched for `fuel` steps. -/
def floatShift (m : Nat) : Nat → Nat → Nat
  | 0, shift => shift
  | fuel + 1, shift => if m < 2 ^ (24 + shift) then shift else floatShift m fuel (shift + 1)

/-- The conversion `(float) x` of an integer of a kind (below `2 ^ 64` in
magnitude), as the integer that the `float` is: `x` itself up to 24 bits, else
`x` rounded to 24 significant bits, to the nearest and to the even one of two
nearest. -/
def toFloat32 (x : Int) : Int :=
  if x.natAbs < 2 ^ 24 then x
  else
    let shift := floatShift x.natAbs 40 0
    let q := x.natAbs / 2 ^ shift
    let r := x.natAbs % 2 ^ shift
    let half := 2 ^ (shift - 1)
    let q' := if r > half ∨ (r = half ∧ q % 2 = 1) then q + 1 else q
    (if x < 0 then -1 else 1) * ((q' * 2 ^ shift : Nat) : Int)

/-- The conversion `(T) v` of a `float` that is the integer `v` to the integer
type of a kind; `none` when `v` is no value of the type, for which the
conversion is not defined. -/
def fromFloat (type : DataType) (v : Int) : Option Int :=
  if typeLowest type ≤ v ∧ v ≤ typeMax type then some v else none

/-- The loop `while(index+1 < SAMPLE_CUTOFF && v.at(index+1) ... val) ++index;`
from the value `next` of `index + 1`, for at most `fuel` passes: the value of
`index + 1` after the loop, `none` when `at` throws. `before x val` is the
comparison of the element with the value (`x > val` for `mins`, `x < val` for
`maxes`). No more than `SAMPLE_CUTOFF` passes are needed from `next = 0`. -/
def scanLoop (before : Int → Int → Bool) (v : List Int) (val : Int) : Nat → Nat → Option Nat
  | 0, next => some next
  | fuel + 1, next =>
    if next < SAMPLE_CUTOFF then
      match v.get? next with
      | none => none
      | some x => if before x val then scanLoop before v val fuel (next + 1) else some next
    else some next

/-- The loop `while(index >= 0) { oldVal = v[index]; v[index] = newVal;
newVal = oldVal; --index; }` from the value `next` of `index + 1`: the vector
after the loop. -/
def shiftLoop (v : List Int) : Nat → Int → List Int
  | 0, _ => v
  | index + 1, newVal => shiftLoop (v.set index newVal) index (v.getD index 0)

/-- The two loops of `getDataRange` that insert a sampled value into `mins` or
`maxes`. -/
def insertSample (before : Int → Int → Bool) (v : List Int) (val : Int) : Option (List Int) :=
  (scanLoop before v val SAMPLE_CUTOFF 0).map (fun next => shiftLoop v next val)

/-- The expression `data.real[index]` for the pointer `real` of a frame into
the buffer `buffer` and the integer type of a kind; `none` when the element is
not inside the buffer. -/
def Frame.readReal (buffer : List Nat) (type : DataType) (real : Pointer) (index : Int) :
    Option Int :=
  match real with
  | Pointer.inBuffer bytes =>
    (readBytes buffer (bytes + index * typeWidth type) (typeWidth type)).map (decodeValue type)
  | _ => none

/-- The value that a pass of the loop of `getDataRange` samples for the random
index `index`; `none` for a division by zero or a read outside the buffer. -/
def Frame.sampleAt (data : FrameData) (buffer : List Nat) (type : DataType) (index : Int) :
    Option Int :=
  if data.hSize = 0 then none
  else
    Frame.readReal buffer type data.real
      (wrapInt32 (index.tdiv data.hSize * data.vStep + index.tmod data.hSize * data.hStep))

/-- One pass of the loop `for(int iii = 0; iii < RANDOM_SAMPLE_SIZE; ++iii)` of
`getDataRange` on the vectors `mins` and `maxes`; `none` when
`randomIndexes[iii]` is outside the vector or the pass has no defined result. -/
def Frame.sampleStep (data : FrameData) (buffer : List Nat) (type : DataType)
    (randomIndexes : List Int) (mm : List Int × List Int) (iii : Nat) :
    Option (List Int × List Int) :=
  match randomIndexes.get? iii with
  | none => none
  | some index =>
    match Frame.sampleAt data buffer type index with
    | none => none
    | some val =>
      match insertSample (fun x v => decide (x > v)) mm.1 val,
          insertSample (fun x v => decide (x < v)) mm.2 val with
      | some mins, some maxes => some (mins, maxes)
      | _, _ => none

/-- The loop of `getDataRange` over the sample: the vectors `mins` and `maxes`
after it. -/
def Frame.sampleLoop (data : FrameData) (buffer : List Nat) (type : DataType)
    (randomIndexes : List Int) : Option (List Int × List Int) :=
  (List.range RANDOM_SAMPLE_SIZE).foldlM (Frame.sampleStep data buffer type randomIndexes)
    (List.replicate SAMPLE_CUTOFF (typeMax type), List.replicate SAMPLE_CUTOFF (typeLowest type))

/-- How a call of `Frame::getDataRange<T>` ends: without defined result; in a
computation in floating point that this development does not represent (a
Fourier-transformed frame, or `T` is `float` or `double`); or with the values
stored in `min` and `max`, the frame and the static locals of `randomIndexes`
after the call. -/
inductive DataRange where
  | undefined
  | floating
  | range (min max : Int) (frame : Frame) (random : RandomState)
  deriving DecidableEq, Repr

/-- The end of `getDataRange`: `min = (T) m_minValue; max = (T) m_maxValue;`. -/
def Frame.returnRange (f : Frame) (type : DataType) (random : RandomState) : DataRange :=
  match f.m_minValue.bind (fromFloat type), f.m_maxValue.bind (fromFloat type) with
  | some min, some max => DataRange.range min max f random
  | _, _ => DataRange.undefined

/-- The template `Frame::getDataRange<T>` for the C++ type `T` of a kind, on a
frame whose pointer `real` is into the buffer `buffer`, with the static locals
of `randomIndexes`. -/
def Frame.getDataRange (f : Frame) (type : DataType) (buffer : List Nat)
    (random : RandomState) : DataRange :=
  if ¬ isIntegerKind type then DataRange.floating
  else if f.m_minValue = none ∨ f.m_maxValue = none then
    match randomIndexes random RANDOM_SAMPLE_SIZE
        (wrapInt32 (f.m_data.hSize * f.m_data.vSize)) with
    | none => DataRange.undefined
    | some (indexes, random') =>
      if Int.land f.m_data.attributes
          (Int.lor AttributeFourierTransformed AttributeFourierTransformedNoShift) ≠ 0 then
        DataRange.floating
      else
        match Frame.sampleLoop f.m_data buffer type indexes with
        | none => DataRange.undefined
        | some (mins, maxes) =>
          match mins.get? 0, maxes.get? 0 with
          | some lo, some hi =>
            Frame.returnRange
              { f with m_minValue := some (toFloat32 lo), m_maxValue := some (toFloat32 hi) }
              type random'
          | _, _ => DataRange.undefined
  else Frame.returnRange f type random

/-- The values that the passes of the loop of `getDataRange` sample, in the
order of the passes; `none` when a pass has no defined value. -/
def Frame.sampleValues (data : FrameData) (buffer : List Nat) (type : DataType)
    (randomIndexes : List Int) : Option (List Int) :=
  (List.range RANDOM_SAMPLE_SIZE).mapM
    (fun iii => (randomIndexes.get? iii).bind (Frame.sampleAt data buffer type))

/-- A frame of one pixel of the kind `Int32` at the start of its buffer. -/
def framePixel : Frame := Frame.create (Pointer.inBuffer 0) Pointer.null 1 1 1 1 DataTypeInt32 false

/-- A frame of `4 x 3` pixels of the kind `UInt8` at the start of its buffer,
row after row. -/
def frameSmall : Frame :=
  Frame.create (Pointer.inBuffer 0) Pointer.null 1 4 4 3 DataTypeUInt8 false

/-- The buffer of `frameSmall`: the pixels `12, 11, ..., 1`. -/
def bufferSmall : List Nat := [12, 11, 10, 9, 8, 7, 6, 5, 4, 3, 2, 1]

/-- The values that a call of `getDataRange` stores in `min` and `max`, when it
ends with stored values. -/
def DataRange.values? : DataRange → Option (Int × Int)
  | DataRange.range min max _ _ => some (min, max)
  | _ => none

/-- The vector `v` of `SAMPLE_CUTOFF` elements holds, from its last element to
its first in the order `r`, the `SAMPLE_CUTOFF` first values in the order `r`
among `SAMPLE_CUTOFF` copies of `M` and the values `seen`: the other values
`R` all come after the elements of `v`. -/
def KeepsFirst (r : Int → Int → Prop) (M : Int) (v seen : List Int) : Prop :=
  v.length = SAMPLE_CUTOFF ∧ v.Pairwise (fun a b => r b a) ∧
  ∃ R : List Int, (v ++ R).Perm (List.replicate SAMPLE_CUTOFF M ++ seen) ∧
    ∀ x ∈ v, ∀ y ∈ R, r x y

/-- The indexes that the first call of `randomIndexes` in a program returns for
`RANDOM_SAMPLE_SIZE` and `max`. -/
def firstIndexes (max : Int) : List Int :=
  (randomIndexesLoop max RANDOM_SAMPLE_SIZE RandomState.initial.s_seed []).2

/-- The static locals of `randomIndexes` after the first call in a program, for
`RANDOM_SAMPLE_SIZE` and `max`. -/
def firstRandom (max : Int) : RandomState :=
  { s_length := RANDOM_SAMPLE_SIZE, s_max := max
    s_seed := (randomIndexesLoop max RANDOM_SAMPLE_SIZE RandomState.initial.s_seed []).1
    s_indexes := firstIndexes max }

/-- The buffer of `framePixel` with the pixel `16777217`, that is `2 ^ 24 + 1`. -/
def bufferPixel : List Nat := encodeValue DataTypeInt32 16777217

/-- The values that `getDataRange` samples in `frameSmall` with the buffer
`bufferSmall` for the indexes of the first call of `randomIndexes`: the pixel
at the index `i` is `12 - i`. -/
def valuesSmall : List Int := (firstIndexes 12).map (fun i => 12 - i)
/-! ## DM3 tag streams whose leaf tags hold one value of a simple type -/

/-- An entry of a DM3 tag stream as the format lays it out: a leaf tag with its
name (`none` for the name length 0), the type code of its single value and the
bytes of the value, or a directory with its name and its entries. -/
inductive Dm3Entry where
  | tag (name : Option String) (type : Int) (value : List Nat)
  | directory (name : Option String) (entries : List Dm3Entry)
  deriving Repr

mutual
/-- The nesting of an entry with the names as the stream holds them. -/
def Dm3Entry.raw : Dm3Entry → RawTree
  | Dm3Entry.tag name _ _ => RawTree.tag name
  | Dm3Entry.directory name entries => RawTree.directory name (Dm3Entry.rawList entries)
/-- The nesting of a list of entries with the names as the stream holds them. -/
def Dm3Entry.rawList : List Dm3Entry → List RawTree
  | [] => []
  | e :: es => e.raw :: Dm3Entry.rawList es
end

mutual
/-- The bytes of an entry: a leaf tag with an info array of one type code and
the bytes of its value, or the start of a directory that declares the number of
its entries, followed by the entries. An entry without name has the name
length 0. -/
def Dm3Entry.encode : Dm3Entry → List Nat
  | Dm3Entry.tag name type value => dm3Tag (name.getD "") [type] value
  | Dm3Entry.directory name entries =>
    dm3Directory (name.getD "") entries.length ++ Dm3Entry.encodeList entries
/-- The bytes of a list of entries, one after the other. -/
def Dm3Entry.encodeList : List Dm3Entry → List Nat
  | [] => []
  | e :: es => e.encode ++ Dm3Entry.encodeList es
end

/-- A name that the stream can hold as a name: not empty, shorter than `2 ^ 16`
(the name length has two bytes) and of non-zero 7-bit characters (the name is
read as a C string); or no name. -/
def dm3NameOk (name : Option String) : Bool :=
  match name with
  | none => true
  | some n =>
    decide (0 < n.length) && decide (n.length < 65536) &&
    n.data.all (fun c => decide (0 < c.toNat) && decide (c.toNat < 128))

mutual
/-- The entry is one of a stream of the format with simple values only: the
names are names of the format, a leaf tag has the type code of a simple type
(`short`, `long`, `ushort`, `ulong`, `float`, `double`, `bool`, `char`,
`octet`) and as many value bytes as the type has, and a directory has fewer
than `2 ^ 31` entries (the count is a signed word). -/
def Dm3Entry.wellFormed : Dm3Entry → Bool
  | Dm3Entry.tag name type value =>
    dm3NameOk name && decide (type ∈ [2, 3, 4, 5, 6, 7, 8, 9, 10]) &&
    decide ((value.length : Int) = dm3TypeDepth type) && value.all (fun b => decide (b < 256))
  | Dm3Entry.directory name entries =>
    dm3NameOk name && decide (entries.length < 2147483648) && Dm3Entry.wellFormedList entries
/-- All entries of the list are entries of a stream of the format with simple
values only. -/
def Dm3Entry.wellFormedList : List Dm3Entry → Bool
  | [] => true
  | e :: es => e.wellFormed && Dm3Entry.wellFormedList es
end

/-- The DM3 stream of a list of root entries: the header that declares their
number, the entries and the end-of-stream section code. -/
def dm3Stream (forest : List Dm3Entry) : List Nat :=
  dm3Header forest.length ++ Dm3Entry.encodeList forest ++ [0]

/-- The number of passes of the loop of `loadDm3` over a list of entries: one
for each entry, at every depth. -/
def Dm3Entry.passes (forest : List Dm3Entry) : Nat :=
  (RawTree.sectionsList (Dm3Entry.rawList forest)).length

/-- A stream with a tag `S` that holds a string (type code `0x12`) of 8
characters: the 16 bytes of the string are the bytes that a leaf tag without
name with the value `A` of type `char` has; a tag without name with a value of
type `long` follows. -/
def dm3String : List Nat :=
  dm3Header 2 ++ dm3Tag "S" [0x12, 8] (dm3Tag "" [9] [65]) ++ dm3Tag "" [3] (leBytes 4 5) ++ [0]

/-- Every node on `nodeStack` is a node of the tree of the model. -/
def FileManager.Dm3Loop.nodesOk (s : FileManager.Dm3Loop) : Prop :=
  ∀ p ∈ s.nodeStack, (s.model.m_root.at? p).isSome = true

/-- The locals with which `loadDm3` enters its loop on a model, for a stream
whose header (18 bytes) declares `tagCount` root entries: the Group `dm3` was
added to the children of the root and is the only node on `nodeStack`. -/
def FileManager.dm3LoopStart (emdModel : Model) (tagCount : Int) : FileManager.Dm3Loop :=
  { pos := 18
    model := ((emdModel.addNode "dm3" GROUP none).map Prod.fst).getD emdModel
    nodeStack := [((emdModel.addNode "dm3" GROUP none).map Prod.snd).getD []]
    tagsRemainingStack := [], utcStack := []
    tagsRemaining := tagCount, unnamedTagCount := 1, tagName := none, dataList := []
    dataTypeList := [], endOfFile := false, readError := false, warnings := [] }
/-! # Theorems

## The element address of an index vector -/

theorem wrapInt32_eq_self {x : Int} (h1 : -2147483648 ≤ x) (h2 : x < 2147483648) :
    wrapInt32 x = x := by
  unfold wrapInt32
  rw [Int.bmod_def]
  simp only [Nat.cast_ofNat]
  split <;> omega

theorem offsetFold_wrap (f : Nat → Int × Int) (l : List Nat) (a s : Int) :
    l.foldl (fun st iii => (wrapInt32 (st.1 + wrapInt32 ((f iii).1 * st.2)),
        wrapInt32 (st.2 * (f iii).2))) (wrapInt32 a, wrapInt32 s)
      = (wrapInt32 (a + s * mixedRadix (l.map f)), wrapInt32 (s * radixProd (l.map f))) := by
  induction l generalizing a s with
  | nil => simp [mixedRadix, radixProd]
  | cons x l ih =>
    simp only [List.foldl_cons, List.map_cons, mixedRadix, radixProd]
    have e1 : wrapInt32 (wrapInt32 a + wrapInt32 ((f x).1 * wrapInt32 s))
        = wrapInt32 (a + (f x).1 * s) := by
      simp [wrapInt32, Int.bmod_add_bmod_congr, Int.add_bmod_bmod, Int.mul_bmod_bmod]
    have e2 : wrapInt32 (wrapInt32 s * (f x).2) = wrapInt32 (s * (f x).2) := by
      simp [wrapInt32, Int.bmod_mul_bmod]
    rw [e1, e2, ih]
    congr 2 <;> ring

theorem radixProd_pos (l : List (Int × Int)) (h : ∀ p ∈ l, 1 ≤ p.2) : 1 ≤ radixProd l := by
  induction l with
  | nil => simp [radixProd]
  | cons p r ih =>
    have hp := h p (List.mem_cons_self _ _)
    have hr := ih (fun q hq => h q (List.mem_cons_of_mem _ hq))
    simp only [radixProd]
    nlinarith

theorem mixedRadix_range (l : List (Int × Int)) (h : digitsOk l) :
    0 ≤ mixedRadix l ∧ mixedRadix l < radixProd l := by
  induction l with
  | nil => simp [mixedRadix, radixProd]
  | cons p r ih =>
    have hp := h p (List.mem_cons_self _ _)
    have hr := ih (fun q hq => h q (List.mem_cons_of_mem _ hq))
    simp only [mixedRadix, radixProd]
    constructor
    · nlinarith
    · nlinarith

theorem mixedRadix_inj (l l' : List (Int × Int)) (h : digitsOk l) (h' : digitsOk l')
    (hs : l.map Prod.snd = l'.map Prod.snd) (he : mixedRadix l = mixedRadix l') : l = l' := by
  induction l generalizing l' with
  | nil =>
    cases l' with
    | nil => rfl
    | cons q r' => simp at hs
  | cons p r ih =>
    cases l' with
    | nil => simp at hs
    | cons q r' =>
      simp only [List.map_cons, List.cons.injEq] at hs
      have hp := h p (List.mem_cons_self _ _)
      have hq := h' q (List.mem_cons_self _ _)
      simp only [mixedRadix] at he
      have hn : p.2 = q.2 := hs.1
      rw [← hn] at he hq
      have e1 : p.1 = q.1 := by
        have := congrArg (fun z => z % p.2) he
        simp only [Int.add_mul_emod_self_left] at this
        rwa [Int.emod_eq_of_lt hp.1 hp.2, Int.emod_eq_of_lt hq.1 hq.2] at this
      have e2 : mixedRadix r = mixedRadix r' := by
        have hpos : (0 : Int) < p.2 := by omega
        have : p.2 * mixedRadix r = p.2 * mixedRadix r' := by omega
        exact Int.eq_of_mul_eq_mul_left (by omega) this
      have := ih r' (fun x hx => h x (List.mem_cons_of_mem _ hx))
        (fun x hx => h' x (List.mem_cons_of_mem _ hx)) hs.2 e2
      rw [this]
      congr 1
      exact Prod.ext e1 hn

theorem mixedRadix_surj (ns : List Int) (hn : ∀ n ∈ ns, 1 ≤ n) (o : Int) (h0 : 0 ≤ o)
    (h1 : o < ns.prod) :
    ∃ l : List (Int × Int), l.map Prod.snd = ns ∧ digitsOk l ∧ mixedRadix l = o := by
  induction ns generalizing o with
  | nil =>
    refine ⟨[], rfl, ?_, ?_⟩
    · intro p hp; simp at hp
    · simp at h1; simp [mixedRadix]; omega
  | cons n r ih =>
    have hpos : 1 ≤ n := hn n (List.mem_cons_self _ _)
    have hnpos : (0 : Int) < n := by omega
    simp only [List.prod_cons] at h1
    have hq0 : 0 ≤ o / n := Int.ediv_nonneg h0 (by omega)
    have hq1 : o / n < r.prod := by
      apply Int.ediv_lt_of_lt_mul hnpos
      rw [mul_comm]; exact h1
    obtain ⟨l, hl1, hl2, hl3⟩ := ih (fun x hx => hn x (List.mem_cons_of_mem _ hx)) (o / n) hq0 hq1
    refine ⟨(o % n, n) :: l, by simp [hl1], ?_, ?_⟩
    · intro p hp
      rcases List.mem_cons.1 hp with rfl | hp
      · exact ⟨Int.emod_nonneg _ (by omega), Int.emod_lt_of_pos _ hnpos⟩
      · exact hl2 p hp
    · simp only [mixedRadix, hl3]
      exact Int.emod_add_ediv o n

theorem DataSpace.dimLength_eq_getD (s : DataSpace) (hv : s.isValid = true) (a : Nat) :
    s.dimLength a = s.m_dimLengths.getD a 0 := by
  simp only [DataSpace.isValid, Bool.and_eq_true, decide_eq_true_eq] at hv
  unfold DataSpace.dimLength
  split
  · rename_i h
    rw [List.getD_eq_default]
    omega
  · simp

theorem map_range_zip (n : Nat) (xs ys : List Int) (hx : xs.length = n) (hy : ys.length = n) :
    (List.range n).map (fun a => (xs.getD a 0, ys.getD a 0)) = xs.zip ys := by
  apply List.ext_getElem
  · simp [hx, hy]
  · intro i h1 h2
    simp at h1 h2
    simp [List.getD_eq_getElem, h2.1, h2.2]

theorem radixProd_eq (l : List (Int × Int)) : radixProd l = (l.map Prod.snd).prod := by
  induction l with
  | nil => rfl
  | cons p r ih => simp [radixProd, ih]

theorem radixProd_reverse (l : List (Int × Int)) : radixProd l.reverse = radixProd l := by
  simp [radixProd_eq, List.prod_reverse]

theorem visitedDigits_eq (d : Dataset) (hv : d.m_space.isValid = true) (idx : List Int)
    (hl : (idx.length : Int) = d.m_space.rank) :
    (axisOrder d.m_space.rank d.m_descendingData).map
      (fun a => (idx.getD a 0, d.m_space.dimLength a)) = visitedDigits d idx := by
  have hv' := hv
  simp only [DataSpace.isValid, Bool.and_eq_true, decide_eq_true_eq] at hv'
  have h1 : idx.length = d.m_space.rank.toNat := by omega
  have h2 : d.m_space.m_dimLengths.length = d.m_space.rank.toNat := by
    simp only [DataSpace.rank]; omega
  have h3 : (fun a : Nat => (idx.getD a 0, d.m_space.dimLength a))
      = (fun a : Nat => (idx.getD a 0, d.m_space.m_dimLengths.getD a 0)) := by
    funext a; rw [DataSpace.dimLength_eq_getD _ hv]
  rw [h3]
  unfold axisOrder visitedDigits
  split
  · rw [List.map_reverse, map_range_zip _ _ _ h1 h2]
  · rw [map_range_zip _ _ _ h1 h2]

theorem sliceOffset_eq (d : Dataset) (hv : d.m_space.isValid = true) (idx : List Int)
    (hl : (idx.length : Int) = d.m_space.rank) (hg : d.sliceExceeds idx = false) :
    d.sliceOffset idx = some (wrapInt32 (mixedRadix (visitedDigits d idx))) := by
  unfold Dataset.sliceOffset
  rw [if_neg (by simpa using hl), hg]
  simp only [Bool.false_eq_true, if_false, Option.some.injEq]
  have := offsetFold_wrap (fun a => (idx.getD a 0, d.m_space.dimLength a))
    (axisOrder d.m_space.rank d.m_descendingData) 0 1
  rw [visitedDigits_eq d hv idx hl] at this
  have e0 : wrapInt32 0 = 0 := by decide
  have e1 : wrapInt32 1 = 1 := by decide
  rw [e0, e1] at this
  unfold Dataset.offsetStep
  rw [this]
  simp

theorem inBounds_iff (d : Dataset) (hv : d.m_space.isValid = true)
    (ht : d.m_truncatedDim = false) (idx : List Int) :
    d.inBounds idx = true ↔
      idx.length = d.m_space.m_dimLengths.length ∧ digitsOk (idx.zip d.m_space.m_dimLengths) := by
  have hv' := hv
  simp only [DataSpace.isValid, Bool.and_eq_true, decide_eq_true_eq] at hv'
  have hdl : ∀ a : Nat, d.dimLength a = d.m_space.m_dimLengths.getD a 0 := by
    intro a
    unfold Dataset.dimLength
    rw [ht]
    simp [DataSpace.dimLength_eq_getD _ hv]
  unfold Dataset.inBounds Dataset.dimCount DataSpace.rank
  simp only [Bool.and_eq_true, decide_eq_true_eq, List.all_eq_true, List.mem_range, hdl]
  constructor
  · rintro ⟨h1, h2⟩
    have hlen : idx.length = d.m_space.m_dimLengths.length := by omega
    refine ⟨hlen, ?_⟩
    intro p hp
    obtain ⟨i, hi, rfl⟩ := List.mem_iff_getElem.1 hp
    simp at hi
    have := h2 i (by omega)
    simp only [List.getElem_zip]
    rw [List.getD_eq_getElem _ _ hi.1, List.getD_eq_getElem _ _ hi.2] at this
    exact this
  · rintro ⟨h1, h2⟩
    refine ⟨by omega, ?_⟩
    intro a ha
    have ha1 : a < idx.length := by omega
    have ha2 : a < d.m_space.m_dimLengths.length := by omega
    have hmem : (idx[a], d.m_space.m_dimLengths[a]) ∈ idx.zip d.m_space.m_dimLengths := by
      apply List.mem_iff_getElem.2
      exact ⟨a, by simp [ha1, ha2], by simp⟩
    have := h2 _ hmem
    rw [List.getD_eq_getElem _ _ ha1, List.getD_eq_getElem _ _ ha2]
    exact this

theorem sliceExceeds_false (d : Dataset) (hv : d.m_space.isValid = true) (idx : List Int)
    (hlen : idx.length = d.m_space.m_dimLengths.length)
    (hd : digitsOk (idx.zip d.m_space.m_dimLengths)) : d.sliceExceeds idx = false := by
  have hv' := hv
  simp only [DataSpace.isValid, Bool.and_eq_true, decide_eq_true_eq] at hv'
  unfold Dataset.sliceExceeds DataSpace.rank
  rw [List.any_eq_false]
  intro a ha
  simp only [List.mem_range] at ha
  have ha2 : a < d.m_space.m_dimLengths.length := by omega
  have ha1 : a < idx.length := by omega
  have hmem : (idx[a], d.m_space.m_dimLengths[a]) ∈ idx.zip d.m_space.m_dimLengths := by
    apply List.mem_iff_getElem.2
    exact ⟨a, by simp [ha1, ha2], by simp⟩
  have := hd _ hmem
  rw [DataSpace.dimLength_eq_getD _ hv, List.getD_eq_getElem _ _ ha1,
    List.getD_eq_getElem _ _ ha2]
  simp only [decide_eq_true_eq, not_le]
  exact this.2

theorem digitsOk_reverse (l : List (Int × Int)) : digitsOk l.reverse ↔ digitsOk l := by
  simp [digitsOk]

theorem visitedDigits_ok (d : Dataset) (idx : List Int)
    (hd : digitsOk (idx.zip d.m_space.m_dimLengths)) : digitsOk (visitedDigits d idx) := by
  unfold visitedDigits
  split
  · exact (digitsOk_reverse _).2 hd
  · exact hd

theorem visitedDigits_prod (d : Dataset) (idx : List Int)
    (hlen : idx.length = d.m_space.m_dimLengths.length) :
    radixProd (visitedDigits d idx) = d.elementCount := by
  have : radixProd (idx.zip d.m_space.m_dimLengths) = d.elementCount := by
    rw [radixProd_eq, List.map_snd_zip _ _ (by omega)]
    rfl
  unfold visitedDigits
  split
  · rw [radixProd_reverse, this]
  · exact this

theorem sliceOffset_of_inBounds (d : Dataset) (hv : d.m_space.isValid = true)
    (ht : d.m_truncatedDim = false) (hfit : d.elementCount < 2147483648)
    (idx : List Int) (hin : d.inBounds idx = true) :
    d.sliceOffset idx = some (mixedRadix (visitedDigits d idx)) ∧
      0 ≤ mixedRadix (visitedDigits d idx) ∧ mixedRadix (visitedDigits d idx) < d.elementCount := by
  obtain ⟨hlen, hd⟩ := (inBounds_iff d hv ht idx).1 hin
  have hv' := hv
  simp only [DataSpace.isValid, Bool.and_eq_true, decide_eq_true_eq] at hv'
  have hr := mixedRadix_range _ (visitedDigits_ok d idx hd)
  rw [visitedDigits_prod d idx hlen] at hr
  refine ⟨?_, hr⟩
  rw [sliceOffset_eq d hv idx (by simp only [DataSpace.rank]; omega)
    (sliceExceeds_false d hv idx hlen hd)]
  rw [wrapInt32_eq_self (by omega) (by omega)]

theorem zip_map_fst_snd (l : List (Int × Int)) :
    (l.map Prod.fst).zip (l.map Prod.snd) = l := by
  induction l with
  | nil => rfl
  | cons p r ih => simp [ih]

theorem exists_index_of_digits (d : Dataset) (hv : d.m_space.isValid = true)
    (ht : d.m_truncatedDim = false) (hfit : d.elementCount < 2147483648)
    (m : List (Int × Int)) (hm : m.map Prod.snd = d.m_space.m_dimLengths) (hd : digitsOk m) :
    d.inBounds (m.map Prod.fst) = true ∧
      d.sliceOffset (m.map Prod.fst) =
        some (mixedRadix (if d.m_descendingData then m.reverse else m)) := by
  have hz : (m.map Prod.fst).zip d.m_space.m_dimLengths = m := by
    rw [← hm, zip_map_fst_snd]
  have hin : d.inBounds (m.map Prod.fst) = true := by
    rw [inBounds_iff d hv ht]
    refine ⟨?_, by rw [hz]; exact hd⟩
    rw [← hm]; simp
  refine ⟨hin, ?_⟩
  rw [(sliceOffset_of_inBounds d hv ht hfit _ hin).1]
  unfold visitedDigits
  rw [hz]

/-- Claim C1, as amended: for a Dataset that is not truncated, has a valid data
space with every dimension length at least 1 and an element count that a 32-bit
`int` holds, the offset of `Dataset::variantDataValue(const Slice &)` maps the
in-bounds index vectors one-to-one onto `[0, elementCount)`, in either layout. -/
theorem sliceOffset_bijective_of_fits (d : Dataset) (hv : d.m_space.isValid = true)
    (ht : d.m_truncatedDim = false) (hpos : ∀ n ∈ d.m_space.m_dimLengths, 1 ≤ n)
    (hfit : d.elementCount < 2147483648) :
    (∀ idx, d.inBounds idx = true →
        ∃ o, d.sliceOffset idx = some o ∧ 0 ≤ o ∧ o < d.elementCount) ∧
    (∀ idx idx', d.inBounds idx = true → d.inBounds idx' = true →
        d.sliceOffset idx = d.sliceOffset idx' → idx = idx') ∧
    (∀ o, 0 ≤ o → o < d.elementCount →
        ∃ idx, d.inBounds idx = true ∧ d.sliceOffset idx = some o) := by
  refine ⟨?_, ?_, ?_⟩
  · intro idx hin
    exact ⟨_, sliceOffset_of_inBounds d hv ht hfit idx hin⟩
  · intro idx idx' hin hin' he
    obtain ⟨hlen, hd⟩ := (inBounds_iff d hv ht idx).1 hin
    obtain ⟨hlen', hd'⟩ := (inBounds_iff d hv ht idx').1 hin'
    rw [(sliceOffset_of_inBounds d hv ht hfit idx hin).1,
      (sliceOffset_of_inBounds d hv ht hfit idx' hin').1] at he
    have he' : mixedRadix (visitedDigits d idx) = mixedRadix (visitedDigits d idx') :=
      Option.some.inj he
    have hs : (visitedDigits d idx).map Prod.snd = (visitedDigits d idx').map Prod.snd := by
      unfold visitedDigits
      split
      · rw [List.map_reverse, List.map_reverse, List.map_snd_zip _ _ (by omega),
          List.map_snd_zip _ _ (by omega)]
      · rw [List.map_snd_zip _ _ (by omega), List.map_snd_zip _ _ (by omega)]
    have hz := mixedRadix_inj _ _ (visitedDigits_ok d idx hd) (visitedDigits_ok d idx' hd') hs he'
    have hz' : idx.zip d.m_space.m_dimLengths = idx'.zip d.m_space.m_dimLengths := by
      unfold visitedDigits at hz
      split at hz
      · exact List.reverse_injective hz
      · exact hz
    have := congrArg (List.map Prod.fst) hz'
    rwa [List.map_fst_zip _ _ (by omega), List.map_fst_zip _ _ (by omega)] at this
  · intro o h0 h1
    by_cases hdesc : d.m_descendingData = true
    · obtain ⟨l, hl1, hl2, hl3⟩ := mixedRadix_surj d.m_space.m_dimLengths.reverse
        (by simpa using hpos) o h0 (by rw [List.prod_reverse]; exact h1)
      have hm : l.reverse.map Prod.snd = d.m_space.m_dimLengths := by
        rw [List.map_reverse, hl1, List.reverse_reverse]
      obtain ⟨k1, k2⟩ := exists_index_of_digits d hv ht hfit l.reverse hm
        ((digitsOk_reverse _).2 hl2)
      refine ⟨_, k1, ?_⟩
      rw [k2, if_pos hdesc, List.reverse_reverse, hl3]
    · obtain ⟨l, hl1, hl2, hl3⟩ := mixedRadix_surj d.m_space.m_dimLengths hpos o h0 h1
      obtain ⟨k1, k2⟩ := exists_index_of_digits d hv ht hfit l hl1 hl2
      refine ⟨_, k1, ?_⟩
      rw [k2, if_neg hdesc, hl3]

theorem mem_zip_map_self (f : Int → Int) (ns : List Int) (p : Int × Int)
    (hp : p ∈ (ns.map f).zip ns) : p.1 = f p.2 ∧ p.2 ∈ ns := by
  induction ns with
  | nil => simp at hp
  | cons n r ih =>
    simp only [List.map_cons, List.zip_cons_cons, List.mem_cons] at hp
    rcases hp with rfl | hp
    · simp
    · exact ⟨(ih hp).1, List.mem_cons_of_mem _ (ih hp).2⟩

theorem mixedRadix_zero (l : List (Int × Int)) (h : ∀ p ∈ l, p.1 = 0) : mixedRadix l = 0 := by
  induction l with
  | nil => rfl
  | cons p r ih =>
    simp only [mixedRadix]
    rw [h p (List.mem_cons_self _ _), ih (fun q hq => h q (List.mem_cons_of_mem _ hq))]
    simp

theorem mixedRadix_max (l : List (Int × Int)) (h : ∀ p ∈ l, p.1 = p.2 - 1) :
    mixedRadix l = radixProd l - 1 := by
  induction l with
  | nil => rfl
  | cons p r ih =>
    simp only [mixedRadix, radixProd]
    rw [h p (List.mem_cons_self _ _), ih (fun q hq => h q (List.mem_cons_of_mem _ hq))]
    ring

theorem mem_visitedDigits (d : Dataset) (idx : List Int) (p : Int × Int) :
    p ∈ visitedDigits d idx ↔ p ∈ idx.zip d.m_space.m_dimLengths := by
  unfold visitedDigits
  split <;> simp

/-- Claim C2, as amended: for a Dataset with a valid data space and every
dimension length at least 1, in either layout, the all-zero index vector
resolves to offset 0, and when the element count fits a 32-bit `int` the
per-axis maximum index vector resolves to `elementCount - 1`. -/
theorem sliceOffset_zero_and_max (d : Dataset) (hv : d.m_space.isValid = true)
    (hpos : ∀ n ∈ d.m_space.m_dimLengths, 1 ≤ n) :
    d.sliceOffset (d.m_space.m_dimLengths.map (fun _ => 0)) = some 0 ∧
    (d.elementCount < 2147483648 →
      d.sliceOffset (d.m_space.m_dimLengths.map (fun n => n - 1)) = some (d.elementCount - 1)) := by
  have hv' := hv
  simp only [DataSpace.isValid, Bool.and_eq_true, decide_eq_true_eq] at hv'
  have hP : 1 ≤ d.elementCount := by
    have := radixProd_pos (d.m_space.m_dimLengths.map (fun n => ((0 : Int), n)))
      (by simpa using hpos)
    rw [radixProd_eq] at this
    simpa [Dataset.elementCount, Function.comp_def] using this
  constructor
  · have hd : digitsOk ((d.m_space.m_dimLengths.map (fun _ => (0 : Int))).zip
        d.m_space.m_dimLengths) := by
      intro p hp
      obtain ⟨h1, h2⟩ := mem_zip_map_self _ _ p hp
      have := hpos _ h2
      omega
    rw [sliceOffset_eq d hv _ (by simp [DataSpace.rank]; omega)
      (sliceExceeds_false d hv _ (by simp) hd)]
    rw [mixedRadix_zero]
    · rfl
    · intro p hp
      exact (mem_zip_map_self _ _ p ((mem_visitedDigits d _ p).1 hp)).1
  · intro hfit
    have hd : digitsOk ((d.m_space.m_dimLengths.map (fun n => n - 1)).zip
        d.m_space.m_dimLengths) := by
      intro p hp
      obtain ⟨h1, h2⟩ := mem_zip_map_self _ _ p hp
      have := hpos _ h2
      omega
    rw [sliceOffset_eq d hv _ (by simp [DataSpace.rank]; omega)
      (sliceExceeds_false d hv _ (by simp) hd)]
    rw [mixedRadix_max, visitedDigits_prod d _ (by simp)]
    · rw [wrapInt32_eq_self (by omega) (by omega)]
    · intro p hp
      exact (mem_zip_map_self _ _ p ((mem_visitedDigits d _ p).1 hp)).1

/-- Witness of C1: a 2 x 3 descending Dataset meets the hypotheses, and the index
vector `[1, 2]` is in bounds and resolves to an offset below 6. -/
theorem sliceOffset_bijective_witness :
    (Dataset.create 2 [2, 3] DataTypeInt32 none true).inBounds [1, 2] = true ∧
    ∃ o, (Dataset.create 2 [2, 3] DataTypeInt32 none true).sliceOffset [1, 2] = some o ∧
      0 ≤ o ∧ o < (Dataset.create 2 [2, 3] DataTypeInt32 none true).elementCount :=
  ⟨by decide,
   (sliceOffset_bijective_of_fits (Dataset.create 2 [2, 3] DataTypeInt32 none true)
      (by decide) (by decide) (by decide) (by decide)).1 [1, 2] (by decide)⟩

/-- Counterexample to C1 as stated: in a 65536 x 65536 Dataset of `UInt8` (4 GiB,
below the load ceiling) the in-bounds index vector `[32768, 0]` resolves to the
negative offset `-2147483648`, outside `[0, elementCount)`. -/
theorem sliceOffset_bijective_counterexample :
    (Dataset.create 2 [65536, 65536] DataTypeUInt8 none true).m_space.isValid = true ∧
    (Dataset.create 2 [65536, 65536] DataTypeUInt8 none true).m_truncatedDim = false ∧
    (Dataset.create 2 [65536, 65536] DataTypeUInt8 none true).inBounds [32768, 0] = true ∧
    (Dataset.create 2 [65536, 65536] DataTypeUInt8 none true).sliceOffset [32768, 0]
      = some (-2147483648) ∧
    ¬ ∃ o, (Dataset.create 2 [65536, 65536] DataTypeUInt8 none true).sliceOffset [32768, 0]
        = some o ∧ 0 ≤ o ∧
        o < (Dataset.create 2 [65536, 65536] DataTypeUInt8 none true).elementCount := by
  refine ⟨by decide, by decide, by decide, by decide, ?_⟩
  rintro ⟨o, h1, h2, -⟩
  have h : (Dataset.create 2 [65536, 65536] DataTypeUInt8 none true).sliceOffset [32768, 0]
      = some (-2147483648) := by decide
  rw [h] at h1
  have := Option.some.inj h1
  omega

/-- Witness of C2: a 2 x 3 x 4 ascending Dataset meets the hypotheses; the zero
index resolves to 0 and the maximum index `[1, 2, 3]` to 23. -/
theorem sliceOffset_zero_and_max_witness :
    (Dataset.create 3 [2, 3, 4] DataTypeInt32 none false).sliceOffset [0, 0, 0] = some 0 ∧
    (Dataset.create 3 [2, 3, 4] DataTypeInt32 none false).sliceOffset [1, 2, 3] = some 23 :=
  ⟨(sliceOffset_zero_and_max (Dataset.create 3 [2, 3, 4] DataTypeInt32 none false)
      (by decide) (by decide)).1,
   (sliceOffset_zero_and_max (Dataset.create 3 [2, 3, 4] DataTypeInt32 none false)
      (by decide) (by decide)).2 (by decide)⟩

/-- Counterexample to C2 as stated: in a 65536 x 65536 ascending Dataset the
per-axis maximum index vector resolves to `-1`, not to `elementCount - 1`. -/
theorem sliceOffset_max_counterexample :
    (Dataset.create 2 [65536, 65536] DataTypeUInt8 none false).m_space.isValid = true ∧
    (Dataset.create 2 [65536, 65536] DataTypeUInt8 none false).elementCount = 4294967296 ∧
    (Dataset.create 2 [65536, 65536] DataTypeUInt8 none false).sliceOffset [65535, 65535]
      = some (-1) ∧
    (Dataset.create 2 [65536, 65536] DataTypeUInt8 none false).sliceOffset [65535, 65535]
      ≠ some ((Dataset.create 2 [65536, 65536] DataTypeUInt8 none false).elementCount - 1) := by
  decide

/-! ## Typed reads and the round trip through the buffer -/

theorem encodeLE_length (w v : Nat) : (encodeLE w v).length = w := by
  induction w generalizing v with
  | zero => rfl
  | succ w ih => simp [encodeLE, ih]

theorem decodeLE_encodeLE (w v : Nat) : decodeLE (encodeLE w v) = v % 256 ^ w := by
  induction w generalizing v with
  | zero => simp [encodeLE, decodeLE, Nat.mod_one]
  | succ w ih =>
    simp only [encodeLE, decodeLE, ih, Nat.mod_mod]
    rw [pow_succ', Nat.mod_mul]

theorem flatten_chunk (w : Nat) (cs : List (List Nat)) (hc : ∀ c ∈ cs, c.length = w)
    (n : Nat) (hn : n < cs.length) :
    cs.flatten.length = cs.length * w ∧ (cs.flatten.drop (n * w)).take w = cs.getD n [] := by
  induction cs generalizing n with
  | nil => simp at hn
  | cons c r ih =>
    have hcl : c.length = w := hc c (List.mem_cons_self _ _)
    have hr : ∀ x ∈ r, x.length = w := fun x hx => hc x (List.mem_cons_of_mem _ hx)
    have hlen : r.flatten.length = r.length * w := by
      clear ih hn
      induction r with
      | nil => simp
      | cons x r ih2 =>
        simp only [List.flatten_cons, List.length_append, List.length_cons]
        rw [ih2 (fun y hy => hc y (by
            rcases List.mem_cons.1 hy with rfl | hy
            · exact List.mem_cons_self _ _
            · exact List.mem_cons_of_mem _ (List.mem_cons_of_mem _ hy)))
          (fun y hy => hr y (List.mem_cons_of_mem _ hy)), hr x (List.mem_cons_self _ _)]
        ring
    constructor
    · simp only [List.flatten_cons, List.length_append, List.length_cons, hlen, hcl]; ring
    · cases n with
      | zero =>
        simp only [Nat.zero_mul, List.drop_zero, List.flatten_cons, List.getD_cons_zero]
        rw [List.take_append_of_le_length (by omega), List.take_of_length_le (by omega)]
      | succ n =>
        simp only [List.flatten_cons, List.getD_cons_succ]
        have : (n + 1) * w = c.length + n * w := by rw [hcl]; ring
        rw [this, List.drop_append]
        exact (ih hr n (by simpa using hn)).2

theorem decodeValue_encodeValue (K : DataType) (hK : isNumeric K = true) (v : Int)
    (hv : validValue K v) : decodeValue K (encodeValue K v) = v := by
  unfold decodeValue encodeValue
  rw [decodeLE_encodeLE]
  cases K <;> simp [isNumeric] at hK <;>
    simp only [validValue, typeSigned, typeWidth, if_true, if_false, Bool.false_eq_true] at hv <;>
    simp only [typeSigned, typeWidth, wrapSigned, wrapUnsigned, if_true, if_false,
      Bool.false_eq_true, Int.bmod_def] <;>
    norm_num at hv ⊢ <;>
    omega

theorem typeWidth_pos (K : DataType) (hK : isNumeric K = true) : 0 < typeWidth K := by
  cases K <;> simp [isNumeric] at hK <;> simp [typeWidth]

theorem value_storeElements (K : DataType) (hK : isNumeric K = true) (vs : List Int)
    (hvs : ∀ v ∈ vs, validValue K v) (n : Nat) (hn : n < vs.length) :
    Dataset.value (storeElements K vs) K n = some (vs.getD n 0) := by
  have hc : ∀ c ∈ vs.map (encodeValue K), c.length = typeWidth K := by
    intro c hc
    obtain ⟨v, -, rfl⟩ := List.mem_map.1 hc
    exact encodeLE_length _ _
  obtain ⟨h1, h2⟩ := flatten_chunk (typeWidth K) (vs.map (encodeValue K)) hc n (by simpa using hn)
  unfold Dataset.value readBytes storeElements
  have hw := typeWidth_pos K hK
  have hle : (n : Int) * (typeWidth K : Int) + (typeWidth K : Int)
      ≤ ((vs.map (encodeValue K)).flatten.length : Int) := by
    rw [h1]
    simp only [List.length_map]
    have : (n + 1) * typeWidth K ≤ vs.length * typeWidth K := Nat.mul_le_mul_right _ hn
    have h' : ((n + 1) * typeWidth K : Int) ≤ (vs.length * typeWidth K : Int) := by
      exact_mod_cast this
    push_cast
    linarith
  have h0 : (0 : Int) ≤ (n : Int) * (typeWidth K : Int) := by positivity
  rw [if_pos ⟨h0, hle⟩]
  have ht : ((n : Int) * (typeWidth K : Int)).toNat = n * typeWidth K := by
    have : ((n : Int) * (typeWidth K : Int)) = ((n * typeWidth K : Nat) : Int) := by push_cast; rfl
    rw [this, Int.toNat_natCast]
  rw [ht, h2]
  simp only [Option.map_some', Option.some.injEq]
  rw [List.getD_eq_getElem _ _ (by simpa using hn), List.getElem_map,
    List.getD_eq_getElem _ _ hn]
  exact decodeValue_encodeValue K hK _ (hvs _ (List.getElem_mem _))

theorem variantDataValue_numeric (d : Dataset) (K : DataType) (hK : isNumeric K = true)
    (ht : d.m_truncatedDim = false) (htype : d.m_dataType = K) (buf : List Nat)
    (hdata : d.m_data = some buf) (index : Int) :
    d.variantDataValue index = (Dataset.value buf K index).map (toVariant K) := by
  unfold Dataset.variantDataValue
  rw [hdata, htype]
  cases K <;> simp [isNumeric] at hK <;> simp [Dataset.integerCase, ht]

/-- Claim C3, as amended: in a loaded Dataset that is not truncated, with a valid
data space and an element count that a 32-bit `int` holds, every in-bounds
index vector resolves to an element number `o` inside the buffer, and
`Dataset::variantDataValue(const Slice &)` returns, for each of the ten numeric
kinds, exactly the value stored as element `o` of the typed array, and for the
kind `Bool` the number `o` itself. -/
theorem variantDataValueSlice_roundTrip (d : Dataset) (hv : d.m_space.isValid = true)
    (ht : d.m_truncatedDim = false) (hfit : d.elementCount < 2147483648)
    (idx : List Int) (hin : d.inBounds idx = true) :
    ∃ o, d.sliceOffset idx = some o ∧ 0 ≤ o ∧ o < d.elementCount ∧
      (∀ K vs, isNumeric K = true → d.m_dataType = K →
        d.m_data = some (storeElements K vs) → (vs.length : Int) = d.elementCount →
        (∀ v ∈ vs, validValue K v) →
        d.variantDataValueSlice idx = some (toVariant K (vs.getD o.toNat 0))) ∧
      (∀ buf, d.m_dataType = DataTypeBool → d.m_data = some buf →
        d.variantDataValueSlice idx = some (QVariant.int o)) := by
  obtain ⟨h1, h2, h3⟩ := sliceOffset_of_inBounds d hv ht hfit idx hin
  refine ⟨_, h1, h2, h3, ?_, ?_⟩
  · intro K vs hK htype hdata hlen hvals
    unfold Dataset.variantDataValueSlice
    rw [h1]
    simp only
    rw [variantDataValue_numeric d K hK ht htype _ hdata]
    have hn : (mixedRadix (visitedDigits d idx)).toNat < vs.length := by omega
    have := value_storeElements K hK vs hvals _ hn
    rw [Int.toNat_of_nonneg h2] at this
    rw [this]
    rfl
  · intro buf htype hdata
    unfold Dataset.variantDataValueSlice
    rw [h1]
    simp only [Dataset.variantDataValue, hdata, htype]

/-- Witness of C3: a descending 2 x 2 `Int16` Dataset holding `-10, 13, 7, 9`
meets the hypotheses; the index vector `[1, 0]` reads element 2, the value 7. -/
theorem variantDataValueSlice_roundTrip_witness :
    (Dataset.create 2 [2, 2] DataTypeInt16
        (some (storeElements DataTypeInt16 [-10, 13, 7, 9])) true).variantDataValueSlice [1, 0]
      = some (QVariant.int 7) := by
  obtain ⟨o, ho, -, -, hnum, -⟩ := variantDataValueSlice_roundTrip
    (Dataset.create 2 [2, 2] DataTypeInt16
      (some (storeElements DataTypeInt16 [-10, 13, 7, 9])) true)
    (by decide) (by decide) (by decide) [1, 0] (by decide)
  have h2 : (Dataset.create 2 [2, 2] DataTypeInt16
      (some (storeElements DataTypeInt16 [-10, 13, 7, 9])) true).sliceOffset [1, 0]
      = some 2 := by decide
  rw [h2] at ho
  have ho' : o = 2 := (Option.some.inj ho).symm
  subst ho'
  have := hnum DataTypeInt16 [-10, 13, 7, 9] (by decide) (by decide) (by decide) (by decide)
    (by
      intro v hv
      simp only [List.mem_cons, List.mem_singleton, List.not_mem_nil, or_false] at hv
      rcases hv with rfl | rfl | rfl | rfl <;>
        simp [validValue, typeSigned, typeWidth])
  exact this

/-- Counterexample to C3 as stated: for the kinds `Bool` and `String` the result
does not depend on what the buffer stores. A `Bool` Dataset returns the element
number 1 whether element 1 is `false` or `true`, and a `String` Dataset of
4-byte strings returns the empty string for the stored text `"EFGH"`. -/
theorem variantDataValueSlice_roundTrip_counterexample :
    (Dataset.create 1 [2] DataTypeBool (some [0, 0]) true).inBounds [1] = true ∧
    (Dataset.create 1 [2] DataTypeBool (some [0, 0]) true).variantDataValueSlice [1]
      = some (QVariant.int 1) ∧
    (Dataset.create 1 [2] DataTypeBool (some [0, 1]) true).variantDataValueSlice [1]
      = some (QVariant.int 1) ∧
    ({ Dataset.create 1 [2] DataTypeString (some [65, 66, 67, 68, 69, 70, 71, 72]) true with
        m_dataTypeSize := 4 }).variantDataValueSlice [1] = some (QVariant.string "") := by
  decide

/-! ## Guards of the slice lookup and truncated dimensions -/

/-- A slice whose length differs from the rank, or one of whose components
reaches the length of its axis, gets the invalid `QVariant()`. -/
theorem variantDataValueSlice_invalid (d : Dataset) (slice : List Int)
    (h : (slice.length : Int) ≠ d.m_space.rank ∨
      ∃ a : Nat, (a : Int) < d.m_space.rank ∧ d.m_space.dimLength a ≤ slice.getD a 0) :
    d.variantDataValueSlice slice = some QVariant.invalid := by
  have hnone : d.sliceOffset slice = none := by
    unfold Dataset.sliceOffset
    rcases h with h | ⟨a, ha, hle⟩
    · rw [if_pos h]
    · have : d.sliceExceeds slice = true := by
        unfold Dataset.sliceExceeds
        rw [List.any_eq_true]
        exact ⟨a, by simp only [List.mem_range]; omega, by simpa using hle⟩
      rw [this]
      simp
  unfold Dataset.variantDataValueSlice
  rw [hnone]

/-- Claim C4, the code at the failing input: in a descending 2 x 3 `Int32`
Dataset holding `10 .. 15` the slice `[1, -1]` has a negative component, yet it
passes both guards, resolves to element 2 and returns the value 12 stored at
`[0, 2]`; and the slice `[-1]` of a rank-1 Dataset resolves to element `-1`,
which is read before the start of the buffer. -/
theorem variantDataValueSlice_negative_component :
    (Dataset.create 2 [2, 3] DataTypeInt32
        (some (storeElements DataTypeInt32 [10, 11, 12, 13, 14, 15])) true).sliceOffset [1, -1]
      = some 2 ∧
    (Dataset.create 2 [2, 3] DataTypeInt32
        (some (storeElements DataTypeInt32 [10, 11, 12, 13, 14, 15])) true).variantDataValueSlice
        [1, -1] = some (QVariant.int 12) ∧
    (Dataset.ofLength 5 DataTypeInt32 true).sliceOffset [-1] = some (-1) ∧
    (Dataset.ofLength 5 DataTypeInt32 true).variantDataValueSlice [-1] = none := by
  decide

theorem wrapInt32_extrapolate (a b i : Int) :
    wrapInt32 (a + wrapInt32 (i * wrapInt32 (b - a))) = wrapInt32 (a + i * (b - a)) := by
  simp [wrapInt32, Int.add_bmod_bmod, Int.mul_bmod_bmod]

theorem value_pair (a b : Int) (ha : validValue DataTypeInt32 a)
    (hb : validValue DataTypeInt32 b) :
    Dataset.value (storeElements DataTypeInt32 [a, b]) DataTypeInt32 0 = some a ∧
    Dataset.value (storeElements DataTypeInt32 [a, b]) DataTypeInt32 1 = some b := by
  have hvs : ∀ v ∈ [a, b], validValue DataTypeInt32 v := by
    intro v hv
    simp only [List.mem_cons, List.mem_singleton, List.not_mem_nil, or_false] at hv
    rcases hv with rfl | rfl <;> assumption
  have h0 := value_storeElements DataTypeInt32 (by decide) [a, b] hvs 0 (by simp)
  have h1 := value_storeElements DataTypeInt32 (by decide) [a, b] hvs 1 (by simp)
  exact ⟨by simpa using h0, by simpa using h1⟩

/-- Claim C5, as amended: a rank-1 `Int32` Dataset of declared length 2 whose
buffer holds `[a, b]` is, after `setTrueLength(L)`, in truncated mode with
`dimLength(0) = L`, and its scalar at every index `i` is `a + i * (b - a)`
computed in 32-bit two's-complement arithmetic, hence equal to
`a + i * (b - a)` whenever that number is an `Int32`. -/
theorem variantDataValue_truncated (d : Dataset) (a b L : Int)
    (hrank : d.dimCount = 1) (hlen : d.dimLength 0 = 2) (htype : d.m_dataType = DataTypeInt32)
    (hdata : d.m_data = some (storeElements DataTypeInt32 [a, b]))
    (ha : validValue DataTypeInt32 a) (hb : validValue DataTypeInt32 b) :
    (d.setTrueLength L).m_truncatedDim = true ∧ (d.setTrueLength L).dimLength 0 = L ∧
    ∀ i : Int,
      (d.setTrueLength L).variantDataValue i
        = some (QVariant.int (wrapInt32 (a + i * (b - a)))) ∧
      (-2147483648 ≤ a + i * (b - a) → a + i * (b - a) < 2147483648 →
        (d.setTrueLength L).variantDataValue i = some (QVariant.int (a + i * (b - a)))) := by
  have hs : d.setTrueLength L = { d with m_trueLength := L, m_truncatedDim := true } := by
    unfold Dataset.setTrueLength
    rw [if_neg (by simp [hrank]), if_neg (by simp [hlen])]
  obtain ⟨h0, h1⟩ := value_pair a b ha hb
  have key : ∀ i : Int, (d.setTrueLength L).variantDataValue i
      = some (QVariant.int (wrapInt32 (a + i * (b - a)))) := by
    intro i
    rw [hs]
    simp only [Dataset.variantDataValue, hdata, htype, Dataset.integerCase, if_true,
      Dataset.extrapolate, h0, h1, Option.map_some', toVariant, narrow, arith]
    rw [wrapInt32_extrapolate]
  refine ⟨by rw [hs], by rw [hs]; simp [Dataset.dimLength], ?_⟩
  intro i
  refine ⟨key i, ?_⟩
  intro h1 h2
  rw [key i, wrapInt32_eq_self h1 h2]

/-- Witness of C5: the calibration buffer `[10, 13]` with true length 5 yields
`10, 13, 16, 19, 22` at the indices `0 .. 4`. -/
theorem variantDataValue_truncated_witness :
    ((Dataset.create 1 [2] DataTypeInt32 (some (storeElements DataTypeInt32 [10, 13]))
        false).setTrueLength 5).dimLength 0 = 5 ∧
    [0, 1, 2, 3, 4].map ((Dataset.create 1 [2] DataTypeInt32
        (some (storeElements DataTypeInt32 [10, 13])) false).setTrueLength 5).variantDataValue
      = [some (QVariant.int 10), some (QVariant.int 13), some (QVariant.int 16),
          some (QVariant.int 19), some (QVariant.int 22)] := by
  have h := variantDataValue_truncated
    (Dataset.create 1 [2] DataTypeInt32 (some (storeElements DataTypeInt32 [10, 13])) false)
    10 13 5 (by decide) (by decide) (by decide) (by decide)
    (by simp [validValue, typeSigned, typeWidth]) (by simp [validValue, typeSigned, typeWidth])
  refine ⟨h.2.1, ?_⟩
  simp only [List.map_cons, List.map_nil]
  rw [(h.2.2 0).2 (by norm_num) (by norm_num), (h.2.2 1).2 (by norm_num) (by norm_num),
    (h.2.2 2).2 (by norm_num) (by norm_num), (h.2.2 3).2 (by norm_num) (by norm_num),
    (h.2.2 4).2 (by norm_num) (by norm_num)]
  norm_num

/-- Counterexample to C5 as stated: with the buffer `[0, 1073741824]` and true
length 5 the scalar at index 2 is `-2147483648`, not `0 + 2 * 1073741824`. -/
theorem variantDataValue_truncated_counterexample :
    ((Dataset.create 1 [2] DataTypeInt32
        (some (storeElements DataTypeInt32 [0, 1073741824])) false).setTrueLength
        5).variantDataValue 2 = some (QVariant.int (-2147483648)) ∧
    ((Dataset.create 1 [2] DataTypeInt32
        (some (storeElements DataTypeInt32 [0, 1073741824])) false).setTrueLength
        5).variantDataValue 2 ≠ some (QVariant.int (0 + 2 * (1073741824 - 0))) := by
  decide

/-! ## Frame extraction: the result of the loop -/

theorem foldlM_frameStep_roles (d : Dataset) (slice : List Int) (l : List Nat)
    (hl : ∀ i ∈ l, i < slice.length) (st : FrameLoop) :
    ∃ r, l.foldlM (d.frameStep slice) st = some r ∧
      (r.hor < 0 ↔ st.hor < 0 ∧ ∀ i ∈ l, slice.get? i ≠ some HorizontalDimension) ∧
      (r.ver < 0 ↔ st.ver < 0 ∧ ∀ i ∈ l, slice.get? i ≠ some VerticalDimension) ∧
      ((st.complexStep.isSome = true ∨ ∃ i ∈ l, (i : Int) = d.m_complexIndex ∧
          slice.get? i ≠ some HorizontalDimension ∧ slice.get? i ≠ some VerticalDimension) →
        r.complexStep.isSome = true) := by
  induction l generalizing st with
  | nil =>
    refine ⟨st, rfl, by simp, by simp, ?_⟩
    rintro (h | ⟨i, hi, -⟩)
    · exact h
    · simp at hi
  | cons i l ih =>
    have hi : i < slice.length := hl i (List.mem_cons_self _ _)
    have hget : slice.get? i = some slice[i] := by
      rw [List.get?_eq_getElem?, List.getElem?_eq_getElem hi]
    simp only [List.foldlM_cons, Dataset.frameStep, hget, Option.bind_eq_bind, Option.some_bind]
    by_cases hH : slice[i] = HorizontalDimension
    · simp only [hH, if_true]
      obtain ⟨r, hr, h1, h2, h3⟩ := ih (fun j hj => hl j (List.mem_cons_of_mem _ hj))
        { hor := i, ver := st.ver, hStep := st.step, vStep := st.vStep,
          complexStep := st.complexStep, offset := st.offset,
          step := wrapInt32 (st.step * d.m_space.dimLength i) }
      refine ⟨r, hr, ?_, ?_, ?_⟩
      · rw [h1]
        simp only [List.mem_cons, forall_eq_or_imp, hget, hH]
        constructor
        · intro h; omega
        · intro h; simp at h
      · rw [h2]
        simp only [List.mem_cons, forall_eq_or_imp, hget, hH]
        simp [HorizontalDimension, VerticalDimension]
      · rintro (h | ⟨j, hj, hc, hj1, hj2⟩)
        · exact h3 (Or.inl h)
        · rcases List.mem_cons.1 hj with rfl | hj
          · rw [hget, hH] at hj1
            exact absurd rfl hj1
          · exact h3 (Or.inr ⟨j, hj, hc, hj1, hj2⟩)
    · simp only [hH, if_false]
      by_cases hV : slice[i] = VerticalDimension
      · simp only [hV, if_true]
        obtain ⟨r, hr, h1, h2, h3⟩ := ih (fun j hj => hl j (List.mem_cons_of_mem _ hj))
          { hor := st.hor, ver := i, hStep := st.hStep, vStep := st.step,
            complexStep := st.complexStep, offset := st.offset,
            step := wrapInt32 (st.step * d.m_space.dimLength i) }
        refine ⟨r, hr, ?_, ?_, ?_⟩
        · rw [h1]
          simp only [List.mem_cons, forall_eq_or_imp, hget, hV]
          simp [HorizontalDimension, VerticalDimension]
        · rw [h2]
          simp only [List.mem_cons, forall_eq_or_imp, hget, hV]
          constructor
          · intro h; omega
          · intro h; simp at h
        · rintro (h | ⟨j, hj, hc, hj1, hj2⟩)
          · exact h3 (Or.inl h)
          · rcases List.mem_cons.1 hj with rfl | hj
            · rw [hget, hV] at hj2
              exact absurd rfl hj2
            · exact h3 (Or.inr ⟨j, hj, hc, hj1, hj2⟩)
      · simp only [hV, if_false]
        have hne1 : some slice[i] ≠ some HorizontalDimension := fun h => hH (Option.some.inj h)
        have hne2 : some slice[i] ≠ some VerticalDimension := fun h => hV (Option.some.inj h)
        by_cases hc : (i : Int) = d.m_complexIndex
        · simp only [hc, if_true]
          obtain ⟨r, hr, h1, h2, h3⟩ := ih (fun j hj => hl j (List.mem_cons_of_mem _ hj))
            { hor := st.hor, ver := st.ver, hStep := st.hStep, vStep := st.vStep,
              complexStep := some st.step, offset := st.offset,
              step := wrapInt32 (st.step * d.m_space.dimLength i) }
          refine ⟨r, by rw [← hc]; exact hr, ?_, ?_, ?_⟩
          · rw [h1]
            simp only [List.mem_cons, forall_eq_or_imp, hget]
            simp [hne1]
          · rw [h2]
            simp only [List.mem_cons, forall_eq_or_imp, hget]
            simp [hne2]
          · intro _
            exact h3 (Or.inl rfl)
        · simp only [hc, if_false]
          obtain ⟨r, hr, h1, h2, h3⟩ := ih (fun j hj => hl j (List.mem_cons_of_mem _ hj))
            { hor := st.hor, ver := st.ver, hStep := st.hStep, vStep := st.vStep,
              complexStep := st.complexStep,
              offset := wrapInt32 (st.offset + wrapInt32 (slice[i] * st.step)),
              step := wrapInt32 (st.step * d.m_space.dimLength i) }
          refine ⟨r, hr, ?_, ?_, ?_⟩
          · rw [h1]
            simp only [List.mem_cons, forall_eq_or_imp, hget]
            simp [hne1]
          · rw [h2]
            simp only [List.mem_cons, forall_eq_or_imp, hget]
            simp [hne2]
          · rintro (h | ⟨j, hj, hcj, hj1, hj2⟩)
            · exact h3 (Or.inl h)
            · rcases List.mem_cons.1 hj with rfl | hj
              · exact absurd hcj hc
              · exact h3 (Or.inr ⟨j, hj, hcj, hj1, hj2⟩)

theorem mem_axisOrder (rank : Int) (desc : Bool) (i : Nat) :
    i ∈ axisOrder rank desc ↔ i < rank.toNat := by
  unfold axisOrder
  split <;> simp

theorem forall_get?_ne_iff (slice : List Int) (v : Int) :
    (∀ i, i < slice.length → slice.get? i ≠ some v) ↔ v ∉ slice := by
  constructor
  · intro h hm
    obtain ⟨i, hi, rfl⟩ := List.mem_iff_getElem.1 hm
    exact h i hi (by rw [List.get?_eq_getElem?, List.getElem?_eq_getElem hi])
  · intro h i hi he
    apply h
    rw [List.get?_eq_getElem?, List.getElem?_eq_getElem hi] at he
    rw [← Option.some.inj he]
    exact List.getElem_mem _

theorem frame_loop_result (d : Dataset) (slice : List Int)
    (hlen : (slice.length : Int) = d.m_space.rank) :
    ∃ r, d.frame slice = d.frameFinish r ∧
      (r.hor < 0 ↔ HorizontalDimension ∉ slice) ∧ (r.ver < 0 ↔ VerticalDimension ∉ slice) ∧
      ((∃ c : Nat, (c : Int) = d.m_complexIndex ∧ c < slice.length ∧
          slice.get? c ≠ some HorizontalDimension ∧ slice.get? c ≠ some VerticalDimension) →
        r.complexStep.isSome = true) := by
  have hrank : ¬ d.m_space.rank < 0 := by omega
  have hl : ∀ i ∈ axisOrder d.m_space.rank d.m_descendingData, i < slice.length := by
    intro i hi
    rw [mem_axisOrder] at hi
    omega
  obtain ⟨r, hr, h1, h2, h3⟩ := foldlM_frameStep_roles d slice _ hl Dataset.frameInit
  have hall : ∀ v : Int, (∀ i ∈ axisOrder d.m_space.rank d.m_descendingData,
      slice.get? i ≠ some v) ↔ v ∉ slice := by
    intro v
    rw [← forall_get?_ne_iff]
    constructor
    · intro h i hi
      exact h i (by rw [mem_axisOrder]; omega)
    · intro h i hi
      exact h i (hl i hi)
  rw [hall] at h1 h2
  have hi1 : Dataset.frameInit.hor < 0 := by decide
  have hi2 : Dataset.frameInit.ver < 0 := by decide
  refine ⟨r, ?_, ⟨fun h => (h1.1 h).2, fun h => h1.2 ⟨hi1, h⟩⟩,
    ⟨fun h => (h2.1 h).2, fun h => h2.2 ⟨hi2, h⟩⟩, ?_⟩
  · unfold Dataset.frame
    rw [if_neg hrank, hr]
  · rintro ⟨c, hc1, hc2, hc3, hc4⟩
    exact h3 (Or.inr ⟨c, by rw [mem_axisOrder]; omega, hc1, hc3, hc4⟩)

theorem frameFinish_isFrame (d : Dataset) (r : FrameLoop) (h : ¬ (r.hor < 0 ∨ r.ver < 0))
    (hc : d.m_complexIndex < 0 ∨ r.complexStep.isSome = true) :
    ∃ f, d.frameFinish r = some (some f) := by
  unfold Dataset.frameFinish
  rw [if_neg h]
  simp only
  by_cases hneg : d.m_complexIndex ≥ 0
  · rw [if_pos hneg]
    rcases hc with hc | hc
    · omega
    · obtain ⟨cs, hcs⟩ := Option.isSome_iff_exists.1 hc
      rw [hcs]
      exact ⟨_, rfl⟩
  · rw [if_neg hneg]
    exact ⟨_, rfl⟩

/-! ## Frame extraction: exchange of the two roles -/

theorem get?_set_set (s : List Int) (a b : Nat) (x y : Int) (i : Nat) :
    ((s.set a x).set b y).get? i =
      if i = b then (if b < s.length then some y else none)
      else if i = a then (if a < s.length then some x else none)
      else s.get? i := by
  simp only [List.get?_eq_getElem?, List.getElem?_set, List.length_set]
  by_cases hb : b = i
  · subst hb
    simp
  · have hb' : ¬ i = b := fun h => hb h.symm
    simp only [hb, hb', if_false]
    by_cases ha : a = i
    · subst ha
      simp
    · have ha' : ¬ i = a := fun h => ha h.symm
      simp [ha, ha']

theorem frameStep_swapped (d : Dataset) (s : List Int) (a b : Nat) (hab : a ≠ b)
    (hs : ∀ c : Nat, c ≠ a → c ≠ b → ∀ v, s.get? c = some v →
      v ≠ HorizontalDimension ∧ v ≠ VerticalDimension)
    (st1 st2 : FrameLoop) (hR : RolesSwapped a b st1 st2) (i : Nat) :
    (d.frameStep ((s.set a HorizontalDimension).set b VerticalDimension) st1 i = none ∧
     d.frameStep ((s.set a VerticalDimension).set b HorizontalDimension) st2 i = none) ∨
    ∃ r1 r2,
      d.frameStep ((s.set a HorizontalDimension).set b VerticalDimension) st1 i = some r1 ∧
      d.frameStep ((s.set a VerticalDimension).set b HorizontalDimension) st2 i = some r2 ∧
      RolesSwapped a b r1 r2 := by
  obtain ⟨h1, h2, h3, h4, h5, h6, h7, h8, h9⟩ := hR
  have h8' : st2.ver = -1 ∨ st2.ver = a := h4 ▸ h8
  have h9' : st2.hor = -1 ∨ st2.hor = b := h5 ▸ h9
  unfold Dataset.frameStep
  rw [get?_set_set s a b, get?_set_set s a b]
  by_cases hib : i = b
  · subst hib
    by_cases hlen : i < s.length
    · right
      simp only [if_true, hlen]
      refine ⟨_, _, rfl, rfl, ?_⟩
      simp [RolesSwapped, HorizontalDimension, VerticalDimension, h1, h2, h3, h4, h6, h8, h8']
    · left
      simp [hlen]
  · simp only [hib, if_false]
    by_cases hia : i = a
    · subst hia
      by_cases hlen : i < s.length
      · right
        simp only [if_true, hlen]
        refine ⟨_, _, rfl, rfl, ?_⟩
        simp [RolesSwapped, HorizontalDimension, VerticalDimension, h1, h2, h3, h5, h7, h9, h9']
      · left
        simp [hlen]
    · simp only [hia, if_false]
      cases hget : s.get? i with
      | none => left; simp
      | some v =>
        right
        obtain ⟨hv1, hv2⟩ := hs i hia hib v hget
        simp only [hv1, hv2, if_false]
        refine ⟨_, _, rfl, rfl, ?_⟩
        by_cases hc : (i : Int) = d.m_complexIndex
        · simp [RolesSwapped, hc, h1, h2, h4, h5, h6, h7, h8', h9']
        · simp [RolesSwapped, hc, h1, h2, h3, h4, h5, h6, h7, h8', h9']

theorem foldlM_swapped (d : Dataset) (s : List Int) (a b : Nat) (hab : a ≠ b)
    (hs : ∀ c : Nat, c ≠ a → c ≠ b → ∀ v, s.get? c = some v →
      v ≠ HorizontalDimension ∧ v ≠ VerticalDimension)
    (l : List Nat) (st1 st2 : FrameLoop) (hR : RolesSwapped a b st1 st2) :
    (l.foldlM (d.frameStep ((s.set a HorizontalDimension).set b VerticalDimension)) st1 = none ∧
     l.foldlM (d.frameStep ((s.set a VerticalDimension).set b HorizontalDimension)) st2 = none) ∨
    ∃ r1 r2,
      l.foldlM (d.frameStep ((s.set a HorizontalDimension).set b VerticalDimension)) st1
        = some r1 ∧
      l.foldlM (d.frameStep ((s.set a VerticalDimension).set b HorizontalDimension)) st2
        = some r2 ∧
      RolesSwapped a b r1 r2 := by
  induction l generalizing st1 st2 with
  | nil => right; exact ⟨st1, st2, rfl, rfl, hR⟩
  | cons i l ih =>
    rcases frameStep_swapped d s a b hab hs st1 st2 hR i with ⟨e1, e2⟩ | ⟨r1, r2, e1, e2, hR'⟩
    · left
      simp [List.foldlM_cons, e1, e2]
    · simp only [List.foldlM_cons, e1, e2, Option.bind_eq_bind, Option.some_bind]
      exact ih r1 r2 hR'

theorem frameFinish_swapped (d : Dataset) (a b : Nat) (hab : a ≠ b) (st1 st2 : FrameLoop)
    (hR : RolesSwapped a b st1 st2) : d.frameFinish st1 = d.frameFinish st2 := by
  obtain ⟨hor1, ver1, hStep1, vStep1, c1, off1, step1⟩ := st1
  obtain ⟨hor2, ver2, hStep2, vStep2, c2, off2, step2⟩ := st2
  simp only [RolesSwapped] at hR
  obtain ⟨h1, h2, h3, h4, h5, h6, h7, h8, h9⟩ := hR
  subst h1 h2 h3 h4 h5 h6 h7
  have hne : (a : Int) ≠ b := by exact_mod_cast hab
  unfold Dataset.frameFinish
  simp only
  by_cases hneg : hor1 < 0 ∨ ver1 < 0
  · have hneg' : ver1 < 0 ∨ hor1 < 0 := hneg.symm
    simp only [hneg, hneg', if_true]
  · have hneg' : ¬ (ver1 < 0 ∨ hor1 < 0) := fun h => hneg h.symm
    have ea : hor1 = a := by omega
    have eb : ver1 = b := by omega
    by_cases hgt : hor1 > ver1
    · have hgt' : ¬ ver1 > hor1 := by omega
      simp only [hneg, hneg', hgt, hgt', if_true, if_false]
    · have hgt' : ver1 > hor1 := by omega
      simp only [hneg, hneg', hgt, hgt', if_true, if_false]

/-- Claim C6: `Dataset::frame` is order-normalized. For every Dataset, every two
distinct axes `a` and `b` and every slice whose other components are fixed
indexes (neither role tag), the slice with Horizontal on `a` and Vertical on `b`
and the slice with Vertical on `a` and Horizontal on `b` give the same result:
the same frame, with the same index, steps, sizes and pointers. That result is
a frame whenever the slice has one component per axis, `a` and `b` are axes and
the complex axis, if there is one, is an axis other than `a` and `b`. -/
theorem frame_swap_roles (d : Dataset) (s : List Int) (a b : Nat) (hab : a ≠ b)
    (hs : ∀ c : Nat, c ≠ a → c ≠ b → ∀ v, s.get? c = some v →
      v ≠ HorizontalDimension ∧ v ≠ VerticalDimension) :
    d.frame ((s.set a HorizontalDimension).set b VerticalDimension)
      = d.frame ((s.set a VerticalDimension).set b HorizontalDimension) ∧
    ((s.length : Int) = d.m_space.rank → a < s.length → b < s.length →
      (d.m_complexIndex < 0 ∨
        ∃ c : Nat, (c : Int) = d.m_complexIndex ∧ c < s.length ∧ c ≠ a ∧ c ≠ b) →
      ∃ f, d.frame ((s.set a VerticalDimension).set b HorizontalDimension) = some (some f)) := by
  constructor
  · unfold Dataset.frame
    split
    · rfl
    · have hinit : RolesSwapped a b Dataset.frameInit Dataset.frameInit := by
        simp [RolesSwapped, Dataset.frameInit]
      rcases foldlM_swapped d s a b hab hs (axisOrder d.m_space.rank d.m_descendingData)
        _ _ hinit with ⟨e1, e2⟩ | ⟨r1, r2, e1, e2, hR⟩
      · rw [e1, e2]
      · rw [e1, e2]
        exact frameFinish_swapped d a b hab r1 r2 hR
  · intro hlen ha hb hc
    have hget : ∀ i, ((s.set a VerticalDimension).set b HorizontalDimension).get? i
        = if i = b then some HorizontalDimension
          else if i = a then some VerticalDimension else s.get? i := by
      intro i
      rw [get?_set_set, if_pos hb, if_pos ha]
    obtain ⟨r, hfr, h1, h2, h3⟩ := frame_loop_result d
      ((s.set a VerticalDimension).set b HorizontalDimension) (by simpa using hlen)
    have hH : HorizontalDimension ∈ (s.set a VerticalDimension).set b HorizontalDimension := by
      apply List.mem_iff_get?.2
      exact ⟨b, by rw [hget, if_pos rfl]⟩
    have hV : VerticalDimension ∈ (s.set a VerticalDimension).set b HorizontalDimension := by
      apply List.mem_iff_get?.2
      exact ⟨a, by rw [hget, if_neg hab, if_pos rfl]⟩
    rw [hfr]
    apply frameFinish_isFrame d r
    · rintro (h | h)
      · exact h1.1 h hH
      · exact h2.1 h hV
    · rcases hc with hc | ⟨c, hc1, hc2, hc3, hc4⟩
      · exact Or.inl hc
      · right
        apply h3
        refine ⟨c, hc1, by simpa using hc2, ?_, ?_⟩
        · rw [hget, if_neg hc4, if_neg hc3]
          intro e
          exact (hs c hc3 hc4 _ e).1 rfl
        · rw [hget, if_neg hc4, if_neg hc3]
          intro e
          exact (hs c hc3 hc4 _ e).2 rfl

/-- Witness of C6: in a descending 2 x 3 x 4 Dataset, Horizontal on axis 2 with
Vertical on axis 0 gives the same frame as Horizontal on axis 0 with Vertical on
axis 2, and that frame is a real one. -/
theorem frame_swap_roles_witness :
    (Dataset.create 3 [2, 3, 4] DataTypeInt32 none true).frame [-2, 1, -1]
      = (Dataset.create 3 [2, 3, 4] DataTypeInt32 none true).frame [-1, 1, -2] ∧
    ∃ f, (Dataset.create 3 [2, 3, 4] DataTypeInt32 none true).frame [-1, 1, -2]
      = some (some f) := by
  have h := frame_swap_roles (Dataset.create 3 [2, 3, 4] DataTypeInt32 none true) [0, 1, 0] 2 0
    (by decide)
    (by
      intro c h2 h0 v hv
      match c, h2, h0, hv with
      | 1, _, _, hv =>
        simp only [List.get?_cons_succ, List.get?_cons_zero, Option.some.injEq] at hv
        subst hv
        decide
      | (n + 3), _, _, hv => simp at hv)
  exact ⟨h.1, h.2 (by decide) (by decide) (by decide) (Or.inl (by decide))⟩

/-! ## Frame extraction: missing and repeated roles -/

/-- Claim C7, as amended: for a slice with one component per axis,
`Dataset::frame` returns no frame exactly when no axis is tagged Horizontal or
no axis is tagged Vertical. When at least one axis carries each role it does
not fail, also when several axes carry the same role, and it returns a frame
whenever the Dataset has no complex axis or its complex axis carries a fixed
index. -/
theorem frame_fails_iff_role_missing (d : Dataset) (slice : List Int)
    (hlen : (slice.length : Int) = d.m_space.rank) :
    ((HorizontalDimension ∉ slice ∨ VerticalDimension ∉ slice) → d.frame slice = some none) ∧
    (HorizontalDimension ∈ slice → VerticalDimension ∈ slice → d.frame slice ≠ some none) ∧
    (HorizontalDimension ∈ slice → VerticalDimension ∈ slice →
      (d.m_complexIndex < 0 ∨ ∃ c : Nat, (c : Int) = d.m_complexIndex ∧ c < slice.length ∧
        slice.get? c ≠ some HorizontalDimension ∧ slice.get? c ≠ some VerticalDimension) →
      ∃ f, d.frame slice = some (some f)) := by
  obtain ⟨r, hfr, h1, h2, h3⟩ := frame_loop_result d slice hlen
  refine ⟨?_, ?_, ?_⟩
  · intro h
    rw [hfr]
    unfold Dataset.frameFinish
    have : r.hor < 0 ∨ r.ver < 0 := by
      rcases h with h | h
      · exact Or.inl (h1.2 h)
      · exact Or.inr (h2.2 h)
    rw [if_pos this]
  · intro hH hV
    rw [hfr]
    unfold Dataset.frameFinish
    have : ¬ (r.hor < 0 ∨ r.ver < 0) := by
      rintro (h | h)
      · exact h1.1 h hH
      · exact h2.1 h hV
    rw [if_neg this]
    simp only
    split
    · split <;> simp
    · simp
  · intro hH hV hc
    rw [hfr]
    have hnot : ¬ (r.hor < 0 ∨ r.ver < 0) := by
      rintro (h | h)
      · exact h1.1 h hH
      · exact h2.1 h hV
    apply frameFinish_isFrame d r hnot
    rcases hc with hc | hc
    · exact Or.inl hc
    · exact Or.inr (h3 hc)

/-- Witness of C7: in a rank-3 Dataset the slice `[-1, 0, 0]` has no Vertical
axis and gets no frame, and the slice `[-1, 1, -2]` gets a frame. -/
theorem frame_fails_iff_role_missing_witness :
    (Dataset.create 3 [2, 3, 4] DataTypeInt32 none true).frame [-1, 0, 0] = some none ∧
    ∃ f, (Dataset.create 3 [2, 3, 4] DataTypeInt32 none true).frame [-1, 1, -2]
      = some (some f) :=
  ⟨(frame_fails_iff_role_missing (Dataset.create 3 [2, 3, 4] DataTypeInt32 none true)
      [-1, 0, 0] (by decide)).1 (Or.inr (by decide)),
   (frame_fails_iff_role_missing (Dataset.create 3 [2, 3, 4] DataTypeInt32 none true)
      [-1, 1, -2] (by decide)).2.2 (by decide) (by decide) (Or.inl (by decide))⟩

/-- Counterexample to C7 as stated: in a descending 2 x 3 x 4 Dataset the slice
`[-1, -1, -2]` tags two axes Horizontal, and `Dataset::frame` returns a frame
(with axis 0 as the horizontal axis) instead of failing. -/
theorem frame_duplicate_role_counterexample :
    (Dataset.create 3 [2, 3, 4] DataTypeInt32 none true).frame
        [HorizontalDimension, HorizontalDimension, VerticalDimension]
      = some (some
          { m_data :=
              { attributes := 0, hStep := 12, vStep := 1, hSize := 2, vSize := 4,
                real := Pointer.null, imaginary := Pointer.null }
            m_dataType := DataTypeInt32
            m_ownsData := false
            m_index := 0
            m_minValue := none
            m_maxValue := none }) := by
  decide

/-! ## The skeleton of a tree is kept by `DataGroup::validate` -/

theorem Node.skeletonList_eq_map (cs : List Node) : Node.skeletonList cs = cs.map Node.skeleton := by
  induction cs with
  | nil => rfl
  | cons c cs ih => simp [Node.skeletonList, ih]

theorem Node.skeleton_mk (n : String) (s : Nat) (cs : List Node) (x : NodeSelf) :
    (Node.mk n s cs x).skeleton = Node.mk n s (cs.map Node.skeleton) x.skeleton := by
  rw [Node.skeleton, Node.skeletonList_eq_map]

theorem Node.name_skeleton (n : Node) : n.skeleton.name = n.name := by
  cases n; rfl

theorem Node.children_skeleton (n : Node) : n.skeleton.children = n.children.map Node.skeleton := by
  cases n; simp [Node.skeleton_mk, Node.children]

theorem Node.self_skeleton (n : Node) : n.skeleton.self = n.self.skeleton := by
  cases n; rfl

theorem Node.at?_skeleton (p : List Nat) (n : Node) :
    n.skeleton.at? p = (n.at? p).map Node.skeleton := by
  induction p generalizing n with
  | nil => cases n; rfl
  | cons i p ih =>
    obtain ⟨nm, st, cs, x⟩ := n
    rw [Node.skeleton_mk]
    simp only [Node.at?, List.get?_eq_getElem?, List.getElem?_map]
    cases h : cs[i]? with
    | none => simp
    | some c => simp [ih c]

theorem Node.skeleton_replaceAt (p : List Nat) (n m r : Node) (hm : n.at? p = some m)
    (hr : r.skeleton = m.skeleton) : (n.replaceAt p r).skeleton = n.skeleton := by
  induction p generalizing n with
  | nil =>
    simp only [Node.at?, Option.some.injEq] at hm
    subst hm
    cases n
    exact hr
  | cons i p ih =>
    obtain ⟨nm, st, cs, x⟩ := n
    simp only [Node.at?] at hm
    simp only [Node.replaceAt]
    cases h : cs.get? i with
    | none => rw [h] at hm
    | some c =>
      rw [h] at hm
      simp only at hm ⊢
      rw [Node.skeleton_mk, Node.skeleton_mk]
      congr 1
      rw [List.map_set, ih c hm]
      rw [List.get?_eq_getElem?] at h
      apply List.ext_getElem?
      intro j
      rw [List.getElem?_set]
      split
      · rename_i hij
        subst hij
        simp [h]
        have := List.getElem?_eq_some_iff.1 h
        obtain ⟨hi, _⟩ := this
        omega
      · rfl

mutual
theorem Node.size_skeleton : ∀ n : Node, n.skeleton.size = n.size
  | Node.mk _ _ cs _ => by
    simp only [Node.skeleton, Node.size, Node.sizeList_skeleton cs]
theorem Node.sizeList_skeleton : ∀ cs : List Node,
    Node.sizeList (Node.skeletonList cs) = Node.sizeList cs
  | [] => rfl
  | c :: cs => by
    simp only [Node.skeletonList, Node.sizeList, Node.size_skeleton c, Node.sizeList_skeleton cs]
end

theorem Node.sizeAt_skeleton (root : Node) (nodes : List (List Nat)) :
    root.skeleton.sizeAt nodes = root.sizeAt nodes := by
  unfold Node.sizeAt
  congr 1
  apply List.map_congr_left
  intro q _
  rw [Node.at?_skeleton]
  cases root.at? q with
  | none => rfl
  | some m => simp [Node.size_skeleton]

theorem Node.isSome_at?_skeleton (root root' : Node) (h : root.skeleton = root'.skeleton)
    (q : List Nat) : (root.at? q).isSome = (root'.at? q).isSome := by
  have h1 := Node.at?_skeleton q root
  have h2 := Node.at?_skeleton q root'
  rw [h] at h1
  rw [h1] at h2
  cases hq : root.at? q <;> cases hq' : root'.at? q <;> simp [hq, hq'] at h2 ⊢

theorem Node.childIndex_eq (n : Node) (nm : String) :
    n.childIndex nm = (n.children.map Node.name).findIdx? (fun x => x == nm) := by
  unfold Node.childIndex
  rw [List.findIdx?_map]
  rfl

theorem Node.map_name_of_skeleton (cs cs' : List Node)
    (h : cs.map Node.skeleton = cs'.map Node.skeleton) :
    cs.map Node.name = cs'.map Node.name := by
  have := congrArg (List.map Node.name) h
  simpa [List.map_map, Function.comp_def, Node.name_skeleton] using this

theorem Node.childIndex_of_skeleton (n n' : Node) (h : n.skeleton = n'.skeleton) (nm : String) :
    n.childIndex nm = n'.childIndex nm := by
  rw [Node.childIndex_eq, Node.childIndex_eq]
  have hc := congrArg Node.children h
  rw [Node.children_skeleton, Node.children_skeleton] at hc
  rw [Node.map_name_of_skeleton _ _ hc]

theorem Node.asDataset_of_skeleton (c c' : Node) (h : c.skeleton = c'.skeleton) (d : Dataset)
    (hd : c.asDataset = some d) :
    ∃ d', c'.asDataset = some d' ∧ d'.dimCount = d.dimCount := by
  have hs := congrArg Node.self h
  rw [Node.self_skeleton, Node.self_skeleton] at hs
  unfold Node.asDataset at hd ⊢
  cases hx : c.self <;> rw [hx] at hd hs <;> simp at hd
  subst hd
  cases hx' : c'.self <;> rw [hx'] at hs <;> simp [NodeSelf.skeleton] at hs
  rename_i d'
  refine ⟨d', rfl, ?_⟩
  have := congrArg Dataset.m_space hs
  simp only [Dataset.skeleton] at this
  simp [Dataset.dimCount, this]

theorem Node.lacksDim_of_skeleton (n n' : Node) (h : n.skeleton = n'.skeleton)
    (hl : n.lacksDim) : n'.lacksDim := by
  obtain ⟨dataPos, data, k, h1, h2, h3, h4, h5⟩ := hl
  have hc := congrArg Node.children h
  rw [Node.children_skeleton, Node.children_skeleton] at hc
  cases hg : n.children.get? dataPos with
  | none => rw [hg] at h2; simp at h2
  | some c =>
    rw [hg] at h2
    simp only [Option.some_bind] at h2
    have hget := congrArg (fun l => l.get? dataPos) hc
    simp only [List.get?_eq_getElem?, List.getElem?_map] at hget hg
    rw [hg] at hget
    cases hg' : n'.children[dataPos]? with
    | none => rw [hg'] at hget; simp at hget
    | some c' =>
      rw [hg'] at hget
      simp only [Option.map_some', Option.some.injEq] at hget
      obtain ⟨d', hd1, hd2⟩ := Node.asDataset_of_skeleton c c' hget data h2
      refine ⟨dataPos, d', k, ?_, ?_, h3, by rw [hd2]; exact h4, ?_⟩
      · rw [← Node.childIndex_of_skeleton n n' h]; exact h1
      · rw [List.get?_eq_getElem?, hg']; exact hd1
      · rw [← Node.childIndex_of_skeleton n n' h]; exact h5

theorem DataGroup.sameSkeleton_refl (g : DataGroup) : g.SameSkeleton g := ⟨rfl, rfl, rfl⟩

theorem DataGroup.sameSkeleton_trans {g g' g'' : DataGroup} (h : g.SameSkeleton g')
    (h' : g'.SameSkeleton g'') : g.SameSkeleton g'' :=
  ⟨h'.1.trans h.1, h'.2.1.trans h.2.1, h'.2.2.trans h.2.2⟩

theorem DataGroup.sameSkeleton_toNode {g g' : DataGroup} (h : g.SameSkeleton g') :
    g'.toNode.skeleton = g.toNode.skeleton := by
  obtain ⟨h1, h2, h3⟩ := h
  simp only [DataGroup.toNode, Node.skeleton_mk, NodeSelf.skeleton, h1, h2, h3]

theorem Node.skeleton_mapDataset (f : Dataset → Dataset)
    (hf : ∀ d, (f d).skeleton = d.skeleton) (c : Node) :
    (c.mapDataset f).skeleton = c.skeleton := by
  obtain ⟨nm, st, cs, x⟩ := c
  cases x <;> simp [Node.mapDataset, Node.self, Node.setSelf, Node.skeleton_mk,
    NodeSelf.skeleton, hf]

theorem DataGroup.sameSkeleton_updateDataset (g : DataGroup) (pos : Nat)
    (f : Dataset → Dataset) (hf : ∀ d, (f d).skeleton = d.skeleton) :
    g.SameSkeleton (g.updateDataset pos f) := by
  unfold DataGroup.updateDataset
  cases h : g.m_children.get? pos with
  | none => exact DataGroup.sameSkeleton_refl g
  | some c =>
    refine ⟨rfl, rfl, ?_⟩
    simp only [List.map_set, Node.skeleton_mapDataset f hf]
    rw [List.get?_eq_getElem?] at h
    apply List.ext_getElem?
    intro j
    rw [List.getElem?_set]
    split
    · rename_i hij
      subst hij
      simp [h]
      exact (List.getElem?_eq_some_iff.1 h).1
    · rfl

theorem Dataset.skeleton_setTrueLength (d : Dataset) (L : Int) :
    (d.setTrueLength L).skeleton = d.skeleton := by
  unfold Dataset.setTrueLength
  split
  · rfl
  · split <;> rfl

theorem DataGroup.sameSkeleton_noteComplexDim (ft : QtConv) (dataPos iii dimPos : Nat)
    (g : DataGroup) : g.SameSkeleton (g.noteComplexDim ft dataPos iii dimPos) := by
  unfold DataGroup.noteComplexDim
  split
  · split
    · exact DataGroup.sameSkeleton_updateDataset _ _ _ (fun d => rfl)
    · exact DataGroup.sameSkeleton_refl g
  · exact DataGroup.sameSkeleton_refl g

theorem DataGroup.sameSkeleton_validateLoop (ft : QtConv) (dataPos : Nat) (l : List Nat)
    (g : DataGroup) : g.SameSkeleton (DataGroup.validateLoop ft dataPos l g).2 := by
  induction l generalizing g with
  | nil => exact DataGroup.sameSkeleton_refl g
  | cons iii rest ih =>
    simp only [DataGroup.validateLoop]
    split
    · exact DataGroup.sameSkeleton_refl g
    · rename_i dimPos _
      have h1 : g.SameSkeleton (g.addDim dimPos) := ⟨rfl, rfl, rfl⟩
      exact DataGroup.sameSkeleton_trans
        (DataGroup.sameSkeleton_trans h1 (DataGroup.sameSkeleton_noteComplexDim _ _ _ _ _)) (ih _)

theorem DataGroup.sameSkeleton_checkDimLengthsLoop (l : List Nat) (g g' : DataGroup)
    (h : DataGroup.checkDimLengthsLoop l g = some g') : g.SameSkeleton g' := by
  induction l generalizing g with
  | nil =>
    simp only [DataGroup.checkDimLengthsLoop, Option.some.injEq] at h
    subst h
    exact DataGroup.sameSkeleton_refl g
  | cons index rest ih =>
    simp only [DataGroup.checkDimLengthsLoop] at h
    split at h
    · split at h
      · split at h
        · exact DataGroup.sameSkeleton_trans (DataGroup.sameSkeleton_updateDataset _ _ _
            (fun d => Dataset.skeleton_setTrueLength d _)) (ih _ h)
        · exact ih _ h
      · simp at h
    · simp at h

theorem DataGroup.sameSkeleton_checkDimLengths (g g' : DataGroup)
    (h : g.checkDimLengths = some g') : g.SameSkeleton g' := by
  unfold DataGroup.checkDimLengths at h
  cases hn : g.dimCount with
  | none => rw [hn] at h; simp at h
  | some n =>
    rw [hn] at h
    exact DataGroup.sameSkeleton_checkDimLengthsLoop _ _ _ h

theorem DataGroup.sameSkeleton_applyDataOrder (ft : QtConv) (g g' : DataGroup)
    (h : g.applyDataOrder ft = some g') : g.SameSkeleton g' := by
  unfold DataGroup.applyDataOrder at h
  split at h
  · split at h
    · unfold DataGroup.setDataOrder at h
      split at h
      · simp only [Option.some.injEq] at h
        rw [← h]
        exact DataGroup.sameSkeleton_updateDataset _ _ _ (fun d => rfl)
      · simp at h
    · simp only [Option.some.injEq] at h
      rw [← h]; exact DataGroup.sameSkeleton_refl g
  · simp only [Option.some.injEq] at h
    rw [← h]; exact DataGroup.sameSkeleton_refl g

theorem DataGroup.sameSkeleton_validate (ft : QtConv) (g g' : DataGroup) (b : Bool)
    (h : g.validate ft = some (b, g')) : g.SameSkeleton g' := by
  unfold DataGroup.validate at h
  split at h
  · simp only [Option.some.injEq, Prod.mk.injEq] at h
    rw [← h.2]; exact DataGroup.sameSkeleton_refl g
  · rename_i dataPos _
    split at h
    · simp only [Option.some.injEq, Prod.mk.injEq] at h
      rw [← h.2]; exact DataGroup.sameSkeleton_refl g
    · rename_i data _
      have hloop := DataGroup.sameSkeleton_validateLoop ft dataPos
        (List.range data.dimCount.toNat) g
      split at h
      · rename_i g1 hv
        simp only [Option.some.injEq, Prod.mk.injEq] at h
        rw [← h.2]
        rw [hv] at hloop
        exact hloop
      · rename_i g1 hv
        rw [hv] at hloop
        have hset : g1.SameSkeleton (g1.setData dataPos) := ⟨rfl, rfl, rfl⟩
        split at h
        · simp at h
        · rename_i g3 hc
          have h3 := DataGroup.sameSkeleton_trans hloop (DataGroup.sameSkeleton_trans hset
            (DataGroup.sameSkeleton_checkDimLengths _ _ hc))
          cases ha : g3.applyDataOrder ft with
          | none => rw [ha] at h; simp at h
          | some g4 =>
            rw [ha] at h
            simp only [Option.map_some', Option.some.injEq, Prod.mk.injEq] at h
            rw [← h.2]
            exact DataGroup.sameSkeleton_trans h3 (DataGroup.sameSkeleton_applyDataOrder ft _ _ ha)

theorem DataGroup.childIndex_of_sameSkeleton {g g' : DataGroup} (h : g.SameSkeleton g')
    (nm : String) : g'.childIndex nm = g.childIndex nm :=
  Node.childIndex_of_skeleton _ _ (DataGroup.sameSkeleton_toNode h) nm

theorem DataGroup.validateLoop_missing (ft : QtConv) (dataPos : Nat) (l : List Nat)
    (g : DataGroup) (h : ∃ iii ∈ l, g.childIndex ("dim" ++ toString (iii + 1)) = none) :
    (DataGroup.validateLoop ft dataPos l g).1 = false := by
  induction l generalizing g with
  | nil => simp at h
  | cons iii rest ih =>
    simp only [DataGroup.validateLoop]
    split
    · rfl
    · rename_i dimPos hdim
      apply ih
      obtain ⟨j, hj, hnone⟩ := h
      rcases List.mem_cons.1 hj with rfl | hj
      · rw [hdim] at hnone; simp at hnone
      · refine ⟨j, hj, ?_⟩
        have h1 : g.SameSkeleton (g.addDim dimPos) := ⟨rfl, rfl, rfl⟩
        rw [DataGroup.childIndex_of_sameSkeleton
          (DataGroup.sameSkeleton_trans h1
            (DataGroup.sameSkeleton_noteComplexDim ft dataPos iii dimPos _))]
        exact hnone

theorem DataGroup.validate_lacksDim (ft : QtConv) (g : DataGroup) (h : g.toNode.lacksDim) :
    ∃ g', g.validate ft = some (false, g') := by
  obtain ⟨dataPos, data, k, h1, h2, h3, h4, h5⟩ := h
  unfold DataGroup.validate
  have h1' : g.childIndex "data" = some dataPos := h1
  have h2' : g.datasetAt dataPos = some data := h2
  rw [h1']
  simp only
  rw [h2']
  simp only
  have hmiss := DataGroup.validateLoop_missing ft dataPos (List.range data.dimCount.toNat) g
    ⟨k - 1, by simp only [List.mem_range]; omega, by
      have : k - 1 + 1 = k := by omega
      rw [this]; exact h5⟩
  cases hv : DataGroup.validateLoop ft dataPos (List.range data.dimCount.toNat) g with
  | mk b g1 =>
    rw [hv] at hmiss
    simp only at hmiss
    subst hmiss
    exact ⟨g1, rfl⟩

/-! ## The walk of `Model::validateDataGroups` -/

theorem Node.at?_append (p q : List Nat) (n : Node) :
    n.at? (p ++ q) = (n.at? p).bind (fun m => m.at? q) := by
  induction p generalizing n with
  | nil => simp [Node.at?]
  | cons i p ih =>
    obtain ⟨nm, st, cs, x⟩ := n
    simp only [List.cons_append, Node.at?]
    cases cs.get? i with
    | none => rfl
    | some c => exact ih c

theorem Node.at?_singleton (n : Node) (i : Nat) : n.at? [i] = n.children.get? i := by
  obtain ⟨nm, st, cs, x⟩ := n
  simp only [Node.at?, Node.children]
  cases cs.get? i <;> rfl

theorem Node.size_eq (n : Node) : n.size = 1 + Node.sizeList n.children := by
  cases n; rfl

theorem Node.sizeList_eq_sum (cs : List Node) : Node.sizeList cs = (cs.map Node.size).sum := by
  induction cs with
  | nil => rfl
  | cons c cs ih => simp [Node.sizeList, ih]

theorem Node.sizeAt_cons (root : Node) (q : List Nat) (rest : List (List Nat)) (node : Node)
    (h : root.at? q = some node) : root.sizeAt (q :: rest) = node.size + root.sizeAt rest := by
  simp [Node.sizeAt, h]

theorem Node.sizeAt_append (root : Node) (a b : List (List Nat)) :
    root.sizeAt (a ++ b) = root.sizeAt a + root.sizeAt b := by
  simp [Node.sizeAt]

theorem Node.map_childPaths (root : Node) (q : List Nat) (node : Node)
    (h : root.at? q = some node) :
    ((List.range node.children.length).map (fun i => q ++ [i])).map (fun q' => root.at? q')
      = node.children.map some := by
  apply List.ext_getElem
  · simp
  · intro i h1 h2
    simp only [List.length_map, List.length_range] at h1
    simp only [List.getElem_map, List.getElem_range]
    rw [Node.at?_append, h, Option.some_bind, Node.at?_singleton, List.get?_eq_getElem?,
      List.getElem?_eq_getElem h1]

theorem Node.sizeAt_childPaths (root : Node) (q : List Nat) (node : Node)
    (h : root.at? q = some node) :
    root.sizeAt ((List.range node.children.length).map (fun i => q ++ [i]))
      = Node.sizeList node.children := by
  have := Node.map_childPaths root q node h
  unfold Node.sizeAt
  rw [Node.sizeList_eq_sum]
  congr 1
  have h2 := congrArg (List.map (fun o : Option Node => (o.map Node.size).getD 0)) this
  simpa [List.map_map, Function.comp_def] using h2

theorem Node.isSome_childPaths (root : Node) (q : List Nat) (node : Node)
    (h : root.at? q = some node) :
    ∀ q' ∈ (List.range node.children.length).map (fun i => q ++ [i]),
      (root.at? q').isSome = true := by
  intro q' hq'
  obtain ⟨i, hi, rfl⟩ := List.mem_map.1 hq'
  simp only [List.mem_range] at hi
  rw [Node.at?_append, h, Option.some_bind, Node.at?_singleton, List.get?_eq_getElem?,
    List.getElem?_eq_getElem hi]
  rfl

theorem Node.eq_toNode_of_asDataGroup (n : Node) (g : DataGroup) (h : n.asDataGroup = some g) :
    n = g.toNode := by
  obtain ⟨nm, st, cs, x⟩ := n
  cases x <;> simp [Node.asDataGroup] at h
  subst h
  rfl

theorem Model.validateWalk_nil (ft : QtConv) (fuel : Nat) (root : Node)
    (dgs : List (List Nat)) : Model.validateWalk ft fuel root [] dgs = Run.done (root, dgs) := by
  cases fuel <;> rfl

theorem Model.validateWalk_lacksDim (ft : QtConv) (root0 : Node) (p : List Nat) (target : Node)
    (hp : root0.at? p = some target) (hl : target.lacksDim) (fuel : Nat) :
    ∀ (root : Node) (nodes dgs : List (List Nat)),
      root.skeleton = root0.skeleton → (∀ q ∈ nodes, (root.at? q).isSome = true) →
      root.sizeAt nodes ≤ fuel → p ∉ dgs →
      Model.validateWalk ft fuel root nodes dgs ≠ Run.outOfFuel ∧
      ∀ r d, Model.validateWalk ft fuel root nodes dgs = Run.done (r, d) → p ∉ d := by
  induction fuel with
  | zero =>
    intro root nodes dgs hsk hV hfuel hdg
    cases nodes with
    | nil =>
      rw [Model.validateWalk_nil]
      refine ⟨by simp, ?_⟩
      intro r d h
      simp only [Run.done.injEq, Prod.mk.injEq] at h
      rw [← h.2]; exact hdg
    | cons q rest =>
      exfalso
      obtain ⟨node, hnode⟩ := Option.isSome_iff_exists.1 (hV q (List.mem_cons_self _ _))
      rw [Node.sizeAt_cons root q rest node hnode, Node.size_eq] at hfuel
      omega
  | succ fuel ih =>
    intro root nodes dgs hsk hV hfuel hdg
    cases nodes with
    | nil =>
      rw [Model.validateWalk_nil]
      refine ⟨by simp, ?_⟩
      intro r d h
      simp only [Run.done.injEq, Prod.mk.injEq] at h
      rw [← h.2]; exact hdg
    | cons q rest =>
      obtain ⟨node, hnode⟩ := Option.isSome_iff_exists.1 (hV q (List.mem_cons_self _ _))
      have hsize : root.sizeAt (rest ++ (List.range node.children.length).map
          (fun i => q ++ [i])) ≤ fuel := by
        rw [Node.sizeAt_append, Node.sizeAt_childPaths root q node hnode]
        rw [Node.sizeAt_cons root q rest node hnode, Node.size_eq] at hfuel
        omega
      have hV' : ∀ q' ∈ rest ++ (List.range node.children.length).map (fun i => q ++ [i]),
          (root.at? q').isSome = true := by
        intro q' hq'
        rcases List.mem_append.1 hq' with h | h
        · exact hV q' (List.mem_cons_of_mem _ h)
        · exact Node.isSome_childPaths root q node hnode q' h
      -- the same facts for a root that has the skeleton of the present one
      have hnext : ∀ root' : Node, root'.skeleton = root.skeleton →
          ∀ dgs' : List (List Nat), p ∉ dgs' →
          Model.validateWalk ft fuel root' (rest ++ (List.range node.children.length).map
              (fun i => q ++ [i])) dgs' ≠ Run.outOfFuel ∧
            ∀ r d, Model.validateWalk ft fuel root' (rest ++
              (List.range node.children.length).map (fun i => q ++ [i])) dgs'
                = Run.done (r, d) → p ∉ d := by
        intro root' hsk' dgs' hdg'
        apply ih root' _ dgs' (hsk'.trans hsk)
        · intro q' hq'
          rw [Node.isSome_at?_skeleton root' root hsk' q']
          exact hV' q' hq'
        · rw [← Node.sizeAt_skeleton, hsk', Node.sizeAt_skeleton]
          exact hsize
        · exact hdg'
      simp only [Model.validateWalk, hnode]
      split
      · cases hdgp : node.asDataGroup with
        | none =>
          simp only
          exact ⟨by simp, by intro r d h; simp at h⟩
        | some dataGroup =>
          simp only
          have hnd := Node.eq_toNode_of_asDataGroup node dataGroup hdgp
          cases hval : dataGroup.validate ft with
          | none =>
            simp only
            exact ⟨by simp, by intro r d h; simp at h⟩
          | some res =>
            obtain ⟨b, g⟩ := res
            have hss := DataGroup.sameSkeleton_validate ft dataGroup g b hval
            cases b with
            | true =>
              simp only
              have hqp : q ≠ p := by
                intro hqp
                subst hqp
                have hsk2 : target.skeleton = node.skeleton := by
                  have h1 := Node.at?_skeleton q root
                  have h2 := Node.at?_skeleton q root0
                  rw [hsk, h2, hp, hnode] at h1
                  simpa using h1
                have hl' := Node.lacksDim_of_skeleton target node hsk2 hl
                rw [hnd] at hl'
                obtain ⟨g', hg'⟩ := DataGroup.validate_lacksDim ft dataGroup hl'
                rw [hg'] at hval
                simp at hval
              apply hnext
              · apply Node.skeleton_replaceAt q root node _ hnode
                rw [hnd]
                have : dataGroup.SameSkeleton g.setModel :=
                  DataGroup.sameSkeleton_trans hss ⟨rfl, rfl, rfl⟩
                exact DataGroup.sameSkeleton_toNode this
              · intro hmem
                rcases List.mem_append.1 hmem with h | h
                · exact hdg h
                · simp only [List.mem_singleton] at h
                  exact hqp h.symm
            | false =>
              simp only
              apply hnext
              · apply Node.skeleton_replaceAt q root node _ hnode
                rw [hnd]
                exact DataGroup.sameSkeleton_toNode hss
              · exact hdg
      · exact hnext root rfl dgs hdg

theorem find?_eq_findIdx?_bind {α : Type} (p : α → Bool) (l : List α) :
    l.find? p = (l.findIdx? p).bind l.get? := by
  induction l with
  | nil => rfl
  | cons a l ih =>
    rw [List.find?_cons, List.findIdx?_cons]
    cases hp : p a with
    | true => simp
    | false =>
      simp only [Bool.false_eq_true, if_false, Nat.zero_add]
      rw [List.findIdx?_succ, ih]
      cases List.findIdx? p l 0 <;> simp

theorem Node.child_eq (n : Node) (nm : String) :
    n.child nm = (n.childIndex nm).bind n.children.get? :=
  find?_eq_findIdx?_bind _ _

theorem Node.lacksDim_of_child (n : Node) (data : Dataset) (k : Nat)
    (hdata : (n.child "data").bind Node.asDataset = some data) (hk1 : 1 ≤ k)
    (hk2 : (k : Int) ≤ data.dimCount) (hmiss : n.child ("dim" ++ toString k) = none) :
    n.lacksDim := by
  rw [Node.child_eq] at hdata hmiss
  cases hi : n.childIndex "data" with
  | none => rw [hi] at hdata; simp at hdata
  | some dataPos =>
    rw [hi] at hdata
    simp only [Option.some_bind] at hdata
    refine ⟨dataPos, data, k, hi, hdata, hk1, hk2, ?_⟩
    cases hj : n.childIndex ("dim" ++ toString k) with
    | none => rfl
    | some j =>
      exfalso
      rw [hj] at hmiss
      simp only [Option.some_bind] at hmiss
      have := List.findIdx?_of_eq_some hj
      rw [List.get?_eq_getElem?] at hmiss
      rw [hmiss] at this
      simp at this

/-- Claim C8: a `DataGroup` `g` of the tree of a model, at the path `p`, whose
child `data` is a Dataset of rank `R` and that has no child `dim{k}` for some
`1 <= k <= R`: `DataGroup::validate` returns `false` on it, and
`Model::validateDataGroups` runs to its end (unless another group of the tree
has no defined result) without putting the group in `m_dataGroups`. -/
theorem validate_missing_dim (ft : QtConv) (m : Model) (p : List Nat) (node : Node)
    (g : DataGroup) (data : Dataset) (R : Int) (k : Nat)
    (hp : m.m_root.at? p = some node) (hg : node.asDataGroup = some g)
    (hdata : (g.child "data").bind Node.asDataset = some data) (hR : data.dimCount = R)
    (hk1 : 1 ≤ k) (hk2 : (k : Int) ≤ R) (hmiss : g.child ("dim" ++ toString k) = none) :
    (∃ g', g.validate ft = some (false, g')) ∧
    Model.validateDataGroups ft m ≠ Run.outOfFuel ∧
    ∀ m', Model.validateDataGroups ft m = Run.done m' → p ∉ m'.m_dataGroups := by
  have hnd := Node.eq_toNode_of_asDataGroup node g hg
  have hl : node.lacksDim := by
    rw [hnd]
    exact Node.lacksDim_of_child g.toNode data k hdata hk1 (by rw [hR]; exact hk2) hmiss
  have hwalk := Model.validateWalk_lacksDim ft m.m_root p node hp hl m.m_root.size m.m_root
    [[]] [] rfl (by
      intro q hq
      simp only [List.mem_singleton] at hq
      subst hq
      cases m.m_root
      rfl) (by cases m.m_root; simp [Node.sizeAt, Node.at?]) (by simp)
  refine ⟨?_, ?_, ?_⟩
  · exact DataGroup.validate_lacksDim ft g (hnd ▸ hl)
  · unfold Model.validateDataGroups
    cases hw : Model.validateWalk ft m.m_root.size m.m_root [[]] [] with
    | outOfFuel => exact absurd hw hwalk.1
    | undefined => simp
    | done a => simp
  · intro m' hm'
    unfold Model.validateDataGroups at hm'
    cases hw : Model.validateWalk ft m.m_root.size m.m_root [[]] [] with
    | outOfFuel => rw [hw] at hm'; simp at hm'
    | undefined => rw [hw] at hm'; simp at hm'
    | done a =>
      obtain ⟨r, d⟩ := a
      rw [hw] at hm'
      simp only [Run.done.injEq] at hm'
      rw [← hm']
      exact hwalk.2 r d hw

/-- Witness of C8: the group of the example model at the path `[0, 1]` has a
rank-2 `data` and no `dim2`; `validate` returns `false` on it, and the walk of
the model ends with only the complete group `[0, 0]` registered. -/
theorem validate_missing_dim_witness :
    (groupMissingDim2.child "data").bind Node.asDataset
      = some (Dataset.create 2 [4, 2] DataTypeUInt8 (some (List.replicate 8 0)) true) ∧
    groupMissingDim2.child "dim2" = none ∧
    (∃ g', groupMissingDim2.validate exampleQt = some (false, g')) ∧
    Model.validateDataGroups exampleQt exampleModel ≠ Run.outOfFuel ∧
    (match Model.validateDataGroups exampleQt exampleModel with
      | Run.done m' => some m'.m_dataGroups
      | _ => none) = some [[0, 0]] := by
  have h := validate_missing_dim exampleQt exampleModel [0, 1] groupMissingDim2.toNode
    groupMissingDim2 (Dataset.create 2 [4, 2] DataTypeUInt8 (some (List.replicate 8 0)) true)
    2 2 rfl rfl (by decide) (by decide) (by decide) (by decide) rfl
  exact ⟨by decide, rfl, h.1, h.2.1, by decide⟩

/-! ## The names `dim1`, `dim2`, ... are pairwise different -/

theorem readDecimal_append (a b : List Char) (acc : Nat) :
    readDecimal (a ++ b) acc = readDecimal b (readDecimal a acc) := by
  induction a generalizing acc with
  | nil => simp only [List.nil_append, readDecimal]
  | cons c cs ih =>
    simp only [List.cons_append, readDecimal]
    exact ih _

theorem digitValue_digitChar (k : Nat) (hk : k < 10) : digitValue (Nat.digitChar k) = k := by
  interval_cases k <;> rfl

theorem toDigitsCore_eq_append (fuel n : Nat) (ds : List Char) :
    Nat.toDigitsCore 10 fuel n ds = Nat.toDigitsCore 10 fuel n [] ++ ds := by
  induction fuel generalizing n ds with
  | zero => simp [Nat.toDigitsCore]
  | succ fuel ih =>
    simp only [Nat.toDigitsCore]
    split
    · simp
    · rw [ih (n / 10) (Nat.digitChar (n % 10) :: ds), ih (n / 10) [Nat.digitChar (n % 10)]]
      simp

theorem readDecimal_toDigitsCore (fuel n : Nat) (h : n < fuel) :
    readDecimal (Nat.toDigitsCore 10 fuel n []) 0 = n := by
  induction fuel generalizing n with
  | zero => omega
  | succ fuel ih =>
    simp only [Nat.toDigitsCore]
    split
    · rename_i h0
      simp only [readDecimal, Nat.mul_zero, Nat.zero_add]
      rw [digitValue_digitChar _ (Nat.mod_lt _ (by norm_num))]
      omega
    · rename_i h0
      rw [toDigitsCore_eq_append, readDecimal_append, ih (n / 10) (by omega)]
      simp only [readDecimal]
      rw [digitValue_digitChar _ (Nat.mod_lt _ (by norm_num))]
      omega

theorem toString_nat_injective (a b : Nat) (h : toString a = toString b) : a = b := by
  have h' : (Nat.toDigits 10 a).asString = (Nat.toDigits 10 b).asString := h
  have h2 : Nat.toDigits 10 a = Nat.toDigits 10 b := by
    have := congrArg String.data h'
    simpa [List.asString] using this
  have ha := readDecimal_toDigitsCore (a + 1) a (by omega)
  have hb := readDecimal_toDigitsCore (b + 1) b (by omega)
  unfold Nat.toDigits at h2
  rw [h2] at ha
  omega

theorem dimName_injective (i j : Nat)
    (h : "dim" ++ toString (i + 1) = "dim" ++ toString (j + 1)) : i = j := by
  have h1 := congrArg String.data h
  simp only [String.data_append] at h1
  have h2 := List.append_cancel_left h1
  have h3 : toString (i + 1) = toString (j + 1) := String.ext h2
  have := toString_nat_injective _ _ h3
  omega

theorem dimName_ne_data (i : Nat) : "dim" ++ toString (i + 1) ≠ "data" := by
  intro h
  have h1 := congrArg String.data h
  simp only [String.data_append] at h1
  simp at h1

/-! ## The effect of `DataGroup::validate` on the dimension Datasets -/

theorem Dataset.sameLengths_refl (d : Dataset) : d.SameLengths d := ⟨rfl, rfl, rfl⟩

theorem Dataset.sameLengths_trans {d d' d'' : Dataset} (h : d.SameLengths d')
    (h' : d'.SameLengths d'') : d.SameLengths d'' :=
  ⟨h'.1.trans h.1, h'.2.1.trans h.2.1, h'.2.2.trans h.2.2⟩

theorem Dataset.sameLengths_dimLength {d d' : Dataset} (h : d.SameLengths d') (i : Int) :
    d'.dimLength i = d.dimLength i := by
  unfold Dataset.dimLength
  rw [h.1, h.2.1, h.2.2]

theorem Dataset.sameLengths_dimCount {d d' : Dataset} (h : d.SameLengths d') :
    d'.dimCount = d.dimCount := by
  unfold Dataset.dimCount
  rw [h.1]

theorem Node.asDataset_mapDataset (f : Dataset → Dataset) (c : Node) :
    (c.mapDataset f).asDataset = c.asDataset.map f := by
  obtain ⟨nm, st, cs, x⟩ := c
  cases x <;> rfl

theorem DataGroup.datasetAt_updateDataset (g : DataGroup) (pos : Nat) (f : Dataset → Dataset)
    (q : Nat) :
    (g.updateDataset pos f).datasetAt q
      = if q = pos then (g.datasetAt q).map f else g.datasetAt q := by
  unfold DataGroup.updateDataset DataGroup.datasetAt
  cases h : g.m_children.get? pos with
  | none =>
    simp only
    split
    · rename_i hq
      subst hq
      rw [h]; rfl
    · rfl
  | some c =>
    simp only [List.get?_eq_getElem?, List.getElem?_set]
    rw [List.get?_eq_getElem?] at h
    have hlt := (List.getElem?_eq_some_iff.1 h).1
    by_cases hq : q = pos
    · subst hq
      simp [h, hlt, Node.asDataset_mapDataset]
    · have hq' : ¬ pos = q := fun e => hq e.symm
      simp [hq, hq']

theorem DataGroup.m_dims_updateDataset (g : DataGroup) (pos : Nat) (f : Dataset → Dataset) :
    (g.updateDataset pos f).m_dims = g.m_dims ∧ (g.updateDataset pos f).m_data = g.m_data := by
  unfold DataGroup.updateDataset
  split <;> exact ⟨rfl, rfl⟩

theorem DataGroup.noteComplexDim_spec (ft : QtConv) (dataPos iii dimPos : Nat) (g : DataGroup) :
    (g.noteComplexDim ft dataPos iii dimPos).m_dims = g.m_dims ∧
    (g.noteComplexDim ft dataPos iii dimPos).m_data = g.m_data ∧
    (∀ q, q ≠ dataPos → (g.noteComplexDim ft dataPos iii dimPos).datasetAt q = g.datasetAt q) ∧
    (∀ d, g.datasetAt dataPos = some d →
      ∃ d', (g.noteComplexDim ft dataPos iii dimPos).datasetAt dataPos = some d' ∧
        d.SameLengths d') := by
  unfold DataGroup.noteComplexDim
  have hsame : g.m_dims = g.m_dims ∧ g.m_data = g.m_data ∧
      (∀ q, q ≠ dataPos → g.datasetAt q = g.datasetAt q) ∧
      (∀ d, g.datasetAt dataPos = some d →
        ∃ d', g.datasetAt dataPos = some d' ∧ d.SameLengths d') :=
    ⟨rfl, rfl, fun _ _ => rfl, fun d hd => ⟨d, hd, Dataset.sameLengths_refl d⟩⟩
  split
  · split
    · refine ⟨(DataGroup.m_dims_updateDataset _ _ _).1, (DataGroup.m_dims_updateDataset _ _ _).2,
        ?_, ?_⟩
      · intro q hq
        rw [DataGroup.datasetAt_updateDataset, if_neg hq]
      · intro d hd
        rw [DataGroup.datasetAt_updateDataset, if_pos rfl, hd]
        exact ⟨_, rfl, rfl, rfl, rfl⟩
    · exact hsame
  · exact hsame

theorem DataGroup.validateLoop_spec (ft : QtConv) (dataPos : Nat) (l : List Nat)
    (g : DataGroup) (h : (DataGroup.validateLoop ft dataPos l g).1 = true) :
    (DataGroup.validateLoop ft dataPos l g).2.m_dims
      = g.m_dims ++ l.map (fun j => (g.childIndex ("dim" ++ toString (j + 1))).getD 0) ∧
    (DataGroup.validateLoop ft dataPos l g).2.m_data = g.m_data ∧
    (∀ j ∈ l, (g.childIndex ("dim" ++ toString (j + 1))).isSome = true) ∧
    (∀ q, q ≠ dataPos →
      (DataGroup.validateLoop ft dataPos l g).2.datasetAt q = g.datasetAt q) ∧
    (∀ d, g.datasetAt dataPos = some d →
      ∃ d', (DataGroup.validateLoop ft dataPos l g).2.datasetAt dataPos = some d' ∧
        d.SameLengths d') := by
  induction l generalizing g with
  | nil =>
    simp only [DataGroup.validateLoop, List.map_nil, List.append_nil, List.not_mem_nil,
      false_implies, implies_true, true_and]
    exact fun d hd => ⟨d, hd, Dataset.sameLengths_refl d⟩
  | cons iii rest ih =>
    simp only [DataGroup.validateLoop] at h ⊢
    cases hdim : g.childIndex ("dim" ++ toString (iii + 1)) with
    | none => rw [hdim] at h; simp at h
    | some dimPos =>
      rw [hdim] at h
      simp only at h ⊢
      obtain ⟨n1, n2, n3, n4⟩ := DataGroup.noteComplexDim_spec ft dataPos iii dimPos
        (g.addDim dimPos)
      obtain ⟨i1, i2, i3, i4, i5⟩ := ih _ h
      have hss : g.SameSkeleton ((g.addDim dimPos).noteComplexDim ft dataPos iii dimPos) :=
        DataGroup.sameSkeleton_trans ⟨rfl, rfl, rfl⟩
          (DataGroup.sameSkeleton_noteComplexDim ft dataPos iii dimPos _)
      have hci : ∀ nm, ((g.addDim dimPos).noteComplexDim ft dataPos iii dimPos).childIndex nm
          = g.childIndex nm := DataGroup.childIndex_of_sameSkeleton hss
      refine ⟨?_, ?_, ?_, ?_, ?_⟩
      · rw [i1, n1]
        simp only [hci]
        simp [DataGroup.addDim, hdim]
      · rw [i2, n2]; rfl
      · intro j hj
        rcases List.mem_cons.1 hj with rfl | hj
        · rw [hdim]; rfl
        · rw [← hci]; exact i3 j hj
      · intro q hq
        rw [i4 q hq, n3 q hq]; rfl
      · intro d hd
        obtain ⟨d1, hd1, hs1⟩ := n4 d hd
        obtain ⟨d2, hd2, hs2⟩ := i5 d1 hd1
        exact ⟨d2, hd2, Dataset.sameLengths_trans hs1 hs2⟩

theorem DataGroup.checkDimLengthsLoop_frame (l : List Nat) (g g' : DataGroup)
    (h : DataGroup.checkDimLengthsLoop l g = some g') :
    g'.m_data = g.m_data ∧ g'.m_dims = g.m_dims ∧
    ∀ q, (∀ index ∈ l, g.dimData (index : Nat) ≠ some q) → g'.datasetAt q = g.datasetAt q := by
  induction l generalizing g with
  | nil =>
    simp only [DataGroup.checkDimLengthsLoop, Option.some.injEq] at h
    subst h
    exact ⟨rfl, rfl, fun _ _ => rfl⟩
  | cons index rest ih =>
    simp only [DataGroup.checkDimLengthsLoop] at h
    cases hd : g.dataNode with
    | none => rw [hd] at h; simp at h
    | some data =>
      cases hp : g.dimData (index : Nat) with
      | none => rw [hd, hp] at h; simp at h
      | some dimPos =>
        rw [hd, hp] at h
        simp only at h
        cases hdim : g.datasetAt dimPos with
        | none => rw [hdim] at h; simp at h
        | some dim =>
          rw [hdim] at h
          simp only at h
          split at h
          · obtain ⟨j1, j2, j3⟩ := ih _ h
            obtain ⟨u1, u2⟩ := DataGroup.m_dims_updateDataset g dimPos
              (fun d => d.setTrueLength (data.dimLength index))
            refine ⟨j1.trans u2, j2.trans u1, ?_⟩
            intro q hq
            have hne : q ≠ dimPos := by
              intro e
              apply hq index (List.mem_cons_self _ _)
              rw [hp, e]
            rw [j3 q (by
              intro idx hidx
              have := hq idx (List.mem_cons_of_mem _ hidx)
              unfold DataGroup.dimData at this ⊢
              rw [u1]; exact this)]
            rw [DataGroup.datasetAt_updateDataset, if_neg hne]
          · obtain ⟨j1, j2, j3⟩ := ih _ h
            exact ⟨j1, j2, fun q hq => j3 q (fun idx hidx => hq idx (List.mem_cons_of_mem _ hidx))⟩

theorem DataGroup.dataNode_eq (g : DataGroup) (dataPos : Nat) (hm : g.m_data = some dataPos) :
    g.dataNode = g.datasetAt dataPos := by
  unfold DataGroup.dataNode
  rw [hm]

theorem DataGroup.checkDimLengthsLoop_at (l : List Nat) (g g' : DataGroup) (i qi dataPos : Nat)
    (data dim : Dataset) (h : DataGroup.checkDimLengthsLoop l g = some g') (hi : i ∈ l)
    (hnd : l.Nodup) (hm : g.m_data = some dataPos) (hq : g.dimData (i : Nat) = some qi)
    (hdist : ∀ index ∈ l, index ≠ i → g.dimData (index : Nat) ≠ some qi)
    (hdp : ∀ index ∈ l, g.dimData (index : Nat) ≠ some dataPos)
    (hdata : g.datasetAt dataPos = some data) (hdim : g.datasetAt qi = some dim) :
    g'.datasetAt qi = some (if data.dimLength i ≠ dim.dimLength 0 then
      dim.setTrueLength (data.dimLength i) else dim) := by
  induction l generalizing g with
  | nil => simp at hi
  | cons index rest ih =>
    have hnd' := List.nodup_cons.1 hnd
    simp only [DataGroup.checkDimLengthsLoop] at h
    rw [DataGroup.dataNode_eq g dataPos hm, hdata] at h
    cases hp : g.dimData (index : Nat) with
    | none => rw [hp] at h; simp at h
    | some dimPos =>
      rw [hp] at h
      simp only at h
      have hdpne : dimPos ≠ dataPos := by
        intro e
        apply hdp index (List.mem_cons_self _ _)
        rw [hp, e]
      cases hdd : g.datasetAt dimPos with
      | none => rw [hdd] at h; simp at h
      | some dim0 =>
        rw [hdd] at h
        simp only at h
        by_cases hidx : index = i
        · -- the pass for the axis `i` itself
          subst hidx
          have hqe : dimPos = qi := by rw [hq] at hp; exact (Option.some.inj hp).symm
          subst hqe
          rw [hdim] at hdd
          have hde : dim0 = dim := (Option.some.inj hdd).symm
          subst hde
          have hrest : ∀ idx ∈ rest, g.dimData (idx : Nat) ≠ some dimPos := by
            intro idx hidx
            apply hdist idx (List.mem_cons_of_mem _ hidx)
            intro e
            subst e
            exact hnd'.1 hidx
          split at h
          · rename_i hne
            obtain ⟨-, -, j3⟩ := DataGroup.checkDimLengthsLoop_frame rest _ g' h
            rw [j3 dimPos (by
              intro idx hidx
              have := hrest idx hidx
              unfold DataGroup.dimData at this ⊢
              rw [(DataGroup.m_dims_updateDataset _ _ _).1]; exact this)]
            rw [DataGroup.datasetAt_updateDataset, if_pos rfl, hdim, if_pos hne]
            rfl
          · rename_i hne
            obtain ⟨-, -, j3⟩ := DataGroup.checkDimLengthsLoop_frame rest _ g' h
            rw [j3 dimPos hrest, hdim, if_neg hne]
        · -- the pass for another axis
          have hirest : i ∈ rest := by
            rcases List.mem_cons.1 hi with e | e
            · exact absurd e.symm hidx
            · exact e
          have hqne : dimPos ≠ qi := by
            intro e
            apply hdist index (List.mem_cons_self _ _) hidx
            rw [hp, e]
          split at h
          · have hu := DataGroup.m_dims_updateDataset g dimPos
              (fun d => d.setTrueLength (data.dimLength index))
            apply ih _ h hirest hnd'.2
            · rw [hu.2]; exact hm
            · unfold DataGroup.dimData at hq ⊢
              rw [hu.1]; exact hq
            · intro idx hidx' hne
              have := hdist idx (List.mem_cons_of_mem _ hidx') hne
              unfold DataGroup.dimData at this ⊢
              rw [hu.1]; exact this
            · intro idx hidx'
              have := hdp idx (List.mem_cons_of_mem _ hidx')
              unfold DataGroup.dimData at this ⊢
              rw [hu.1]; exact this
            · rw [DataGroup.datasetAt_updateDataset, if_neg (fun e => hdpne e.symm)]
              exact hdata
            · rw [DataGroup.datasetAt_updateDataset, if_neg (fun e => hqne e.symm)]
              exact hdim
          · exact ih _ h hirest hnd'.2 hm hq
              (fun idx hidx' hne => hdist idx (List.mem_cons_of_mem _ hidx') hne)
              (fun idx hidx' => hdp idx (List.mem_cons_of_mem _ hidx')) hdata hdim

theorem DataGroup.applyDataOrder_spec (ft : QtConv) (g g' : DataGroup) (dataPos : Nat)
    (hm : g.m_data = some dataPos) (h : g.applyDataOrder ft = some g') :
    g'.m_data = g.m_data ∧ g'.m_dims = g.m_dims ∧
    (∀ q, q ≠ dataPos → g'.datasetAt q = g.datasetAt q) ∧
    (∀ d, g.datasetAt dataPos = some d →
      ∃ d', g'.datasetAt dataPos = some d' ∧ d.SameLengths d') := by
  have hsame : g.m_data = g.m_data ∧ g.m_dims = g.m_dims ∧
      (∀ q, q ≠ dataPos → g.datasetAt q = g.datasetAt q) ∧
      (∀ d, g.datasetAt dataPos = some d →
        ∃ d', g.datasetAt dataPos = some d' ∧ d.SameLengths d') :=
    ⟨rfl, rfl, fun _ _ => rfl, fun d hd => ⟨d, hd, Dataset.sameLengths_refl d⟩⟩
  unfold DataGroup.applyDataOrder at h
  split at h
  · split at h
    · unfold DataGroup.setDataOrder at h
      rw [hm] at h
      cases hd : g.dataNode with
      | none => rw [hd] at h; simp at h
      | some d0 =>
        rw [hd] at h
        simp only [Option.some.injEq] at h
        rw [← h]
        refine ⟨(DataGroup.m_dims_updateDataset _ _ _).2, (DataGroup.m_dims_updateDataset _ _ _).1,
          ?_, ?_⟩
        · intro q hq
          rw [DataGroup.datasetAt_updateDataset, if_neg hq]
        · intro d hd'
          rw [DataGroup.datasetAt_updateDataset, if_pos rfl, hd']
          exact ⟨_, rfl, rfl, rfl, rfl⟩
    · simp only [Option.some.injEq] at h
      rw [← h]; exact hsame
  · simp only [Option.some.injEq] at h
    rw [← h]; exact hsame

theorem DataGroup.dimData_map_range (g : DataGroup) (n : Nat) (pos : Nat → Nat)
    (h : g.m_dims = (List.range n).map pos) (i : Nat) (hi : i < n) :
    g.dimData (i : Nat) = some (pos i) := by
  unfold DataGroup.dimData
  rw [h]
  simp only [List.length_map, List.length_range]
  rw [if_pos ⟨by omega, by exact_mod_cast hi⟩]
  simp [List.get?_eq_getElem?, hi]

theorem DataGroup.name_of_childIndex (g : DataGroup) (nm : String) (q : Nat)
    (h : g.childIndex nm = some q) : (g.m_children.get? q).map Node.name = some nm := by
  have := List.findIdx?_of_eq_some h
  have hc : g.toNode.children = g.m_children := rfl
  rw [hc] at this
  rw [List.get?_eq_getElem?]
  cases hg : g.m_children[q]? with
  | none => rw [hg] at this; simp at this
  | some c =>
    rw [hg] at this
    simp only [beq_iff_eq] at this
    simp [this]

theorem DataGroup.childIndex_unique (g : DataGroup) (nm nm' : String) (q : Nat)
    (h : g.childIndex nm = some q) (h' : g.childIndex nm' = some q) : nm = nm' := by
  have h1 := DataGroup.name_of_childIndex g nm q h
  have h2 := DataGroup.name_of_childIndex g nm' q h'
  rw [h1] at h2
  exact Option.some.inj h2

theorem DataGroup.datasetAt_of_child (g : DataGroup) (nm : String) (d : Dataset)
    (h : (g.child nm).bind Node.asDataset = some d) :
    ∃ q, g.childIndex nm = some q ∧ g.datasetAt q = some d := by
  have he : g.child nm = (g.childIndex nm).bind g.m_children.get? := Node.child_eq g.toNode nm
  rw [he] at h
  cases hq : g.childIndex nm with
  | none => rw [hq] at h; simp at h
  | some q =>
    rw [hq] at h
    exact ⟨q, rfl, h⟩

/-- What a successful `DataGroup::validate` on a group without registered
dimensions does to the dimension Dataset of the axis `i`: it is registered as
`dimData(i)`, and it is put through `setTrueLength` with the length of the
primary Dataset along the axis exactly when `dimLength(0)` differs from that
length. -/
theorem DataGroup.validate_dim_after (ft : QtConv) (g g' : DataGroup) (data dim : Dataset)
    (i : Nat) (hdims : g.m_dims = []) (hval : g.validate ft = some (true, g'))
    (hdata : (g.child "data").bind Node.asDataset = some data)
    (hi : (i : Int) < data.dimCount)
    (hdim : (g.child ("dim" ++ toString (i + 1))).bind Node.asDataset = some dim) :
    ∃ q data',
      g.childIndex ("dim" ++ toString (i + 1)) = some q ∧ g'.dimData (i : Nat) = some q ∧
      g'.dataNode = some data' ∧ data'.dimLength i = data.dimLength i ∧
      g'.datasetAt q = some (if data.dimLength i ≠ dim.dimLength 0 then
        dim.setTrueLength (data.dimLength i) else dim) := by
  obtain ⟨dataPos, hdp, hda⟩ := DataGroup.datasetAt_of_child g "data" data hdata
  obtain ⟨qi, hqi, hdi⟩ := DataGroup.datasetAt_of_child g _ dim hdim
  unfold DataGroup.validate at hval
  rw [hdp] at hval
  simp only at hval
  rw [hda] at hval
  simp only at hval
  cases hloop : DataGroup.validateLoop ft dataPos (List.range data.dimCount.toNat) g with
  | mk b g1 =>
    rw [hloop] at hval
    cases b with
    | false => simp at hval
    | true =>
      simp only at hval
      have hb : (DataGroup.validateLoop ft dataPos (List.range data.dimCount.toNat) g).1 = true := by
        rw [hloop]
      obtain ⟨p1, p2, p3, p4, p5⟩ := DataGroup.validateLoop_spec ft dataPos _ g hb
      rw [hloop] at p1 p2 p4 p5
      simp only at p1 p2 p4 p5
      rw [hdims, List.nil_append] at p1
      obtain ⟨d1, hd1, hs1⟩ := p5 data hda
      -- positions of the children
      have hin : i < data.dimCount.toNat := by omega
      have hqd : qi ≠ dataPos := by
        intro e
        rw [e] at hqi
        exact dimName_ne_data i (DataGroup.childIndex_unique g _ _ dataPos hqi hdp)
      have hpos : ∀ index, index < data.dimCount.toNat →
          g.childIndex ("dim" ++ toString (index + 1))
            = some ((g.childIndex ("dim" ++ toString (index + 1))).getD 0) := by
        intro index hidx
        have := p3 index (List.mem_range.2 hidx)
        obtain ⟨q, hq⟩ := Option.isSome_iff_exists.1 this
        rw [hq]; rfl
      cases hc : (g1.setData dataPos).checkDimLengths with
      | none => rw [hc] at hval; simp at hval
      | some g3 =>
        rw [hc] at hval
        simp only at hval
        cases ha : g3.applyDataOrder ft with
        | none => rw [ha] at hval; simp at hval
        | some g4 =>
          rw [ha] at hval
          simp only [Option.map_some', Option.some.injEq, Prod.mk.injEq, true_and] at hval
          subst hval
          -- the group before `checkDimLengths`
          have h2m : (g1.setData dataPos).m_data = some dataPos := rfl
          have h2d : (g1.setData dataPos).m_dims = (List.range data.dimCount.toNat).map
              (fun j => (g.childIndex ("dim" ++ toString (j + 1))).getD 0) := p1
          have h2at : ∀ q, (g1.setData dataPos).datasetAt q = g1.datasetAt q := fun _ => rfl
          have hcount : (g1.setData dataPos).dimCount = some data.dimCount := by
            unfold DataGroup.dimCount
            rw [DataGroup.dataNode_eq _ dataPos h2m, h2at, hd1]
            simp [Dataset.sameLengths_dimCount hs1]
          unfold DataGroup.checkDimLengths at hc
          rw [hcount] at hc
          simp only at hc
          have hdd : ∀ index, index < data.dimCount.toNat →
              (g1.setData dataPos).dimData (index : Nat)
                = some ((g.childIndex ("dim" ++ toString (index + 1))).getD 0) :=
            fun index hidx => DataGroup.dimData_map_range _ _ _ h2d index hidx
          have hqi' : (g.childIndex ("dim" ++ toString (i + 1))).getD 0 = qi := by rw [hqi]; rfl
          have hdist : ∀ index ∈ List.range data.dimCount.toNat, index ≠ i →
              (g1.setData dataPos).dimData (index : Nat) ≠ some qi := by
            intro index hidx hne e
            rw [hdd index (List.mem_range.1 hidx)] at e
            have hq := hpos index (List.mem_range.1 hidx)
            rw [Option.some.inj e] at hq
            exact hne (dimName_injective _ _ (DataGroup.childIndex_unique g _ _ qi hq hqi))
          have hdpn : ∀ index ∈ List.range data.dimCount.toNat,
              (g1.setData dataPos).dimData (index : Nat) ≠ some dataPos := by
            intro index hidx e
            rw [hdd index (List.mem_range.1 hidx)] at e
            have hq := hpos index (List.mem_range.1 hidx)
            rw [Option.some.inj e] at hq
            exact dimName_ne_data index (DataGroup.childIndex_unique g _ _ dataPos hq hdp)
          have hat := DataGroup.checkDimLengthsLoop_at _ _ g3 i qi dataPos d1 dim hc
            (List.mem_range.2 hin) (List.nodup_range _) h2m (by rw [hdd i hin, hqi'])
            hdist hdpn (by rw [h2at]; exact hd1) (by rw [h2at, p4 qi hqd]; exact hdi)
          obtain ⟨f1, f2, f3⟩ := DataGroup.checkDimLengthsLoop_frame _ _ g3 hc
          have h3m : g3.m_data = some dataPos := f1.trans h2m
          obtain ⟨a1, a2, a3, a4⟩ := DataGroup.applyDataOrder_spec ft g3 g4 dataPos h3m ha
          have h3d : g3.datasetAt dataPos = some d1 := by
            rw [f3 dataPos hdpn, h2at]; exact hd1
          obtain ⟨d4, hd4, hs4⟩ := a4 d1 h3d
          refine ⟨qi, d4, hqi, ?_, ?_, ?_, ?_⟩
          · have := hdd i hin
            unfold DataGroup.dimData at this ⊢
            rw [a2, f2, this, hqi']
          · rw [DataGroup.dataNode_eq _ dataPos (a1.trans h3m)]
            exact hd4
          · rw [Dataset.sameLengths_dimLength hs4, Dataset.sameLengths_dimLength hs1]
          · rw [a3 qi hqd, hat, Dataset.sameLengths_dimLength hs1]

/-! ## Registered dimensions and truncated mode after `DataGroup::validate` -/

/-- Claim C10, as amended: after a successful `DataGroup::validate` on a group
with no dimension registered before the call, the dimension Dataset `dim{i+1}`
of every axis `i` is `dimData(i)`; when it has rank 1 and reports the length 2
and the primary Dataset has another length along the axis, it is in truncated
mode and reports `dimLength(0)` equal to that length; when it has another rank
or reports another length, it is left as it was. -/
theorem validate_truncates_two_point_dims (ft : QtConv) (g g' : DataGroup)
    (data dim : Dataset) (i : Nat) (hdims : g.m_dims = [])
    (hval : g.validate ft = some (true, g'))
    (hdata : (g.child "data").bind Node.asDataset = some data)
    (hi : (i : Int) < data.dimCount)
    (hdim : (g.child ("dim" ++ toString (i + 1))).bind Node.asDataset = some dim) :
    ∃ q data' dim',
      g.childIndex ("dim" ++ toString (i + 1)) = some q ∧ g'.dimData (i : Nat) = some q ∧
      g'.datasetAt q = some dim' ∧ g'.dataNode = some data' ∧
      data'.dimLength i = data.dimLength i ∧
      (dim.dimCount = 1 → dim.dimLength 0 = 2 → data.dimLength i ≠ 2 →
        dim'.m_truncatedDim = true ∧ dim'.dimLength 0 = data'.dimLength i) ∧
      (dim.dimCount ≠ 1 ∨ dim.dimLength 0 ≠ 2 → dim' = dim) := by
  obtain ⟨q, data', h1, h2, h3, h4, h5⟩ :=
    DataGroup.validate_dim_after ft g g' data dim i hdims hval hdata hi hdim
  refine ⟨q, data', _, h1, h2, h5, h3, h4, ?_, ?_⟩
  · intro hr hl hne
    have hcond : data.dimLength i ≠ dim.dimLength 0 := by rw [hl]; exact hne
    rw [if_pos hcond]
    have hs : dim.setTrueLength (data.dimLength i)
        = { dim with m_trueLength := data.dimLength i, m_truncatedDim := true } := by
      unfold Dataset.setTrueLength
      rw [if_neg (by simp [hr]), if_neg (by simp [hl])]
    rw [hs, h4]
    exact ⟨rfl, by simp [Dataset.dimLength]⟩
  · intro hor
    have hs : dim.setTrueLength (data.dimLength i) = dim := by
      unfold Dataset.setTrueLength
      rcases hor with h | h
      · rw [if_pos h]
      · split
        · rfl
        · simp [h]
    split
    · exact hs
    · rfl

/-- Witness of C10: the group with a `data` of length 5 and a `dim1` holding the
two calibration values `[10, 13]` validates, and afterwards `dim1` is in
truncated mode with `dimLength(0) = 5` and extrapolates `22` at index 4. -/
theorem validate_truncates_two_point_dims_witness :
    (∃ q data' dim',
      ((calibratedGroup [10, 13]).validate exampleQt).map (fun r => r.2.dimData 0)
        = some (some q) ∧
      ((calibratedGroup [10, 13]).validate exampleQt).map (fun r => r.2.datasetAt q)
        = some (some dim') ∧
      ((calibratedGroup [10, 13]).validate exampleQt).map (fun r => r.2.dataNode)
        = some (some data') ∧
      dim'.m_truncatedDim = true ∧ dim'.dimLength 0 = data'.dimLength 0) ∧
    ((calibratedGroup [10, 13]).validate exampleQt).map
        (fun r => (r.1, (r.2.datasetAt 1).map (fun d => (d.dimLength 0, d.variantDataValue 4))))
      = some (true, some (5, some (QVariant.int 22))) := by
  constructor
  · cases hv : (calibratedGroup [10, 13]).validate exampleQt with
    | none =>
      have : ((calibratedGroup [10, 13]).validate exampleQt).isSome = true := by decide
      rw [hv] at this
      simp at this
    | some r =>
      obtain ⟨b, g'⟩ := r
      have hb : b = true := by
        have : ((calibratedGroup [10, 13]).validate exampleQt).map Prod.fst = some true := by
          decide
        rw [hv] at this
        exact Option.some.inj this
      subst hb
      obtain ⟨q, data', dim', -, h2, h3, h4, -, h6, -⟩ :=
        validate_truncates_two_point_dims exampleQt (calibratedGroup [10, 13]) g'
          (Dataset.create 1 [5] DataTypeUInt8 (some (List.replicate 5 0)) true)
          (Dataset.create 1 [2] DataTypeInt32 (some (storeElements DataTypeInt32 [10, 13])) true)
          0 rfl hv (by decide) (by decide) (by decide)
      refine ⟨q, data', dim', ?_, ?_, ?_, h6 (by decide) (by decide) (by decide)⟩
      · simp only [Option.map_some']
        rw [← h2]; rfl
      · simp only [Option.map_some']
        rw [h3]
      · simp only [Option.map_some']
        rw [h4]
  · decide

/-- Counterexample to C10 as stated: with a `dim1` of declared length 3 and a
`data` of length 5, `validate` succeeds and leaves `dim1` out of truncated
mode, reporting `dimLength(0) = 3`. -/
theorem validate_truncates_dims_counterexample :
    ((calibratedGroup [10, 13, 16]).validate exampleQt).map
        (fun r => (r.1, r.2.dimData 0, r.2.dataNode.map (fun d => d.dimLength 0),
          (r.2.datasetAt 1).map (fun d => (d.m_truncatedDim, d.dimLength 0))))
      = some (true, some 1, some 5, some (false, 3)) := by
  decide

/-- Claim C9, the code at the failing input: the data group that `loadSer`
builds has its two dimensions registered; `validate` returns `true` on it and
leaves four entries in `m_dims` for a primary Dataset of rank 2. The same
happens to a group without registered dimensions that is validated twice. -/
theorem validate_registers_dims_again :
    serFileGroup.m_dims = [3, 4] ∧
    (serFileGroup.validate exampleQt).map
        (fun r => (r.1, r.2.m_dims, r.2.dimCount)) = some (true, [3, 4, 3, 4], some 2) ∧
    ((groupComplete.validate exampleQt).bind (fun r => r.2.validate exampleQt)).map
        (fun r => (r.1, r.2.m_dims, r.2.dimCount)) = some (true, [1, 2, 1, 2], some 2) := by
  decide

/-! ## The layout flag after `DataGroup::validate` -/

theorem Node.asAttribute_skeleton (c : Node) : c.skeleton.asAttribute = c.asAttribute := by
  cases c with
  | mk n s cs x =>
    cases x <;> rfl

theorem Node.find?_name_skeleton (cs : List Node) (nm : String) :
    (cs.map Node.skeleton).find? (fun c => c.name == nm)
      = (cs.find? (fun c => c.name == nm)).map Node.skeleton := by
  rw [List.find?_map]
  have : ((fun c : Node => c.name == nm) ∘ Node.skeleton) = (fun c : Node => c.name == nm) := by
    funext c
    simp only [Function.comp, Node.name_skeleton]
  rw [this]

theorem DataGroup.child_asAttribute_of_sameSkeleton {g g' : DataGroup} (h : g.SameSkeleton g')
    (nm : String) :
    (g'.child nm).bind Node.asAttribute = (g.child nm).bind Node.asAttribute := by
  have key : ∀ cs : List Node,
      (cs.find? (fun c => c.name == nm)).bind Node.asAttribute
        = ((cs.map Node.skeleton).find? (fun c => c.name == nm)).bind Node.asAttribute := by
    intro cs
    rw [Node.find?_name_skeleton]
    cases cs.find? (fun c => c.name == nm) with
    | none => rfl
    | some c => simp only [Option.map_some', Option.some_bind, Node.asAttribute_skeleton]
  show (g'.m_children.find? _).bind _ = (g.m_children.find? _).bind _
  rw [key g'.m_children, key g.m_children, h.2.2]

theorem DataGroup.order_updateDataset (g : DataGroup) (pos : Nat) (f : Dataset → Dataset)
    (hf : ∀ d, (f d).m_descendingData = d.m_descendingData) (q : Nat) :
    ((g.updateDataset pos f).datasetAt q).map Dataset.m_descendingData
      = (g.datasetAt q).map Dataset.m_descendingData := by
  rw [DataGroup.datasetAt_updateDataset]
  split
  · cases g.datasetAt q with
    | none => rfl
    | some d => simp only [Option.map_some', hf]
  · rfl

theorem DataGroup.order_noteComplexDim (ft : QtConv) (dataPos iii dimPos : Nat)
    (g : DataGroup) (q : Nat) :
    ((g.noteComplexDim ft dataPos iii dimPos).datasetAt q).map Dataset.m_descendingData
      = (g.datasetAt q).map Dataset.m_descendingData := by
  unfold DataGroup.noteComplexDim
  split
  · split
    · exact DataGroup.order_updateDataset g dataPos
        (fun d => { d with m_complexIndex := iii }) (fun _ => rfl) q
    · rfl
  · rfl

theorem DataGroup.order_validateLoop (ft : QtConv) (dataPos : Nat) (l : List Nat)
    (g : DataGroup) (q : Nat) :
    ((DataGroup.validateLoop ft dataPos l g).2.datasetAt q).map Dataset.m_descendingData
      = (g.datasetAt q).map Dataset.m_descendingData := by
  induction l generalizing g with
  | nil => rfl
  | cons iii rest ih =>
    unfold DataGroup.validateLoop
    split
    · rfl
    · rename_i dimPos _
      rw [ih, DataGroup.order_noteComplexDim]
      rfl

theorem Dataset.order_setTrueLength (d : Dataset) (L : Int) :
    (d.setTrueLength L).m_descendingData = d.m_descendingData := by
  unfold Dataset.setTrueLength
  split
  · rfl
  · split <;> rfl

theorem DataGroup.order_checkDimLengthsLoop (l : List Nat) (g g' : DataGroup)
    (h : DataGroup.checkDimLengthsLoop l g = some g') (q : Nat) :
    (g'.datasetAt q).map Dataset.m_descendingData
      = (g.datasetAt q).map Dataset.m_descendingData := by
  induction l generalizing g with
  | nil =>
    simp only [DataGroup.checkDimLengthsLoop, Option.some.injEq] at h
    rw [h]
  | cons index rest ih =>
    unfold DataGroup.checkDimLengthsLoop at h
    split at h
    · split at h
      · split at h
        · rw [ih _ h, DataGroup.order_updateDataset _ _ _ (fun d => d.order_setTrueLength _)]
        · exact ih _ h
      · simp at h
    · simp at h

theorem DataGroup.order_checkDimLengths (g g' : DataGroup) (h : g.checkDimLengths = some g')
    (q : Nat) :
    (g'.datasetAt q).map Dataset.m_descendingData
      = (g.datasetAt q).map Dataset.m_descendingData := by
  unfold DataGroup.checkDimLengths at h
  cases hn : g.dimCount with
  | none => rw [hn] at h; simp at h
  | some n =>
    rw [hn] at h
    exact DataGroup.order_checkDimLengthsLoop _ _ _ h q

/-- C11 (as amended): after a successful `DataGroup::validate()` the layout flag
of the primary Dataset is ascending when the group has a `data_order` attribute
whose integer value is 0; in every other case (no such attribute, or one with
another value) the flag is what it was before the call, so it is descending
exactly when it was descending before. -/
theorem validate_data_order (ft : QtConv) (g g' : DataGroup) (data : Dataset)
    (hval : g.validate ft = some (true, g'))
    (hdata : (g.child "data").bind Node.asDataset = some data) :
    ∃ data', g'.dataNode = some data' ∧
      (∀ a, (g.child "data_order").bind Node.asAttribute = some a →
        a.m_value.toInt ft = 0 → data'.m_descendingData = false) ∧
      (∀ a, (g.child "data_order").bind Node.asAttribute = some a →
        a.m_value.toInt ft ≠ 0 → data'.m_descendingData = data.m_descendingData) ∧
      ((g.child "data_order").bind Node.asAttribute = none →
        data'.m_descendingData = data.m_descendingData) := by
  obtain ⟨dataPos, hdp, hda⟩ := DataGroup.datasetAt_of_child g "data" data hdata
  unfold DataGroup.validate at hval
  rw [hdp] at hval
  simp only at hval
  rw [hda] at hval
  simp only at hval
  cases hloop : DataGroup.validateLoop ft dataPos (List.range data.dimCount.toNat) g with
  | mk b g1 =>
    rw [hloop] at hval
    cases b with
    | false => simp at hval
    | true =>
      simp only at hval
      have h1 := DataGroup.order_validateLoop ft dataPos (List.range data.dimCount.toNat) g
      have s1 := DataGroup.sameSkeleton_validateLoop ft dataPos (List.range data.dimCount.toNat) g
      rw [hloop] at h1 s1
      simp only at h1 s1
      cases hc : (g1.setData dataPos).checkDimLengths with
      | none => rw [hc] at hval; simp at hval
      | some g3 =>
        rw [hc] at hval
        simp only at hval
        have h3 := DataGroup.order_checkDimLengths _ _ hc
        have s3 : g1.SameSkeleton g3 :=
          DataGroup.sameSkeleton_checkDimLengths (g1.setData dataPos) g3 hc
        have m3 : g3.m_data = some dataPos := by
          unfold DataGroup.checkDimLengths at hc
          cases hn : (g1.setData dataPos).dimCount with
          | none => rw [hn] at hc; simp at hc
          | some n =>
            rw [hn] at hc
            exact (DataGroup.checkDimLengthsLoop_frame _ _ _ hc).1
        have hattr : (g3.child "data_order").bind Node.asAttribute
            = (g.child "data_order").bind Node.asAttribute :=
          DataGroup.child_asAttribute_of_sameSkeleton (DataGroup.sameSkeleton_trans s1 s3) _
        have hord : (g3.datasetAt dataPos).map Dataset.m_descendingData
            = some data.m_descendingData := by
          rw [h3 dataPos]
          show (g1.datasetAt dataPos).map _ = _
          rw [h1 dataPos, hda]
          rfl
        obtain ⟨d3, hd3, hf3⟩ : ∃ d3, g3.datasetAt dataPos = some d3 ∧
            d3.m_descendingData = data.m_descendingData := by
          cases hd : g3.datasetAt dataPos with
          | none => rw [hd] at hord; simp at hord
          | some d3 =>
            rw [hd] at hord
            simp only [Option.map_some', Option.some.injEq] at hord
            exact ⟨d3, rfl, hord⟩
        have hnode3 : g3.dataNode = some d3 := by
          rw [DataGroup.dataNode_eq _ dataPos m3, hd3]
        cases ha : g3.applyDataOrder ft with
        | none => rw [ha] at hval; simp at hval
        | some g4 =>
          rw [ha] at hval
          simp only [Option.map_some', Option.some.injEq, Prod.mk.injEq, true_and] at hval
          subst hval
          unfold DataGroup.applyDataOrder at ha
          rw [hattr] at ha
          cases hat : (g.child "data_order").bind Node.asAttribute with
          | none =>
            rw [hat] at ha
            simp only [Option.some.injEq] at ha
            subst ha
            exact ⟨d3, hnode3, fun a h => by simp at h, fun a h => by simp at h, fun _ => hf3⟩
          | some a =>
            rw [hat] at ha
            simp only at ha
            by_cases hz : a.m_value.toInt ft = 0
            · rw [if_pos hz] at ha
              unfold DataGroup.setDataOrder at ha
              rw [m3, hnode3] at ha
              simp only [Option.some.injEq] at ha
              subst ha
              refine ⟨{ d3 with m_descendingData := false }, ?_, fun _ _ _ => rfl, ?_, ?_⟩
              · rw [DataGroup.dataNode_eq _ dataPos
                  ((DataGroup.m_dims_updateDataset _ _ _).2.trans m3),
                  DataGroup.datasetAt_updateDataset, if_pos rfl, hd3]
                rfl
              · intro a' h hne
                simp only [Option.some.injEq] at h
                subst h
                exact absurd hz hne
              · intro h
                simp at h
            · rw [if_neg hz] at ha
              simp only [Option.some.injEq] at ha
              subst ha
              refine ⟨d3, hnode3, ?_, fun _ _ _ => hf3, fun _ => hf3⟩
              intro a' h hz'
              simp only [Option.some.injEq] at h
              subst h
              exact absurd hz' hz

/-- Witness of C11: the group with a descending `data` and a `data_order`
attribute holding 0 validates, and afterwards the layout flag of `data` is
ascending; with the value 1, and without the attribute, it stays descending. -/
theorem validate_data_order_witness :
    (∃ data', ((orderedGroup true (some 0)).validate exampleQt).map (fun r => r.2.dataNode)
        = some (some data') ∧ data'.m_descendingData = false) ∧
    ((orderedGroup true (some 1)).validate exampleQt).map
        (fun r => (r.1, r.2.dataNode.map Dataset.m_descendingData)) = some (true, some true) ∧
    ((orderedGroup true none).validate exampleQt).map
        (fun r => (r.1, r.2.dataNode.map Dataset.m_descendingData)) = some (true, some true) := by
  refine ⟨?_, by decide, by decide⟩
  cases hv : (orderedGroup true (some 0)).validate exampleQt with
  | none =>
    have : ((orderedGroup true (some 0)).validate exampleQt).isSome = true := by decide
    rw [hv] at this
    simp at this
  | some r =>
    obtain ⟨b, g'⟩ := r
    have hb : b = true := by
      have : ((orderedGroup true (some 0)).validate exampleQt).map Prod.fst = some true := by
        decide
      rw [hv] at this
      exact Option.some.inj this
    subst hb
    obtain ⟨data', h1, h2, -, -⟩ :=
      validate_data_order exampleQt (orderedGroup true (some 0)) g'
        (Dataset.create 2 [4, 2] DataTypeUInt8 (some (List.replicate 8 0)) true) hv (by decide)
    refine ⟨data', ?_, h2 { Attribute.create with m_value := QVariant.int 0,
                                                   m_type := DataTypeInt32 } (by decide) (by decide)⟩
    simp only [Option.map_some']
    rw [h1]

/-- Counterexample to C11 as stated: a group whose `data` has the ascending
layout before the call and that has no `data_order` attribute validates, and
the layout flag of `data` is ascending afterwards, not descending; the same
happens with a `data_order` attribute holding 1. -/
theorem validate_data_order_counterexample :
    (orderedGroup false none).child "data_order" = none ∧
    ((orderedGroup false none).validate exampleQt).map
        (fun r => (r.1, r.2.dataNode.map Dataset.m_descendingData)) = some (true, some false) ∧
    ((orderedGroup false (some 1)).child "data_order").bind Node.asAttribute
      = some { Attribute.create with m_value := QVariant.int 1, m_type := DataTypeInt32 } ∧
    ((orderedGroup false (some 1)).validate exampleQt).map
        (fun r => (r.1, r.2.dataNode.map Dataset.m_descendingData)) = some (true, some false) := by
  refine ⟨rfl, by decide, by decide, by decide⟩
/-! ## Loading and unloading -/

/-- C12: `Dataset::unloadData()` on a loaded Dataset whose node has `DIRTY` set
changes nothing, so the Dataset stays loaded; on a Dataset whose node has
`DIRTY` clear it leaves no buffer, so `isLoaded()` is false afterwards, and it
changes no other member; and `isLoaded()` is true exactly when there is a
buffer. -/
theorem unloadData_isLoaded (m_status : Nat) (d : Dataset) :
    (d.isLoaded = true → m_status &&& DIRTY ≠ 0 →
      d.unloadData m_status = d ∧ (d.unloadData m_status).isLoaded = true) ∧
    (m_status &&& DIRTY = 0 →
      d.unloadData m_status = { d with m_data := none } ∧
      (d.unloadData m_status).isLoaded = false) ∧
    (d.isLoaded = true ↔ ∃ buf, d.m_data = some buf) := by
  refine ⟨?_, ?_, ?_⟩
  · intro hl hd
    have : d.unloadData m_status = d := by
      unfold Dataset.unloadData
      rw [if_neg (fun h => hd h.2)]
    rw [this]
    exact ⟨rfl, hl⟩
  · intro hd
    have : d.unloadData m_status = { d with m_data := none } := by
      unfold Dataset.unloadData
      split
      · rfl
      · rename_i h
        have hn : d.m_data = none := by
          cases hm : d.m_data with
          | none => rfl
          | some b => exact absurd ⟨by rw [hm]; rfl, hd⟩ h
        cases d
        simp only at hn
        subst hn
        rfl
    rw [this]
    exact ⟨rfl, rfl⟩
  · unfold Dataset.isLoaded
    exact Option.isSome_iff_exists

/-- Witness of C12: a loaded Dataset stays loaded by `unloadData()` when its
node has `DIRTY` set, and is unloaded when the status of its node is `DATASET`
only. -/
theorem unloadData_isLoaded_witness :
    (Dataset.ofLength 3 DataTypeInt32 true).isLoaded = true ∧
    ((Dataset.ofLength 3 DataTypeInt32 true).unloadData (DATASET ||| DIRTY)).isLoaded = true ∧
    ((Dataset.ofLength 3 DataTypeInt32 true).unloadData DATASET).isLoaded = false := by
  have h := unloadData_isLoaded (DATASET ||| DIRTY) (Dataset.ofLength 3 DataTypeInt32 true)
  have h' := unloadData_isLoaded DATASET (Dataset.ofLength 3 DataTypeInt32 true)
  exact ⟨by decide, (h.1 (by decide) (by decide)).2, (h'.2.1 (by decide)).2⟩

theorem wrapUnsigned_mul (w : Nat) (a b : Int) :
    wrapUnsigned w (wrapUnsigned w a * wrapUnsigned w b) = wrapUnsigned w (a * b) := by
  unfold wrapUnsigned
  exact (Int.mul_emod a b _).symm

theorem loadSize_foldl (f : Nat → Int) (l : List Nat) (acc : Int) :
    l.foldl (fun size iii => wrapUnsigned 8 (size * wrapUnsigned 8 (f iii))) (wrapUnsigned 8 acc)
      = wrapUnsigned 8 (acc * (l.map f).prod) := by
  induction l generalizing acc with
  | nil => simp
  | cons i rest ih =>
    simp only [List.foldl_cons, List.map_cons, List.prod_cons]
    rw [wrapUnsigned_mul, ih, mul_assoc]

theorem map_getD_range (l : List Int) :
    (List.range l.length).map (fun iii => l.getD iii 0) = l := by
  apply List.ext_getElem
  · simp
  · intro n h1 h2
    simp only [List.getElem_map, List.getElem_range, List.getD_eq_getElem?_getD,
      List.getElem?_eq_getElem h2, Option.getD_some]

theorem DataSpace.map_dimLength_of_isValid (s : DataSpace) (hv : s.isValid = true) :
    (List.range s.rank.toNat).map (fun iii => s.dimLength (iii : Nat)) = s.m_dimLengths := by
  unfold DataSpace.isValid at hv
  simp only [Bool.and_eq_true, decide_eq_true_eq] at hv
  obtain ⟨hpos, hlen⟩ := hv
  have hr : s.rank.toNat = s.m_dimLengths.length := by
    unfold DataSpace.rank
    omega
  rw [hr]
  conv_rhs => rw [← map_getD_range s.m_dimLengths]
  apply List.map_congr_left
  intro iii hi
  have hi' := List.mem_range.1 hi
  unfold DataSpace.dimLength
  rw [if_neg (by omega)]
  simp

/-- C14: `Dataset::loadData` computes `size` as the byte width `m_dataTypeSize`
(replaced by the size of the file type for a string type of fixed length)
times the product of the lengths of all axes, modulo `2^64`; `MEMORY_LIMIT` is
`2^41`; when `size` is below it the Dataset gets a buffer of `size` bytes
filled by `read` and is loaded; when `size` is at or above it the pointer
`m_data` is not touched, so a Dataset that was not loaded stays unloaded. -/
theorem loadData_ceiling (d : Dataset) (dataSet : H5DataSet) :
    MEMORY_LIMIT = 2 ^ 41 ∧
    (dataSet.typeClass ≠ H5T_class_t.H5T_STRING → d.loadTypeSize dataSet = d.m_dataTypeSize) ∧
    (d.loadData dataSet).m_dataTypeSize = d.loadTypeSize dataSet ∧
    d.loadSize (d.loadTypeSize dataSet)
      = (d.loadTypeSize dataSet *
          ((List.range d.m_space.rank.toNat).map
            (fun iii => d.m_space.dimLength (iii : Nat))).prod) % 2 ^ 64 ∧
    (d.m_space.isValid = true →
      d.loadSize (d.loadTypeSize dataSet)
        = (d.loadTypeSize dataSet * d.m_space.m_dimLengths.prod) % 2 ^ 64) ∧
    (d.loadSize (d.loadTypeSize dataSet) < 2 ^ 41 →
      (d.loadData dataSet).m_data
        = some (dataSet.read (d.loadSize (d.loadTypeSize dataSet)).toNat) ∧
      (d.loadData dataSet).isLoaded = true) ∧
    (2 ^ 41 ≤ d.loadSize (d.loadTypeSize dataSet) →
      (d.loadData dataSet).m_data = d.m_data ∧
      (d.isLoaded = false → (d.loadData dataSet).isLoaded = false)) := by
  have hsize : d.loadSize (d.loadTypeSize dataSet)
      = (d.loadTypeSize dataSet *
          ((List.range d.m_space.rank.toNat).map
            (fun iii => d.m_space.dimLength (iii : Nat))).prod) % 2 ^ 64 := by
    unfold Dataset.loadSize
    rw [loadSize_foldl (fun iii => d.m_space.dimLength (iii : Nat))]
    rfl
  have hlimit : MEMORY_LIMIT = 2 ^ 41 := by decide
  refine ⟨hlimit, ?_, ?_, hsize, ?_, ?_, ?_⟩
  · intro hc
    unfold Dataset.loadTypeSize
    rw [if_neg (fun h => hc h.1)]
  · unfold Dataset.loadData
    simp only
    split <;> rfl
  · intro hv
    rw [hsize, DataSpace.map_dimLength_of_isValid _ hv]
  · intro hlt
    have : (d.loadData dataSet)
        = { d with m_dataTypeSize := d.loadTypeSize dataSet,
                   m_data := some (dataSet.read (d.loadSize (d.loadTypeSize dataSet)).toNat) } := by
      unfold Dataset.loadData
      simp only
      rw [if_pos (by rw [hlimit]; exact hlt)]
    rw [this]
    exact ⟨rfl, rfl⟩
  · intro hge
    have : (d.loadData dataSet) = { d with m_dataTypeSize := d.loadTypeSize dataSet } := by
      unfold Dataset.loadData
      simp only
      rw [if_neg (by rw [hlimit]; omega)]
    rw [this]
    exact ⟨rfl, fun h => h⟩

/-- Witness of C14: a Dataset of 4 x 2 `UInt8` elements needs 8 bytes and is
loaded with the 8 bytes read; a Dataset of 65536 x 65536 x 1024 `Float64`
elements needs `2^45` bytes, which is above the ceiling, and stays unloaded. -/
theorem loadData_ceiling_witness :
    (((Dataset.ofParent.setDataSpace (DataSpace.create 2 (some [4, 2]))).setDataType
        DataTypeUInt8).loadData (exampleFile 0)).m_data = some (List.replicate 8 0) ∧
    ((Dataset.ofParent.setDataSpace (DataSpace.create 3 (some [65536, 65536, 1024]))
        ).setDataType DataTypeFloat64).loadSize 8 = 2 ^ 45 ∧
    (((Dataset.ofParent.setDataSpace (DataSpace.create 3 (some [65536, 65536, 1024]))
        ).setDataType DataTypeFloat64).loadData (exampleFile 0)).isLoaded = false := by
  have h1 := loadData_ceiling
    ((Dataset.ofParent.setDataSpace (DataSpace.create 2 (some [4, 2]))).setDataType
      DataTypeUInt8) (exampleFile 0)
  have h2 := loadData_ceiling
    ((Dataset.ofParent.setDataSpace (DataSpace.create 3 (some [65536, 65536, 1024]))
      ).setDataType DataTypeFloat64) (exampleFile 0)
  refine ⟨?_, by decide, (h2.2.2.2.2.2.2 (by decide)).2 (by decide)⟩
  rw [(h1.2.2.2.2.2.1 (by decide)).1]
  decide

theorem DataGroup.unload_children (g g' : DataGroup) (h : g.unload = some g') (q : Nat)
    (hq : g.m_data ≠ some q) : g'.m_children.get? q = g.m_children.get? q := by
  unfold DataGroup.unload at h
  split at h
  · rename_i pos _ hm _
    split at h
    · simp only [Option.some.injEq] at h
      rw [← h]
      simp only [List.get?_eq_getElem?]
      rw [List.getElem?_set]
      have : pos ≠ q := fun e => hq (by rw [hm, e])
      rw [if_neg this]
    · simp at h
  · simp at h

/-- C13, the code at the failing input: `DataGroup::unload()` changes no child
of the group but the primary Dataset, so a dimension Dataset that was loaded
stays loaded. The data group read from a file validates; `load` then loads
`data`, `dim1` and `dim2`; `unload` on it, none of whose nodes is `DIRTY`,
unloads `data` only: `dim1` and `dim2` still report `isLoaded() == true`. -/
theorem unload_leaves_dims_loaded :
    (∀ (g g' : DataGroup) (q : Nat), g.unload = some g' → g.m_data ≠ some q →
      g'.datasetAt q = g.datasetAt q) ∧
    (((fileGroup.validate exampleQt).bind (fun r => r.2.load exampleFile)).map
        (fun r => (r.1, r.2.m_data, r.2.m_dims, r.2.isLoaded,
          r.2.m_dims.map (fun q => (r.2.datasetAt q).map Dataset.isLoaded)))
      = some (true, some 1, [2, 3], some true, [some true, some true])) ∧
    (((fileGroup.validate exampleQt).bind (fun r => r.2.load exampleFile)).map
        (fun r => (r.2.m_status &&& DIRTY) :: r.2.m_children.map (fun c => c.status &&& DIRTY))
      = some [0, 0, 0, 0, 0]) ∧
    ((((fileGroup.validate exampleQt).bind (fun r => r.2.load exampleFile)).bind
        (fun r => r.2.unload)).map
        (fun g => (g.isLoaded, g.m_dims.map (fun q => (g.datasetAt q).map Dataset.isLoaded)))
      = some (some false, [some true, some true])) := by
  refine ⟨?_, by decide, by decide, by decide⟩
  intro g g' q h hq
  unfold DataGroup.datasetAt
  rw [DataGroup.unload_children g g' h q hq]
/-! ## Objects in memory -/

theorem lor_and_self (s f : Nat) : (s ||| f) &&& f = f := by
  apply Nat.eq_of_testBit_eq
  intro i
  simp only [Nat.testBit_land, Nat.testBit_lor]
  cases s.testBit i <;> cases f.testBit i <;> rfl

theorem lor_and_left (s f : Nat) : (s ||| f) &&& s = s := by
  apply Nat.eq_of_testBit_eq
  intro i
  simp only [Nat.testBit_land, Nat.testBit_lor]
  cases s.testBit i <;> cases f.testBit i <;> rfl

theorem Memory.obj_eq (m : Memory) (a : Nat) : m.obj a = (m[a]?).getD none := by
  unfold Memory.obj
  exact List.getD_eq_getElem?_getD m a none

theorem Memory.lt_length_of_obj (m : Memory) (a : Nat) (o : NodeObject) (h : m.obj a = some o) :
    a < m.length := by
  by_contra hlt
  rw [Memory.obj_eq, List.getElem?_eq_none (by omega)] at h
  simp at h

theorem Memory.obj_store (m : Memory) (a b : Nat) (o x : NodeObject) (h : m.obj a = some x) :
    (m.store a o).obj b = if b = a then some o else m.obj b := by
  have hlt := Memory.lt_length_of_obj m a x h
  rw [Memory.obj_eq, Memory.obj_eq]
  unfold Memory.store
  rw [List.getElem?_set]
  by_cases hb : b = a
  · subst hb
    simp [hlt]
  · rw [if_neg (fun e => hb e.symm), if_neg hb]

theorem Memory.obj_free (m : Memory) (a b : Nat) :
    (m.free a).obj b = if b = a then none else m.obj b := by
  rw [Memory.obj_eq, Memory.obj_eq]
  unfold Memory.free
  rw [List.getElem?_set]
  by_cases hb : b = a
  · subst hb
    simp only [if_true]
    split <;> rfl
  · rw [if_neg (fun e => hb e.symm), if_neg hb]

theorem Memory.obj_alloc (m : Memory) (o : NodeObject) (b : Nat) :
    (m.alloc o).1.obj b = if b = m.length then some o else m.obj b := by
  rw [Memory.obj_eq, Memory.obj_eq]
  unfold Memory.alloc
  simp only
  rw [List.getElem?_append]
  by_cases hb : b = m.length
  · subst hb
    simp
  · rw [if_neg hb]
    split
    · rfl
    · rw [List.getElem?_eq_none (by simp; omega), List.getElem?_eq_none (by omega)]

theorem Memory.obj_length (m : Memory) : m.obj m.length = none := by
  rw [Memory.obj_eq, List.getElem?_eq_none (le_refl _)]
  rfl

theorem Memory.length_store (m : Memory) (a : Nat) (o : NodeObject) :
    (m.store a o).length = m.length := by
  unfold Memory.store
  exact List.length_set ..

theorem Memory.length_free (m : Memory) (a : Nat) : (m.free a).length = m.length := by
  unfold Memory.free
  exact List.length_set ..

theorem lor_lor_self (s f : Nat) : s ||| f ||| f = s ||| f := by
  rw [Nat.lor_assoc, Nat.or_self]

theorem collect_congr (sub1 sub2 : Nat → Option (List Nat)) (cs : List Nat)
    (h : ∀ c ∈ cs, sub1 c = sub2 c) : collect sub1 cs = collect sub2 cs := by
  induction cs with
  | nil => rfl
  | cons c rest ih =>
    unfold collect
    rw [h c (List.mem_cons_self _ _), ih (fun x hx => h x (List.mem_cons_of_mem _ hx))]

theorem collect_cons (sub : Nat → Option (List Nat)) (c : Nat) (cs : List Nat) (l : List Nat)
    (h : collect sub (c :: cs) = some l) :
    ∃ lc ls, sub c = some lc ∧ collect sub cs = some ls ∧ l = lc ++ ls := by
  unfold collect at h
  cases hc : sub c with
  | none => rw [hc] at h; simp at h
  | some lc =>
    cases hs : collect sub cs with
    | none => rw [hc, hs] at h; simp at h
    | some ls =>
      rw [hc, hs] at h
      simp only [Option.some.injEq] at h
      exact ⟨lc, ls, rfl, rfl, h.symm⟩

theorem Memory.subtree_succ (m : Memory) (fuel node : Nat) :
    m.subtree (fuel + 1) node
      = match m.obj node with
        | none => none
        | some o => (collect (m.subtree fuel) o.m_children).map (fun l => node :: l) := rfl

theorem Memory.subtree_inv (m : Memory) (fuel node : Nat) (addrs : List Nat)
    (h : m.subtree fuel node = some addrs) :
    ∃ fuel' o l, fuel = fuel' + 1 ∧ m.obj node = some o ∧
      collect (m.subtree fuel') o.m_children = some l ∧ addrs = node :: l := by
  cases fuel with
  | zero => simp [Memory.subtree] at h
  | succ fuel' =>
    rw [Memory.subtree_succ] at h
    cases ho : m.obj node with
    | none => rw [ho] at h; simp at h
    | some o =>
      rw [ho] at h
      simp only at h
      cases hl : collect (m.subtree fuel') o.m_children with
      | none => rw [hl] at h; simp at h
      | some l =>
        rw [hl] at h
        simp only [Option.map_some', Option.some.injEq] at h
        exact ⟨fuel', o, l, rfl, rfl, hl, h.symm⟩

theorem Memory.subtree_congr (m m1 : Memory) :
    ∀ (fuel node : Nat) (addrs : List Nat), m.subtree fuel node = some addrs →
      (∀ b ∈ addrs, (m1.obj b).map NodeObject.m_children = (m.obj b).map NodeObject.m_children) →
      m1.subtree fuel node = some addrs := by
  intro fuel
  induction fuel with
  | zero => intro node addrs h; simp [Memory.subtree] at h
  | succ fuel ih =>
    intro node addrs h hsame
    obtain ⟨fuel', o, l, hf, ho, hl, ha⟩ := Memory.subtree_inv m _ node addrs h
    have hf' : fuel' = fuel := by omega
    subst hf'
    subst ha
    have hnode := hsame node (List.mem_cons_self _ _)
    rw [ho] at hnode
    cases ho1 : m1.obj node with
    | none => rw [ho1] at hnode; simp at hnode
    | some o1 =>
      rw [ho1] at hnode
      simp only [Option.map_some', Option.some.injEq] at hnode
      rw [Memory.subtree_succ, ho1]
      simp only
      rw [hnode]
      have key : ∀ (cs : List Nat) (l : List Nat), collect (m.subtree fuel') cs = some l →
          (∀ b ∈ l, (m1.obj b).map NodeObject.m_children
            = (m.obj b).map NodeObject.m_children) →
          collect (m1.subtree fuel') cs = some l := by
        intro cs
        induction cs with
        | nil => intro l hl _; exact hl
        | cons c rest ihc =>
          intro l hl hs
          obtain ⟨lc, ls, h1, h2, h3⟩ := collect_cons _ c rest l hl
          subst h3
          unfold collect
          rw [ih c lc h1 (fun b hb => hs b (List.mem_append_left _ hb)),
            ihc ls h2 (fun b hb => hs b (List.mem_append_right _ hb))]
      rw [key o.m_children l hl (fun b hb => hsame b (List.mem_cons_of_mem _ hb))]
      rfl

/-! ## `Node::path` and `Node::childAtPath` -/

theorem Memory.childLoop_of_isFirstNamed (m : Memory) (name : String) (c : Nat) (oc : NodeObject)
    (hc : m.obj c = some oc) (hname : oc.m_name = name) :
    ∀ cs : List Nat, m.isFirstNamed cs c name = true →
      m.childLoop name cs = some (some c) := by
  intro cs
  induction cs with
  | nil =>
    intro h
    simp [Memory.isFirstNamed] at h
  | cons b rest ih =>
    intro h
    unfold Memory.isFirstNamed at h
    simp only [Bool.and_eq_true, decide_eq_true_eq] at h
    obtain ⟨hmem, hall⟩ := h
    by_cases hb : b = c
    · subst hb
      unfold Memory.childLoop
      rw [hc]
      simp only
      rw [if_pos hname.symm]
    · have htw : (b :: rest).takeWhile (fun x => x != c)
          = b :: rest.takeWhile (fun x => x != c) := by
        rw [List.takeWhile_cons]
        simp [hb]
      rw [htw, List.all_cons, Bool.and_eq_true] at hall
      obtain ⟨hbo, hrest⟩ := hall
      have hmem' : c ∈ rest := by
        rcases List.mem_cons.1 hmem with e | e
        · exact absurd e.symm hb
        · exact e
      unfold Memory.childLoop
      cases hob : m.obj b with
      | none => rw [hob] at hbo; simp at hbo
      | some ob =>
        rw [hob] at hbo
        simp only [decide_eq_true_eq] at hbo
        simp only
        rw [if_neg (fun e => hbo e.symm)]
        apply ih
        unfold Memory.isFirstNamed
        simp only [Bool.and_eq_true, decide_eq_true_eq]
        exact ⟨hmem', hrest⟩

theorem indexOf_of_not_mem (s : String) (ch : Char) (h : ch ∉ s.data) : indexOf s ch = -1 := by
  unfold indexOf
  rw [if_neg h]

theorem indexOf_append (a b : String) (ch : Char) (h : ch ∉ a.data) :
    indexOf (a ++ String.singleton ch ++ b) ch = a.data.length := by
  unfold indexOf
  have hd : (a ++ String.singleton ch ++ b).data = a.data ++ (ch :: b.data) := by
    simp [String.data_append, String.singleton]
  rw [hd, if_pos (by simp), List.indexOf_append_of_not_mem h, List.indexOf_cons_self]
  simp

theorem truncate_append (a b : String) (ch : Char) :
    truncate (a ++ String.singleton ch ++ b) (a.data.length : Int) = a := by
  unfold truncate
  have hd : (a ++ String.singleton ch ++ b).data = a.data ++ (ch :: b.data) := by
    simp [String.data_append, String.singleton]
  rw [hd]
  simp

theorem removeFirst_append (a b : String) (ch : Char) :
    removeFirst (a ++ String.singleton ch ++ b) ((a.data.length : Int) + 1) = b := by
  unfold removeFirst
  have hd : (a ++ String.singleton ch ++ b).data = a.data ++ (ch :: b.data) := by
    simp [String.data_append, String.singleton]
  rw [hd]
  have : ((a.data.length : Int) + 1).toNat = a.data.length + 1 := by omega
  rw [this, List.drop_append]
  rfl

theorem slash_eq : ("/" : String) = String.singleton '/' := rfl

theorem Memory.names_cons (m : Memory) (c : Nat) (rest : List Nat) (oc : NodeObject)
    (hc : m.obj c = some oc) : m.names (c :: rest) = oc.m_name :: m.names rest := by
  unfold Memory.names
  simp [hc]

theorem Memory.isBranch_cons (m : Memory) (node c : Nat) (rest : List Nat)
    (h : m.isBranch node (c :: rest) = true) :
    ∃ o oc, m.obj node = some o ∧ m.obj c = some oc ∧ oc.m_parent = some node ∧
      oc.m_name ≠ "" ∧ '/' ∉ oc.m_name.data ∧
      m.isFirstNamed o.m_children c oc.m_name = true ∧ m.isBranch c rest = true := by
  unfold Memory.isBranch at h
  rw [Bool.and_eq_true] at h
  obtain ⟨h1, h2⟩ := h
  cases ho : m.obj node with
  | none => rw [ho] at h1; simp at h1
  | some o =>
    cases hoc : m.obj c with
    | none => rw [ho, hoc] at h1; simp at h1
    | some oc =>
      rw [ho, hoc] at h1
      simp only [Bool.and_eq_true, decide_eq_true_eq] at h1
      exact ⟨o, oc, rfl, rfl, h1.1.1.1, h1.1.1.2, h1.1.2, h1.2, h2⟩

theorem Memory.child_of_isBranch (m : Memory) (node c : Nat) (rest : List Nat)
    (h : m.isBranch node (c :: rest) = true) :
    ∃ oc, m.obj c = some oc ∧ m.child node oc.m_name = some (some c) := by
  obtain ⟨o, oc, ho, hoc, -, -, -, hfirst, -⟩ := Memory.isBranch_cons m node c rest h
  refine ⟨oc, hoc, ?_⟩
  unfold Memory.child
  rw [ho]
  exact Memory.childLoop_of_isFirstNamed m oc.m_name c oc hoc rfl _ hfirst

theorem Memory.childAtPathLoop_branch (m : Memory) :
    ∀ (chain : List Nat) (node fuel : Nat), chain ≠ [] → m.isBranch node chain = true →
      chain.length ≤ fuel →
      m.childAtPathLoop fuel node (joinPath (m.names chain)) = Run.done chain.getLast? := by
  intro chain
  induction chain with
  | nil => intro _ _ h; exact absurd rfl h
  | cons c rest ih =>
    intro node fuel _ hb hfuel
    obtain ⟨o, oc, ho, hoc, -, hne, hslash, -, hrest⟩ := Memory.isBranch_cons m node c rest hb
    obtain ⟨oc', hoc', hchild⟩ := Memory.child_of_isBranch m node c rest hb
    rw [hoc] at hoc'
    cases hoc'
    cases fuel with
    | zero => simp at hfuel
    | succ fuel =>
      rw [Memory.names_cons m c rest oc hoc]
      cases rest with
      | nil =>
        have : joinPath (oc.m_name :: m.names []) = oc.m_name := rfl
        rw [this]
        unfold Memory.childAtPathLoop
        simp only
        rw [indexOf_of_not_mem _ _ hslash, if_neg (by decide), hchild]
        rfl
      | cons c2 rest2 =>
        obtain ⟨_, o2, _, ho2, _⟩ := Memory.isBranch_cons m c c2 rest2 hrest
        rw [Memory.names_cons m c2 rest2 o2 ho2]
        have hj : joinPath (oc.m_name :: o2.m_name :: m.names rest2)
            = oc.m_name ++ String.singleton '/' ++ joinPath (o2.m_name :: m.names rest2) := rfl
        rw [hj]
        unfold Memory.childAtPathLoop
        simp only
        rw [indexOf_append _ _ _ hslash]
        have hpos : ((oc.m_name.data.length : Nat) : Int) > 0 := by
          have : oc.m_name.data ≠ [] := by
            intro e
            apply hne
            cases hnm : oc.m_name with
            | mk d =>
              rw [hnm] at e
              simp only at e
              subst e
              rfl
          have := List.length_pos.2 this
          omega
        rw [if_pos hpos, truncate_append, hchild, removeFirst_append]
        simp only
        have := ih c fuel (by simp) hrest (by simpa using hfuel)
        rw [Memory.names_cons m c2 rest2 o2 ho2] at this
        rw [this]
        simp [List.getLast?_cons_cons]

theorem joinPath_foldl (names : List String) (h : names ≠ []) (s : String) :
    names.foldl (fun acc nm => acc ++ "/" ++ nm) s = s ++ "/" ++ joinPath names := by
  induction names generalizing s with
  | nil => exact absurd rfl h
  | cons a rest ih =>
    cases rest with
    | nil => rfl
    | cons b rest2 =>
      rw [List.foldl_cons, ih (by simp)]
      show s ++ "/" ++ a ++ "/" ++ joinPath (b :: rest2)
        = s ++ "/" ++ (a ++ "/" ++ joinPath (b :: rest2))
      simp only [String.append_assoc]

theorem Memory.path_branch (m : Memory) :
    ∀ (chain : List Nat) (node fuel : Nat) (s : String) (n : Nat),
      m.isBranch node chain = true → m.path fuel node = Run.done s →
      chain.getLast? = some n →
      m.path (fuel + chain.length) n
        = Run.done ((m.names chain).foldl (fun acc nm => acc ++ "/" ++ nm) s) := by
  intro chain
  induction chain with
  | nil => intro _ _ _ _ _ _ h; simp at h
  | cons c rest ih =>
    intro node fuel s n hb hs hn
    obtain ⟨o, oc, ho, hoc, hpar, -, -, -, hrest⟩ := Memory.isBranch_cons m node c rest hb
    have hc : m.path (fuel + 1) c = Run.done (s ++ "/" ++ oc.m_name) := by
      show (match m.obj c with
        | none => Run.undefined
        | some o =>
          match o.m_parent with
          | some parent => (m.path fuel parent).map (fun s => s ++ "/" ++ o.m_name)
          | none => Run.done "") = _
      rw [hoc]
      simp only
      rw [hpar]
      simp only
      rw [hs]
      rfl
    rw [Memory.names_cons m c rest oc hoc, List.foldl_cons]
    cases rest with
    | nil =>
      simp only [List.getLast?_singleton, Option.some.injEq] at hn
      subst hn
      exact hc
    | cons c2 rest2 =>
      rw [List.getLast?_cons_cons] at hn
      have := ih c (fuel + 1) _ n hrest hc hn
      have e : fuel + (c :: c2 :: rest2).length = fuel + 1 + (c2 :: rest2).length := by
        simp only [List.length_cons]
        omega
      rw [e]
      exact this

theorem Memory.length_joinPath (m : Memory) :
    ∀ (chain : List Nat) (node : Nat), m.isBranch node chain = true →
      chain.length ≤ (joinPath (m.names chain)).length + 1 := by
  intro chain
  induction chain with
  | nil => intro _ _; simp
  | cons c rest ih =>
    intro node hb
    obtain ⟨o, oc, ho, hoc, -, -, -, -, hrest⟩ := Memory.isBranch_cons m node c rest hb
    rw [Memory.names_cons m c rest oc hoc]
    cases rest with
    | nil => simp
    | cons c2 rest2 =>
      obtain ⟨_, o2, _, ho2, _⟩ := Memory.isBranch_cons m c c2 rest2 hrest
      have := ih c hrest
      rw [Memory.names_cons m c2 rest2 o2 ho2] at this ⊢
      have hj : joinPath (oc.m_name :: o2.m_name :: m.names rest2)
          = oc.m_name ++ "/" ++ joinPath (o2.m_name :: m.names rest2) := rfl
      rw [hj]
      simp only [String.length_append, List.length_cons] at this ⊢
      have : ("/" : String).length = 1 := rfl
      omega

/-- C15: the path of the root is empty and the path of every other node is the
path of its parent, `/` and its name; and for a node `n` below the root such
that every node on the way from the root down to `n` has its parent pointer on
the node before it, a name that is not empty and has no `/`, and is the first
child of that name in its parent, `path()` returns `/` followed by the names on
the way joined by `/`, and `childAtPath` on the root with that text without the
leading `/` returns `n`. -/
theorem path_childAtPath_roundTrip (m : Memory) (root n : Nat) (chain : List Nat)
    (o : NodeObject) (hroot : m.obj root = some o) (hparent : o.m_parent = none)
    (hchain : m.isBranch root chain = true) (hn : chain.getLast? = some n) :
    (∀ fuel, m.path (fuel + 1) root = Run.done "") ∧
    (∀ fuel a oa parent, m.obj a = some oa → oa.m_parent = some parent →
      m.path (fuel + 1) a = (m.path fuel parent).map (fun s => s ++ "/" ++ oa.m_name)) ∧
    (∀ fuel, chain.length < fuel →
      m.path fuel n = Run.done ("/" ++ joinPath (m.names chain))) ∧
    m.childAtPath root (joinPath (m.names chain)) = Run.done (some n) := by
  have hne : chain ≠ [] := by
    intro e
    rw [e] at hn
    simp at hn
  have hr : ∀ fuel, m.path (fuel + 1) root = Run.done "" := by
    intro fuel
    show (match m.obj root with
      | none => Run.undefined
      | some o =>
        match o.m_parent with
        | some parent => (m.path fuel parent).map (fun s => s ++ "/" ++ o.m_name)
        | none => Run.done "") = _
    rw [hroot]
    simp only
    rw [hparent]
  refine ⟨hr, ?_, ?_, ?_⟩
  · intro fuel a oa parent ha hp
    show (match m.obj a with
      | none => Run.undefined
      | some o =>
        match o.m_parent with
        | some parent => (m.path fuel parent).map (fun s => s ++ "/" ++ o.m_name)
        | none => Run.done "") = _
    rw [ha]
    simp only
    rw [hp]
  · intro fuel hf
    obtain ⟨k, hk⟩ : ∃ k, fuel = (k + 1) + chain.length := ⟨fuel - chain.length - 1, by omega⟩
    rw [hk, Memory.path_branch m chain root (k + 1) "" n hchain (hr k) hn,
      joinPath_foldl _ (by
        intro e
        apply hne
        unfold Memory.names at e
        exact List.map_eq_nil_iff.1 e)]
    rfl
  · unfold Memory.childAtPath
    rw [Memory.childAtPathLoop_branch m chain root _ hne hchain
      (Memory.length_joinPath m chain root hchain), hn]

/-- Witness of C15: in the example memory the node `image` at address 5 below
`data` below the root has the path `/data/image`, and `childAtPath` on the root
with `data/image` returns it. -/
theorem path_childAtPath_roundTrip_witness :
    exampleMemory.path 3 5 = Run.done "/data/image" ∧
    exampleMemory.childAtPath 0 "data/image" = Run.done (some 5) := by
  have h := path_childAtPath_roundTrip exampleMemory 0 5 [1, 5] (plainObject "" none [1, 2])
    rfl rfl (by decide) rfl
  exact ⟨h.2.2.1 3 (by decide), h.2.2.2⟩
/-! ## `Node::addChild`, `Node::addChildren` and `Node::removeChildren` -/

/-- C16: `Node::addChild` decides by the pointer. A node that is not in the child
list is appended as the last child whatever the names of the children are: the
call returns `true`, the other children keep their order, the parent of the
added node is this node, and no other object changes. A node that is in the
child list is refused: the call returns `false` and changes nothing. -/
theorem addChild_by_identity (m : Memory) (node child : Nat) (o oc : NodeObject)
    (ho : m.obj node = some o) (hc : m.obj child = some oc) :
    (child ∉ o.m_children →
      ∃ m', m.addChild node child = some (true, m') ∧
        (m'.obj node).map NodeObject.m_children = some (o.m_children ++ [child]) ∧
        (m'.obj child).map NodeObject.m_parent = some (some node) ∧
        (child ≠ node →
          m'.obj node = some { o with m_children := o.m_children ++ [child] } ∧
          m'.obj child = some { oc with m_parent := some node }) ∧
        (∀ a, a ≠ node → a ≠ child → m'.obj a = m.obj a)) ∧
    (child ∈ o.m_children → m.addChild node child = some (false, m)) := by
  constructor
  · intro hnot
    have hs1 : ∀ b, (m.store node { o with m_children := o.m_children ++ [child] }).obj b
        = if b = node then some { o with m_children := o.m_children ++ [child] }
          else m.obj b := fun b => Memory.obj_store m node b _ o ho
    by_cases hcn : child = node
    · subst hcn
      have h1 : (m.store child { o with m_children := o.m_children ++ [child] }).obj child
          = some { o with m_children := o.m_children ++ [child] } := by
        rw [hs1, if_pos rfl]
      refine ⟨(m.store child { o with m_children := o.m_children ++ [child] }).store child
        { o with m_children := o.m_children ++ [child], m_parent := some child },
        ?_, ?_, ?_, fun h => absurd rfl h, ?_⟩
      · unfold Memory.addChild
        rw [ho]
        simp only
        rw [if_neg hnot, h1]
      · rw [Memory.obj_store _ child child _ _ h1, if_pos rfl]
        rfl
      · rw [Memory.obj_store _ child child _ _ h1, if_pos rfl]
        rfl
      · intro a ha _
        rw [Memory.obj_store _ child a _ _ h1, if_neg ha, hs1, if_neg ha]
    · have h1 : (m.store node { o with m_children := o.m_children ++ [child] }).obj child
          = some oc := by
        rw [hs1, if_neg hcn, hc]
      have hnode : ((m.store node { o with m_children := o.m_children ++ [child] }).store child
          { oc with m_parent := some node }).obj node
          = some { o with m_children := o.m_children ++ [child] } := by
        rw [Memory.obj_store _ child node _ _ h1, if_neg (fun e => hcn e.symm), hs1, if_pos rfl]
      have hchild : ((m.store node { o with m_children := o.m_children ++ [child] }).store
          child { oc with m_parent := some node }).obj child
          = some { oc with m_parent := some node } := by
        rw [Memory.obj_store _ child child _ _ h1, if_pos rfl]
      refine ⟨(m.store node { o with m_children := o.m_children ++ [child] }).store child
        { oc with m_parent := some node }, ?_, ?_, ?_, fun _ => ⟨hnode, hchild⟩, ?_⟩
      · unfold Memory.addChild
        rw [ho]
        simp only
        rw [if_neg hnot, h1]
      · rw [hnode]
        rfl
      · rw [hchild]
        rfl
      · intro a ha hac
        rw [Memory.obj_store _ child a _ _ h1, if_neg hac, hs1, if_neg ha]
  · intro hmem
    unfold Memory.addChild
    rw [ho]
    simp only
    rw [if_pos hmem]

/-- Witness of C16: in the example memory the root has a child called `data` at
address 1; the node at address 6, also called `data`, is not among its children
and is added as its last child, and its parent becomes the root; the child at
address 1 is refused. -/
theorem addChild_by_identity_witness :
    (exampleMemory.obj 6).map NodeObject.m_name = (exampleMemory.obj 1).map NodeObject.m_name ∧
    (∃ m', exampleMemory.addChild 0 6 = some (true, m') ∧
      (m'.obj 0).map NodeObject.m_children = some [1, 2, 6] ∧
      (m'.obj 6).map NodeObject.m_parent = some (some 0)) ∧
    exampleMemory.addChild 0 1 = some (false, exampleMemory) := by
  have h6 := addChild_by_identity exampleMemory 0 6 (plainObject "" none [1, 2])
    (plainObject "data" none []) rfl rfl
  have h1 := addChild_by_identity exampleMemory 0 1 (plainObject "" none [1, 2])
    (plainObject "data" (some 0) [3, 4, 5]) rfl rfl
  obtain ⟨m', e1, e2, e3, -, -⟩ := h6.1 (by decide)
  exact ⟨rfl, ⟨m', e1, e2, e3⟩, h1.2 (by decide)⟩
/-! ## `Node::setStatus` -/

theorem Memory.marked_children {status : Nat} {S : List Nat} {m m' : Memory}
    (h : Memory.Marked status S m m') (b : Nat) :
    (m'.obj b).map NodeObject.m_children = (m.obj b).map NodeObject.m_children := by
  rw [h.2 b]
  cases m.obj b with
  | none => rfl
  | some o =>
    simp only [Option.map_some', Option.some.injEq]
    split <;> rfl

theorem Memory.marked_store (status : Nat) (m : Memory) (a : Nat) (o : NodeObject)
    (ho : m.obj a = some o) :
    Memory.Marked status [a] m (m.store a { o with m_status := o.m_status ||| status }) := by
  refine ⟨Memory.length_store _ _ _, ?_⟩
  intro b
  rw [Memory.obj_store m a b _ o ho]
  by_cases hb : b = a
  · subst hb
    rw [if_pos rfl, ho]
    simp
  · rw [if_neg hb]
    cases m.obj b with
    | none => rfl
    | some ob => simp [hb]

theorem Memory.marked_trans {status : Nat} {S1 S2 : List Nat} {m m1 m2 : Memory}
    (h1 : Memory.Marked status S1 m m1) (h2 : Memory.Marked status S2 m1 m2) :
    Memory.Marked status (S1 ++ S2) m m2 := by
  refine ⟨h2.1.trans h1.1, ?_⟩
  intro b
  rw [h2.2 b, h1.2 b]
  cases m.obj b with
  | none => rfl
  | some o =>
    simp only [Option.map_some', Option.some.injEq, List.mem_append]
    by_cases hb1 : b ∈ S1 <;> by_cases hb2 : b ∈ S2 <;> simp [hb1, hb2, lor_lor_self]

theorem Memory.setStatus_succ (status fuel : Nat) (m : Memory) (node : Nat) (cascade : Bool) :
    Memory.setStatus status (fuel + 1) m node cascade
      = match m.obj node with
        | none => Run.undefined
        | some o =>
          if cascade then
            o.m_children.foldl
              (fun r c => r.bind (fun m' => Memory.setStatus status fuel m' c true))
              (Run.done (m.store node { o with m_status := o.m_status ||| status }))
          else Run.done (m.store node { o with m_status := o.m_status ||| status }) := rfl

theorem Memory.setStatus_subtree (status : Nat) :
    ∀ (fuel : Nat) (m : Memory) (node : Nat) (addrs : List Nat),
      m.subtree fuel node = some addrs →
      ∃ m', Memory.setStatus status fuel m node true = Run.done m' ∧
        Memory.Marked status addrs m m' := by
  intro fuel
  induction fuel with
  | zero => intro m node addrs h; simp [Memory.subtree] at h
  | succ fuel ih =>
    intro m node addrs h
    obtain ⟨fuel', o, l, hf, ho, hl, ha⟩ := Memory.subtree_inv m _ node addrs h
    have hf' : fuel' = fuel := by omega
    subst hf'
    subst ha
    have key : ∀ (cs : List Nat) (l : List Nat) (S0 : List Nat) (m1 : Memory),
        collect (m.subtree fuel') cs = some l → Memory.Marked status S0 m m1 →
        ∃ m', cs.foldl (fun r c => r.bind (fun m' => Memory.setStatus status fuel' m' c true))
            (Run.done m1) = Run.done m' ∧ Memory.Marked status (S0 ++ l) m m' := by
      intro cs
      induction cs with
      | nil =>
        intro l S0 m1 hl hm
        simp only [collect, Option.some.injEq] at hl
        subst hl
        exact ⟨m1, rfl, by simpa using hm⟩
      | cons c rest ihc =>
        intro l S0 m1 hl hm
        obtain ⟨lc, ls, h1, h2, h3⟩ := collect_cons _ c rest l hl
        subst h3
        have hc1 : m1.subtree fuel' c = some lc :=
          Memory.subtree_congr m m1 fuel' c lc h1 (fun b _ => Memory.marked_children hm b)
        obtain ⟨m2, hm2, hmark2⟩ := ih m1 c lc hc1
        obtain ⟨m', hm', hmark'⟩ := ihc ls (S0 ++ lc) m2 h2 (Memory.marked_trans hm hmark2)
        refine ⟨m', ?_, by simpa [List.append_assoc] using hmark'⟩
        rw [List.foldl_cons]
        show rest.foldl _ (Memory.setStatus status fuel' m1 c true) = _
        rw [hm2]
        exact hm'
    obtain ⟨m', hm', hmark⟩ := key o.m_children l [node]
      (m.store node { o with m_status := o.m_status ||| status }) hl
      (Memory.marked_store status m node o ho)
    refine ⟨m', ?_, hmark⟩
    rw [Memory.setStatus_succ, ho]
    simp only [if_true]
    exact hm'

/-- C18: `Node::setStatus(flags, true)` on a node whose subtree is `addrs`
returns, and afterwards the status of every node of the subtree, the node
itself included, is its status before with every bit of `flags` set; no other
member of those nodes and no node outside the subtree changes, and no bit of any
status is cleared. With `cascade = false` only the status of the node changes,
in the same way. -/
theorem setStatus_cascade (m : Memory) (node flags fuel : Nat) (addrs : List Nat)
    (hsub : m.subtree fuel node = some addrs) :
    node ∈ addrs ∧
    (∃ m', Memory.setStatus flags fuel m node true = Run.done m' ∧
      (∀ a oa, a ∈ addrs → m.obj a = some oa →
        m'.obj a = some { oa with m_status := oa.m_status ||| flags } ∧
        (oa.m_status ||| flags) &&& flags = flags) ∧
      (∀ a, a ∉ addrs → m'.obj a = m.obj a) ∧
      (∀ a oa, m.obj a = some oa →
        ∃ oa', m'.obj a = some oa' ∧ oa'.m_status &&& oa.m_status = oa.m_status)) ∧
    (∃ m' o, Memory.setStatus flags fuel m node false = Run.done m' ∧
      m.obj node = some o ∧
      m'.obj node = some { o with m_status := o.m_status ||| flags } ∧
      ∀ a, a ≠ node → m'.obj a = m.obj a) := by
  obtain ⟨fuel', o, l, hf, ho, hl, ha⟩ := Memory.subtree_inv m fuel node addrs hsub
  refine ⟨by rw [ha]; exact List.mem_cons_self _ _, ?_, ?_⟩
  · obtain ⟨m', hm', hmark⟩ := Memory.setStatus_subtree flags fuel m node addrs hsub
    refine ⟨m', hm', ?_, ?_, ?_⟩
    · intro a oa ha' hoa
      refine ⟨?_, lor_and_self _ _⟩
      rw [hmark.2 a, hoa]
      simp only [Option.map_some', if_pos ha']
    · intro a ha'
      rw [hmark.2 a]
      cases m.obj a with
      | none => rfl
      | some oa => simp [ha']
    · intro a oa hoa
      rw [hmark.2 a, hoa]
      simp only [Option.map_some']
      by_cases ha' : a ∈ addrs
      · rw [if_pos ha']
        exact ⟨_, rfl, lor_and_left _ _⟩
      · rw [if_neg ha']
        exact ⟨_, rfl, Nat.and_self _⟩
  · subst hf
    refine ⟨m.store node { o with m_status := o.m_status ||| flags }, o, ?_, ho, ?_, ?_⟩
    · rw [Memory.setStatus_succ, ho]
      rfl
    · rw [Memory.obj_store m node node _ o ho, if_pos rfl]
    · intro a ha'
      rw [Memory.obj_store m node a _ o ho, if_neg ha']

/-- Witness of C18: in the example memory the subtree of `data` at address 1 is
the nodes 1, 3, 4 and 5; `setStatus(DIRTY, true)` on it sets `DIRTY` on these
four nodes and leaves the root, `notes` and the node at address 6 as they
were; with `cascade = false` only the node at address 1 changes. -/
theorem setStatus_cascade_witness :
    exampleMemory.subtree 2 1 = some [1, 3, 4, 5] ∧
    (∃ m', Memory.setStatus DIRTY 2 exampleMemory 1 true = Run.done m' ∧
      m'.obj 5 = some { plainObject "image" (some 1) [] with m_status := DIRTY } ∧
      m'.obj 2 = exampleMemory.obj 2) ∧
    (Memory.setStatus DIRTY 2 exampleMemory 1 true).map
        (fun m' => (List.range 7).map (fun a => (m'.obj a).map NodeObject.m_status))
      = Run.done [some 0, some 16, some 0, some 16, some 16, some 16, some 0] ∧
    (Memory.setStatus DIRTY 2 exampleMemory 1 false).map
        (fun m' => (List.range 7).map (fun a => (m'.obj a).map NodeObject.m_status))
      = Run.done [some 0, some 16, some 0, some 0, some 0, some 0, some 0] := by
  obtain ⟨-, ⟨m', hm', h1, h2, -⟩, -⟩ :=
    setStatus_cascade exampleMemory 1 DIRTY 2 [1, 3, 4, 5] rfl
  exact ⟨rfl, ⟨m', hm', (h1 5 (plainObject "image" (some 1) []) (by decide) rfl).1,
    h2 2 (by decide)⟩, rfl, rfl⟩
/-! ## Attributes and kinds -/

/-- C19: `Attribute::setValue` on an array attribute returns `false` and leaves
the value and the status as they were; on another attribute it returns `true`,
stores the new value and sets `DIRTY`. `Attribute::storeData` with a length
other than 1 makes the attribute an array that holds the first `length` items of
the data in order, for the numeric types as for `QString`. -/
theorem setValue_storeData (a : Attribute) (m_status : Nat) (value : QVariant) :
    (a.m_isArray = true → a.setValue m_status value = (false, a, m_status)) ∧
    (a.m_isArray = false →
      a.setValue m_status value = (true, { a with m_value := value }, m_status ||| DIRTY) ∧
      (a.setValue m_status value).2.2 &&& DIRTY = DIRTY) ∧
    (∀ (T : DataType) (data : List Int) (length : Int), length ≠ 1 →
      length ≤ (data.length : Int) →
      ∃ a', a.storeData T data length = some a' ∧ a'.m_isArray = true ∧
        a'.m_length = length ∧ a'.m_type = a.m_type ∧
        a'.m_value = QVariant.vector T (data.take length.toNat) ∧
        vectorItems T a'.m_value = (data.take length.toNat).map (itemVariant T)) ∧
    (∀ (data : List String) (length : Int), length ≠ 1 → length ≤ (data.length : Int) →
      ∃ a', a.storeStrings data length = some a' ∧ a'.m_isArray = true ∧
        a'.m_length = length ∧ a'.m_type = a.m_type ∧
        a'.m_value = QVariant.stringVector (data.take length.toNat) ∧
        vectorItems DataTypeString a'.m_value
          = (data.take length.toNat).map QVariant.string) := by
  refine ⟨?_, ?_, ?_, ?_⟩
  · intro h
    unfold Attribute.setValue
    rw [if_pos h]
  · intro h
    have : a.setValue m_status value
        = (true, { a with m_value := value }, m_status ||| DIRTY) := by
      unfold Attribute.setValue
      rw [if_neg (by simp [h])]
    rw [this]
    exact ⟨rfl, lor_and_self _ _⟩
  · intro T data length h1 hlen
    refine ⟨{ a with m_length := length
                     m_value := QVariant.vector T (data.take length.toNat)
                     m_isArray := true }, ?_, rfl, rfl, rfl, rfl, ?_⟩
    · unfold Attribute.storeData
      rw [if_neg h1, if_neg (by omega)]
    · simp [vectorItems]
  · intro data length h1 hlen
    refine ⟨{ a with m_length := length
                     m_value := QVariant.stringVector (data.take length.toNat)
                     m_isArray := true }, ?_, rfl, rfl, rfl, rfl, ?_⟩
    · unfold Attribute.storeStrings
      rw [if_neg h1, if_neg (by omega)]
    · simp [vectorItems]

/-- Witness of C19: `setValue` on a new attribute returns `true`, stores the
value and sets `DIRTY`; after `storeData` of three `int` items the attribute is
an array holding them, and `setValue` returns `false` and changes nothing. -/
theorem setValue_storeData_witness :
    Attribute.create.setValue ATTRIBUTE (QVariant.int 5)
      = (true, { Attribute.create with m_value := QVariant.int 5 }, ATTRIBUTE ||| DIRTY) ∧
    (∃ a', Attribute.create.storeData DataTypeInt32 [7, 8, 9] 3 = some a' ∧
      a'.m_isArray = true ∧
      vectorItems DataTypeInt32 a'.m_value = [QVariant.int 7, QVariant.int 8, QVariant.int 9] ∧
      a'.setValue ATTRIBUTE (QVariant.int 5) = (false, a', ATTRIBUTE)) := by
  have h := setValue_storeData Attribute.create ATTRIBUTE (QVariant.int 5)
  obtain ⟨a', h1, h2, -, -, -, h6⟩ := h.2.2.1 DataTypeInt32 [7, 8, 9] 3 (by decide) (by decide)
  refine ⟨(h.2.1 rfl).1, a', h1, h2, ?_, ?_⟩
  · rw [h6]
    rfl
  · exact (setValue_storeData a' ATTRIBUTE (QVariant.int 5)).1 h2

/-- C20, the code at the failing input: `emdTypeDepth` gives each of the ten
numeric kinds its positive byte width (1, 2, 4 or 8) and gives `String` the
width 0, but `Bool` has no case in the `switch` and gets `-1`, as `Unknown` and
`Array` do. The tag reader of the DM3 format maps the DM3 type 8 to `Bool` and
multiplies this width by the length of an array: for an array of 4 items of the
DM3 type 8, whose size `dm3TypeDepth` gives as 1 byte each, it computes
4294967292 bytes. -/
theorem emdTypeDepth_table :
    emdTypeDepth DataTypeInt8 = 1 ∧ emdTypeDepth DataTypeUInt8 = 1 ∧
    emdTypeDepth DataTypeInt16 = 2 ∧ emdTypeDepth DataTypeUInt16 = 2 ∧
    emdTypeDepth DataTypeInt32 = 4 ∧ emdTypeDepth DataTypeUInt32 = 4 ∧
    emdTypeDepth DataTypeFloat32 = 4 ∧
    emdTypeDepth DataTypeInt64 = 8 ∧ emdTypeDepth DataTypeUInt64 = 8 ∧
    emdTypeDepth DataTypeFloat64 = 8 ∧
    emdTypeDepth DataTypeString = 0 ∧
    emdTypeDepth DataTypeBool = -1 ∧ emdTypeDepth DataTypeUnknown = -1 ∧
    emdTypeDepth DataTypeArray = -1 ∧
    (∀ type, isNumeric type = true → 0 < emdTypeDepth type ∧
      emdTypeDepth type = (typeWidth type : Int)) ∧
    dm3ToEmdType 8 = DataTypeBool ∧ dm3TypeDepth 8 = 1 ∧
    dm3ArrayByteSize 8 4 = some 4294967292 ∧ dm3ArrayByteSize 9 4 = some 4 := by
  refine ⟨rfl, rfl, rfl, rfl, rfl, rfl, rfl, rfl, rfl, rfl, rfl, rfl, rfl, rfl, ?_,
    by decide, by decide, by decide, by decide⟩
  intro type h
  cases type <;> simp_all [isNumeric, emdTypeDepth, typeWidth]
/-! ## The destructor and the loops over the child list -/

theorem Memory.collect_subtree_congr (m m1 : Memory) (fuel : Nat) :
    ∀ (cs : List Nat) (l : List Nat), collect (m.subtree fuel) cs = some l →
      (∀ b ∈ l, (m1.obj b).map NodeObject.m_children = (m.obj b).map NodeObject.m_children) →
      collect (m1.subtree fuel) cs = some l := by
  intro cs
  induction cs with
  | nil => intro l hl _; exact hl
  | cons c rest ihc =>
    intro l hl hs
    obtain ⟨lc, ls, h1, h2, h3⟩ := collect_cons _ c rest l hl
    subst h3
    unfold collect
    rw [Memory.subtree_congr m m1 fuel c lc h1 (fun b hb => hs b (List.mem_append_left _ hb)),
      ihc ls h2 (fun b hb => hs b (List.mem_append_right _ hb))]

theorem Memory.freed_trans {S1 S2 : List Nat} {m m1 m2 : Memory}
    (h1 : Memory.Freed S1 m m1) (h2 : Memory.Freed S2 m1 m2) :
    Memory.Freed (S1 ++ S2) m m2 := by
  refine ⟨h2.1.trans h1.1, ?_⟩
  intro b
  rw [h2.2 b, h1.2 b]
  by_cases hb1 : b ∈ S1 <;> by_cases hb2 : b ∈ S2 <;> simp [hb1, hb2]

theorem Memory.freed_congr {S S' : List Nat} {m m' : Memory} (h : Memory.Freed S m m')
    (hS : ∀ b, b ∈ S ↔ b ∈ S') : Memory.Freed S' m m' := by
  refine ⟨h.1, ?_⟩
  intro b
  rw [h.2 b]
  by_cases hb : b ∈ S
  · rw [if_pos hb, if_pos ((hS b).1 hb)]
  · rw [if_neg hb, if_neg (fun e => hb ((hS b).2 e))]

theorem Memory.freed_free (m : Memory) (a : Nat) : Memory.Freed [a] m (m.free a) := by
  refine ⟨Memory.length_free _ _, ?_⟩
  intro b
  rw [Memory.obj_free]
  simp

theorem Memory.destroy_succ (fuel : Nat) (m : Memory) (node : Nat) :
    Memory.destroy (fuel + 1) m node
      = match m.obj node with
        | none => Run.undefined
        | some o =>
          (o.m_children.foldl (fun r c => r.bind (fun m' => Memory.destroy fuel m' c))
            (Run.done m)).map (fun m' => m'.free node) := rfl

theorem Memory.destroy_subtree :
    ∀ (fuel : Nat) (m : Memory) (node : Nat) (addrs : List Nat),
      m.subtree fuel node = some addrs → addrs.Nodup →
      ∃ m', Memory.destroy fuel m node = Run.done m' ∧ Memory.Freed addrs m m' := by
  intro fuel
  induction fuel with
  | zero => intro m node addrs h; simp [Memory.subtree] at h
  | succ fuel ih =>
    intro m node addrs h hnd
    obtain ⟨fuel', o, l, hf, ho, hl, ha⟩ := Memory.subtree_inv m _ node addrs h
    have hf' : fuel' = fuel := by omega
    subst hf'
    subst ha
    have key : ∀ (cs : List Nat) (l : List Nat) (S0 : List Nat) (m1 : Memory),
        collect (m.subtree fuel') cs = some l → l.Nodup → (∀ b ∈ l, b ∉ S0) →
        Memory.Freed S0 m m1 →
        ∃ m', cs.foldl (fun r c => r.bind (fun m' => Memory.destroy fuel' m' c))
            (Run.done m1) = Run.done m' ∧ Memory.Freed (S0 ++ l) m m' := by
      intro cs
      induction cs with
      | nil =>
        intro l S0 m1 hl _ _ hm
        simp only [collect, Option.some.injEq] at hl
        subst hl
        exact ⟨m1, rfl, by simpa using hm⟩
      | cons c rest ihc =>
        intro l S0 m1 hl hnd' hdis hm
        obtain ⟨lc, ls, h1, h2, h3⟩ := collect_cons _ c rest l hl
        subst h3
        have hnd2 := List.nodup_append.1 hnd'
        have hc1 : m1.subtree fuel' c = some lc := by
          apply Memory.subtree_congr m m1 fuel' c lc h1
          intro b hb
          rw [hm.2 b, if_neg (hdis b (List.mem_append_left _ hb))]
        obtain ⟨m2, hm2, hfreed2⟩ := ih m1 c lc hc1 hnd2.1
        have hdis' : ∀ b ∈ ls, b ∉ S0 ++ lc := by
          intro b hb hmem
          rcases List.mem_append.1 hmem with e | e
          · exact hdis b (List.mem_append_right _ hb) e
          · exact hnd2.2.2 e hb
        obtain ⟨m', hm', hfreed'⟩ :=
          ihc ls (S0 ++ lc) m2 h2 hnd2.2.1 hdis' (Memory.freed_trans hm hfreed2)
        refine ⟨m', ?_, by simpa [List.append_assoc] using hfreed'⟩
        rw [List.foldl_cons]
        show rest.foldl _ (Memory.destroy fuel' m1 c) = _
        rw [hm2]
        exact hm'
    have hnd1 := List.nodup_cons.1 hnd
    obtain ⟨m', hm', hfreed⟩ := key o.m_children l [] m hl hnd1.2 (fun _ _ => by simp)
      ⟨rfl, fun b => by simp⟩
    refine ⟨m'.free node, ?_, ?_⟩
    · rw [Memory.destroy_succ, ho]
      simp only
      rw [hm']
      rfl
    · apply Memory.freed_congr (Memory.freed_trans hfreed (Memory.freed_free m' node))
      intro b
      simp only [List.nil_append, List.mem_append, List.mem_singleton, List.mem_cons]
      tauto

theorem collect_eraseIdx (sub : Nat → Option (List Nat)) :
    ∀ (cs : List Nat) (position : Nat) (l : List Nat) (c : Nat),
      collect sub cs = some l → cs.get? position = some c →
      ∃ lc l', sub c = some lc ∧ collect sub (cs.eraseIdx position) = some l' ∧
        (∀ b, b ∈ lc → b ∈ l) ∧ (∀ b, b ∈ l' → b ∈ l) ∧
        (l.Nodup → lc.Nodup ∧ l'.Nodup ∧ ∀ b ∈ lc, b ∉ l') := by
  intro cs
  induction cs with
  | nil => intro position l c _ h; simp at h
  | cons x rest ih =>
    intro position l c hl hget
    obtain ⟨lx, ls, h1, h2, h3⟩ := collect_cons _ x rest l hl
    subst h3
    cases position with
    | zero =>
      simp only [List.get?_cons_zero, Option.some.injEq] at hget
      subst hget
      refine ⟨lx, ls, h1, h2, fun b hb => List.mem_append_left _ hb,
        fun b hb => List.mem_append_right _ hb, ?_⟩
      intro hnd
      have := List.nodup_append.1 hnd
      exact ⟨this.1, this.2.1, fun b hb hb' => this.2.2 hb hb'⟩
    | succ position =>
      simp only [List.get?_cons_succ] at hget
      obtain ⟨lc, l', e1, e2, e3, e4, e5⟩ := ih position ls c h2 hget
      refine ⟨lc, lx ++ l', e1, ?_, fun b hb => List.mem_append_right _ (e3 b hb), ?_, ?_⟩
      · simp only [List.eraseIdx_cons_succ]
        unfold collect
        rw [h1, e2]
      · intro b hb
        rcases List.mem_append.1 hb with e | e
        · exact List.mem_append_left _ e
        · exact List.mem_append_right _ (e4 b e)
      · intro hnd
        have h := List.nodup_append.1 hnd
        obtain ⟨n1, n2, n3⟩ := e5 h.2.1
        refine ⟨n1, ?_, ?_⟩
        · apply List.nodup_append.2
          exact ⟨h.1, n2, fun a ha ha' => h.2.2 ha (e4 _ ha')⟩
        · intro b hb hmem
          rcases List.mem_append.1 hmem with e | e
          · exact h.2.2 e (e3 b hb)
          · exact n3 b hb e

theorem take_drop_eraseIdx (cs : List Nat) (position rows : Nat) (h : position < cs.length) :
    (cs.eraseIdx position).take position ++ (cs.eraseIdx position).drop (position + rows)
      = cs.take position ++ cs.drop (position + (rows + 1)) := by
  rw [List.eraseIdx_eq_take_drop_succ]
  have hlen : (cs.take position).length = position := by
    rw [List.length_take]
    omega
  rw [List.take_append_eq_append_take, hlen, Nat.sub_self, List.take_zero, List.append_nil,
    List.take_take, Nat.min_self]
  congr 1
  rw [List.drop_append_eq_append_drop, hlen]
  have : position + rows - position = rows := by omega
  rw [this, List.drop_drop]
  have hd : List.drop (position + rows) (List.take position cs) = [] := by
    apply List.drop_eq_nil_of_le
    rw [hlen]
    omega
  rw [hd, List.nil_append]
  congr 1
  omega

theorem Memory.removeChildrenLoop_subtree (fuel node position : Nat) :
    ∀ (rows : Nat) (m : Memory) (o : NodeObject) (l : List Nat),
      m.obj node = some o → collect (m.subtree fuel) o.m_children = some l →
      (node :: l).Nodup → position + rows ≤ o.m_children.length →
      ∃ m', Memory.removeChildrenLoop fuel node position rows m = Run.done m' ∧
        m'.obj node
          = some { o with
              m_children := o.m_children.take position ++ o.m_children.drop (position + rows) } := by
  intro rows
  induction rows with
  | zero =>
    intro m o l ho _ _ _
    refine ⟨m, rfl, ?_⟩
    rw [ho]
    simp
  | succ rows ih =>
    intro m o l ho hl hnd hlen
    have hpos : position < o.m_children.length := by omega
    obtain ⟨c, hc⟩ : ∃ c, o.m_children.get? position = some c :=
      ⟨o.m_children.get ⟨position, hpos⟩, List.get?_eq_get hpos⟩
    obtain ⟨lc, l', e1, e2, e3, e4, e5⟩ :=
      collect_eraseIdx (m.subtree fuel) o.m_children position l c hl hc
    have hnd1 := List.nodup_cons.1 hnd
    obtain ⟨n1, n2, n3⟩ := e5 hnd1.2
    have hs1 : ∀ b, (m.store node { o with m_children := o.m_children.eraseIdx position }).obj b
        = if b = node then some { o with m_children := o.m_children.eraseIdx position }
          else m.obj b := fun b => Memory.obj_store m node b _ o ho
    have hne : ∀ b ∈ l, b ≠ node := fun b hb e => hnd1.1 (e ▸ hb)
    have hc1 : (m.store node { o with m_children := o.m_children.eraseIdx position }).subtree
        fuel c = some lc := by
      apply Memory.subtree_congr m _ fuel c lc e1
      intro b hb
      rw [hs1, if_neg (hne b (e3 b hb))]
    obtain ⟨m2, hm2, hfreed⟩ := Memory.destroy_subtree fuel _ c lc hc1 n1
    have hnode2 : m2.obj node
        = some { o with m_children := o.m_children.eraseIdx position } := by
      rw [hfreed.2 node, if_neg (fun e => hnd1.1 (e3 node e)), hs1, if_pos rfl]
    have hl2 : collect (m2.subtree fuel) (o.m_children.eraseIdx position) = some l' := by
      apply Memory.collect_subtree_congr m m2 fuel _ l' e2
      intro b hb
      rw [hfreed.2 b, if_neg (fun e => n3 b e hb), hs1, if_neg (hne b (e4 b hb))]
    have hlen2 : position + rows
        ≤ ({ o with m_children := o.m_children.eraseIdx position } : NodeObject).m_children.length := by
      simp only [List.length_eraseIdx, if_pos hpos]
      omega
    obtain ⟨m', hm', hobj'⟩ := ih m2 { o with m_children := o.m_children.eraseIdx position } l'
      hnode2 hl2 (List.nodup_cons.2 ⟨fun e => hnd1.1 (e4 node e), n2⟩) hlen2
    refine ⟨m', ?_, ?_⟩
    · show (match m.obj node with
        | none => Run.undefined
        | some o =>
          match o.m_children.get? position with
          | none => Run.undefined
          | some c =>
            (Memory.destroy fuel
              (m.store node { o with m_children := o.m_children.eraseIdx position }) c).bind
              (Memory.removeChildrenLoop fuel node position rows)) = _
      rw [ho]
      simp only
      rw [hc]
      simp only
      rw [hm2]
      exact hm'
    · rw [hobj']
      simp only
      rw [take_drop_eraseIdx _ _ _ hpos]

theorem Memory.addChildrenLoop_status (type : Int) (node position : Nat) :
    ∀ (rows : Nat) (m : Memory) (o : NodeObject), m.obj node = some o →
      ∃ m' o', Memory.addChildrenLoop type node position rows m = some m' ∧
        m'.obj node = some o' ∧ o'.m_status = o.m_status ∧ o'.m_name = o.m_name ∧
        o'.m_parent = o.m_parent ∧ o'.self = o.self := by
  intro rows
  induction rows with
  | zero => intro m o ho; exact ⟨m, o, rfl, ho, rfl, rfl, rfl, rfl⟩
  | succ rows ih =>
    intro m o ho
    have hlt := Memory.lt_length_of_obj m node o ho
    have h1 : (m.alloc (NodeObject.create type (some node))).1.obj node = some o := by
      rw [Memory.obj_alloc, if_neg (by omega), ho]
    obtain ⟨m', o', hm', ho', hs, hn, hp, hself⟩ :=
      ih ((m.alloc (NodeObject.create type (some node))).1.store node
          { o with m_children :=
              o.m_children.insertIdx position (m.alloc (NodeObject.create type (some node))).2 })
        { o with m_children :=
              o.m_children.insertIdx position (m.alloc (NodeObject.create type (some node))).2 }
        (by rw [Memory.obj_store _ node node _ o h1, if_pos rfl])
    refine ⟨m', o', ?_, ho', hs, hn, hp, hself⟩
    show (match (m.alloc (NodeObject.create type (some node))).1.obj node with
      | none => none
      | some o =>
        Memory.addChildrenLoop type node position rows
          ((m.alloc (NodeObject.create type (some node))).1.store node
            { o with
              m_children :=
                o.m_children.insertIdx position
                  (m.alloc (NodeObject.create type (some node))).2 })) = _
    rw [h1]
    exact hm'
/-! ## The mutators of a node and the `DIRTY` bit -/

/-- C17 (as amended): of the mutators of a node only `Attribute::setValue`
(returning `true`) sets `DIRTY` on the node. `Node::setName`, `Node::addChild`
(returning `true`), `Node::addChildren` and `Node::removeChildren` (returning
`true`, on a node whose subtree has no node twice) return and leave the status
of the node as it was, so that it has `DIRTY` afterwards exactly when it had it
before. -/
theorem mutators_and_dirty :
    (∀ (m : Memory) (node : Nat) (name : String) (o : NodeObject), m.obj node = some o →
      ∃ m', m.setName node name = some m' ∧ m'.obj node = some { o with m_name := name }) ∧
    (∀ (m m' : Memory) (node child : Nat) (o : NodeObject), m.obj node = some o →
      m.addChild node child = some (true, m') →
      (m'.obj node).map NodeObject.m_status = some o.m_status) ∧
    (∀ (m : Memory) (node : Nat) (position count type : Int) (o : NodeObject),
      m.obj node = some o →
      ∃ b m' o', m.addChildren node position count type = some (b, m') ∧
        m'.obj node = some o' ∧ o'.m_status = o.m_status) ∧
    (∀ (fuel : Nat) (m : Memory) (node : Nat) (position count : Int) (o : NodeObject)
      (addrs : List Nat),
      m.obj node = some o → m.subtree (fuel + 1) node = some addrs → addrs.Nodup →
      0 ≤ position → 0 ≤ count → position + count ≤ (o.m_children.length : Int) →
      o.m_children.length < 2147483648 →
      ∃ m', Memory.removeChildren fuel m node position count = Run.done (true, m') ∧
        m'.obj node
          = some { o with
              m_children := o.m_children.take position.toNat
                ++ o.m_children.drop (position.toNat + count.toNat) }) ∧
    (∀ (m m' : Memory) (node : Nat) (value : QVariant),
      m.setValue node value = some (true, m') →
      ∃ o', m'.obj node = some o' ∧ o'.m_status &&& DIRTY = DIRTY) := by
  refine ⟨?_, ?_, ?_, ?_, ?_⟩
  · intro m node name o ho
    refine ⟨m.store node { o with m_name := name }, ?_, ?_⟩
    · unfold Memory.setName
      rw [ho]
    · rw [Memory.obj_store m node node _ o ho, if_pos rfl]
  · intro m m' node child o ho h
    unfold Memory.addChild at h
    rw [ho] at h
    simp only at h
    split at h
    · simp at h
    · have hs1 : ∀ b, (m.store node { o with m_children := o.m_children ++ [child] }).obj b
          = if b = node then some { o with m_children := o.m_children ++ [child] }
            else m.obj b := fun b => Memory.obj_store m node b _ o ho
      cases hc : (m.store node { o with m_children := o.m_children ++ [child] }).obj child with
      | none => rw [hc] at h; simp at h
      | some oc =>
        rw [hc] at h
        simp only [Option.some.injEq, Prod.mk.injEq, true_and] at h
        subst h
        rw [Memory.obj_store _ child node _ oc hc]
        by_cases hn : node = child
        · subst hn
          rw [if_pos rfl]
          rw [hs1, if_pos rfl] at hc
          simp only [Option.some.injEq] at hc
          subst hc
          rfl
        · rw [if_neg hn, hs1, if_pos rfl]
          rfl
  · intro m node position count type o ho
    by_cases hg : position < 0 ∨ position > (o.m_children.length : Int)
    · refine ⟨false, m, o, ?_, ho, rfl⟩
      unfold Memory.addChildren
      rw [ho]
      simp only
      rw [if_pos hg]
    · obtain ⟨m', o', hm', ho', hs, -⟩ :=
        Memory.addChildrenLoop_status type node position.toNat count.toNat m o ho
      refine ⟨true, m', o', ?_, ho', hs⟩
      unfold Memory.addChildren
      rw [ho]
      simp only
      rw [if_neg hg, hm']
      rfl
  · intro fuel m node position count o addrs ho hsub hnd hp hc hle hsmall
    obtain ⟨fuel', o1, l, hf, ho1, hl, ha⟩ := Memory.subtree_inv m _ node addrs hsub
    have hf' : fuel' = fuel := by omega
    subst hf'
    rw [ho] at ho1
    cases ho1
    subst ha
    obtain ⟨m', hm', hobj⟩ := Memory.removeChildrenLoop_subtree fuel' node position.toNat
      count.toNat m o l ho hl hnd (by omega)
    refine ⟨m', ?_, hobj⟩
    unfold Memory.removeChildren
    rw [ho]
    simp only
    have hw : wrapInt32 (position + count) = position + count := by
      apply wrapInt32_eq_self <;> omega
    rw [hw, if_neg (by omega), hm']
    rfl
  · intro m m' node value h
    unfold Memory.setValue at h
    cases ho : m.obj node with
    | none => rw [ho] at h; simp at h
    | some o =>
      rw [ho] at h
      simp only at h
      split at h
      · rename_i a _
        simp only [Option.some.injEq, Prod.mk.injEq] at h
        obtain ⟨h1, h2⟩ := h
        subst h2
        rw [Memory.obj_store m node node _ o ho, if_pos rfl]
        refine ⟨_, rfl, ?_⟩
        simp only
        unfold Attribute.setValue at h1 ⊢
        split
        · rename_i harr
          rw [if_pos harr] at h1
          simp at h1
        · exact lor_and_self _ _
      · simp at h

/-- Witness of C17: in the example memory `removeChildren(0, 2)` on the node at
address 1, whose subtree is the nodes 1, 3, 4 and 5, returns `true` and leaves
the child at address 5 and the status 0; `setValue` on the attribute at address
7 returns `true` and sets `DIRTY`. -/
theorem mutators_and_dirty_witness :
    (∃ m', Memory.removeChildren 1 exampleMemory 1 0 2 = Run.done (true, m') ∧
      m'.obj 1 = some (plainObject "data" (some 0) [5])) ∧
    (exampleMemory.setValue 7 (QVariant.int 2)).map
        (fun r => (r.1, (r.2.obj 7).map NodeObject.m_status)) = some (true, some (ATTRIBUTE + DIRTY)) ∧
    (∃ o', ((exampleMemory.setValue 7 (QVariant.int 2)).bind (fun r => r.2.obj 7)) = some o' ∧
      o'.m_status &&& DIRTY = DIRTY) := by
  obtain ⟨-, -, -, hremove, hset⟩ := mutators_and_dirty
  refine ⟨?_, by decide, ?_⟩
  · exact hremove 1 exampleMemory 1 0 2 (plainObject "data" (some 0) [3, 4, 5]) [1, 3, 4, 5]
      rfl rfl (by decide) (by decide) (by decide) (by decide) (by decide)
  · cases h : exampleMemory.setValue 7 (QVariant.int 2) with
    | none =>
      have : (exampleMemory.setValue 7 (QVariant.int 2)).isSome = true := by decide
      rw [h] at this
      simp at this
    | some r =>
      obtain ⟨b, m'⟩ := r
      have hb : b = true := by
        have : (exampleMemory.setValue 7 (QVariant.int 2)).map Prod.fst = some true := by decide
        rw [h] at this
        exact Option.some.inj this
      subst hb
      exact hset exampleMemory m' 7 (QVariant.int 2) h

/-- Counterexample to C17 as stated: in the example memory no node has `DIRTY`.
After `setName` on the node at address 1, after `addChild` of the node at
address 6 to the root (which returns `true`), after `addChildren` of two groups
at the front of the root, and after `removeChildren` of the first two children
of the node at address 1 (which returns `true`), the status of the mutated node
is still 0: `DIRTY` is not set. -/
theorem mutators_and_dirty_counterexample :
    ((exampleMemory.setName 1 "images").bind (fun m' => m'.obj 1)).map
        (fun o => (o.m_name, o.m_status &&& DIRTY)) = some ("images", 0) ∧
    ((exampleMemory.addChild 0 6).map
        (fun r => (r.1, (r.2.obj 0).map (fun o => (o.m_children, o.m_status &&& DIRTY)))))
      = some (true, some ([1, 2, 6], 0)) ∧
    ((exampleMemory.addChildren 0 0 2 GROUP).map
        (fun r => (r.1, (r.2.obj 0).map (fun o => (o.m_children, o.m_status &&& DIRTY)))))
      = some (true, some ([9, 8, 1, 2], 0)) ∧
    ((Memory.removeChildren 1 exampleMemory 1 0 2).map
        (fun r => (r.1, (r.2.obj 1).map (fun o => (o.m_children, o.m_status &&& DIRTY)))))
      = Run.done (true, some ([5], 0)) := by
  refine ⟨by decide, by decide, by decide, rfl⟩
/-! ## C21: the failure value of `emdTypeFromString` -/

/-- C21 (amended): for a numeric kind and a text that the conversion of
`QString` which the case of the kind calls does not read, `emdTypeFromString`
returns `QVariant(0)`, a valid `int` zero and not the invalid `QVariant`,
whatever the other conversions make of the text; for the kinds `Int8`,
`UInt8`, `Int16`, `UInt16`, `Int32` and `UInt32` this is also the result for
every text that the conversion of the kind reads as the number 0. -/
theorem emdTypeFromString_failure (qs : QStringConv) (string : String) (type : DataType)
    (hkind : isNumeric type = true) (hfail : qs.ofKind type string = none) :
    emdTypeFromString qs string type = QVariant.int 0 ∧
    emdTypeFromString qs string type ≠ QVariant.invalid ∧
    ∀ zero : String, qs.ofKind type zero = some 0 →
      type ∈ [DataTypeInt8, DataTypeUInt8, DataTypeInt16, DataTypeUInt16, DataTypeInt32,
        DataTypeUInt32] →
      emdTypeFromString qs zero type = emdTypeFromString qs string type := by
  have hres : emdTypeFromString qs string type = QVariant.int 0 := by
    cases type <;> first
      | exact absurd hkind (by decide)
      | (simp only [QStringConv.ofKind] at hfail
         simp only [emdTypeFromString, hfail])
  refine ⟨hres, by rw [hres]; decide, ?_⟩
  intro zero hz hmem
  rw [hres]
  simp only [List.mem_cons, List.mem_singleton, List.not_mem_nil, or_false] at hmem
  rcases hmem with h | h | h | h | h | h <;> subst h <;>
    simp only [QStringConv.ofKind] at hz <;>
    simp only [emdTypeFromString, hz] <;> decide

/-- C21 (witness): the text `70000` and the kind `Int16` with conversions of
which `toShort` does not read the text and `toInt` reads it, and the text `0`. -/
theorem emdTypeFromString_failure_witness :
    rangeQString.toInt "70000" = some 70000 ∧
    emdTypeFromString rangeQString "70000" DataTypeInt16 = QVariant.int 0 ∧
    emdTypeFromString rangeQString "0" DataTypeInt16 =
      emdTypeFromString rangeQString "70000" DataTypeInt16 :=
  have h := emdTypeFromString_failure rangeQString "70000" DataTypeInt16 (by decide)
    (by decide)
  ⟨by decide, h.1, h.2.2 "0" (by decide) (by decide)⟩

/-- C21 (counterexample): the result for the text `abc`, which is no number, and
the kind `Int32` is a valid value and the same as the result for the text `0`. -/
theorem emdTypeFromString_failure_counterexample :
    emdTypeFromString exampleQString "abc" DataTypeInt32 ≠ QVariant.invalid ∧
    emdTypeFromString exampleQString "abc" DataTypeInt32 =
      emdTypeFromString exampleQString "0" DataTypeInt32 := by
  decide
/-! ## C22: the dispatch of `openFile` -/

theorem findLastOf_none (c : Char) (l : List Char) (h : c ∉ l) : findLastOf c l = none := by
  induction l with
  | nil => rfl
  | cons x r ih =>
    have hx : ¬ x = c := fun e => h (by simp [e])
    have hr : c ∉ r := fun e => h (by simp [e])
    simp [findLastOf, ih hr, hx]

theorem findLastOf_append (c : Char) (a b : List Char) (h : c ∉ b) :
    findLastOf c (a ++ c :: b) = some a.length := by
  induction a with
  | nil => simp [findLastOf, findLastOf_none c b h]
  | cons x r ih => simp [findLastOf, ih]

/-- C22: `openFile` looks only at the text after the last `.` of the path,
whatever the case of its letters: for a path `stem.ext` whose `ext` has no `.`,
the result is that of `loadSer` for `ser`, of `loadDm3` for `dm3`, of
`loadTiff` for `tif` and `tiff`, and otherwise `ErrorUnrecognizedFileType` with
the model as it was and no decoder called; the latter also for every path
without a `.`. -/
theorem openFile_dispatch {M : Type}
    (loadSer loadDm3 loadTiff : String → M → Option (FileManager.Error × M))
    (stem ext : String) (model : M) (hext : '.' ∉ ext.data) :
    FileManager.openFile loadSer loadDm3 loadTiff (stem ++ "." ++ ext) model =
      (if equalsIgnoreCase ext "ser" = true then loadSer (stem ++ "." ++ ext) model
       else if equalsIgnoreCase ext "dm3" = true then loadDm3 (stem ++ "." ++ ext) model
       else if equalsIgnoreCase ext "tif" = true ∨ equalsIgnoreCase ext "tiff" = true then
         loadTiff (stem ++ "." ++ ext) model
       else some (FileManager.Error.ErrorUnrecognizedFileType, model)) ∧
    ∀ path : String, '.' ∉ path.data →
      FileManager.openFile loadSer loadDm3 loadTiff path model =
        some (FileManager.Error.ErrorUnrecognizedFileType, model) := by
  constructor
  · have hd : (stem ++ "." ++ ext).data = stem.data ++ '.' :: ext.data := by
      simp [String.data_append]
    have hs : ∀ t : String, t.data.map Char.toLower = t.data →
        ((String.mk (ext.data.map Char.toLower) = t) = (equalsIgnoreCase ext t = true)) := by
      intro t ht
      apply propext
      simp only [equalsIgnoreCase, beq_iff_eq, ht]
      constructor
      · intro h; rw [← h]
      · intro h; rw [h]
    have hdrop : List.drop (stem.data.length + 1) (stem.data ++ '.' :: ext.data) = ext.data := by
      rw [List.drop_append_eq_append_drop]
      simp
    simp only [FileManager.openFile, hd, findLastOf_append _ _ _ hext, hdrop,
      hs "ser" (by decide), hs "dm3" (by decide), hs "tif" (by decide), hs "tiff" (by decide)]
  · intro path hp
    simp [FileManager.openFile, findLastOf_none _ _ hp]

/-- C22 (witness): the path `scan.v2.SER`, with decoders that only report which
one was called. -/
theorem openFile_dispatch_witness :
    FileManager.openFile (fun _ (m : Nat) => some (FileManager.Error.ErrorNone, m + 1))
      (fun _ m => some (FileManager.Error.ErrorNone, m + 2))
      (fun _ m => some (FileManager.Error.ErrorNone, m + 3)) ("scan.v2" ++ "." ++ "SER") 0 =
      some (FileManager.Error.ErrorNone, 1) ∧
    FileManager.openFile (fun _ (m : Nat) => some (FileManager.Error.ErrorNone, m + 1))
      (fun _ m => some (FileManager.Error.ErrorNone, m + 2))
      (fun _ m => some (FileManager.Error.ErrorNone, m + 3)) "scan_ser" 0 =
      some (FileManager.Error.ErrorUnrecognizedFileType, 0) :=
  have h := openFile_dispatch (fun _ (m : Nat) => some (FileManager.Error.ErrorNone, m + 1))
    (fun _ m => some (FileManager.Error.ErrorNone, m + 2))
    (fun _ m => some (FileManager.Error.ErrorNone, m + 3)) "scan.v2" "SER" 0 (by decide)
  ⟨h.1.trans (by decide), h.2 "scan_ser" (by decide)⟩
/-! ## C29: a frame and the element address of an index vector -/

theorem wrapInt32_idem (x : Int) : wrapInt32 (wrapInt32 x) = wrapInt32 x := by
  simp [wrapInt32]

theorem wrapInt32_congr {x y : Int} (h : x ≡ y [ZMOD 4294967296]) :
    wrapInt32 x = wrapInt32 y := by
  unfold wrapInt32
  have h' : x % 4294967296 = y % 4294967296 := h
  rw [← Int.emod_bmod, ← Int.emod_bmod (x := y)]
  simp only [Nat.cast_ofNat]
  rw [h']

theorem wrapInt32_modEq (x : Int) : wrapInt32 x ≡ x [ZMOD 4294967296] := by
  unfold wrapInt32 Int.ModEq
  exact Int.bmod_emod

theorem foldlM_frameStep_address (d : Dataset) (slice : List Int) (a b : Nat) (hab : a ≠ b)
    (ha : slice.get? a = some HorizontalDimension) (hb : slice.get? b = some VerticalDimension)
    (l : List Nat) (hnd : l.Nodup) (hl : ∀ i ∈ l, i < slice.length)
    (hfix : ∀ i ∈ l, i ≠ a → i ≠ b → slice.getD i 0 ≠ HorizontalDimension ∧
      slice.getD i 0 ≠ VerticalDimension ∧ (i : Int) ≠ d.m_complexIndex)
    (st : FrameLoop) (h1 : wrapInt32 st.offset = st.offset) (h2 : wrapInt32 st.step = st.step) :
    ∃ r, l.foldlM (d.frameStep slice) st = some r ∧
      r.step = wrapInt32 (st.step * radixProd (l.map (fixedDigit d slice a b))) ∧
      r.offset = wrapInt32 (st.offset + st.step * mixedRadix (l.map (fixedDigit d slice a b))) ∧
      (a ∈ l → r.hor = a ∧
        r.hStep = wrapInt32 (st.step * stepBefore (fun i => d.m_space.dimLength i) l a)) ∧
      (a ∉ l → r.hor = st.hor ∧ r.hStep = st.hStep) ∧
      (b ∈ l → r.ver = b ∧
        r.vStep = wrapInt32 (st.step * stepBefore (fun i => d.m_space.dimLength i) l b)) ∧
      (b ∉ l → r.ver = st.ver ∧ r.vStep = st.vStep) := by
  induction l generalizing st with
  | nil =>
    refine ⟨st, rfl, ?_, ?_, by simp, by simp, by simp, by simp⟩
    · simp [radixProd, h2]
    · simp [mixedRadix, h1]
  | cons i l ih =>
    have hi : i < slice.length := hl i (List.mem_cons_self _ _)
    have hget : slice.get? i = some slice[i] := by
      rw [List.get?_eq_getElem?, List.getElem?_eq_getElem hi]
    have hgetD : slice.getD i 0 = slice[i] := by
      rw [List.getD_eq_getElem?_getD, List.getElem?_eq_getElem hi]; rfl
    have hnd' : l.Nodup := (List.nodup_cons.1 hnd).2
    have hil : i ∉ l := (List.nodup_cons.1 hnd).1
    have hl' : ∀ j ∈ l, j < slice.length := fun j hj => hl j (List.mem_cons_of_mem _ hj)
    have hfix' : ∀ j ∈ l, j ≠ a → j ≠ b → slice.getD j 0 ≠ HorizontalDimension ∧
        slice.getD j 0 ≠ VerticalDimension ∧ (j : Int) ≠ d.m_complexIndex :=
      fun j hj => hfix j (List.mem_cons_of_mem _ hj)
    simp only [List.foldlM_cons, Dataset.frameStep, hget, Option.bind_eq_bind, Option.some_bind]
    have estep : ∀ x y z : Int, wrapInt32 (wrapInt32 (x * y) * z) = wrapInt32 (x * (y * z)) := by
      intro x y z
      apply wrapInt32_congr
      calc wrapInt32 (x * y) * z ≡ (x * y) * z [ZMOD 4294967296] :=
            (wrapInt32_modEq _).mul_right _
        _ = x * (y * z) := by ring
    have eoff : ∀ o s dl m : Int, wrapInt32 (o + wrapInt32 (s * dl) * m)
        = wrapInt32 (o + s * (0 + dl * m)) := by
      intro o s dl m
      apply wrapInt32_congr
      calc o + wrapInt32 (s * dl) * m ≡ o + (s * dl) * m [ZMOD 4294967296] :=
            ((wrapInt32_modEq _).mul_right _).add_left _
        _ = o + s * (0 + dl * m) := by ring
    by_cases hia : i = a
    · subst hia
      have hs : slice[i] = HorizontalDimension := by
        rw [hget] at ha; exact Option.some.inj ha
      simp only [hs, if_true]
      obtain ⟨r, hr, r1, r2, r3, r4, r5, r6⟩ := ih hnd' hl' hfix'
        { hor := i, ver := st.ver, hStep := st.step, vStep := st.vStep,
          complexStep := st.complexStep, offset := st.offset,
          step := wrapInt32 (st.step * d.m_space.dimLength i) } h1 (wrapInt32_idem _)
      have hbl : b ∈ i :: l ↔ b ∈ l := by
        simp [List.mem_cons, Ne.symm hab]
      refine ⟨r, hr, ?_, ?_, ?_, ?_, ?_, ?_⟩
      · rw [r1]; simp only [List.map_cons, radixProd, fixedDigit]; exact estep _ _ _
      · rw [r2]; simp only [List.map_cons, mixedRadix, fixedDigit, true_or, if_true]
        exact eoff _ _ _ _
      · intro _
        obtain ⟨e1, e2⟩ := r4 hil
        refine ⟨by rw [e1], ?_⟩
        rw [e2]; simp [stepBefore, h2]
      · intro h; exact absurd (List.mem_cons_self _ _) h
      · intro h
        obtain ⟨e1, e2⟩ := r5 (hbl.1 h)
        refine ⟨e1, ?_⟩
        rw [e2]; simp only [stepBefore, if_neg hab]; exact estep _ _ _
      · intro h
        exact r6 (fun h' => h (hbl.2 h'))
    · by_cases hib : i = b
      · subst hib
        have hs : slice[i] = VerticalDimension := by
          rw [hget] at hb; exact Option.some.inj hb
        have hne : ¬ (VerticalDimension = HorizontalDimension) := by decide
        simp only [hs, if_neg hne, if_true]
        obtain ⟨r, hr, r1, r2, r3, r4, r5, r6⟩ := ih hnd' hl' hfix'
          { hor := st.hor, ver := i, hStep := st.hStep, vStep := st.step,
            complexStep := st.complexStep, offset := st.offset,
            step := wrapInt32 (st.step * d.m_space.dimLength i) } h1 (wrapInt32_idem _)
        have hal : a ∈ i :: l ↔ a ∈ l := by
          simp [List.mem_cons, hab]
        refine ⟨r, hr, ?_, ?_, ?_, ?_, ?_, ?_⟩
        · rw [r1]; simp only [List.map_cons, radixProd, fixedDigit]; exact estep _ _ _
        · rw [r2]; simp only [List.map_cons, mixedRadix, fixedDigit, or_true, if_true]
          exact eoff _ _ _ _
        · intro h
          obtain ⟨e1, e2⟩ := r3 (hal.1 h)
          refine ⟨e1, ?_⟩
          rw [e2]; simp only [stepBefore, if_neg hia]; exact estep _ _ _
        · intro h
          exact r4 (fun h' => h (hal.2 h'))
        · intro _
          obtain ⟨e1, e2⟩ := r6 hil
          refine ⟨by rw [e1], ?_⟩
          rw [e2]; simp [stepBefore, h2]
        · intro h; exact absurd (List.mem_cons_self _ _) h
      · obtain ⟨f1, f2, f3⟩ := hfix i (List.mem_cons_self _ _) hia hib
        rw [hgetD] at f1 f2
        simp only [if_neg f1, if_neg f2, if_neg f3]
        obtain ⟨r, hr, r1, r2, r3, r4, r5, r6⟩ := ih hnd' hl' hfix'
          { hor := st.hor, ver := st.ver, hStep := st.hStep, vStep := st.vStep,
            complexStep := st.complexStep,
            offset := wrapInt32 (st.offset + wrapInt32 (slice[i] * st.step)),
            step := wrapInt32 (st.step * d.m_space.dimLength i) }
          (wrapInt32_idem _) (wrapInt32_idem _)
        have hal : a ∈ i :: l ↔ a ∈ l := by
          simp [List.mem_cons, Ne.symm hia]
        have hbl : b ∈ i :: l ↔ b ∈ l := by
          simp [List.mem_cons, Ne.symm hib]
        refine ⟨r, hr, ?_, ?_, ?_, ?_, ?_, ?_⟩
        · rw [r1]; simp only [List.map_cons, radixProd, fixedDigit]; exact estep _ _ _
        · rw [r2]
          simp only [List.map_cons, mixedRadix, fixedDigit, hia, hib, or_self, if_false, hgetD]
          apply wrapInt32_congr
          calc wrapInt32 (st.offset + wrapInt32 (slice[i] * st.step)) +
                wrapInt32 (st.step * d.m_space.dimLength i) *
                  mixedRadix (l.map (fixedDigit d slice a b))
              ≡ (st.offset + slice[i] * st.step) + (st.step * d.m_space.dimLength i) *
                  mixedRadix (l.map (fixedDigit d slice a b)) [ZMOD 4294967296] :=
                Int.ModEq.add
                  ((wrapInt32_modEq _).trans ((wrapInt32_modEq _).add_left _))
                  ((wrapInt32_modEq _).mul_right _)
            _ = _ := by ring
        · intro h
          obtain ⟨e1, e2⟩ := r3 (hal.1 h)
          refine ⟨e1, ?_⟩
          rw [e2]; simp only [stepBefore, if_neg hia]; exact estep _ _ _
        · intro h
          exact r4 (fun h' => h (hal.2 h'))
        · intro h
          obtain ⟨e1, e2⟩ := r5 (hbl.1 h)
          refine ⟨e1, ?_⟩
          rw [e2]; simp only [stepBefore, if_neg hib]; exact estep _ _ _
        · intro h
          exact r6 (fun h' => h (hbl.2 h'))

theorem getD_set_set (slice : List Int) (a b : Nat) (ca cb : Int) (hab : a ≠ b)
    (ha : a < slice.length) (hb : b < slice.length) (i : Nat) :
    ((slice.set a ca).set b cb).getD i 0 =
      if i = b then cb else if i = a then ca else slice.getD i 0 := by
  simp only [List.getD_eq_getElem?_getD, List.getElem?_set]
  by_cases h1 : i = b
  · subst h1
    simp [hb]
  · by_cases h2 : i = a
    · subst h2
      simp [ha, Ne.symm h1, h1]
    · simp [h1, h2, Ne.symm h1, Ne.symm h2]

theorem mixedRadix_display (d : Dataset) (slice : List Int) (a b : Nat) (ca cb : Int)
    (hab : a ≠ b) (g : Nat → Int × Int)
    (hg : ∀ i, g i = (if i = b then cb else if i = a then ca else slice.getD i 0,
      d.m_space.dimLength i))
    (l : List Nat) (hnd : l.Nodup) :
    mixedRadix (l.map g)
      = mixedRadix (l.map (fixedDigit d slice a b))
        + (if a ∈ l then ca * stepBefore (fun i => d.m_space.dimLength i) l a else 0)
        + (if b ∈ l then cb * stepBefore (fun i => d.m_space.dimLength i) l b else 0) ∧
    radixProd (l.map g) = radixProd (l.map (fixedDigit d slice a b)) := by
  induction l with
  | nil => simp [mixedRadix, radixProd]
  | cons i l ih =>
    have hil : i ∉ l := (List.nodup_cons.1 hnd).1
    obtain ⟨ih1, ih2⟩ := ih (List.nodup_cons.1 hnd).2
    simp only [List.map_cons, mixedRadix, radixProd, ih1, ih2, List.mem_cons]
    rw [hg i]
    refine ⟨?_, by simp [fixedDigit]⟩
    by_cases hia : i = a
    · subst hia
      have hbl : ¬ i = b := hab
      simp only [fixedDigit, if_neg hbl, true_or, if_true, if_neg hil, stepBefore,
        if_neg (Ne.symm hab), Ne.symm hab, false_or]
      split <;> ring
    · by_cases hib : i = b
      · subst hib
        simp only [fixedDigit, or_true, if_true, if_neg hil, stepBefore, if_neg hia,
          Ne.symm hia, false_or, true_or]
        split <;> ring
      · simp only [fixedDigit, hia, hib, or_self, if_false, stepBefore, Ne.symm hia, Ne.symm hib,
          false_or]
        split <;> split <;> ring

theorem stepBefore_bounds (dl : Nat → Int) (l : List Nat) (a : Nat)
    (h : ∀ i ∈ l, 1 ≤ dl i) :
    1 ≤ stepBefore dl l a ∧ stepBefore dl l a ≤ (l.map dl).prod := by
  induction l with
  | nil => simp [stepBefore]
  | cons i l ih =>
    have hi := h i (List.mem_cons_self _ _)
    obtain ⟨i1, i2⟩ := ih (fun j hj => h j (List.mem_cons_of_mem _ hj))
    simp only [stepBefore, List.map_cons, List.prod_cons]
    split
    · refine ⟨le_refl _, ?_⟩
      nlinarith
    · constructor <;> nlinarith

theorem axisOrder_nodup (rank : Int) (desc : Bool) : (axisOrder rank desc).Nodup := by
  unfold axisOrder
  split
  · exact List.nodup_reverse.2 (List.nodup_range _)
  · exact List.nodup_range _

theorem lt_length_of_get? {α : Type} (l : List α) (i : Nat) (x : α) (h : l.get? i = some x) :
    i < l.length := by
  by_contra hc
  rw [List.get?_eq_none.2 (by omega)] at h
  exact absurd h (by simp)

theorem frame_address_roles (d : Dataset) (slice : List Int) (a b : Nat) (hab : a ≠ b)
    (ha : slice.get? a = some HorizontalDimension) (hb : slice.get? b = some VerticalDimension)
    (hlen : (slice.length : Int) = d.m_space.rank) (hcx : d.m_complexIndex < 0)
    (hfixed : ∀ i, i < slice.length → i ≠ a → i ≠ b →
      0 ≤ slice.getD i 0 ∧ slice.getD i 0 < d.m_space.dimLength i) :
    ∃ r : FrameLoop, d.frame slice = d.frameFinish r ∧ r.hor = a ∧ r.ver = b ∧
      ∀ ca cb : Int, 0 ≤ ca ∧ ca < d.m_space.dimLength a → 0 ≤ cb ∧ cb < d.m_space.dimLength b →
        d.sliceOffset ((slice.set a ca).set b cb)
          = some (wrapInt32 (r.offset + ca * r.hStep + cb * r.vStep)) ∧
        (d.m_space.isValid = true → d.elementCount < 2147483648 →
          d.sliceOffset ((slice.set a ca).set b cb)
            = some (r.offset + ca * r.hStep + cb * r.vStep)) := by
  have hal : a < slice.length := lt_length_of_get? _ _ _ ha
  have hbl : b < slice.length := lt_length_of_get? _ _ _ hb
  have hrank : ¬ d.m_space.rank < 0 := by omega
  have hmem : ∀ i, i ∈ axisOrder d.m_space.rank d.m_descendingData ↔ i < slice.length := by
    intro i
    rw [mem_axisOrder]
    omega
  have e0 : wrapInt32 0 = 0 := by decide
  have e1 : wrapInt32 1 = 1 := by decide
  obtain ⟨r, hr, r1, r2, r3, -, r5, -⟩ := foldlM_frameStep_address d slice a b hab ha hb
    (axisOrder d.m_space.rank d.m_descendingData) (axisOrder_nodup _ _)
    (fun i hi => (hmem i).1 hi)
    (fun i hi hia hib => by
      obtain ⟨f1, f2⟩ := hfixed i ((hmem i).1 hi) hia hib
      refine ⟨?_, ?_, ?_⟩
      · intro h; rw [h] at f1; exact absurd f1 (by decide)
      · intro h; rw [h] at f1; exact absurd f1 (by decide)
      · omega)
    Dataset.frameInit e0 e1
  obtain ⟨r3a, r3b⟩ := r3 ((hmem a).2 hal)
  obtain ⟨r5a, r5b⟩ := r5 ((hmem b).2 hbl)
  refine ⟨r, ?_, r3a, r5a, ?_⟩
  · unfold Dataset.frame
    rw [if_neg hrank, hr]
  intro ca cb hca hcb
  have hdig : ∀ i, i < slice.length →
      0 ≤ ((slice.set a ca).set b cb).getD i 0 ∧
      ((slice.set a ca).set b cb).getD i 0 < d.m_space.dimLength i := by
    intro i hi
    rw [getD_set_set slice a b ca cb hab hal hbl]
    by_cases hib : i = b
    · subst hib; simpa using hcb
    · by_cases hia : i = a
      · subst hia; simpa [hib] using hca
      · simpa [hia, hib] using hfixed i hi hia hib
  obtain ⟨m1, m2⟩ := mixedRadix_display d slice a b ca cb hab
    (fun i => (((slice.set a ca).set b cb).getD i 0, d.m_space.dimLength i))
    (fun i => by simp only [getD_set_set slice a b ca cb hab hal hbl])
    (axisOrder d.m_space.rank d.m_descendingData) (axisOrder_nodup _ _)
  rw [if_pos ((hmem a).2 hal), if_pos ((hmem b).2 hbl)] at m1
  have hoff : d.sliceOffset ((slice.set a ca).set b cb) = some (wrapInt32 (mixedRadix
      ((axisOrder d.m_space.rank d.m_descendingData).map
        (fun i => (((slice.set a ca).set b cb).getD i 0, d.m_space.dimLength i))))) := by
    have hg : d.sliceExceeds ((slice.set a ca).set b cb) = false := by
      unfold Dataset.sliceExceeds
      rw [List.any_eq_false]
      intro i hi
      simp only [List.mem_range] at hi
      have := (hdig i (by omega)).2
      simp only [decide_eq_true_eq, not_le]
      exact this
    unfold Dataset.sliceOffset
    rw [if_neg (by simpa using hlen), hg]
    simp only [Bool.false_eq_true, if_false, Option.some.injEq]
    have := offsetFold_wrap
      (fun i => (((slice.set a ca).set b cb).getD i 0, d.m_space.dimLength i))
      (axisOrder d.m_space.rank d.m_descendingData) 0 1
    rw [e0, e1] at this
    unfold Dataset.offsetStep
    rw [this]
    simp
  have hi0 : Dataset.frameInit.offset = 0 := rfl
  have hs0 : Dataset.frameInit.step = 1 := rfl
  rw [hi0, hs0] at r2
  rw [hs0] at r3b r5b
  simp only [one_mul, zero_add] at r2 r3b r5b
  constructor
  · rw [hoff, m1, r2, r3b, r5b]
    congr 1
    apply wrapInt32_congr
    exact ((Int.ModEq.refl _).add (((wrapInt32_modEq _).symm).mul_left _)).add
      (((wrapInt32_modEq _).symm).mul_left _) |>.trans
      ((((wrapInt32_modEq _).symm).add_right _).add_right _)
  · intro hv hfit
    have hv' := hv
    simp only [DataSpace.isValid, Bool.and_eq_true, decide_eq_true_eq] at hv'
    have hdl : ∀ i ∈ axisOrder d.m_space.rank d.m_descendingData,
        1 ≤ (fun i : Nat => d.m_space.dimLength i) i := by
      intro i hi
      have := hdig i ((hmem i).1 hi)
      simp only
      omega
    have hok : digitsOk ((axisOrder d.m_space.rank d.m_descendingData).map
        (fun i => (((slice.set a ca).set b cb).getD i 0, d.m_space.dimLength i))) := by
      intro p hp
      obtain ⟨i, hi, rfl⟩ := List.mem_map.1 hp
      exact hdig i ((hmem i).1 hi)
    have hokf : digitsOk ((axisOrder d.m_space.rank d.m_descendingData).map
        (fixedDigit d slice a b)) := by
      intro p hp
      obtain ⟨i, hi, rfl⟩ := List.mem_map.1 hp
      have := hdig i ((hmem i).1 hi)
      simp only [fixedDigit]
      split
      · constructor <;> omega
      · rename_i hne
        simp only [not_or] at hne
        exact hfixed i ((hmem i).1 hi) hne.1 hne.2
    have hrange := mixedRadix_range _ hok
    have hrangef := mixedRadix_range _ hokf
    have hprod : radixProd ((axisOrder d.m_space.rank d.m_descendingData).map
        (fun i => (((slice.set a ca).set b cb).getD i 0, d.m_space.dimLength i)))
        = d.elementCount := by
      have hl2 : ((slice.set a ca).set b cb).length = d.m_space.m_dimLengths.length := by
        simp only [List.length_set]
        have : (slice.length : Int) = d.m_space.m_dimLengths.length := by
          rw [hlen]; exact hv'.2
        exact_mod_cast this
      rw [visitedDigits_eq d hv _ (by simp only [List.length_set]; exact hlen),
        visitedDigits_prod d _ hl2]
    have hprod2 : ((axisOrder d.m_space.rank d.m_descendingData).map
        (fun i : Nat => d.m_space.dimLength i)).prod = d.elementCount := by
      rw [← hprod, radixProd_eq, List.map_map]
      rfl
    obtain ⟨sa1, sa2⟩ := stepBefore_bounds (fun i : Nat => d.m_space.dimLength i)
      (axisOrder d.m_space.rank d.m_descendingData) a hdl
    obtain ⟨sb1, sb2⟩ := stepBefore_bounds (fun i : Nat => d.m_space.dimLength i)
      (axisOrder d.m_space.rank d.m_descendingData) b hdl
    rw [hprod2] at sa2 sb2
    rw [hprod] at hrange
    have t1 : 0 ≤ ca * stepBefore (fun i : Nat => d.m_space.dimLength i)
        (axisOrder d.m_space.rank d.m_descendingData) a := mul_nonneg hca.1 (by omega)
    have t2 : 0 ≤ cb * stepBefore (fun i : Nat => d.m_space.dimLength i)
        (axisOrder d.m_space.rank d.m_descendingData) b := mul_nonneg hcb.1 (by omega)
    rw [hoff, r2, r3b, r5b, wrapInt32_eq_self (by omega) (by omega),
      wrapInt32_eq_self (x := mixedRadix _) (by omega) (by omega),
      wrapInt32_eq_self (x := stepBefore _ _ a) (by omega) (by omega),
      wrapInt32_eq_self (x := stepBefore _ _ b) (by omega) (by omega), m1]

/-- C29: for a Dataset without complex axis and a slice of length rank that has
`HorizontalDimension` and `VerticalDimension` on the two axes `lo < hi` (in
either order) and in-bounds indexes on the other axes, `frame` returns a frame
with `hSize = dimLength(lo)` and `vSize = dimLength(hi)`, and for every column
`c` and row `r` of the frame the offset `index + c * hStep + r * vStep`, in the
32-bit arithmetic of `int`, is the offset that `variantDataValue(Slice)`
resolves for the slice with `c` on `lo` and `r` on `hi`; when the element count
is below `2^31` the sum is that offset without any wrap-around. -/
theorem frame_reuses_address_mapping (d : Dataset) (slice : List Int) (lo hi : Nat)
    (hlen : (slice.length : Int) = d.m_space.rank) (hcx : d.m_complexIndex < 0)
    (hlohi : lo < hi)
    (hroles : (slice.get? lo = some HorizontalDimension ∧
        slice.get? hi = some VerticalDimension) ∨
      (slice.get? lo = some VerticalDimension ∧ slice.get? hi = some HorizontalDimension))
    (hfixed : ∀ i, i < slice.length → i ≠ lo → i ≠ hi →
      0 ≤ slice.getD i 0 ∧ slice.getD i 0 < d.m_space.dimLength i) :
    ∃ f : Frame, d.frame slice = some (some f) ∧
      f.m_data.hSize = d.m_space.dimLength lo ∧ f.m_data.vSize = d.m_space.dimLength hi ∧
      ∀ c r : Int, 0 ≤ c ∧ c < f.m_data.hSize → 0 ≤ r ∧ r < f.m_data.vSize →
        d.sliceOffset ((slice.set lo c).set hi r)
          = some (wrapInt32 (f.m_index + c * f.m_data.hStep + r * f.m_data.vStep)) ∧
        d.variantDataValueSlice ((slice.set lo c).set hi r)
          = d.variantDataValue (wrapInt32 (f.m_index + c * f.m_data.hStep + r * f.m_data.vStep)) ∧
        (d.m_space.isValid = true → d.elementCount < 2147483648 →
          d.sliceOffset ((slice.set lo c).set hi r)
            = some (f.m_index + c * f.m_data.hStep + r * f.m_data.vStep)) := by
  have hne : lo ≠ hi := by omega
  have hcx' : ¬ d.m_complexIndex ≥ 0 := by omega
  rcases hroles with ⟨h1, h2⟩ | ⟨h1, h2⟩
  · obtain ⟨st, hf, s1, s2, hall⟩ := frame_address_roles d slice lo hi hne h1 h2 hlen hcx hfixed
    have hg : ¬ (st.hor < 0 ∨ st.ver < 0) := by rw [s1, s2]; omega
    have hsw : ¬ st.hor > st.ver := by rw [s1, s2]; omega
    refine ⟨(Frame.create (ptrAdd d.m_data (wrapInt32 (st.offset * d.m_dataTypeSize)))
      Pointer.null st.hStep st.vStep (d.m_space.dimLength st.hor) (d.m_space.dimLength st.ver)
      d.m_dataType false).setIndex st.offset, ?_, ?_, ?_, ?_⟩
    · rw [hf]
      unfold Dataset.frameFinish
      rw [if_neg hg]
      simp only [if_neg hsw, if_neg hcx']
    · simp [Frame.setIndex, Frame.create, s1]
    · simp [Frame.setIndex, Frame.create, s2]
    · intro c r hc hr
      simp only [Frame.setIndex, Frame.create] at hc hr ⊢
      rw [s1] at hc
      rw [s2] at hr
      obtain ⟨o1, o2⟩ := hall c r hc hr
      refine ⟨o1, ?_, o2⟩
      unfold Dataset.variantDataValueSlice
      rw [o1]
  · obtain ⟨st, hf, s1, s2, hall⟩ := frame_address_roles d slice hi lo (Ne.symm hne) h2 h1 hlen hcx
      (fun i hi1 hi2 hi3 => hfixed i hi1 hi3 hi2)
    have hg : ¬ (st.hor < 0 ∨ st.ver < 0) := by rw [s1, s2]; omega
    have hsw : st.hor > st.ver := by rw [s1, s2]; omega
    refine ⟨(Frame.create (ptrAdd d.m_data (wrapInt32 (st.offset * d.m_dataTypeSize)))
      Pointer.null st.vStep st.hStep (d.m_space.dimLength st.ver) (d.m_space.dimLength st.hor)
      d.m_dataType false).setIndex st.offset, ?_, ?_, ?_, ?_⟩
    · rw [hf]
      unfold Dataset.frameFinish
      rw [if_neg hg]
      simp only [if_pos hsw, if_neg hcx']
    · simp [Frame.setIndex, Frame.create, s2]
    · simp [Frame.setIndex, Frame.create, s1]
    · intro c r hc hr
      simp only [Frame.setIndex, Frame.create] at hc hr ⊢
      rw [s2] at hc
      rw [s1] at hr
      obtain ⟨o1, o2⟩ := hall r c hr hc
      have ec : (slice.set hi r).set lo c = (slice.set lo c).set hi r :=
        List.set_comm r c slice (Ne.symm hne)
      rw [ec] at o1 o2
      have e : st.offset + r * st.hStep + c * st.vStep
          = st.offset + c * st.vStep + r * st.hStep := by ring
      rw [e] at o1 o2
      refine ⟨o1, ?_, o2⟩
      unfold Dataset.variantDataValueSlice
      rw [o1]

/-- C29 (witness): the descending `2 x 3 x 4` Dataset and the slice with the
horizontal role on axis 0, the fixed index 1 on axis 1 and the vertical role on
axis 2: column 1 and row 3 of the frame are the element of the index vector
`(1, 1, 3)`. -/
theorem frame_reuses_address_mapping_witness :
    ∃ f : Frame, (Dataset.create 3 [2, 3, 4] DataTypeInt32 none true).frame [-1, 1, -2]
        = some (some f) ∧ f.m_data.hSize = 2 ∧ f.m_data.vSize = 4 ∧
      (Dataset.create 3 [2, 3, 4] DataTypeInt32 none true).sliceOffset [1, 1, 3]
        = some (f.m_index + 1 * f.m_data.hStep + 3 * f.m_data.vStep) := by
  obtain ⟨f, h1, h2, h3, h4⟩ := frame_reuses_address_mapping
    (Dataset.create 3 [2, 3, 4] DataTypeInt32 none true) [-1, 1, -2] 0 2 (by decide) (by decide)
    (by decide) (Or.inl (by decide)) (by
      intro i hi h0 h2
      have : i = 1 := by simp at hi; omega
      subst this
      decide)
  have e2 : f.m_data.hSize = 2 := h2.trans (by decide)
  have e3 : f.m_data.vSize = 4 := h3.trans (by decide)
  refine ⟨f, h1, e2, e3, ?_⟩
  exact (h4 1 3 (by rw [e2]; decide) (by rw [e3]; decide)).2.2 (by decide) (by decide)
/-! ## The tree of nodes: replacing and reading a node at a path -/

theorem Node.at?_replaceAt_self (p : List Nat) (root r : Node)
    (h : (root.at? p).isSome = true) : (root.replaceAt p r).at? p = some r := by
  induction p generalizing root with
  | nil => cases root; simp [Node.replaceAt, Node.at?]
  | cons i p ih =>
    obtain ⟨nm, st, cs, x⟩ := root
    simp only [Node.at?] at h
    cases hc : cs.get? i with
    | none => rw [hc] at h; simp at h
    | some c =>
      rw [hc] at h
      have hi : i < cs.length := by
        by_contra hcon
        rw [List.get?_eq_none.2 (by omega)] at hc
        exact absurd hc (by simp)
      simp only [Node.replaceAt, hc, Node.at?]
      rw [List.get?_eq_getElem?, List.getElem?_set_self hi]
      exact ih c h

theorem Node.setStatusCascadeList_get? (status : Nat) (cs : List Node) (i : Nat) :
    (Node.setStatusCascadeList status cs).get? i
      = (cs.get? i).map (Node.setStatusCascade status) := by
  induction cs generalizing i with
  | nil => simp [Node.setStatusCascadeList]
  | cons c cs ih =>
    cases i with
    | zero => simp [Node.setStatusCascadeList]
    | succ i => simpa [Node.setStatusCascadeList] using ih i

theorem Node.setStatusCascadeList_length (status : Nat) (cs : List Node) :
    (Node.setStatusCascadeList status cs).length = cs.length := by
  induction cs with
  | nil => rfl
  | cons c cs ih => simp [Node.setStatusCascadeList, ih]

theorem Node.asDataset_setStatusCascade (status : Nat) (n : Node) :
    (n.setStatusCascade status).asDataset = n.asDataset := by
  obtain ⟨nm, st, cs, x⟩ := n
  simp [Node.setStatusCascade, Node.asDataset, Node.self]

theorem Node.asDataGroup_toNode (g : DataGroup) : g.toNode.asDataGroup = some g := by
  rfl
/-! ## The decoder of SER files -/

set_option maxRecDepth 100000

theorem readBytes_length (buf : List Nat) (off : Int) (n : Nat) (b : List Nat)
    (h : readBytes buf off n = some b) : b.length = n := by
  unfold readBytes at h
  split at h
  · rename_i hc
    have := Option.some.inj h
    subst this
    rw [List.length_take, List.length_drop]
    omega
  · exact absurd h (by simp)

theorem FileManager.loadSer2DLoop_append (bytes : List Nat) (N : Int) (offsets : List Int)
    (l1 l2 : List Nat) (st : FileManager.Ser2D) :
    FileManager.loadSer2DLoop bytes N offsets (l1 ++ l2) st =
      match FileManager.loadSer2DLoop bytes N offsets l1 st with
      | some (some st') => FileManager.loadSer2DLoop bytes N offsets l2 st'
      | some none => some none
      | none => none := by
  induction l1 generalizing st with
  | nil => rfl
  | cons i l ih =>
    simp only [List.cons_append, FileManager.loadSer2DLoop]
    cases h : FileManager.loadSer2DStep bytes N offsets st i with
    | none => rfl
    | some r =>
      cases r with
      | none => rfl
      | some st' => exact ih st'

theorem FileManager.hasElement2D_iff (bytes : List Nat) (offsets : List Int) (index : Nat)
    (t x y : Int) (block : List Nat) :
    FileManager.hasElement2D bytes offsets index t x y block = true ↔
      ∃ pos, FileManager.readElement2D bytes offsets index
          = some { serDataType := t, xSize := x, ySize := y, dataPos := pos } ∧
        readBytes bytes pos block.length = some block := by
  unfold FileManager.hasElement2D
  cases h : FileManager.readElement2D bytes offsets index with
  | none => simp
  | some e =>
    obtain ⟨t', x', y', p'⟩ := e
    simp only [Bool.and_eq_true, decide_eq_true_eq, Option.some.injEq,
      FileManager.SerElement2D.mk.injEq]
    constructor
    · rintro ⟨⟨⟨h1, h2⟩, h3⟩, h4⟩
      exact ⟨p', ⟨h1, h2, h3, rfl⟩, h4⟩
    · rintro ⟨pos, ⟨h1, h2, h3, h4⟩, h5⟩
      subst h4
      exact ⟨⟨⟨h1, h2⟩, h3⟩, h5⟩

/-- The bytes that `new char[dataSize]` and the first `j` passes of the loop
leave in the buffer of a series of `n` elements. -/
theorem FileManager.writeBytes_block (blocks : List (List Nat)) (es n j : Nat)
    (hb : ∀ b ∈ blocks, b.length = es) (hj : j < blocks.length) (hn : blocks.length ≤ n) :
    FileManager.writeBytes ((blocks.take j).flatten ++ List.replicate ((n - j) * es) 0)
        ((j * es : Nat) : Int) (blocks.getD j [])
      = some ((blocks.take (j + 1)).flatten ++ List.replicate ((n - (j + 1)) * es) 0) := by
  have hlen : (blocks.take j).flatten.length = j * es := by
    have := (flatten_chunk es (blocks.take j)
      (fun c hc => hb c (List.mem_of_mem_take hc)))
    by_cases hj0 : j = 0
    · subst hj0; simp
    · have h2 := (this 0 (by rw [List.length_take]; omega)).1
      rw [h2, List.length_take]
      congr 1
      omega
  have hbl : (blocks.getD j []).length = es := by
    rw [List.getD_eq_getElem _ _ hj]
    exact hb _ (List.getElem_mem _)
  have hsplit : (n - j) * es = es + (n - (j + 1)) * es := by
    have : n - j = (n - (j + 1)) + 1 := by omega
    rw [this]; ring
  unfold FileManager.writeBytes
  rw [if_pos (by
    constructor
    · exact Int.natCast_nonneg _
    · rw [hbl, List.length_append, hlen, List.length_replicate, hsplit]
      push_cast
      omega)]
  congr 1
  rw [Int.toNat_natCast, hbl]
  rw [List.take_append_of_le_length (by omega), List.take_of_length_le (by omega)]
  rw [List.drop_append_eq_append_drop, List.drop_of_length_le (by omega), hlen]
  have : j * es + es - j * es = es := by omega
  rw [this, hsplit, List.nil_append, List.drop_replicate, Nat.add_sub_cancel_left]
  rw [List.take_succ, List.flatten_append]
  have : blocks[j]?.toList = [blocks.getD j []] := by
    rw [List.getD_eq_getElem _ _ hj, List.getElem?_eq_getElem hj]; rfl
  rw [this]
  simp

theorem FileManager.loadSer2DStep_allocated (bytes : List Nat) (N : Int) (offsets : List Int)
    (w h : Int) (type : DataType) (blocks : List (List Nat)) (n es j : Nat)
    (hfit : (n : Int) * es < 2147483648)
    (hb : ∀ b ∈ blocks, b.length = es) (hj : j < blocks.length) (hn : blocks.length ≤ n)
    (tj : Int) (hel : FileManager.hasElement2D bytes offsets j tj w h (blocks.getD j []) = true) :
    FileManager.loadSer2DStep bytes N offsets
        { data := some ((blocks.take j).flatten ++ List.replicate ((n - j) * es) 0),
          dataSizeX := w, dataSizeY := h, elementSize := es, emdDataType := type } j
      = some (some
        { data := some ((blocks.take (j + 1)).flatten ++ List.replicate ((n - (j + 1)) * es) 0),
          dataSizeX := w, dataSizeY := h, elementSize := es, emdDataType := type }) := by
  obtain ⟨pos, he, hr⟩ := (FileManager.hasElement2D_iff _ _ _ _ _ _ _).1 hel
  have hbl : (blocks.getD j []).length = es := by
    rw [List.getD_eq_getElem _ _ hj]
    exact hb _ (List.getElem_mem _)
  rw [hbl] at hr
  have hwrap : wrapInt32 ((j : Int) * (es : Int)) = ((j * es : Nat) : Int) := by
    push_cast
    apply wrapInt32_eq_self
    · have : (0 : Int) ≤ (j : Int) * (es : Int) := by positivity
      omega
    · have : (j : Int) * (es : Int) ≤ (n : Int) * (es : Int) := by
        apply mul_le_mul_of_nonneg_right
        · exact_mod_cast (by omega : j ≤ n)
        · positivity
      omega
  have hneg : ¬ ((es : Int) < 0) := by omega
  simp only [FileManager.loadSer2DStep, he, and_self, if_true, if_neg hneg, Int.toNat_natCast,
    hr, hwrap, FileManager.writeBytes_block blocks es n j hb hj hn, Option.map_some']

theorem FileManager.loadSer2DLoop_allocated (bytes : List Nat) (N : Int) (offsets : List Int)
    (w h : Int) (type : DataType) (blocks : List (List Nat)) (n es : Nat)
    (hfit : (n : Int) * es < 2147483648)
    (hb : ∀ b ∈ blocks, b.length = es) (hn : blocks.length ≤ n)
    (hel : ∀ j, j < blocks.length →
      ∃ tj, FileManager.hasElement2D bytes offsets j tj w h (blocks.getD j []) = true)
    (m j : Nat) (hjm : j + m ≤ blocks.length) :
    FileManager.loadSer2DLoop bytes N offsets (List.range' j m)
        { data := some ((blocks.take j).flatten ++ List.replicate ((n - j) * es) 0),
          dataSizeX := w, dataSizeY := h, elementSize := es, emdDataType := type }
      = some (some
        { data := some ((blocks.take (j + m)).flatten ++ List.replicate ((n - (j + m)) * es) 0),
          dataSizeX := w, dataSizeY := h, elementSize := es, emdDataType := type }) := by
  induction m generalizing j with
  | zero => rfl
  | succ m ih =>
    obtain ⟨tj, htj⟩ := hel j (by omega)
    simp only [List.range', FileManager.loadSer2DLoop]
    rw [FileManager.loadSer2DStep_allocated bytes N offsets w h type blocks n es j hfit hb
      (by omega) hn tj htj]
    simp only
    rw [ih (j + 1) (by omega)]
    have : j + 1 + m = j + (m + 1) := by omega
    rw [this]

theorem FileManager.loadSer2DLoop_blocks (bytes : List Nat) (N : Int) (offsets : List Int)
    (t w h : Int) (blocks : List (List Nat)) (n es : Nat) (hN : N = n)
    (hes : wrapInt32 (wrapInt32 (w * h) * emdTypeDepth (FileManager.serToEmdType t)) = es)
    (hfit : (n : Int) * es < 2147483648)
    (hb : ∀ b ∈ blocks, b.length = es) (hn : blocks.length ≤ n) (h1 : 1 ≤ blocks.length)
    (hel0 : FileManager.hasElement2D bytes offsets 0 t w h (blocks.getD 0 []) = true)
    (hel : ∀ j, j < blocks.length →
      ∃ tj, FileManager.hasElement2D bytes offsets j tj w h (blocks.getD j []) = true) :
    FileManager.loadSer2DLoop bytes N offsets (List.range blocks.length)
        { data := none, dataSizeX := 0, dataSizeY := 0, elementSize := 0,
          emdDataType := DataTypeUnknown }
      = some (some
        { data := some (blocks.flatten ++ List.replicate ((n - blocks.length) * es) 0),
          dataSizeX := w, dataSizeY := h, elementSize := es,
          emdDataType := FileManager.serToEmdType t }) := by
  have hfirst : FileManager.loadSer2DStep bytes N offsets
      { data := none, dataSizeX := 0, dataSizeY := 0, elementSize := 0,
        emdDataType := DataTypeUnknown } 0
      = FileManager.loadSer2DStep bytes N offsets
        { data := some ((blocks.take 0).flatten ++ List.replicate ((n - 0) * es) 0),
          dataSizeX := w, dataSizeY := h, elementSize := es,
          emdDataType := FileManager.serToEmdType t } 0 := by
    obtain ⟨pos, he, hr⟩ := (FileManager.hasElement2D_iff _ _ _ _ _ _ _).1 hel0
    have hds : wrapInt32 (N * (es : Int)) = ((n * es : Nat) : Int) := by
      rw [hN]
      push_cast
      apply wrapInt32_eq_self
      · have : (0 : Int) ≤ (n : Int) * (es : Int) := by positivity
        omega
      · exact hfit
    have hneg : ¬ (((n * es : Nat) : Int) < 0) := by omega
    simp only [FileManager.loadSer2DStep, he, hes, hds, if_neg hneg, Int.toNat_natCast,
      List.take_zero, List.flatten_nil, List.nil_append, Nat.sub_zero]
  have hr : List.range blocks.length = 0 :: List.range' 1 (blocks.length - 1) := by
    rw [List.range_eq_range']
    have : blocks.length = (blocks.length - 1) + 1 := by omega
    rw [this, List.range']
    simp
  rw [hr]
  simp only [FileManager.loadSer2DLoop]
  rw [hfirst, FileManager.loadSer2DStep_allocated bytes N offsets w h _ blocks n es 0 hfit hb
    (by omega) hn t hel0]
  simp only
  rw [FileManager.loadSer2DLoop_allocated bytes N offsets w h _ blocks n es hfit hb hn hel
    (blocks.length - 1) (0 + 1) (by omega)]
  have e1 : 0 + 1 + (blocks.length - 1) = blocks.length := by omega
  rw [e1, List.take_length]

theorem FileManager.serToEmdType_known (t : Int)
    (h : FileManager.serToEmdType t ≠ DataTypeUnknown) :
    1 ≤ emdTypeDepth (FileManager.serToEmdType t) ∧
    isNumeric (FileManager.serToEmdType t) = true ∧
    emdTypeDepth (FileManager.serToEmdType t) = typeWidth (FileManager.serToEmdType t) := by
  unfold FileManager.serToEmdType at h ⊢
  split_ifs at h ⊢ <;> first | decide | exact absurd rfl h

/-- The element size and the buffer size of a series of `N` elements of
`w x h` pixels of a known type whose bytes a 32-bit `int` counts. -/
theorem FileManager.ser_sizes (t w h N : Int)
    (hknown : FileManager.serToEmdType t ≠ DataTypeUnknown) (hw : 0 ≤ w) (hh : 0 ≤ h)
    (hN : 1 ≤ N)
    (hfit : emdTypeDepth (FileManager.serToEmdType t) * w * h * N < 2147483648) :
    wrapInt32 (wrapInt32 (w * h) * emdTypeDepth (FileManager.serToEmdType t))
      = ((emdTypeDepth (FileManager.serToEmdType t) * w * h).toNat : Int) ∧
    ((N.toNat : Nat) : Int) * ((emdTypeDepth (FileManager.serToEmdType t) * w * h).toNat : Int)
      < 2147483648 ∧
    ((emdTypeDepth (FileManager.serToEmdType t) * w * h).toNat : Int)
      = emdTypeDepth (FileManager.serToEmdType t) * w * h := by
  obtain ⟨hd, -, -⟩ := FileManager.serToEmdType_known t hknown
  generalize emdTypeDepth (FileManager.serToEmdType t) = d at *
  have hwh : 0 ≤ w * h := mul_nonneg hw hh
  have hdwh : 0 ≤ d * w * h := by
    have : 0 ≤ d * (w * h) := mul_nonneg (by omega) hwh
    linarith [mul_assoc d w h]
  have h1 : w * h ≤ d * w * h := by nlinarith
  have h2 : d * w * h ≤ d * w * h * N := by nlinarith
  have e : ((d * w * h).toNat : Int) = d * w * h := Int.toNat_of_nonneg hdwh
  refine ⟨?_, ?_, e⟩
  · rw [wrapInt32_eq_self (x := w * h) (by omega) (by omega), e]
    have : w * h * d = d * w * h := by ring
    rw [this]
    exact wrapInt32_eq_self (by omega) (by omega)
  · rw [e, Int.toNat_of_nonneg (by omega)]
    linarith

theorem FileManager.emdTypeDepth_serToEmdType (t : Int) :
    emdTypeDepth (FileManager.serToEmdType t) ≤ -1 ∨
    1 ≤ emdTypeDepth (FileManager.serToEmdType t) := by
  unfold FileManager.serToEmdType
  split_ifs <;> decide

/-- The element size and the buffer size of a series of `N` elements whose
byte counts, as the source computes them in 32-bit `int`, are not negative. -/
theorem FileManager.ser_sizes_counted (t w h N : Int) (hN : 1 ≤ N)
    (hsize : 0 ≤ emdTypeDepth (FileManager.serToEmdType t) * w * h)
    (hfit : emdTypeDepth (FileManager.serToEmdType t) * w * h * N < 2147483648) :
    wrapInt32 (wrapInt32 (w * h) * emdTypeDepth (FileManager.serToEmdType t))
      = ((emdTypeDepth (FileManager.serToEmdType t) * w * h).toNat : Int) ∧
    ((N.toNat : Nat) : Int) * ((emdTypeDepth (FileManager.serToEmdType t) * w * h).toNat : Int)
      < 2147483648 := by
  have hd := FileManager.emdTypeDepth_serToEmdType t
  generalize emdTypeDepth (FileManager.serToEmdType t) = d at *
  have h2 : d * w * h ≤ d * w * h * N := by nlinarith
  have e : ((d * w * h).toNat : Int) = d * w * h := Int.toNat_of_nonneg hsize
  have hwh : -2147483648 ≤ w * h ∧ w * h < 2147483648 := by
    rcases hd with hd | hd
    · constructor <;> nlinarith
    · constructor <;> nlinarith
  refine ⟨?_, ?_⟩
  · rw [wrapInt32_eq_self (x := w * h) hwh.1 hwh.2, e]
    have : w * h * d = d * w * h := by ring
    rw [this]
    exact wrapInt32_eq_self (by omega) (by omega)
  · rw [e, Int.toNat_of_nonneg (by omega)]
    linarith

/-- C23 (amended): in a 2-D series (`dataTypeID` `0x4122`) whose first element
has the type code `t` and `w x h` pixels such that the byte counts that the
source computes in 32-bit `int` are not negative (`depth * w * h >= 0` and
`depth * w * h * validElementCount < 2 ^ 31`, where `depth` is
`emdTypeDepth(serToEmdType(t))`), and whose elements before element `k` have
the same width and height and their pixel blocks in the file, an element `k`
(a valid one, `1 <= k < validElementCount`) of another width or height makes
`loadSer` return `ErrorInvalidDataFormat` with the model as it was: no node
`/data/ser_file` and no Dataset is added. -/
theorem loadSer_shape_mismatch (bytes : List Nat) (model : Model)
    (serHeader : FileManager.SerHeader) (dataOffsetArray : List Int) (t w h : Int)
    (blocks : List (List Nat)) (e : FileManager.SerElement2D)
    (htables : FileManager.readSerTables bytes = some (serHeader, dataOffsetArray))
    (hid : serHeader.dataTypeID = 0x4122)
    (hsize : 0 ≤ emdTypeDepth (FileManager.serToEmdType t) * w * h)
    (hfit : emdTypeDepth (FileManager.serToEmdType t) * w * h * serHeader.validElementCount
      < 2147483648)
    (hk : 1 ≤ blocks.length) (hkN : (blocks.length : Int) < serHeader.validElementCount)
    (hblocks : ∀ b ∈ blocks,
      b.length = (emdTypeDepth (FileManager.serToEmdType t) * w * h).toNat)
    (hfirst : FileManager.hasElement2D bytes dataOffsetArray 0 t w h (blocks.getD 0 []) = true)
    (hbefore : ∀ j, 0 < j → j < blocks.length →
      ∃ tj, FileManager.hasElement2D bytes dataOffsetArray j tj w h (blocks.getD j []) = true)
    (hdiff : FileManager.readElement2D bytes dataOffsetArray blocks.length = some e)
    (hne : e.xSize ≠ w ∨ e.ySize ≠ h) :
    FileManager.loadSer (some bytes) model
      = some (FileManager.Error.ErrorInvalidDataFormat, model) := by
  obtain ⟨hes, hfit'⟩ := FileManager.ser_sizes_counted t w h serHeader.validElementCount
    (by omega) hsize hfit
  have hel : ∀ j, j < blocks.length →
      ∃ tj, FileManager.hasElement2D bytes dataOffsetArray j tj w h (blocks.getD j []) = true := by
    intro j hj
    by_cases h0 : j = 0
    · subst h0; exact ⟨t, hfirst⟩
    · exact hbefore j (by omega) hj
  have hn : blocks.length ≤ serHeader.validElementCount.toNat := by omega
  have hloop := FileManager.loadSer2DLoop_blocks bytes serHeader.validElementCount
    dataOffsetArray t w h blocks serHeader.validElementCount.toNat _
    (by rw [Int.toNat_of_nonneg (by omega)]) hes hfit' hblocks hn hk hfirst hel
  have hrange : List.range serHeader.validElementCount.toNat
      = List.range blocks.length ++ blocks.length ::
        List.range' (blocks.length + 1) (serHeader.validElementCount.toNat - blocks.length - 1) := by
    have e1 : serHeader.validElementCount.toNat
        = ((serHeader.validElementCount.toNat - blocks.length - 1) + 1) + blocks.length := by
      omega
    rw [List.range_eq_range', List.range_eq_range']
    conv_lhs => rw [e1]
    rw [← List.range'_append_1, Nat.zero_add]
    rfl
  have hstep : ∀ (buf : List Nat) (es : Int) (ty : DataType),
      FileManager.loadSer2DStep bytes serHeader.validElementCount dataOffsetArray
        { data := some buf, dataSizeX := w, dataSizeY := h, elementSize := es,
          emdDataType := ty } blocks.length = some none := by
    intro buf es ty
    have hcond : ¬ (w = e.xSize ∧ h = e.ySize) := by
      rintro ⟨c1, c2⟩
      rcases hne with c | c
      · exact c c1.symm
      · exact c c2.symm
    simp only [FileManager.loadSer2DStep, hdiff, if_neg hcond]
  have h20 : ¬ serHeader.dataTypeID = 0x4120 := by rw [hid]; decide
  unfold FileManager.loadSer
  simp only [htables]
  rw [if_neg h20, if_pos hid, hrange, FileManager.loadSer2DLoop_append, hloop]
  simp only [FileManager.loadSer2DLoop]
  rw [hstep]

/-- C23 (witness): a series of two elements whose second element is `1 x 2`
after a first of `2 x 1`, decoded into the model that `Model()` builds. -/
theorem loadSer_shape_mismatch_witness :
    FileManager.loadSer (some serMismatch) Model.create
      = some (FileManager.Error.ErrorInvalidDataFormat, Model.create) :=
  loadSer_shape_mismatch serMismatch Model.create (serFileHeader 0x4122 2) [46, 98] 1 2 1
    [[7, 8]] { serDataType := 1, xSize := 1, ySize := 2, dataPos := 148 }
    (by decide) (by decide) (by decide) (by decide) (by decide) (by decide)
    (by decide) (by decide) (by intro j h1 h2; simp at h2; omega) (by decide)
    (by decide)

/-- C23 (counterexample): two 2-D series of two valid elements whose second
element has another width and height than the first. In the first series the
first element declares `32768 x 32768` pixels of type `UInt8`, so that the
bytes of the two elements are `2 ^ 31`, which a 32-bit `int` does not count; in
the second the first element has the type code 99, for which `emdTypeDepth`
gives `-1`. In both the size of the allocation in the first pass is negative
and the call does not return `ErrorInvalidDataFormat`: it has no return value. -/
theorem loadSer_shape_mismatch_counterexample :
    (FileManager.readElement2D serMismatchLarge [46, 96] 0).map
        (fun (e : FileManager.SerElement2D) => (e.serDataType, e.xSize, e.ySize))
      = some (1, 32768, 32768) ∧
    (FileManager.readElement2D serMismatchLarge [46, 96] 1).map
        (fun (e : FileManager.SerElement2D) => (e.serDataType, e.xSize, e.ySize))
      = some (1, 1, 1) ∧
    (FileManager.loadSer (some serMismatchLarge) Model.create).isNone = true ∧
    (FileManager.readElement2D serMismatchUnknown [46, 98] 0).map
        (fun (e : FileManager.SerElement2D) => (e.serDataType, e.xSize, e.ySize))
      = some (99, 2, 1) ∧
    (FileManager.readElement2D serMismatchUnknown [46, 98] 1).map
        (fun (e : FileManager.SerElement2D) => (e.serDataType, e.xSize, e.ySize))
      = some (1, 1, 2) ∧
    (FileManager.loadSer (some serMismatchUnknown) Model.create).isNone = true := by
  decide

theorem readBytes_flatten (es : Nat) (cs : List (List Nat)) (hc : ∀ c ∈ cs, c.length = es)
    (k : Nat) (hk : k < cs.length) (q : Int) (n : Nat) (hq : 0 ≤ q) (hqn : q + n ≤ es) :
    readBytes cs.flatten ((k * es : Nat) + q) n = readBytes (cs.getD k []) q n := by
  obtain ⟨h1, h2⟩ := flatten_chunk es cs hc k hk
  have hkl : (cs.getD k []).length = es := by
    rw [List.getD_eq_getElem _ _ hk]
    exact hc _ (List.getElem_mem _)
  have hle : k * es + es ≤ cs.length * es := by
    have : (k + 1) * es ≤ cs.length * es := Nat.mul_le_mul_right _ (by omega)
    linarith [this, Nat.succ_mul k es]
  unfold readBytes
  rw [if_pos (by
    constructor
    · positivity
    · rw [h1]
      have : ((k * es : Nat) : Int) + q + n ≤ ((k * es + es : Nat) : Int) := by
        push_cast; linarith
      exact le_trans this (by exact_mod_cast hle)),
    if_pos ⟨hq, by rw [hkl]; exact hqn⟩]
  congr 1
  obtain ⟨qn, rfl⟩ := Int.eq_ofNat_of_zero_le hq
  have e1 : (((k * es : Nat) : Int) + (qn : Int)).toNat = k * es + qn := by
    rw [← Nat.cast_add, Int.toNat_natCast]
  rw [e1, Int.toNat_natCast, ← h2, ← List.drop_drop, List.drop_take]
  rw [List.take_take]
  congr 1
  have : (qn : Int) + n ≤ es := hqn
  omega

theorem FileManager.buildSerGroup_dataNode (N : Int) (st : FileManager.Ser2D) (g : DataGroup) :
    (FileManager.buildSerGroup N st g).dataNode
      = some (Dataset.create (if N = 1 then 2 else 3)
          (if N = 1 then [st.dataSizeX, st.dataSizeY] else [st.dataSizeX, st.dataSizeY, N])
          st.emdDataType st.data false) := by
  have key : ∀ rest : List Node,
      ((Node.setStatusCascadeList DIRTY (g.m_children ++
        [Node.mk "data" 0 [] (NodeSelf.dataset (Dataset.create (if N = 1 then 2 else 3)
          (if N = 1 then [st.dataSizeX, st.dataSizeY] else [st.dataSizeX, st.dataSizeY, N])
          st.emdDataType st.data false)),
         FileManager.newAttribute "emd_group_type" (QVariant.int 1) DataTypeInt32,
         FileManager.newAttribute "data_order" (QVariant.int 0) DataTypeInt32]) ++ rest).get?
        g.m_children.length).bind Node.asDataset
      = some (Dataset.create (if N = 1 then 2 else 3)
          (if N = 1 then [st.dataSizeX, st.dataSizeY] else [st.dataSizeX, st.dataSizeY, N])
          st.emdDataType st.data false) := by
    intro rest
    rw [List.get?_eq_getElem?, List.getElem?_append_left (by
      rw [Node.setStatusCascadeList_length, List.length_append]; simp), ← List.get?_eq_getElem?,
      Node.setStatusCascadeList_get?, List.get?_eq_getElem?,
      List.getElem?_append_right (le_refl _)]
    simp only [Nat.sub_self, List.getElem?_cons_zero, Option.map_some', Option.some_bind,
      Node.asDataset_setStatusCascade]
    rfl
  unfold FileManager.buildSerGroup DataGroup.dataNode DataGroup.datasetAt
  by_cases hN : N = 1
  · simp only [hN, if_true, DataGroup.setDataNew, DataGroup.addChildNew, DataGroup.addDimNew,
      List.append_assoc, List.cons_append, List.nil_append]
    have := key [FileManager.newDimNode 1 st.dataSizeX "[px]",
      FileManager.newDimNode 2 st.dataSizeY "[px]"]
    simp only [hN, if_true, List.append_assoc, List.cons_append, List.nil_append] at this
    simpa using this
  · simp only [hN, if_false, DataGroup.setDataNew, DataGroup.addChildNew, DataGroup.addDimNew,
      List.append_assoc, List.cons_append, List.nil_append]
    have := key [FileManager.newDimNode 1 st.dataSizeX "[px]",
      FileManager.newDimNode 2 st.dataSizeY "[px]", FileManager.newDimNode 3 N "[element]"]
    simp only [hN, if_false, List.append_assoc, List.cons_append, List.nil_append] at this
    simpa using this

theorem FileManager.ser_dataset_address (t w h : Int) (blocks : List (List Nat))
    (hknown : FileManager.serToEmdType t ≠ DataTypeUnknown) (hw : 0 ≤ w) (hh : 0 ≤ h)
    (hfit : emdTypeDepth (FileManager.serToEmdType t) * w * h * blocks.length < 2147483648)
    (hblocks : ∀ b ∈ blocks,
      b.length = (emdTypeDepth (FileManager.serToEmdType t) * w * h).toNat)
    (rank : Int) (dims idx : List Int) (x y : Int) (k : Nat)
    (hshape : (rank = 2 ∧ dims = [w, h] ∧ idx = [x, y] ∧ k = 0) ∨
      (rank = 3 ∧ dims = [w, h, (blocks.length : Int)] ∧ idx = [x, y, (k : Int)]))
    (hx0 : 0 ≤ x) (hx : x < w) (hy0 : 0 ≤ y) (hy : y < h) (hk : k < blocks.length) :
    (Dataset.create rank dims (FileManager.serToEmdType t) (some blocks.flatten) false).sliceOffset
        idx = some (x + y * w + k * (w * h)) ∧
    (Dataset.create rank dims (FileManager.serToEmdType t)
        (some blocks.flatten) false).variantDataValueSlice idx
      = (Dataset.value (blocks.getD k []) (FileManager.serToEmdType t) (x + y * w)).map
          (toVariant (FileManager.serToEmdType t)) := by
  obtain ⟨hd, hnum, hdw⟩ := FileManager.serToEmdType_known t hknown
  obtain ⟨-, -, hes⟩ := FileManager.ser_sizes t w h blocks.length hknown hw hh
    (by exact_mod_cast (by omega : 1 ≤ blocks.length)) hfit
  have hwh : 0 ≤ w * h := mul_nonneg hw hh
  have hn1 : (1 : Int) ≤ blocks.length := by exact_mod_cast (by omega : 1 ≤ blocks.length)
  have hcount : w * h * blocks.length < 2147483648 := by
    have : w * h * blocks.length
        ≤ emdTypeDepth (FileManager.serToEmdType t) * w * h * blocks.length := by
      have h0 : 0 ≤ w * h * blocks.length := mul_nonneg hwh (by omega)
      nlinarith
    omega
  have hwhfit : w * h < 2147483648 := by nlinarith
  have hp : x + y * w + 1 ≤ w * h := by nlinarith
  have hoff : (Dataset.create rank dims (FileManager.serToEmdType t) (some blocks.flatten)
      false).sliceOffset idx = some (x + y * w + k * (w * h)) := by
    rcases hshape with ⟨rfl, rfl, rfl, rfl⟩ | ⟨rfl, rfl, rfl⟩
    · have hv : (Dataset.create 2 [w, h] (FileManager.serToEmdType t) (some blocks.flatten)
          false).m_space.isValid = true := by
        simp [Dataset.create, DataSpace.create, DataSpace.isValid]
      obtain ⟨e, -⟩ := sliceOffset_of_inBounds _ hv rfl
        (by simpa [Dataset.elementCount, Dataset.create, DataSpace.create] using hwhfit) [x, y]
        ((inBounds_iff _ hv rfl _).2 ⟨rfl, by
          intro p hp
          simp [Dataset.create, DataSpace.create] at hp
          rcases hp with rfl | rfl
          · exact ⟨hx0, hx⟩
          · exact ⟨hy0, hy⟩⟩)
      rw [e]
      simp [visitedDigits, Dataset.create, DataSpace.create, mixedRadix]
      ring
    · have hv : (Dataset.create 3 [w, h, (blocks.length : Int)] (FileManager.serToEmdType t)
          (some blocks.flatten) false).m_space.isValid = true := by
        simp [Dataset.create, DataSpace.create, DataSpace.isValid]
      obtain ⟨e, -⟩ := sliceOffset_of_inBounds _ hv rfl
        (by simpa [Dataset.elementCount, Dataset.create, DataSpace.create, mul_assoc]
          using hcount) [x, y, (k : Int)]
        ((inBounds_iff _ hv rfl _).2 ⟨rfl, by
          intro p hp
          simp [Dataset.create, DataSpace.create] at hp
          rcases hp with rfl | rfl | rfl
          · exact ⟨hx0, hx⟩
          · exact ⟨hy0, hy⟩
          · exact ⟨by positivity, by simpa using hk⟩⟩)
      rw [e]
      simp [visitedDigits, Dataset.create, DataSpace.create, mixedRadix]
      ring
  refine ⟨hoff, ?_⟩
  unfold Dataset.variantDataValueSlice
  rw [hoff]
  simp only
  rw [variantDataValue_numeric _ (FileManager.serToEmdType t) hnum rfl rfl blocks.flatten rfl]
  congr 1
  unfold Dataset.value
  congr 1
  have hesn : ((emdTypeDepth (FileManager.serToEmdType t) * w * h).toNat : Int)
      = typeWidth (FileManager.serToEmdType t) * w * h := by rw [hes, hdw]
  have e1 : (x + y * w + k * (w * h)) * (typeWidth (FileManager.serToEmdType t) : Int)
      = ((k * (emdTypeDepth (FileManager.serToEmdType t) * w * h).toNat : Nat) : Int)
        + (x + y * w) * (typeWidth (FileManager.serToEmdType t) : Int) := by
    push_cast
    rw [hesn]
    ring
  rw [e1]
  apply readBytes_flatten _ _ hblocks k hk
  · exact mul_nonneg (by nlinarith) (by positivity)
  · rw [hesn]
    have htw : (0 : Int) ≤ typeWidth (FileManager.serToEmdType t) := by positivity
    nlinarith

/-- C25 (amended): for a 2-D series of `N >= 1` valid elements, all of type
code `t` (a known one, of byte width `d`), width `w` and height `h`, with their
pixel blocks in the file and `d * w * h * N < 2^31`, and a model in which
`addPath("/data/ser_file")` gives a `DataGroup`, `loadSer` returns `ErrorNone`
and the primary Dataset of that group is ascending, of the type of `t`, with
the dimensions `[w, h]` for `N = 1` and `[w, h, N]` otherwise, and with a
buffer of `d * w * h * N` bytes, the pixel blocks in the order of the
elements; the index vector `(x, y, k)` (just `(x, y)` for `N = 1`) resolves to
the offset `x + y * w + k * w * h` and to the value that is pixel `x + y * w`
of the block of element `k`. -/
theorem loadSer_builds_dataset (bytes : List Nat) (model model1 : Model) (path : List Nat)
    (dataGroup : DataGroup) (serHeader : FileManager.SerHeader) (dataOffsetArray : List Int)
    (t w h : Int) (blocks : List (List Nat))
    (htables : FileManager.readSerTables bytes = some (serHeader, dataOffsetArray))
    (hid : serHeader.dataTypeID = 0x4122)
    (hN : serHeader.validElementCount = blocks.length) (h1 : 1 ≤ blocks.length)
    (hknown : FileManager.serToEmdType t ≠ DataTypeUnknown) (hw : 0 ≤ w) (hh : 0 ≤ h)
    (hfit : emdTypeDepth (FileManager.serToEmdType t) * w * h * blocks.length < 2147483648)
    (hblocks : ∀ b ∈ blocks,
      b.length = (emdTypeDepth (FileManager.serToEmdType t) * w * h).toNat)
    (helements : ∀ j, j < blocks.length →
      FileManager.hasElement2D bytes dataOffsetArray j t w h (blocks.getD j []) = true)
    (hpath : model.addPath "/data/ser_file" DATAGROUP = some (model1, some path))
    (hgroup : (model1.m_root.at? path).bind Node.asDataGroup = some dataGroup) :
    ∃ (model2 : Model) (group : DataGroup) (data : Dataset),
      FileManager.loadSer (some bytes) model = some (FileManager.Error.ErrorNone, model2) ∧
      (model2.m_root.at? path).bind Node.asDataGroup = some group ∧
      group.dataNode = some data ∧
      data.m_descendingData = false ∧ data.m_dataType = FileManager.serToEmdType t ∧
      data.m_space = (if blocks.length = 1 then ⟨2, [w, h]⟩ else ⟨3, [w, h, blocks.length]⟩) ∧
      data.m_data = some blocks.flatten ∧
      (blocks.flatten.length : Int)
        = emdTypeDepth (FileManager.serToEmdType t) * w * h * blocks.length ∧
      ∀ (x y : Int) (k : Nat), 0 ≤ x → x < w → 0 ≤ y → y < h → k < blocks.length →
        data.sliceOffset (if blocks.length = 1 then [x, y] else [x, y, (k : Int)])
          = some (x + y * w + k * (w * h)) ∧
        data.variantDataValueSlice (if blocks.length = 1 then [x, y] else [x, y, (k : Int)])
          = (Dataset.value (blocks.getD k []) (FileManager.serToEmdType t) (x + y * w)).map
              (toVariant (FileManager.serToEmdType t)) := by
  obtain ⟨hes, hfit', hesn⟩ := FileManager.ser_sizes t w h serHeader.validElementCount hknown
    hw hh (by omega) (by rw [hN]; exact hfit)
  have hnat : serHeader.validElementCount.toNat = blocks.length := by omega
  have hloop := FileManager.loadSer2DLoop_blocks bytes serHeader.validElementCount
    dataOffsetArray t w h blocks serHeader.validElementCount.toNat _
    (by rw [Int.toNat_of_nonneg (by omega)]) hes hfit' hblocks (by omega) h1
    (helements 0 (by omega)) (fun j hj => ⟨t, helements j hj⟩)
  rw [hnat, Nat.sub_self, Nat.zero_mul, List.replicate_zero, List.append_nil] at hloop
  have h20 : ¬ serHeader.dataTypeID = 0x4120 := by rw [hid]; decide
  have hlt : ¬ serHeader.validElementCount < 1 := by omega
  have hsome : (model1.m_root.at? path).isSome = true := by
    cases hc : model1.m_root.at? path with
    | none => rw [hc] at hgroup; simp at hgroup
    | some v => rfl
  have hlen : blocks.flatten.length
      = blocks.length * (emdTypeDepth (FileManager.serToEmdType t) * w * h).toNat := by
    exact (flatten_chunk _ blocks hblocks 0 (by omega)).1
  refine ⟨{ model1 with
      m_root := model1.m_root.replaceAt path
        (FileManager.buildSerGroup serHeader.validElementCount
          { data := some blocks.flatten, dataSizeX := w, dataSizeY := h,
            elementSize := ((emdTypeDepth (FileManager.serToEmdType t) * w * h).toNat : Int),
            emdDataType := FileManager.serToEmdType t } dataGroup).toNode },
    FileManager.buildSerGroup serHeader.validElementCount
      { data := some blocks.flatten, dataSizeX := w, dataSizeY := h,
        elementSize := ((emdTypeDepth (FileManager.serToEmdType t) * w * h).toNat : Int),
        emdDataType := FileManager.serToEmdType t } dataGroup,
    Dataset.create (if serHeader.validElementCount = 1 then 2 else 3)
      (if serHeader.validElementCount = 1 then [w, h]
       else [w, h, serHeader.validElementCount])
      (FileManager.serToEmdType t) (some blocks.flatten) false,
    ?_, ?_, FileManager.buildSerGroup_dataNode _ _ _, rfl, rfl, ?_, rfl, ?_, ?_⟩
  · unfold FileManager.loadSer
    simp only [htables]
    rw [if_neg h20, if_pos hid, hnat, hloop]
    simp only [hpath, if_neg hlt, hgroup]
  · simp only
    rw [Node.at?_replaceAt_self _ _ _ hsome]
    rfl
  · by_cases hb1 : blocks.length = 1
    · have : serHeader.validElementCount = 1 := by omega
      simp [hb1, this, Dataset.create, DataSpace.create]
    · have : ¬ serHeader.validElementCount = 1 := by omega
      simp [hb1, this, Dataset.create, DataSpace.create, hN]
  · rw [hlen]
    push_cast
    rw [hesn]
    ring
  · intro x y k hx0 hx hy0 hy hk
    by_cases hb1 : blocks.length = 1
    · have hv1 : serHeader.validElementCount = 1 := by omega
      simp only [hb1, hv1, if_true]
      exact FileManager.ser_dataset_address t w h blocks hknown hw hh hfit hblocks 2 [w, h]
        [x, y] x y k (Or.inl ⟨rfl, rfl, rfl, by omega⟩) hx0 hx hy0 hy hk
    · have hv1 : ¬ serHeader.validElementCount = 1 := by omega
      simp only [hb1, hv1, if_false]
      rw [hN]
      exact FileManager.ser_dataset_address t w h blocks hknown hw hh hfit hblocks 3
        [w, h, (blocks.length : Int)] [x, y, (k : Int)] x y k (Or.inr ⟨rfl, rfl, rfl⟩)
        hx0 hx hy0 hy hk

/-- C25 (witness): the series of two elements of `2 x 1` pixels of type `UInt8`
with the pixels `7, 8` and `9, 10`, decoded into the model that `Model()`
builds: the primary Dataset is `2 x 1 x 2` with the buffer `7, 8, 9, 10`, and
the index vector `(1, 0, 1)` resolves to offset 3 and value 10. -/
theorem loadSer_builds_dataset_witness :
    ∃ (model2 : Model) (group : DataGroup) (data : Dataset),
      FileManager.loadSer (some serPair) Model.create
        = some (FileManager.Error.ErrorNone, model2) ∧
      (model2.m_root.at? [0, 0]).bind Node.asDataGroup = some group ∧
      group.dataNode = some data ∧ data.m_descendingData = false ∧
      data.m_space = ⟨3, [2, 1, 2]⟩ ∧ data.m_data = some [7, 8, 9, 10] ∧
      data.sliceOffset [1, 0, 1] = some 3 ∧
      data.variantDataValueSlice [1, 0, 1] = some (QVariant.int 10) := by
  obtain ⟨model2, group, data, h1, h2, h3, h4, -, h6, h7, -, h9⟩ :=
    loadSer_builds_dataset serPair Model.create modelWithSerFile [0, 0]
      { DataGroup.create with m_name := "ser_file" } (serFileHeader 0x4122 2) [46, 98] 1 2 1
      [[7, 8], [9, 10]] (by decide) (by decide) (by decide) (by decide) (by decide) (by decide)
      (by decide) (by decide) (by decide)
      (by
        intro j hj
        have : j = 0 ∨ j = 1 := by simp at hj; omega
        rcases this with rfl | rfl <;> decide)
      rfl rfl
  refine ⟨model2, group, data, h1, h2, h3, h4, h6, h7, ?_, ?_⟩
  · exact (h9 1 0 1 (by decide) (by decide) (by decide) (by decide) (by decide)).1
  · exact (h9 1 0 1 (by decide) (by decide) (by decide) (by decide) (by decide)).2

/-! ## `loadSer`: unknown type codes and sizes beyond 32 bits -/

/-- C24 (the code at the failing inputs): in the 1-D layout an element of the
unknown type code 99 ends the decode with `ErrorInvalidDataFormat`; in the 2-D
layout the same type code in the second element is not looked at, the decode
returns `ErrorNone` and the Dataset holds the pixels of both elements, and in
the first element it gives the allocation a negative size, for which the
source has no return value. -/
theorem loadSer_unknown_type :
    (FileManager.loadSer (some serUnknown1D) Model.create).map Prod.fst
      = some FileManager.Error.ErrorInvalidDataFormat ∧
    (FileManager.loadSer (some serUnknown2D) Model.create).map
        (fun r => (r.1, ((r.2.m_root.at? [0, 0, 0]).bind Node.asDataset).map
          (fun d => (d.m_dataType, d.m_data))))
      = some (FileManager.Error.ErrorNone, some (DataTypeUInt8, some [7, 9])) ∧
    (FileManager.loadSer (some serUnknownFirst) Model.create).isNone = true := by
  decide

theorem readBytes_mono (buf tail : List Nat) (off : Int) (n : Nat) (b : List Nat)
    (h : readBytes buf off n = some b) : readBytes (buf ++ tail) off n = some b := by
  unfold readBytes at h ⊢
  split at h
  · rename_i hc
    have hle : off.toNat + n ≤ buf.length := by omega
    rw [if_pos ⟨hc.1, by rw [List.length_append]; push_cast; omega⟩]
    rw [List.drop_append_of_le_length (by omega), List.take_append_of_le_length (by
      rw [List.length_drop]; omega)]
    exact h
  · exact absurd h (by simp)

theorem FileManager.readInt_mono (buf tail : List Nat) (off : Int) (n : Nat) (v : Int)
    (h : FileManager.readInt buf off n = some v) :
    FileManager.readInt (buf ++ tail) off n = some v := by
  unfold FileManager.readInt at h ⊢
  cases hb : readBytes buf off n with
  | none => rw [hb] at h; simp at h
  | some b =>
    rw [readBytes_mono buf tail off n b hb]
    rw [hb] at h
    exact h

theorem FileManager.readSerHeader_mono (buf tail : List Nat) (hdr : FileManager.SerHeader)
    (h : FileManager.readSerHeader buf = some hdr) :
    FileManager.readSerHeader (buf ++ tail) = some hdr := by
  unfold FileManager.readSerHeader at h ⊢
  simp only [Option.bind_eq_bind, Option.bind_eq_some] at h
  obtain ⟨a1, h1, a2, h2, a3, h3, a4, h4, a5, h5, a6, h6, a7, h7, a8, h8, a9, h9, hr⟩ := h
  simp only [Option.bind_eq_bind, FileManager.readInt_mono _ tail _ _ _ h1,
    FileManager.readInt_mono _ tail _ _ _ h2, FileManager.readInt_mono _ tail _ _ _ h3,
    FileManager.readInt_mono _ tail _ _ _ h4, FileManager.readInt_mono _ tail _ _ _ h5,
    FileManager.readInt_mono _ tail _ _ _ h6, FileManager.readInt_mono _ tail _ _ _ h7,
    FileManager.readInt_mono _ tail _ _ _ h8, FileManager.readInt_mono _ tail _ _ _ h9,
    Option.some_bind]
  exact hr

theorem FileManager.readIntArray_mono (buf tail : List Nat) (count : Nat) :
    ∀ (pos : Int) (l : List Int), FileManager.readIntArray buf pos count = some l →
      FileManager.readIntArray (buf ++ tail) pos count = some l := by
  induction count with
  | zero =>
    intro pos l h
    exact h
  | succ count ih =>
    intro pos l h
    simp only [FileManager.readIntArray] at h ⊢
    split at h
    · rename_i x rest hx hrest
      rw [FileManager.readInt_mono _ tail _ _ _ hx, ih _ _ hrest]
      exact h
    · exact absurd h (by simp)

theorem FileManager.readElement2D_mono (buf tail : List Nat) (offsets : List Int) (index : Nat)
    (e : FileManager.SerElement2D) (h : FileManager.readElement2D buf offsets index = some e) :
    FileManager.readElement2D (buf ++ tail) offsets index = some e := by
  unfold FileManager.readElement2D at h ⊢
  simp only [Option.bind_eq_bind, Option.bind_eq_some] at h
  obtain ⟨a1, h1, a2, h2, a3, h3, a4, h4, a5, h5, hr⟩ := h
  simp only [Option.bind_eq_bind, h1, readBytes_mono _ tail _ _ _ h2,
    FileManager.readInt_mono _ tail _ _ _ h3, FileManager.readInt_mono _ tail _ _ _ h4,
    FileManager.readInt_mono _ tail _ _ _ h5, Option.some_bind]
  exact hr

/-- The tables of a file without dimension arrays are read in the same way
when bytes are appended to the file. -/
theorem FileManager.readSerTables_mono (buf tail : List Nat) (hdr : FileManager.SerHeader)
    (offsets : List Int) (hdim : hdr.dimensionCount = 0)
    (h : FileManager.readSerTables buf = some (hdr, offsets)) :
    FileManager.readSerTables (buf ++ tail) = some (hdr, offsets) := by
  unfold FileManager.readSerTables at h ⊢
  cases hh : FileManager.readSerHeader buf with
  | none => rw [hh] at h; simp at h
  | some hdr1 =>
    rw [FileManager.readSerHeader_mono buf tail hdr1 hh]
    rw [hh] at h
    simp only [Option.bind_eq_bind, Option.some_bind] at h ⊢
    split at h
    · exact absurd h (by simp)
    · rename_i hd
      rw [if_neg hd]
      simp only [Option.bind_eq_some] at h
      obtain ⟨p, hp, h⟩ := h
      split at h
      · exact absurd h (by simp)
      · rename_i ht
        simp only [Option.bind_eq_some, Option.some.injEq, Prod.mk.injEq] at h
        obtain ⟨l1, hl1, l2, hl2, rfl, rfl⟩ := h
        rw [hdim]
        simp only [Int.toNat_zero, FileManager.readDimensionArrays, Option.some_bind, if_neg ht,
          FileManager.readIntArray_mono _ tail _ _ _ hl1,
          FileManager.readIntArray_mono _ tail _ _ _ hl2]

theorem serHuge_layout (pixels : List Nat) : serHuge pixels = serHuge [] ++ pixels := by
  simp [serHuge, serFile, serElement2D, blockOffsets, List.append_assoc]

/-- A series of one element of `65536 x 65536` pixels of type `UInt8`, whatever
its pixel block: the element size `65536 * 65536` is computed in 32-bit `int`
and is 0, no pixel is read, and the primary Dataset of `65536 x 65536` elements
gets a buffer of no bytes. -/
theorem FileManager.loadSer_huge_element (pixels : List Nat) :
    ∃ (model2 : Model) (group : DataGroup) (data : Dataset),
      FileManager.loadSer (some (serHuge pixels)) Model.create
        = some (FileManager.Error.ErrorNone, model2) ∧
      (model2.m_root.at? [0, 0]).bind Node.asDataGroup = some group ∧
      group.dataNode = some data ∧
      data.m_space = ⟨2, [65536, 65536]⟩ ∧ data.m_data = some [] := by
  have htables := FileManager.readSerTables_mono (serHuge []) pixels (serFileHeader 0x4122 1)
    [38] rfl (by decide)
  have helem := FileManager.readElement2D_mono (serHuge []) pixels [38] 0
    { serDataType := 1, xSize := 65536, ySize := 65536, dataPos := 88 } (by decide)
  have hread := readBytes_mono (serHuge []) pixels 88 0 [] (by decide)
  have hstep : FileManager.loadSer2DStep (serHuge [] ++ pixels) 1 [38]
      { data := none, dataSizeX := 0, dataSizeY := 0, elementSize := 0,
        emdDataType := DataTypeUnknown } 0
      = some (some { data := some [], dataSizeX := 65536, dataSizeY := 65536,
                     elementSize := 0, emdDataType := DataTypeUInt8 }) := by
    unfold FileManager.loadSer2DStep
    simp only [helem]
    have hsize : wrapInt32 (wrapInt32 (65536 * 65536)
        * emdTypeDepth (FileManager.serToEmdType 1)) = 0 := by decide
    simp only [hsize]
    have hzero : wrapInt32 (1 * 0) = 0 := by decide
    simp only [hzero, lt_self_iff_false, if_false, Int.toNat_zero, List.replicate_zero,
      and_self, if_true, hread]
    rfl
  have hpath : Model.create.addPath "/data/ser_file" DATAGROUP
      = some (modelWithSerFile, some [0, 0]) := rfl
  have hgroup : (modelWithSerFile.m_root.at? [0, 0]).bind Node.asDataGroup
      = some { DataGroup.create with m_name := "ser_file" } := rfl
  refine ⟨{ modelWithSerFile with
      m_root := modelWithSerFile.m_root.replaceAt [0, 0]
        (FileManager.buildSerGroup 1
          { data := some [], dataSizeX := 65536, dataSizeY := 65536, elementSize := 0,
            emdDataType := DataTypeUInt8 }
          { DataGroup.create with m_name := "ser_file" }).toNode },
    FileManager.buildSerGroup 1
      { data := some [], dataSizeX := 65536, dataSizeY := 65536, elementSize := 0,
        emdDataType := DataTypeUInt8 }
      { DataGroup.create with m_name := "ser_file" },
    Dataset.create 2 [65536, 65536] DataTypeUInt8 (some []) false,
    ?_, ?_, FileManager.buildSerGroup_dataNode _ _ _, ?_, rfl⟩
  · rw [serHuge_layout]
    unfold FileManager.loadSer
    simp only [htables]
    have h20 : ¬ (serFileHeader 0x4122 1).dataTypeID = 0x4120 := by decide
    have h22 : (serFileHeader 0x4122 1).dataTypeID = 0x4122 := by decide
    have hN : (serFileHeader 0x4122 1).validElementCount = 1 := rfl
    rw [if_neg h20, if_pos h22, hN]
    have hrange : List.range (1 : Int).toNat = [0] := by decide
    rw [hrange]
    simp only [FileManager.loadSer2DLoop, hstep, hpath, hgroup]
    rw [if_neg (by decide)]
  · simp only
    rw [Node.at?_replaceAt_self _ _ _ (by decide)]
    rfl
  · simp [Dataset.create, DataSpace.create]

/-- C25 (counterexample): the well-formed series of one element of
`65536 x 65536` pixels of type `UInt8` whose pixel block is `2 ^ 32` zero
bytes, decoded into the model that `Model()` builds: `loadSer` returns
`ErrorNone`, and the primary Dataset of `65536 x 65536` elements has a buffer
of no bytes instead of the `2 ^ 32` bytes of the pixel block. -/
theorem loadSer_builds_dataset_counterexample :
    (List.replicate 4294967296 (0 : Nat)).length = 1 * 65536 * 65536 * 1 ∧
    ∃ (model2 : Model) (group : DataGroup) (data : Dataset),
      FileManager.loadSer (some (serHuge (List.replicate 4294967296 0))) Model.create
        = some (FileManager.Error.ErrorNone, model2) ∧
      (model2.m_root.at? [0, 0]).bind Node.asDataGroup = some group ∧
      group.dataNode = some data ∧
      data.m_space = ⟨2, [65536, 65536]⟩ ∧ data.m_data = some [] :=
  ⟨List.length_replicate _ _, FileManager.loadSer_huge_element _⟩
/-! ## The tree of nodes: appending children at a path -/

theorem Node.appendAt_eq_replaceAt (p : List Nat) (root y : Node) (new : List Node)
    (h : root.at? p = some y) :
    root.replaceAt p (y.setChildren (y.children ++ new)) = root.appendAt p new := by
  induction p generalizing root with
  | nil =>
    obtain ⟨nm, st, cs, x⟩ := root
    simp only [Node.at?, Option.some.injEq] at h
    subst h
    simp [Node.replaceAt, Node.appendAt, Node.setChildren, Node.children]
  | cons i p ih =>
    obtain ⟨nm, st, cs, x⟩ := root
    simp only [Node.at?] at h
    cases hc : cs.get? i with
    | none => rw [hc] at h; simp at h
    | some c =>
      rw [hc] at h
      simp only [Node.replaceAt, Node.appendAt, hc]
      rw [ih c h]

theorem Node.at?_appendAt_self (p : List Nat) (root y : Node) (new : List Node)
    (h : root.at? p = some y) :
    (root.appendAt p new).at? p = some (y.setChildren (y.children ++ new)) := by
  rw [← Node.appendAt_eq_replaceAt p root y new h]
  exact Node.at?_replaceAt_self p root _ (by rw [h]; rfl)

theorem get?_lt_length {α : Type} (l : List α) (i : Nat) (x : α) (h : l.get? i = some x) :
    i < l.length := by
  by_contra hc
  rw [List.get?_eq_none.2 (by omega)] at h
  exact absurd h (by simp)

theorem set_get?_self {α : Type} (l : List α) (i : Nat) (c : α) (h : l.get? i = some c) :
    l.set i c = l := by
  induction l generalizing i with
  | nil => rfl
  | cons a l ih =>
    cases i with
    | zero =>
      simp only [List.get?_cons_zero, Option.some.injEq] at h
      subst h
      rfl
    | succ i =>
      simp only [List.get?_cons_succ] at h
      simp [List.set, ih i h]

theorem Node.appendAt_appendAt (p : List Nat) (root : Node) (a b : List Node) :
    (root.appendAt p a).appendAt p b = root.appendAt p (a ++ b) := by
  induction p generalizing root with
  | nil =>
    obtain ⟨nm, st, cs, x⟩ := root
    simp [Node.appendAt]
  | cons i p ih =>
    obtain ⟨nm, st, cs, x⟩ := root
    cases hc : cs.get? i with
    | none => simp only [Node.appendAt, hc]
    | some c =>
      have hi := get?_lt_length _ _ _ hc
      simp only [Node.appendAt, hc]
      rw [List.get?_eq_getElem?, List.getElem?_set_self hi]
      simp only [List.set_set, ih]

theorem Node.appendAt_nil (p : List Nat) (root : Node) : root.appendAt p [] = root := by
  induction p generalizing root with
  | nil =>
    obtain ⟨nm, st, cs, x⟩ := root
    simp [Node.appendAt]
  | cons i p ih =>
    obtain ⟨nm, st, cs, x⟩ := root
    cases hc : cs.get? i with
    | none => simp only [Node.appendAt, hc]
    | some c =>
      simp only [Node.appendAt, hc, ih]
      rw [set_get?_self _ _ _ hc]

/-- Appending below the node that was appended last. -/
theorem Node.appendAt_child (p : List Nat) (root y g : Node) (es : List Node)
    (h : root.at? p = some y) :
    (root.appendAt p [g]).appendAt (p ++ [y.children.length]) es
      = root.appendAt p [g.appendAt [] es] := by
  induction p generalizing root with
  | nil =>
    obtain ⟨nm, st, cs, x⟩ := root
    simp only [Node.at?, Option.some.injEq] at h
    subst h
    simp only [Node.appendAt, List.nil_append, Node.children]
    rw [List.get?_eq_getElem?, List.getElem?_append_right (le_refl _)]
    simp
  | cons i p ih =>
    obtain ⟨nm, st, cs, x⟩ := root
    simp only [Node.at?] at h
    cases hc : cs.get? i with
    | none => rw [hc] at h; simp at h
    | some c =>
      rw [hc] at h
      have hi := get?_lt_length _ _ _ hc
      simp only [Node.appendAt, hc, List.cons_append]
      rw [List.get?_eq_getElem?, List.getElem?_set_self hi]
      simp only [List.set_set, ih c h]

/-- Replacing the node that was appended last. -/
theorem Node.replaceAt_appended (p : List Nat) (root y a a' : Node)
    (h : root.at? p = some y) :
    (root.appendAt p [a]).replaceAt (p ++ [y.children.length]) a' = root.appendAt p [a'] := by
  induction p generalizing root with
  | nil =>
    obtain ⟨nm, st, cs, x⟩ := root
    simp only [Node.at?, Option.some.injEq] at h
    subst h
    simp only [Node.appendAt, List.nil_append, Node.children, Node.replaceAt]
    rw [List.get?_eq_getElem?, List.getElem?_append_right (le_refl _)]
    simp [Node.replaceAt]
  | cons i p ih =>
    obtain ⟨nm, st, cs, x⟩ := root
    simp only [Node.at?] at h
    cases hc : cs.get? i with
    | none => rw [hc] at h; simp at h
    | some c =>
      rw [hc] at h
      have hi := get?_lt_length _ _ _ hc
      simp only [Node.appendAt, hc, List.cons_append, Node.replaceAt]
      rw [List.get?_eq_getElem?, List.getElem?_set_self hi]
      simp only [List.set_set, ih c h]

theorem Node.at?_appended (p : List Nat) (root y a : Node) (h : root.at? p = some y) :
    (root.appendAt p [a]).at? (p ++ [y.children.length]) = some a := by
  rw [Node.at?_append, Node.at?_appendAt_self p root y [a] h]
  simp only [Option.some_bind, Node.at?_singleton]
  obtain ⟨nm, st, cs, x⟩ := y
  simp only [Node.setChildren, Node.children]
  rw [List.get?_eq_getElem?, List.getElem?_append_right (le_refl _)]
  simp

/-- A node of the tree is still a node after children were appended somewhere. -/
theorem Node.isSome_at?_appendAt (p q : List Nat) (root : Node) (new : List Node)
    (h : (root.at? q).isSome = true) : ((root.appendAt p new).at? q).isSome = true := by
  induction p generalizing root q with
  | nil =>
    obtain ⟨nm, st, cs, x⟩ := root
    cases q with
    | nil => rfl
    | cons i q =>
      simp only [Node.at?] at h
      cases hc : cs.get? i with
      | none => rw [hc] at h; simp at h
      | some c =>
        rw [hc] at h
        have hi := get?_lt_length _ _ _ hc
        simp only [Node.appendAt, Node.at?]
        rw [List.get?_eq_getElem?, List.getElem?_append_left hi, ← List.get?_eq_getElem?, hc]
        exact h
  | cons j p ih =>
    obtain ⟨nm, st, cs, x⟩ := root
    cases hj : cs.get? j with
    | none =>
      simp only [Node.appendAt, hj]
      exact h
    | some cj =>
      have hjl := get?_lt_length _ _ _ hj
      simp only [Node.appendAt, hj]
      cases q with
      | nil => rfl
      | cons i q =>
        simp only [Node.at?] at h ⊢
        by_cases hij : i = j
        · subst hij
          rw [hj] at h
          rw [List.get?_eq_getElem?, List.getElem?_set_self hjl]
          exact ih q cj h
        · rw [List.get?_eq_getElem?, List.getElem?_set_ne (Ne.symm hij), ← List.get?_eq_getElem?]
          exact h
/-! ## The decoder of DM3 files: one pass of the loop -/

theorem Model.addNode_some (m : Model) (name : String) (type : Int) (top : List Nat) (y : Node)
    (h : m.m_root.at? top = some y) :
    m.addNode name type (some top)
      = some
        ({ m with
           m_root :=
             m.m_root.appendAt top [((Node.ofType type).setName name).addStatus type.toNat] },
         top ++ [y.children.length]) := by
  unfold Model.addNode
  simp only [Option.getD_some, h]
  rw [Node.appendAt_eq_replaceAt top m.m_root y _ h]

theorem Node.newGroup_eq (name : String) :
    ((Node.ofType (GROUP : Int)).setName name).addStatus (GROUP : Int).toNat
      = Node.mk name GROUP [] NodeSelf.group := by
  rfl

theorem Node.newAttribute_eq (name : String) :
    ((Node.ofType (ATTRIBUTE : Int)).setName name).addStatus (ATTRIBUTE : Int).toNat
      = Node.mk name ATTRIBUTE [] (NodeSelf.attribute Attribute.create) := by
  rfl

theorem FileManager.readSectionHeader_frame (bytes : List Nat) (s s1 : FileManager.Dm3Loop)
    (t : Int) (name : String)
    (h : FileManager.readSectionHeader bytes s = some (t, name, s1)) :
    s1.model = s.model ∧ s1.nodeStack = s.nodeStack ∧ s1.tagsRemaining = s.tagsRemaining ∧
    s1.tagsRemainingStack = s.tagsRemainingStack ∧ s1.utcStack = s.utcStack ∧
    s1.readError = s.readError ∧ s1.endOfFile = s.endOfFile := by
  unfold FileManager.readSectionHeader at h
  simp only at h
  split at h
  · split at h
    · exact absurd h (by simp)
    · simp only [Option.some.injEq, Prod.mk.injEq] at h
      obtain ⟨-, -, rfl⟩ := h
      exact ⟨rfl, rfl, rfl, rfl, rfl, rfl, rfl⟩
  · simp only [Option.some.injEq, Prod.mk.injEq] at h
    obtain ⟨-, -, rfl⟩ := h
    exact ⟨rfl, rfl, rfl, rfl, rfl, rfl, rfl⟩

theorem FileManager.popStacks_flags (l : List Int) (s s' : FileManager.Dm3Loop)
    (h : FileManager.popStacks l s = some s') :
    s'.model = s.model ∧ s'.readError = s.readError ∧ s'.endOfFile = s.endOfFile := by
  induction l generalizing s with
  | nil =>
    simp only [FileManager.popStacks, Option.some.injEq] at h
    subst h
    exact ⟨rfl, rfl, rfl⟩
  | cons top rest ih =>
    simp only [FileManager.popStacks] at h
    split at h
    · split at h
      · have := ih _ h
        exact this
      · exact absurd h (by simp)
    · simp only [Option.some.injEq] at h
      subst h
      exact ⟨rfl, rfl, rfl⟩

theorem FileManager.openDirectory_frame (bytes : List Nat) (name : String)
    (sh s2 : FileManager.Dm3Loop) (top : List Nat) (rest : List (List Nat)) (y : Node)
    (hstack : sh.nodeStack = top :: rest) (hy : sh.model.m_root.at? top = some y)
    (h : FileManager.openDirectory bytes name sh = some s2) :
    s2.model.m_root = sh.model.m_root.appendAt top [Node.mk name GROUP [] NodeSelf.group] ∧
    s2.nodeStack = (top ++ [y.children.length]) :: top :: rest ∧
    s2.tagsRemaining = (FileManager.streamInt bytes
      (FileManager.streamInt bytes (FileManager.streamInt bytes sh.pos 1 true false).2
        1 true false).2 4 true false).1 ∧
    s2.tagsRemainingStack = sh.tagsRemaining :: sh.tagsRemainingStack ∧
    s2.utcStack.length = sh.utcStack.length + 1 ∧
    s2.readError = sh.readError ∧ s2.endOfFile = sh.endOfFile := by
  unfold FileManager.openDirectory at h
  simp only [hstack, List.head?_cons, Model.addNode_some _ _ _ _ _ hy, Option.some.injEq] at h
  subst h
  refine ⟨?_, rfl, rfl, rfl, rfl, rfl, rfl⟩
  simp only [Node.newGroup_eq]

theorem Node.mirroredBy_setAttribute (name : String) (st : Nat) (a : Attribute)
    (value : Option (QVariant × DataType)) :
    TagTree.mirroredBy (TagTree.tag name)
      (match value with
       | some v => (Node.mk name st [] (NodeSelf.attribute a)).setAttribute v.1 v.2
       | none => Node.mk name st [] (NodeSelf.attribute a)) = true := by
  cases value with
  | none => simp [TagTree.mirroredBy]
  | some v => simp [Node.setAttribute, TagTree.mirroredBy]

theorem FileManager.readTag_next (ft : QtConv) (bytes : List Nat) (name : String)
    (sh s2 : FileManager.Dm3Loop) (flag : Bool) (top : List Nat) (rest : List (List Nat))
    (y : Node) (hstack : sh.nodeStack = top :: rest) (hy : sh.model.m_root.at? top = some y)
    (h : FileManager.readTag ft bytes name sh = some (FileManager.Dm3Pass.next s2, flag)) :
    (flag = false ∧ s2.readError = true) ∨
    (flag = true ∧ ∃ a, TagTree.mirroredBy (TagTree.tag name) a = true ∧
      s2.model.m_root = sh.model.m_root.appendAt top [a] ∧
      s2.nodeStack = sh.nodeStack ∧ s2.tagsRemaining = wrapInt32 (sh.tagsRemaining - 1) ∧
      s2.tagsRemainingStack = sh.tagsRemainingStack ∧ s2.utcStack = sh.utcStack ∧
      s2.readError = sh.readError ∧ s2.endOfFile = sh.endOfFile) := by
  unfold FileManager.readTag at h
  simp only [hstack, List.head?_cons, Model.addNode_some _ _ _ _ _ hy, Node.newAttribute_eq,
    Node.at?_appended _ _ _ _ hy, Node.replaceAt_appended _ _ _ _ _ hy] at h
  split at h
  · exact absurd h (by simp)
  · split at h
    · simp only [Option.some.injEq, Prod.mk.injEq, FileManager.Dm3Pass.next.injEq] at h
      obtain ⟨rfl, rfl⟩ := h
      exact Or.inl ⟨rfl, rfl⟩
    · split at h
      · exact absurd h (by simp)
      · split at h
        · exact absurd h (by simp)
        · simp only [Option.some.injEq, Prod.mk.injEq, reduceCtorEq, false_and] at h
        · simp only [Option.some.injEq, Prod.mk.injEq, FileManager.Dm3Pass.next.injEq] at h
          obtain ⟨rfl, rfl⟩ := h
          refine Or.inr ⟨rfl, _, Node.mirroredBy_setAttribute name ATTRIBUTE Attribute.create _,
            rfl, hstack.symm, rfl, rfl, rfl, rfl, rfl⟩

theorem FileManager.streamInt_range (bytes : List Nat) (pos : Nat) :
    (FileManager.streamInt bytes pos 4 true false).1 < 2147483648 := by
  unfold FileManager.streamInt
  split
  · simp only [if_true]
    unfold wrapSigned
    have := @Int.bmod_lt (decodeLE ((bytes.drop pos).take 4).reverse) (2 ^ (8 * 4)) (by norm_num)
    norm_num at this ⊢
    omega
  · norm_num

theorem FileManager.loadDm3Pass_directory (ft : QtConv) (bytes : List Nat)
    (s s1 : FileManager.Dm3Loop) (name : String) (count : Int) (top : List Nat)
    (rest : List (List Nat)) (y : Node)
    (hsec : FileManager.sectionAt bytes s = some (Dm3Section.directory name count))
    (hpass : FileManager.loadDm3Pass ft bytes s = some (FileManager.Dm3Pass.next s1))
    (hstack : s.nodeStack = top :: rest) (hy : s.model.m_root.at? top = some y) :
    ∃ s2, FileManager.popStacks s2.tagsRemainingStack s2 = some s1 ∧
      s2.model.m_root = s.model.m_root.appendAt top [Node.mk name GROUP [] NodeSelf.group] ∧
      s2.nodeStack = (top ++ [y.children.length]) :: top :: rest ∧
      s2.tagsRemaining = count ∧ count < 2147483648 ∧
      s2.tagsRemainingStack = s.tagsRemaining :: s.tagsRemainingStack ∧
      s2.utcStack.length = s.utcStack.length + 1 := by
  unfold FileManager.sectionAt at hsec
  unfold FileManager.loadDm3Pass at hpass
  cases hh : FileManager.readSectionHeader bytes s with
  | none => rw [hh] at hsec; exact absurd hsec (by simp)
  | some r =>
    obtain ⟨t, nm, sh⟩ := r
    rw [hh] at hsec hpass
    simp only at hsec hpass
    obtain ⟨f1, f2, f3, f4, f5, -, -⟩ := FileManager.readSectionHeader_frame bytes s sh t nm hh
    by_cases ht : t = 20
    · rw [if_pos ht] at hsec hpass
      simp only [Option.some.injEq, Dm3Section.directory.injEq] at hsec
      obtain ⟨rfl, hcount⟩ := hsec
      cases ho : FileManager.openDirectory bytes nm sh with
      | none => rw [ho] at hpass; exact absurd hpass (by simp)
      | some s2 =>
        rw [ho] at hpass
        simp only [Option.map_eq_some', FileManager.Dm3Pass.next.injEq, exists_eq_right] at hpass
        obtain ⟨g1, g2, g3, g4, g5, -, -⟩ := FileManager.openDirectory_frame bytes nm sh s2 top
          rest y (by rw [f2]; exact hstack) (by rw [f1]; exact hy) ho
        refine ⟨s2, hpass, by rw [g1, f1], g2, by rw [g3]; exact hcount, ?_,
          by rw [g4, f3, f4], by rw [g5, f5]⟩
        rw [← hcount]
        exact FileManager.streamInt_range _ _
    · rw [if_neg ht] at hsec
      split at hsec <;> exact absurd hsec (by simp)

theorem FileManager.loadDm3Pass_tag (ft : QtConv) (bytes : List Nat)
    (s s1 : FileManager.Dm3Loop) (name : String) (top : List Nat)
    (rest : List (List Nat)) (y : Node)
    (hsec : FileManager.sectionAt bytes s = some (Dm3Section.tag name))
    (hpass : FileManager.loadDm3Pass ft bytes s = some (FileManager.Dm3Pass.next s1))
    (hne : s1.readError = false)
    (hstack : s.nodeStack = top :: rest) (hy : s.model.m_root.at? top = some y) :
    ∃ s2 a, FileManager.popStacks s2.tagsRemainingStack s2 = some s1 ∧
      TagTree.mirroredBy (TagTree.tag name) a = true ∧
      s2.model.m_root = s.model.m_root.appendAt top [a] ∧
      s2.nodeStack = s.nodeStack ∧ s2.tagsRemaining = wrapInt32 (s.tagsRemaining - 1) ∧
      s2.tagsRemainingStack = s.tagsRemainingStack ∧ s2.utcStack = s.utcStack := by
  unfold FileManager.sectionAt at hsec
  unfold FileManager.loadDm3Pass at hpass
  cases hh : FileManager.readSectionHeader bytes s with
  | none => rw [hh] at hsec; exact absurd hsec (by simp)
  | some r =>
    obtain ⟨t, nm, sh⟩ := r
    rw [hh] at hsec hpass
    simp only at hsec hpass
    obtain ⟨f1, f2, f3, f4, f5, -, -⟩ := FileManager.readSectionHeader_frame bytes s sh t nm hh
    by_cases ht : t = 20
    · rw [if_pos ht] at hsec
      exact absurd hsec (by simp)
    · rw [if_neg ht] at hsec hpass
      by_cases ht1 : t = 21
      · rw [if_pos ht1] at hsec hpass
        simp only [Option.some.injEq, Dm3Section.tag.injEq] at hsec
        subst hsec
        cases hr : FileManager.readTag ft bytes nm sh with
        | none => rw [hr] at hpass; exact absurd hpass (by simp)
        | some r =>
          obtain ⟨pass, flag⟩ := r
          rw [hr] at hpass
          cases pass with
          | exit e sx =>
            simp only [Option.some.injEq, reduceCtorEq] at hpass
          | next s2 =>
            rcases FileManager.readTag_next ft bytes nm sh s2 flag top rest y
              (by rw [f2]; exact hstack) (by rw [f1]; exact hy) hr with ⟨hf, he⟩ | ⟨hf, a, ha⟩
            · subst hf
              simp only [Option.some.injEq, FileManager.Dm3Pass.next.injEq] at hpass
              subst hpass
              rw [he] at hne
              exact absurd hne (by simp)
            · subst hf
              simp only [Option.map_eq_some', FileManager.Dm3Pass.next.injEq,
                exists_eq_right] at hpass
              obtain ⟨a1, a2, a3, a4, a5, a6, -, -⟩ := ha
              exact ⟨s2, a, hpass, a1, by rw [a2, f1], by rw [a3, f2], by rw [a4, f3],
                by rw [a5, f4], by rw [a6, f5]⟩
      · rw [if_neg ht1] at hsec
        exact absurd hsec (by simp)
/-! ## The decoder of DM3 files: the walk over a well-nested stream -/

theorem TagTree.sections_ne_nil (e : TagTree) : e.sections ≠ [] := by
  cases e <;> simp [TagTree.sections]

theorem TagTree.sectionsList_eq_nil (es : List TagTree) :
    TagTree.sectionsList es = [] ↔ es = [] := by
  cases es with
  | nil => simp [TagTree.sectionsList]
  | cons e es => simp [TagTree.sectionsList, TagTree.sections_ne_nil]

theorem FileManager.normalizeFrames_single (f : List Nat × List TagTree) :
    FileManager.normalizeFrames [f] = [f] := by
  obtain ⟨p, es⟩ := f
  cases es <;> rfl

theorem FileManager.popStacks_frames (frames : FileManager.Dm3Frames) :
    ∀ s : FileManager.Dm3Loop, FileManager.FramesOk s frames →
      ∃ s', FileManager.popStacks s.tagsRemainingStack s = some s' ∧
        FileManager.FramesOk s' (FileManager.normalizeFrames frames) ∧
        s'.model = s.model ∧ s'.readError = s.readError ∧ s'.endOfFile = s.endOfFile := by
  induction frames with
  | nil =>
    intro s h
    exact absurd h.2.2 (by simp)
  | cons f rest ih =>
    intro s h
    obtain ⟨h1, h2, h3, h4, h5, h6, h7⟩ := h
    cases rest with
    | nil =>
      simp only [List.map_nil] at h5
      rw [FileManager.normalizeFrames_single]
      refine ⟨s, ?_, ⟨h1, h2, h3, h4, by simpa using h5, h6, h7⟩, rfl, rfl, rfl⟩
      rw [h5]
      rfl
    | cons g rest' =>
      obtain ⟨p, es⟩ := f
      cases es with
      | nil =>
        simp only [List.length_nil, Nat.cast_zero] at h3
        simp only [List.map_cons] at h1 h5
        simp only [List.length_cons] at h7
        obtain ⟨u, us, hu⟩ : ∃ u us, s.utcStack = u :: us := by
          cases hus : s.utcStack with
          | nil => rw [hus] at h7; simp at h7
          | cons u us => exact ⟨u, us, rfl⟩
        have hg := h6 g (List.mem_cons_self _ _)
        have hwrap : wrapInt32 ((g.2.length : Int) + 1 - 1) = g.2.length := by
          rw [add_sub_cancel_right]
          exact wrapInt32_eq_self (by omega) (by omega)
        obtain ⟨s', hs', hok, hm, hr, he⟩ := ih
          { s with nodeStack := g.1 :: rest'.map Prod.fst
                   tagsRemaining := wrapInt32 ((g.2.length : Int) + 1 - 1)
                   tagsRemainingStack := rest'.map (fun g => (g.2.length : Int) + 1)
                   unnamedTagCount := u
                   utcStack := us }
          ⟨rfl, fun f hf => h2 f (List.mem_cons_of_mem _ hf), hwrap, by omega, rfl,
            fun g' hg' => h6 g' (List.mem_cons_of_mem _ hg'), by
              rw [hu] at h7
              simpa using h7⟩
        refine ⟨s', ?_, hok, hm, hr, he⟩
        rw [h5]
        simp only [FileManager.popStacks, h3, if_true, h1, hu]
        exact hs'
      | cons e es' =>
        refine ⟨s, ?_, ⟨h1, h2, h3, h4, h5, h6, h7⟩, rfl, rfl, rfl⟩
        rw [h5]
        have hne : ¬ s.tagsRemaining = 0 := by
          rw [h3]
          simp only [List.length_cons]
          push_cast
          omega
        simp only [List.map_cons, FileManager.popStacks, if_neg hne]

theorem FileManager.framesSections_normalize (frames : FileManager.Dm3Frames) :
    FileManager.framesSections (FileManager.normalizeFrames frames)
      = FileManager.framesSections frames := by
  induction frames with
  | nil => rfl
  | cons f rest ih =>
    cases rest with
    | nil => rw [FileManager.normalizeFrames_single]
    | cons g rest' =>
      obtain ⟨p, es⟩ := f
      cases es with
      | nil =>
        simp only [FileManager.normalizeFrames, ih]
        simp [FileManager.framesSections, TagTree.sectionsList]
      | cons e es' => rfl

theorem FileManager.attached_normalize (frames : FileManager.Dm3Frames) (T T' : Node)
    (h : FileManager.Attached T (FileManager.normalizeFrames frames) T') :
    FileManager.Attached T frames T' := by
  induction frames with
  | nil => exact h
  | cons f rest ih =>
    cases rest with
    | nil =>
      rw [FileManager.normalizeFrames_single] at h
      exact h
    | cons g rest' =>
      obtain ⟨p, es⟩ := f
      cases es with
      | nil =>
        simp only [FileManager.normalizeFrames] at h
        refine ⟨[], rfl, ?_⟩
        rw [Node.appendAt_nil]
        exact ih h
      | cons e es' => exact h

theorem FileManager.getLast_normalize (frames : FileManager.Dm3Frames) :
    (FileManager.normalizeFrames frames).getLast? = frames.getLast? := by
  induction frames with
  | nil => rfl
  | cons f rest ih =>
    cases rest with
    | nil => rw [FileManager.normalizeFrames_single]
    | cons g rest' =>
      obtain ⟨p, es⟩ := f
      cases es with
      | nil =>
        simp only [FileManager.normalizeFrames, ih]
        simp [List.getLast?_cons_cons]
      | cons e es' => rfl

theorem FileManager.normalizeFrames_length_le (frames : FileManager.Dm3Frames) :
    (FileManager.normalizeFrames frames).length ≤ frames.length := by
  induction frames with
  | nil => exact le_refl _
  | cons f rest ih =>
    cases rest with
    | nil => rw [FileManager.normalizeFrames_single]
    | cons g rest' =>
      obtain ⟨p, es⟩ := f
      cases es with
      | nil =>
        simp only [FileManager.normalizeFrames, List.length_cons] at ih ⊢
        omega
      | cons e es' => exact le_refl _

theorem FileManager.normalizeFrames_idem (frames : FileManager.Dm3Frames) :
    FileManager.normalizeFrames (FileManager.normalizeFrames frames)
      = FileManager.normalizeFrames frames := by
  induction frames with
  | nil => rfl
  | cons f rest ih =>
    cases rest with
    | nil => rw [FileManager.normalizeFrames_single, FileManager.normalizeFrames_single]
    | cons g rest' =>
      obtain ⟨p, es⟩ := f
      cases es with
      | nil => simp only [FileManager.normalizeFrames, ih]
      | cons e es' => rfl

/-- In normalized frames with more than one open directory the innermost one
has an entry left. -/
theorem FileManager.normalized_head (p : List Nat) (g : List Nat × List TagTree)
    (rest : FileManager.Dm3Frames)
    (h : FileManager.normalizeFrames ((p, []) :: g :: rest) = (p, []) :: g :: rest) : False := by
  have := FileManager.normalizeFrames_length_le (g :: rest)
  simp only [FileManager.normalizeFrames] at h
  rw [h] at this
  simp at this

theorem FileManager.walk_frames (ft : QtConv) (bytes : List Nat) :
    ∀ (n : Nat) (s s' : FileManager.Dm3Loop) (frames : FileManager.Dm3Frames),
      FileManager.FramesOk s frames → FileManager.normalizeFrames frames = frames →
      FileManager.sectionsFrom ft bytes n s = some (FileManager.framesSections frames, s') →
      ∃ p, frames.getLast?.map Prod.fst = some p ∧
        FileManager.FramesOk s' [(p, [])] ∧
        FileManager.Attached s.model.m_root frames s'.model.m_root := by
  intro n
  induction n with
  | zero =>
    intro s s' frames hok hnorm hsec
    simp only [FileManager.sectionsFrom, Option.some.injEq, Prod.mk.injEq] at hsec
    obtain ⟨hs, rfl⟩ := hsec
    cases frames with
    | nil => exact absurd hok.2.2 (by simp)
    | cons f rest =>
      obtain ⟨p, es⟩ := f
      simp only [FileManager.framesSections] at hs
      have hes : es = [] := by
        have := (List.append_eq_nil.1 hs.symm).1
        exact (TagTree.sectionsList_eq_nil es).1 this
      subst hes
      cases rest with
      | nil =>
        refine ⟨p, rfl, hok, [], rfl, ?_⟩
        rw [Node.appendAt_nil]
        rfl
      | cons g rest' => exact (FileManager.normalized_head p g rest' hnorm).elim
  | succ n ih =>
    intro s s' frames hok hnorm hsec
    cases frames with
    | nil => exact absurd hok.2.2 (by simp)
    | cons f rest =>
      obtain ⟨p0, es0⟩ := f
      simp only [FileManager.sectionsFrom] at hsec
      split at hsec
      · exact absurd hsec (by simp)
      · split at hsec
        · rename_i sec s1 hsa hpa
          split at hsec
          · exact absurd hsec (by simp)
          · rename_i hre
            simp only [Bool.not_eq_true] at hre
            simp only [Option.map_eq_some', Prod.mk.injEq, Prod.exists] at hsec
            obtain ⟨secs', sx, hrun, hsecs, rfl⟩ := hsec
            obtain ⟨h1, h2, h3, h4, h5, h6, h7⟩ := hok
            simp only [List.map_cons] at h1
            obtain ⟨y, hy⟩ := Option.isSome_iff_exists.1 (h2 (p0, es0) (List.mem_cons_self _ _))
            simp only at hy h3 h4
            cases es0 with
            | nil =>
              cases rest with
              | nil => simp [FileManager.framesSections, TagTree.sectionsList] at hsecs
              | cons g rest' => exact (FileManager.normalized_head p0 g rest' hnorm).elim
            | cons e r =>
              cases e with
              | tag name =>
                simp only [FileManager.framesSections, TagTree.sectionsList, TagTree.sections,
                  List.cons_append, List.nil_append, List.cons.injEq] at hsecs
                obtain ⟨rfl, hsecs⟩ := hsecs
                obtain ⟨s2, a, hpop, ha, g1, g2, g3, g4, g5⟩ :=
                  FileManager.loadDm3Pass_tag ft bytes s s1 name p0 _ y hsa hpa hre h1 hy
                have hok2 : FileManager.FramesOk s2 ((p0, r) :: rest) := by
                  refine ⟨by rw [g2, h1]; rfl, ?_, ?_, ?_, by rw [g4, h5], h6, by rw [g5, h7]⟩
                  · intro f hf
                    rw [g1]
                    apply Node.isSome_at?_appendAt
                    rcases List.mem_cons.1 hf with rfl | hf
                    · exact h2 (p0, TagTree.tag name :: r) (List.mem_cons_self _ _)
                    · exact h2 f (List.mem_cons_of_mem _ hf)
                  · rw [g3, h3]
                    simp only [List.length_cons]
                    push_cast
                    rw [add_sub_cancel_right]
                    simp only [List.length_cons] at h4
                    push_cast at h4
                    exact wrapInt32_eq_self (by omega) (by omega)
                  · simp only [List.length_cons] at h4
                    push_cast at h4
                    simp only
                    omega
                obtain ⟨s1', hpop', hok1, hm1, -, -⟩ := FileManager.popStacks_frames _ s2 hok2
                rw [hpop] at hpop'
                obtain rfl := Option.some.inj hpop'
                obtain ⟨p, hp, hfin, hatt⟩ := ih s1 sx _ hok1
                  (FileManager.normalizeFrames_idem _)
                  (by rw [FileManager.framesSections_normalize, hrun, hsecs]; rfl)
                refine ⟨p, ?_, hfin, ?_⟩
                · rw [FileManager.getLast_normalize] at hp
                  rw [← hp]
                  cases rest <;> rfl
                · rw [hm1, g1] at hatt
                  obtain ⟨nodes, hn, hatt'⟩ := FileManager.attached_normalize _ _ _ hatt
                  refine ⟨a :: nodes, ?_, ?_⟩
                  · simp only [TagTree.mirroredByList, Bool.and_eq_true]
                    exact ⟨ha, hn⟩
                  · simp only at hatt' ⊢
                    rw [Node.appendAt_appendAt] at hatt'
                    exact hatt'
              | directory name sub =>
                simp only [FileManager.framesSections, TagTree.sectionsList, TagTree.sections,
                  List.cons_append, List.cons.injEq] at hsecs
                obtain ⟨rfl, hsecs⟩ := hsecs
                obtain ⟨s2, hpop, g1, g2, g3, g3b, g4, g5⟩ :=
                  FileManager.loadDm3Pass_directory ft bytes s s1 name sub.length p0 _ y
                    hsa hpa h1 hy
                have hok2 : FileManager.FramesOk s2
                    ((p0 ++ [y.children.length], sub) :: (p0, r) :: rest) := by
                  refine ⟨by rw [g2]; rfl, ?_, g3, g3b, ?_, ?_, ?_⟩
                  · intro f hf
                    rw [g1]
                    rcases List.mem_cons.1 hf with rfl | hf
                    · rw [Node.at?_appended _ _ _ _ hy]
                      rfl
                    · apply Node.isSome_at?_appendAt
                      rcases List.mem_cons.1 hf with rfl | hf
                      · exact h2 (p0, TagTree.directory name sub :: r) (List.mem_cons_self _ _)
                      · exact h2 f (List.mem_cons_of_mem _ hf)
                  · rw [g4, h3, h5]
                    simp only [List.length_cons, List.map_cons]
                    push_cast
                    rfl
                  · intro g hg
                    rcases List.mem_cons.1 hg with rfl | hg
                    · simp only [List.length_cons] at h4
                      push_cast at h4
                      simp only
                      omega
                    · exact h6 g hg
                  · rw [g5, h7]
                    rfl
                obtain ⟨s1', hpop', hok1, hm1, -, -⟩ := FileManager.popStacks_frames _ s2 hok2
                rw [hpop] at hpop'
                obtain rfl := Option.some.inj hpop'
                obtain ⟨p, hp, hfin, hatt⟩ := ih s1 sx _ hok1
                  (FileManager.normalizeFrames_idem _)
                  (by
                    rw [FileManager.framesSections_normalize, hrun, hsecs]
                    simp [FileManager.framesSections])
                refine ⟨p, ?_, hfin, ?_⟩
                · rw [FileManager.getLast_normalize] at hp
                  rw [← hp]
                  cases rest <;> rfl
                · rw [hm1, g1] at hatt
                  obtain ⟨nsub, hnsub, nr, hnr, hatt'⟩ :=
                    FileManager.attached_normalize _ _ _ hatt
                  refine ⟨Node.mk name GROUP nsub NodeSelf.group :: nr, ?_, ?_⟩
                  · simp only [TagTree.mirroredByList, TagTree.mirroredBy, Bool.and_eq_true,
                      beq_self_eq_true, true_and]
                    exact ⟨hnsub, hnr⟩
                  · simp only at hatt' ⊢
                    rw [Node.appendAt_child _ _ _ _ _ hy, Node.appendAt_appendAt] at hatt'
                    exact hatt'
        · exact absurd hsec (by simp)

/-- The passes that `sectionsFrom` follows are passes of the loop of `loadDm3`. -/
theorem FileManager.loadDm3Loop_sectionsFrom (ft : QtConv) (bytes : List Nat) :
    ∀ (n : Nat) (s s' : FileManager.Dm3Loop) (secs : List Dm3Section),
      FileManager.sectionsFrom ft bytes n s = some (secs, s') →
      ∀ fuel, FileManager.loadDm3Loop ft bytes (fuel + n) s
        = FileManager.loadDm3Loop ft bytes fuel s' := by
  intro n
  induction n with
  | zero =>
    intro s s' secs h fuel
    simp only [FileManager.sectionsFrom, Option.some.injEq, Prod.mk.injEq] at h
    rw [h.2]
    rfl
  | succ n ih =>
    intro s s' secs h fuel
    simp only [FileManager.sectionsFrom] at h
    split at h
    · exact absurd h (by simp)
    · rename_i hflags
      split at h
      · rename_i sec s1 hsa hpa
        split at h
        · exact absurd h (by simp)
        · simp only [Option.map_eq_some', Prod.mk.injEq, Prod.exists] at h
          obtain ⟨secs', sx, hrun, -, rfl⟩ := h
          rw [← Nat.add_assoc, FileManager.loadDm3Loop, if_neg hflags]
          simp only [hpa]
          exact ih s1 sx secs' hrun fuel
      · exact absurd h (by simp)

theorem FileManager.sectionsFrom_length (ft : QtConv) (bytes : List Nat) :
    ∀ (n : Nat) (s s' : FileManager.Dm3Loop) (secs : List Dm3Section),
      FileManager.sectionsFrom ft bytes n s = some (secs, s') → secs.length = n := by
  intro n
  induction n with
  | zero =>
    intro s s' secs h
    simp only [FileManager.sectionsFrom, Option.some.injEq, Prod.mk.injEq] at h
    rw [← h.1]
    rfl
  | succ n ih =>
    intro s s' secs h
    simp only [FileManager.sectionsFrom] at h
    split at h
    · exact absurd h (by simp)
    · split at h
      · split at h
        · exact absurd h (by simp)
        · simp only [Option.map_eq_some', Prod.mk.injEq, Prod.exists] at h
          obtain ⟨secs', sx, hrun, rfl, rfl⟩ := h
          simp only [List.length_cons, ih _ _ _ hrun]
      · exact absurd h (by simp)
/-! ## The walk of `loadDm3` mirrors the nesting of the stream -/

theorem option_eq_some_of_map {α β : Type} (o : Option (α × β)) (a : α) (d : β)
    (h : o.map Prod.fst = some a) :
    o = some (a, (match o with | some r => r.2 | none => d)) := by
  cases o with
  | none => simp at h
  | some r =>
    obtain ⟨x, y⟩ := r
    simp only [Option.map_some', Option.some.injEq] at h
    subst h
    rfl

/-- When the next `n` passes of the loop of `loadDm3` read the sections of a
forest of entries (each directory followed, recursively, by exactly the number
of entries that it declares), the walk that starts with the single open
directory `root` runs these `n` passes and appends to the children of `root`
nodes that mirror the forest: a Group for each directory, an Attribute for each
leaf tag, each a child of the Group of the directory that encloses it (`root`
for the top-level entries), in stream order; the stacks are back at the single
directory `root` with no entry remaining. -/
theorem FileManager.walk_mirrors (ft : QtConv) (bytes : List Nat) (s s' : FileManager.Dm3Loop)
    (root : List Nat) (forest : List TagTree) (n : Nat)
    (hstack : s.nodeStack = [root]) (hroot : (s.model.m_root.at? root).isSome = true)
    (hcount : s.tagsRemaining = forest.length) (hbound : (forest.length : Int) < 2147483648)
    (hrem : s.tagsRemainingStack = []) (hutc : s.utcStack = [])
    (hread : FileManager.sectionsFrom ft bytes n s = some (TagTree.sectionsList forest, s')) :
    (∀ fuel, FileManager.loadDm3Loop ft bytes (fuel + n) s
      = FileManager.loadDm3Loop ft bytes fuel s') ∧
    s'.nodeStack = [root] ∧ s'.tagsRemaining = 0 ∧ s'.tagsRemainingStack = [] ∧
    ∃ nodes, TagTree.mirroredByList forest nodes = true ∧
      s'.model.m_root = s.model.m_root.appendAt root nodes := by
  have hok : FileManager.FramesOk s [(root, forest)] := by
    refine ⟨by rw [hstack]; rfl, ?_, hcount, hbound, by rw [hrem]; rfl, ?_, by rw [hutc]; rfl⟩
    · intro f hf
      rw [List.mem_singleton] at hf
      rw [hf]
      exact hroot
    · intro g hg
      exact absurd hg (List.not_mem_nil _)
  obtain ⟨p, hp, hfin, nodes, hnodes, hatt⟩ :=
    FileManager.walk_frames ft bytes n s s' [(root, forest)] hok
      (FileManager.normalizeFrames_single _)
      (by
        rw [hread]
        simp [FileManager.framesSections])
  simp only [List.getLast?_singleton, Option.map_some', Option.some.injEq] at hp
  subst hp
  obtain ⟨h1, -, h3, -, h5, -, -⟩ := hfin
  refine ⟨FileManager.loadDm3Loop_sectionsFrom ft bytes n s s' _ hread, h1, ?_, ?_,
    nodes, hnodes, hatt⟩
  · simpa using h3
  · simpa using h5

/-- The walk on the stream `dm3Nested`, in which the tag `y` follows the
last entry of the directory `A` (the empty directory `B`), from the locals with
which `loadDm3` enters its loop: `A` with `x` and `B` below it and `y` are
appended to the Group `dm3`, the sixth child of the root, in this order. -/
theorem FileManager.walk_mirrors_nested :
    (Model.create.addNode "dm3" GROUP none).map Prod.snd = some [5] ∧
    (∀ fuel, FileManager.loadDm3Loop exampleQt dm3Nested (fuel + 4) (dm3Start 2)
      = FileManager.loadDm3Loop exampleQt dm3Nested fuel dm3NestedEnd) ∧
    dm3NestedEnd.nodeStack = [[5]] ∧ dm3NestedEnd.tagsRemaining = 0 ∧
    dm3NestedEnd.tagsRemainingStack = [] ∧
    ∃ nodes, TagTree.mirroredByList dm3NestedForest nodes = true ∧
      dm3NestedEnd.model.m_root = (dm3Start 2).model.m_root.appendAt [5] nodes :=
  ⟨by decide,
    FileManager.walk_mirrors exampleQt dm3Nested (dm3Start 2) dm3NestedEnd [5] dm3NestedForest 4
      rfl (by decide) (by decide) (by decide) rfl rfl
      (option_eq_some_of_map _ _ (dm3Start 2) (by decide!))⟩
/-! ## The decoder of DM3 files on the minimal stream -/

theorem FileManager.streamInt_chunk (bytes chunk rest : List Nat) (pos width : Nat)
    (signed little : Bool) (hd : bytes.drop pos = chunk ++ rest) (hl : chunk.length = width)
    (hw : 0 < width) :
    FileManager.streamInt bytes pos width signed little
      = ((if signed then wrapSigned width (decodeLE (if little then chunk else chunk.reverse))
          else (decodeLE (if little then chunk else chunk.reverse) : Int)), pos + width) ∧
    bytes.drop (pos + width) = rest := by
  have hlen : (bytes.drop pos).length = width + rest.length := by
    rw [hd, List.length_append, hl]
  rw [List.length_drop] at hlen
  have htake : (bytes.drop pos).take width = chunk := by
    rw [hd, ← hl, List.take_left]
  constructor
  · unfold FileManager.streamInt
    rw [if_pos (by omega), htake]
  · rw [← List.drop_drop, hd, ← hl, List.drop_left]

theorem FileManager.streamRaw_chunk (bytes chunk rest : List Nat) (pos : Nat) (len : Int)
    (hd : bytes.drop pos = chunk ++ rest) (hl : (chunk.length : Int) = len) (hw : 0 < len) :
    FileManager.streamRaw bytes pos len = some (chunk, pos + len.toNat) ∧
    bytes.drop (pos + len.toNat) = rest := by
  have hl2 : chunk.length = len.toNat := by omega
  have hlen : (bytes.drop pos).length = len.toNat + rest.length := by
    rw [hd, List.length_append, hl2]
  rw [List.length_drop] at hlen
  have htake : (bytes.drop pos).take len.toNat = chunk := by
    rw [hd, ← hl2, List.take_left]
  constructor
  · unfold FileManager.streamRaw
    rw [if_pos ⟨by omega, by omega⟩, htake]
  · rw [← List.drop_drop, hd, ← hl2, List.drop_left]

theorem decodeLE_leBytes (w : Nat) (v : Int) :
    (decodeLE (leBytes w v) : Int) = wrapUnsigned w v := by
  unfold leBytes
  rw [decodeLE_encodeLE]
  unfold wrapUnsigned
  have hpos : (0 : Int) < ((2 ^ (8 * w) : Nat) : Int) := by positivity
  have h0 : 0 ≤ v % ((2 ^ (8 * w) : Nat) : Int) := Int.emod_nonneg _ (by omega)
  have h1 : v % ((2 ^ (8 * w) : Nat) : Int) < ((2 ^ (8 * w) : Nat) : Int) :=
    Int.emod_lt_of_pos _ hpos
  have h256 : 256 ^ w = 2 ^ (8 * w) := by
    rw [pow_mul]
    norm_num
  rw [h256, Nat.mod_eq_of_lt (by omega)]
  omega

theorem wrapSigned_leBytes (v : Int) (h1 : -2147483648 ≤ v) (h2 : v < 2147483648) :
    wrapSigned 4 (decodeLE (leBytes 4 v)) = v := by
  rw [decodeLE_leBytes]
  unfold wrapSigned wrapUnsigned
  norm_num
  unfold Int.bmod
  simp only [Nat.cast_ofNat]
  split <;> omega

theorem decodeLE_beBytes (w : Nat) (v : Int) (h0 : 0 ≤ v) (h1 : v < 2 ^ (8 * w)) :
    (decodeLE (beBytes w v).reverse : Int) = v := by
  unfold beBytes
  rw [List.reverse_reverse, decodeLE_leBytes]
  unfold wrapUnsigned
  push_cast
  exact Int.emod_eq_of_lt h0 h1

theorem beBytes_length (w : Nat) (v : Int) : (beBytes w v).length = w := by
  unfold beBytes leBytes
  rw [List.length_reverse, encodeLE_length]

theorem leBytes_length (w : Nat) (v : Int) : (leBytes w v).length = w := by
  unfold leBytes
  rw [encodeLE_length]

theorem cString_nameBytes (name : String) (h : ∀ c ∈ name.data, 0 < c.toNat) :
    cString (nameBytes name) = name := by
  unfold cString nameBytes
  have : (name.data.map Char.toNat).takeWhile (fun b => b != 0) = name.data.map Char.toNat := by
    rw [List.takeWhile_eq_self_iff]
    intro b hb
    obtain ⟨c, hc, rfl⟩ := List.mem_map.1 hb
    have := h c hc
    simp only [bne_iff_ne, ne_eq]
    omega
  rw [this, List.map_map]
  have hid : (Char.ofNat ∘ Char.toNat) = id := by
    funext c
    simp
  rw [hid, List.map_id]

theorem dm3Minimal_layout (name : String) (v : Int) :
    dm3Minimal name v
      = beBytes 4 3 ++ (beBytes 4 0 ++ (beBytes 4 1 ++ ([0] ++ ([0] ++ (beBytes 4 1 ++
        ([21] ++ (beBytes 2 name.length ++ (nameBytes name ++ ([37, 37, 37, 37] ++
          (beBytes 4 1 ++ (beBytes 4 3 ++ (leBytes 4 v ++ [0])))))))))))) := by
  simp [dm3Minimal, dm3Header, dm3Tag, List.append_assoc]

/-- The pass of the loop of `loadDm3` over a named leaf tag whose info array is
the type code of `long` and whose value is `v`. -/
theorem FileManager.loadDm3Pass_long (ft : QtConv) (bytes rest : List Nat)
    (s : FileManager.Dm3Loop) (name : String) (v : Int) (top : List Nat) (y : Node)
    (hname : 0 < name.length) (hlen : name.length < 65536)
    (hchars : ∀ c ∈ name.data, 0 < c.toNat)
    (hv1 : -2147483648 ≤ v) (hv2 : v < 2147483648)
    (hd : bytes.drop s.pos
      = [21] ++ (beBytes 2 name.length ++ (nameBytes name ++ ([37, 37, 37, 37] ++
          (beBytes 4 1 ++ (beBytes 4 3 ++ (leBytes 4 v ++ rest)))))))
    (hstack : s.nodeStack = [top]) (hy : s.model.m_root.at? top = some y)
    (hrem : s.tagsRemainingStack = []) :
    ∃ s2, FileManager.loadDm3Pass ft bytes s = some (FileManager.Dm3Pass.next s2) ∧
      bytes.drop s2.pos = rest ∧
      s2.model = { s.model with
        m_root := s.model.m_root.appendAt top
          [Node.mk name (ATTRIBUTE ||| DIRTY) []
            (NodeSelf.attribute
              { Attribute.create with m_value := QVariant.int v, m_type := DataTypeInt32 })] } ∧
      s2.tagsRemaining = wrapInt32 (s.tagsRemaining - 1) ∧
      s2.tagsRemainingStack = [] ∧ s2.nodeStack = [top] ∧ s2.warnings = s.warnings ∧
      s2.endOfFile = s.endOfFile ∧ s2.readError = s.readError ∧ s2.dataList = s.dataList := by
  have hL : (0 : Int) < (name.length : Int) := by omega
  obtain ⟨e1, d1⟩ := FileManager.streamInt_chunk bytes [21] _ s.pos 1 true false hd rfl
    (by decide)
  obtain ⟨e2, d2⟩ := FileManager.streamInt_chunk bytes (beBytes 2 name.length) _ (s.pos + 1)
    2 false false d1 (beBytes_length _ _) (by decide)
  obtain ⟨e3, d3⟩ := FileManager.streamRaw_chunk bytes (nameBytes name) _ (s.pos + 1 + 2)
    (name.length : Int) d2 (by simp only [nameBytes, List.length_map]; rfl) hL
  obtain ⟨e4, d4⟩ := FileManager.streamRaw_chunk bytes [37, 37, 37, 37] _ _ 4 d3 rfl
    (by decide)
  obtain ⟨e5, d5⟩ := FileManager.streamInt_chunk bytes (beBytes 4 1) _ _ 4 true false d4
    (beBytes_length _ _) (by decide)
  obtain ⟨e6, d6⟩ := FileManager.streamInt_chunk bytes (beBytes 4 3) _ _ 4 true false d5
    (beBytes_length _ _) (by decide)
  obtain ⟨e7, d7⟩ := FileManager.streamInt_chunk bytes (leBytes 4 v) _ _ 4 true true d6
    (leBytes_length _ _) (by decide)
  have v1 : wrapSigned 1 (decodeLE ([21] : List Nat).reverse) = 21 := by decide
  have v2 : (decodeLE (beBytes 2 name.length).reverse : Int) = name.length :=
    decodeLE_beBytes 2 _ (by omega) (by norm_num; omega)
  have v5 : wrapSigned 4 (decodeLE (beBytes 4 1).reverse) = 1 := by decide
  have v6 : wrapSigned 4 (decodeLE (beBytes 4 3).reverse) = 3 := by decide
  simp only [if_true, Bool.false_eq_true, if_false, v1, v2, v5, v6,
    wrapSigned_leBytes v hv1 hv2] at e1 e2 e5 e6 e7
  unfold FileManager.loadDm3Pass FileManager.readSectionHeader
  simp only [e1, e2, e3, gt_iff_lt, hL, if_true, cString_nameBytes name hchars]
  rw [if_neg (by decide)]
  have hdelim : cString [37, 37, 37, 37] = "%%%%" := by decide
  have hinfo : FileManager.readInfo bytes 1
      (s.pos + 1 + 2 + (name.length : Int).toNat + Int.toNat 4 + 4)
      = ([3], s.pos + 1 + 2 + (name.length : Int).toNat + Int.toNat 4 + 4 + 4) := by
    simp only [FileManager.readInfo, e6]
  have hvalue : FileManager.readTagValue ft bytes
      (s.pos + 1 + 2 + (name.length : Int).toNat + Int.toNat 4 + 4 + 4)
      (some (nameBytes name)) 1 [3]
      = some (FileManager.TagValue.decoded
          (s.pos + 1 + 2 + (name.length : Int).toNat + Int.toNat 4 + 4 + 4 + 4)
          (some (QVariant.int v, DataTypeInt32)) none) := by
    unfold FileManager.readTagValue
    rw [if_pos rfl]
    simp only [List.get?_cons_zero]
    rw [if_pos (by decide)]
    have : dm3ToEmdType 3 = DataTypeInt32 := by decide
    simp only [this, FileManager.readEmdType, e7]
  unfold FileManager.readTag
  simp only [hstack, List.head?_cons, Model.addNode_some _ _ _ _ _ hy, Node.newAttribute_eq,
    Node.at?_appended _ _ _ _ hy, Node.replaceAt_appended _ _ _ _ _ hy, e4, hdelim, ne_eq,
    not_true_eq_false, if_false, e5, Int.toNat_one, hinfo, hvalue]
  rw [if_neg (by decide)]
  simp only [hrem, FileManager.popStacks, Option.map_some']
  refine ⟨_, rfl, d7, ?_, rfl, rfl, rfl, rfl, rfl, rfl, ?_⟩
  · rfl
  · simp

/-- The pass of the loop of `loadDm3` over the end-of-stream section code at
the end of the file. -/
theorem FileManager.loadDm3Pass_end (ft : QtConv) (bytes : List Nat) (s : FileManager.Dm3Loop)
    (hd : bytes.drop s.pos = [0]) (hrem : s.tagsRemainingStack = []) :
    ∃ s2, FileManager.loadDm3Pass ft bytes s = some (FileManager.Dm3Pass.next s2) ∧
      s2.model = s.model ∧ s2.tagsRemaining = s.tagsRemaining ∧ s2.warnings = s.warnings ∧
      s2.endOfFile = true ∧ s2.readError = s.readError ∧ s2.dataList = s.dataList := by
  obtain ⟨e1, d1⟩ := FileManager.streamInt_chunk bytes [0] [] s.pos 1 true false hd rfl
    (by decide)
  have v1 : wrapSigned 1 (decodeLE ([0] : List Nat).reverse) = 0 := by decide
  simp only [if_true, Bool.false_eq_true, if_false, v1] at e1
  have hlen : bytes.length ≤ s.pos + 1 := List.drop_eq_nil_iff.1 d1
  have e2 : (FileManager.streamInt bytes (s.pos + 1) 2 false false).1 = 0 := by
    unfold FileManager.streamInt
    rw [if_neg (by omega)]
  unfold FileManager.loadDm3Pass FileManager.readSectionHeader
  simp only [e1, e2, gt_iff_lt, lt_self_iff_false, if_false]
  rw [if_neg (by decide), if_neg (by decide)]
  simp only [hrem, FileManager.popStacks, Option.map_some', if_true]
  exact ⟨_, rfl, rfl, rfl, rfl, rfl, rfl, rfl⟩

theorem Node.at?_root (root : Node) : root.at? [] = some root := by
  cases root
  rfl

/-- C26: for every name (not empty, of non-zero 7-bit characters, shorter than
65536) and every int32 value `v`, `loadDm3` on the minimal stream (a valid
header, root tag count 1, one leaf tag with that name whose info array is the
type code of `long` and whose value is `v`, and the end-of-stream section code)
returns `ErrorNone` within two passes and raises no warning; the model is the
given one with the Group `dm3` appended to the children of the root, and the
only child of that Group is an Attribute with that name, the value `v` and the
type `Int32`. -/
theorem loadDm3_minimal (ft : QtConv) (emdModel : Model) (name : String) (v : Int) (fuel : Nat)
    (hname : 0 < name.length) (hlen : name.length < 65536)
    (hchars : ∀ c ∈ name.data, 0 < c.toNat ∧ c.toNat < 128)
    (hv1 : -2147483648 ≤ v) (hv2 : v < 2147483648) :
    FileManager.loadDm3 ft (some (dm3Minimal name v)) emdModel (fuel + 2)
      = Run.done (FileManager.Error.ErrorNone,
          { emdModel with
            m_root := emdModel.m_root.appendAt []
              [Node.mk "dm3" GROUP
                [Node.mk name (ATTRIBUTE ||| DIRTY) []
                  (NodeSelf.attribute
                    { Attribute.create with
                      m_value := QVariant.int v, m_type := DataTypeInt32 })]
                NodeSelf.group] },
          []) := by
  have hd0 : (dm3Minimal name v).drop 0 = _ := dm3Minimal_layout name v
  obtain ⟨e1, d1⟩ := FileManager.streamInt_chunk _ (beBytes 4 3) _ 0 4 true false hd0
    (beBytes_length _ _) (by decide)
  obtain ⟨e2, d2⟩ := FileManager.streamInt_chunk _ (beBytes 4 0) _ _ 4 true false d1
    (beBytes_length _ _) (by decide)
  obtain ⟨e3, d3⟩ := FileManager.streamInt_chunk _ (beBytes 4 1) _ _ 4 true false d2
    (beBytes_length _ _) (by decide)
  obtain ⟨e4, d4⟩ := FileManager.streamInt_chunk _ [0] _ _ 1 true false d3 rfl (by decide)
  obtain ⟨e5, d5⟩ := FileManager.streamInt_chunk _ [0] _ _ 1 true false d4 rfl (by decide)
  obtain ⟨e6, d6⟩ := FileManager.streamInt_chunk _ (beBytes 4 1) _ _ 4 true false d5
    (beBytes_length _ _) (by decide)
  have v1 : wrapSigned 4 (decodeLE (beBytes 4 3).reverse) = 3 := by decide
  have v2 : wrapSigned 4 (decodeLE (beBytes 4 0).reverse) = 0 := by decide
  have v3 : wrapSigned 4 (decodeLE (beBytes 4 1).reverse) = 1 := by decide
  have v4 : wrapSigned 1 (decodeLE ([0] : List Nat).reverse) = 0 := by decide
  simp only [if_true, Bool.false_eq_true, if_false, v1, v2, v3, v4] at e1 e2 e3 e4 e5 e6
  have hadd : emdModel.addNode "dm3" GROUP none
      = some ({ emdModel with
                m_root := emdModel.m_root.appendAt [] [Node.mk "dm3" GROUP [] NodeSelf.group] },
              [] ++ [emdModel.m_root.children.length]) := by
    have := Model.addNode_some emdModel "dm3" GROUP [] emdModel.m_root (Node.at?_root _)
    rw [Node.newGroup_eq] at this
    exact this
  obtain ⟨s2, hp1, hd2, hm2, ht2, hr2, hs2, hw2, hf2, he2, hl2⟩ :=
    FileManager.loadDm3Pass_long ft (dm3Minimal name v) [0]
      { pos := 0 + 4 + 4 + 4 + 1 + 1 + 4
        model := { emdModel with
          m_root := emdModel.m_root.appendAt [] [Node.mk "dm3" GROUP [] NodeSelf.group] }
        nodeStack := [[] ++ [emdModel.m_root.children.length]]
        tagsRemainingStack := [], utcStack := [], tagsRemaining := 1, unnamedTagCount := 1
        tagName := none, dataList := [], dataTypeList := [], endOfFile := false
        readError := false, warnings := [] }
      name v ([] ++ [emdModel.m_root.children.length]) (Node.mk "dm3" GROUP [] NodeSelf.group)
      hname hlen (fun c hc => (hchars c hc).1) hv1 hv2 d6 rfl
      (Node.at?_appended [] emdModel.m_root emdModel.m_root _ (Node.at?_root _)) rfl
  obtain ⟨s3, hp3, hm3, ht3, hw3, hf3, he3, hl3⟩ :=
    FileManager.loadDm3Pass_end ft (dm3Minimal name v) s2 hd2 hr2
  unfold FileManager.loadDm3
  simp only [e1, e2, e3, e4, e5, e6, hadd, ne_eq, not_true_eq_false, if_false]
  have hloop : FileManager.loadDm3Loop ft (dm3Minimal name v) (fuel + 2)
      { pos := 0 + 4 + 4 + 4 + 1 + 1 + 4
        model := { emdModel with
          m_root := emdModel.m_root.appendAt [] [Node.mk "dm3" GROUP [] NodeSelf.group] }
        nodeStack := [[] ++ [emdModel.m_root.children.length]]
        tagsRemainingStack := [], utcStack := [], tagsRemaining := 1, unnamedTagCount := 1
        tagName := none, dataList := [], dataTypeList := [], endOfFile := false
        readError := false, warnings := [] } = Run.done (none, s3) := by
    show FileManager.loadDm3Loop ft (dm3Minimal name v) (fuel + 1 + 1) _ = _
    rw [FileManager.loadDm3Loop, if_neg (by simp)]
    simp only [hp1]
    rw [FileManager.loadDm3Loop, if_neg (by simp [hf2, he2])]
    simp only [hp3]
    cases fuel <;> simp [FileManager.loadDm3Loop, hf3]
  rw [hloop]
  have hre : s3.readError = false := by rw [he3, he2]
  have hdl : s3.dataList = [] := by rw [hl3, hl2]
  have htr : s3.tagsRemaining = 0 := by
    rw [ht3, ht2]
    show wrapInt32 (1 - 1) = 0
    decide
  have hwarn : s3.warnings = [] := by rw [hw3, hw2]
  have hmodel : s3.model = { emdModel with
      m_root := emdModel.m_root.appendAt []
        [Node.mk "dm3" GROUP
          [Node.mk name (ATTRIBUTE ||| DIRTY) []
            (NodeSelf.attribute
              { Attribute.create with m_value := QVariant.int v, m_type := DataTypeInt32 })]
          NodeSelf.group] } := by
    rw [hm3, hm2]
    simp only
    rw [Node.appendAt_child [] emdModel.m_root emdModel.m_root _ _ (Node.at?_root _)]
    rfl
  simp only [hre, hdl, htr, hwarn, hf3, hmodel, Bool.false_eq_true, if_false, List.length_nil,
    gt_iff_lt, lt_self_iff_false, not_true_eq_false, List.append_nil]

/-- C26 (witness): the name `X` and the value 7, decoded into the model that
`Model()` builds. -/
theorem loadDm3_minimal_witness :
    FileManager.loadDm3 exampleQt (some (dm3Minimal "X" 7)) Model.create 2
      = Run.done (FileManager.Error.ErrorNone,
          { Model.create with
            m_root := Model.create.m_root.appendAt []
              [Node.mk "dm3" GROUP
                [Node.mk "X" (ATTRIBUTE ||| DIRTY) []
                  (NodeSelf.attribute
                    { Attribute.create with
                      m_value := QVariant.int 7, m_type := DataTypeInt32 })]
                NodeSelf.group] },
          []) :=
  loadDm3_minimal exampleQt Model.create "X" 7 0 (by decide) (by decide) (by decide)
    (by decide) (by decide)
/-! ## The decoder of DM3 files: tags that the decoder does not recognize -/

/-- C27 (the code at the failing input): for the tag `X` of `dm3Unrecognized`,
whose info array has two entries and starts with `0x12`, `loadDm3` does not
return `ErrorInvalidDataType`: the decoding goes on with the next section, the
call returns `ErrorNone` without warning, and the Attribute `X` is left with
the value and the type that its constructor gave it. -/
theorem loadDm3_unrecognized_first_entry :
    (FileManager.loadDm3 exampleQt (some dm3Unrecognized) Model.create 2).result?.map
        (fun r => (r.1, r.2.2, (r.2.1.m_root.at? [5, 0]).map Node.name,
          ((r.2.1.m_root.at? [5, 0]).bind Node.asAttribute).map
            (fun a => (a.m_value, a.m_type))))
      = some (FileManager.Error.ErrorNone, [], some "X",
          some (QVariant.int 0, DataTypeUnknown)) := by
  decide!

/-- C28 (the code at the failing input): in `dm3StaleName` the array tag
without name follows the tag `Data`; the array `tagName` still holds `Data`, so
the block of the tag without name is retained in `dataList` as well and its
Attribute, named `1` by the counter, gets the value `data array`. In
`dm3NullName` the first tag has no name, `tagName` is null, and the comparison
has no defined result. -/
theorem loadDm3_retains_unnamed_array :
    (FileManager.loadDm3Loop exampleQt dm3StaleName 3 (dm3Start 2)).result?.map
        (fun r => (r.1, r.2.dataList, (r.2.model.m_root.at? [5, 1]).map Node.name,
          ((r.2.model.m_root.at? [5, 1]).bind Node.asAttribute).map (fun a => a.m_value)))
      = some (none, [[1, 2], [3, 4, 5]], some "1", some (QVariant.string "data array")) ∧
    (FileManager.loadDm3 exampleQt (some dm3StaleName) Model.create 3).result?.map
        (fun r => (r.1, ((r.2.1.m_root.at? [5, 1]).bind Node.asAttribute).map
          (fun a => a.m_value)))
      = some (FileManager.Error.ErrorNone, some (QVariant.string "data array")) ∧
    (FileManager.loadDm3 exampleQt (some dm3NullName) Model.create 3).isUndefined = true := by
  decide!
/-! ## `Node::removeStatus`, `Node::child(int)`, `Model::setData` -/

/-- C35 (the code at the failing input): `removeStatus` leaves every bit
outside the mask as it was, and clears the mask when all of its bits or none of
them were set, in particular for every mask of one bit. But for a mask of
which only some bits are set the `^=` sets the others: the status `GROUP`
(`0x1000`) becomes `0x10000` by `removeStatus(DATAGROUP)` (`0x11000`), a bit of
the mask that was not set before. -/
theorem removeStatus_mask :
    ((Node.mk "g" GROUP [] NodeSelf.group).removeStatus DATAGROUP).status = 0x10000 ∧
    ((Node.mk "g" GROUP [] NodeSelf.group).removeStatus DATAGROUP).status &&& DATAGROUP ≠ 0 ∧
    (∀ (n : Node) (s i : Nat), s.testBit i = false →
      (n.removeStatus s).status.testBit i = n.status.testBit i) ∧
    (∀ (n : Node) (s : Nat), n.status &&& s = s ∨ n.status &&& s = 0 →
      (n.removeStatus s).status &&& s = 0) ∧
    (∀ (n : Node) (k : Nat), (n.removeStatus (2 ^ k)).status &&& 2 ^ k = 0) := by
  have hall : ∀ (n : Node) (s : Nat), n.status &&& s = s ∨ n.status &&& s = 0 →
      (n.removeStatus s).status &&& s = 0 := by
    intro n s h
    obtain ⟨nm, st, cs, x⟩ := n
    simp only [Node.status] at h
    simp only [Node.removeStatus]
    split
    · rename_i hne
      rcases h with h | h
      · simp only [Node.status]
        apply Nat.eq_of_testBit_eq
        intro i
        have hi := congrArg (fun z => z.testBit i) h
        simp only [Nat.testBit_and] at hi
        simp only [Nat.testBit_and, Nat.testBit_xor, Nat.zero_testBit]
        cases hs : s.testBit i <;> cases ht : st.testBit i <;> simp_all
      · exact absurd h hne
    · rename_i he
      simp only [ne_eq, not_not] at he
      exact he
  refine ⟨by decide, by decide, ?_, hall, ?_⟩
  · intro n s i hs
    obtain ⟨nm, st, cs, x⟩ := n
    simp only [Node.removeStatus]
    split
    · simp only [Node.status, Nat.testBit_xor, hs, Bool.xor_false]
    · rfl
  · intro n k
    apply hall
    by_cases hb : n.status.testBit k = true
    · left
      apply Nat.eq_of_testBit_eq
      intro i
      simp only [Nat.testBit_and, Nat.testBit_two_pow]
      by_cases hki : k = i
      · subst hki
        simp [hb]
      · simp [hki]
    · right
      apply Nat.eq_of_testBit_eq
      intro i
      simp only [Nat.testBit_and, Nat.testBit_two_pow, Nat.zero_testBit]
      by_cases hki : k = i
      · subst hki
        simp only [Bool.not_eq_true] at hb
        simp [hb]
      · simp [hki]

/-- C36 (the code at the failing input): `Node::child(index)` returns null for
a negative index and for an index above `childCount()`, and the child at the
position for an index inside the list; but the index `childCount()` itself
passes the test `index > m_children.size()`, and `m_children.at(index)` is
called outside the list: for a node without children and the index 0 the call
has no defined result. -/
theorem childByIndex_guard :
    (Node.mk "a" 0 [] NodeSelf.node).childByIndex 0 = none ∧
    (∀ n : Node, n.childByIndex n.children.length = none) ∧
    (∀ (n : Node) (index : Int), index < 0 ∨ (n.children.length : Int) < index →
      n.childByIndex index = some none) ∧
    (∀ (n : Node) (i : Nat) (c : Node), n.children.get? i = some c →
      n.childByIndex i = some (some c)) := by
  refine ⟨rfl, ?_, ?_, ?_⟩
  · intro n
    obtain ⟨nm, st, cs, x⟩ := n
    simp only [Node.childByIndex, Node.children]
    rw [if_neg (by omega)]
    simp
  · intro n index h
    obtain ⟨nm, st, cs, x⟩ := n
    simp only [Node.children] at h
    simp only [Node.childByIndex]
    rw [if_pos (by omega)]
  · intro n i c h
    obtain ⟨nm, st, cs, x⟩ := n
    simp only [Node.children] at h
    have hlt : i < cs.length := by
      rw [List.get?_eq_getElem?] at h
      exact (List.getElem?_eq_some_iff.1 h).1
    simp only [Node.childByIndex]
    rw [if_neg (by omega)]
    simp only [Int.toNat_ofNat, h]

theorem Node.status_replaceAt_cons (root r : Node) (i : Nat) (p : List Nat) :
    (root.replaceAt (i :: p) r).status = root.status := by
  obtain ⟨nm, st, cs, x⟩ := root
  simp only [Node.replaceAt]
  split <;> rfl

/-- C38 (the code at the failing input): `Model::setData` sets `DIRTY` on the
Attribute only, and `Model::isDirty` reads the status of the root, which
`setData` never changes: whenever `setData` returns true, `isDirty()` returns
what it returned before the call. On the model that `Model()` builds with one
Attribute added, `setData` stores the value 3, returns true and marks the
Attribute, and `isDirty()` is false. -/
theorem setData_isDirty :
    ((modelWithAttribute.setData
        { row := 5, column := 1, internalPointer := some [5], hasModel := true }
        (QVariant.int 3) EditRole).map
      (fun r => (r.1, r.2.isDirty, (r.2.m_root.at? [5]).map Node.status,
        ((r.2.m_root.at? [5]).bind Node.asAttribute).map (fun a => a.m_value))))
      = some (true, false, some (ATTRIBUTE ||| DIRTY), some (QVariant.int 3)) ∧
    modelWithAttribute.isDirty = false ∧
    (∀ (m m' : Model) (index : QModelIndex) (value : QVariant) (role : Int),
      m.setData index value role = some (true, m') → m'.isDirty = m.isDirty) := by
  refine ⟨by decide, by decide, ?_⟩
  intro m m' index value role h
  unfold Model.setData at h
  split at h
  · simp at h
  · split at h
    · simp at h
    · rename_i path hp
      split at h
      · simp at h
      · rename_i hne
        split at h
        · simp at h
        · split at h
          · simp at h
          · split at h
            · split at h
              · simp only [Option.some.injEq, Prod.mk.injEq, true_and] at h
                subst h
                obtain ⟨i, p, rfl⟩ : ∃ i p, path = i :: p := by
                  cases path with
                  | nil => exact absurd rfl hne
                  | cons i p => exact ⟨i, p, rfl⟩
                simp only [Model.isDirty, Node.status_replaceAt_cons]
              · simp at h
            · simp at h
/-! ## The two tables of DM3 type widths -/

/-- C40 (the code at the failing input): for the DM3 type codes 2, 3, 4, 5, 6,
7, 9 and 10 the width of `dm3TypeDepth` is the width that `emdTypeDepth` gives
the kind of `dm3ToEmdType`; for the code 8, which `dm3ToEmdType` maps to
`Bool`, `dm3TypeDepth` gives 1 and `emdTypeDepth` gives `-1`. -/
theorem dm3TypeDepth_agrees :
    (∀ t ∈ [2, 3, 4, 5, 6, 7, 9, 10], dm3ToEmdType t ≠ DataTypeUnknown ∧
      dm3TypeDepth t = emdTypeDepth (dm3ToEmdType t)) ∧
    dm3ToEmdType 8 = DataTypeBool ∧ dm3TypeDepth 8 = 1 ∧
    emdTypeDepth (dm3ToEmdType 8) = -1 ∧
    (∀ t : Int, dm3ToEmdType t ≠ DataTypeUnknown → t ∈ [2, 3, 4, 5, 6, 7, 8, 9, 10]) := by
  refine ⟨by decide, by decide, by decide, by decide, ?_⟩
  intro t h
  unfold dm3ToEmdType at h
  simp only [List.mem_cons, List.mem_singleton, List.not_mem_nil, or_false]
  by_contra hc
  simp only [not_or] at hc
  obtain ⟨h2, h3, h4, h5, h6, h7, h8, h9, h10⟩ := hc
  simp [h2, h3, h4, h5, h6, h7, h8, h9, h10] at h
/-! ## `randomIndexes` -/

theorem randomIndexesLoop_spec (max : Int) (hmax : 0 < max) (hint : max < 2147483648)
    (count : Nat) :
    ∀ (seed : Nat) (indexes : List Int),
      (randomIndexesLoop max count seed indexes).2.length = indexes.length + count ∧
      ∀ i ∈ (randomIndexesLoop max count seed indexes).2,
        i ∈ indexes ∨ (0 ≤ i ∧ i < max) := by
  induction count with
  | zero =>
    intro seed indexes
    exact ⟨rfl, fun i hi => Or.inl hi⟩
  | succ count ih =>
    intro seed indexes
    simp only [randomIndexesLoop]
    obtain ⟨h1, h2⟩ := ih (xorshift seed)
      (indexes ++ [wrapInt32 ((xorshift seed : Int) % wrapUnsigned 4 max)])
    refine ⟨by rw [h1, List.length_append]; simp; omega, ?_⟩
    intro i hi
    rcases h2 i hi with h | h
    · rcases List.mem_append.1 h with h | h
      · exact Or.inl h
      · right
        rw [List.mem_singleton] at h
        have hu : wrapUnsigned 4 max = max := by
          unfold wrapUnsigned
          norm_num
          exact Int.emod_eq_of_lt (by omega) (by omega)
        rw [hu] at h
        have h0 : 0 ≤ (xorshift seed : Int) % max := Int.emod_nonneg _ (by omega)
        have hlt : (xorshift seed : Int) % max < max := Int.emod_lt_of_pos _ hmax
        rw [h, wrapInt32_eq_self (by omega) (by omega)]
        exact ⟨h0, hlt⟩
    · exact Or.inr h

theorem randomIndexes_consistent (st st' : RandomState) (length max : Int) (idx : List Int)
    (hst : st.consistent) (hmax : max < 2147483648)
    (h : randomIndexes st length max = some (idx, st')) :
    st'.consistent ∧ idx = st'.s_indexes ∧ st'.s_length = length ∧ st'.s_max = max := by
  unfold randomIndexes at h
  split at h
  · split at h
    · exact absurd h (by simp)
    · rename_i hlen
      split at h
      · exact absurd h (by simp)
      · simp only [Option.some.injEq, Prod.mk.injEq] at h
        obtain ⟨rfl, rfl⟩ := h
        refine ⟨⟨?_, ?_⟩, rfl, rfl, rfl⟩
        · simp only
          by_cases hpos : 0 < max
          · rw [(randomIndexesLoop_spec max hpos hmax _ _ _).1]
            simp
            omega
          · have hgen : ∀ (count seed : Nat) (indexes : List Int),
                (randomIndexesLoop max count seed indexes).2.length = indexes.length + count := by
              intro count
              induction count with
              | zero => intro seed indexes; rfl
              | succ count ih =>
                intro seed indexes
                simp only [randomIndexesLoop]
                rw [ih, List.length_append]
                simp
                omega
            rw [hgen]
            simp
            omega
        · intro hpos i hi
          simp only at hpos hi
          rcases (randomIndexesLoop_spec max hpos hmax _ _ _).2 i hi with h | h
          · exact absurd h (List.not_mem_nil _)
          · exact h
  · rename_i hc
    simp only [not_or, not_not] at hc
    simp only [Option.some.injEq, Prod.mk.injEq] at h
    obtain ⟨rfl, rfl⟩ := h
    exact ⟨hst, rfl, hc.1.symm, hc.2.symm⟩

theorem randomIndexes_defined (st : RandomState) (length max : Int) (hlen : 0 ≤ length)
    (hmax : 0 < max) (hint : max < 2147483648) :
    ∃ idx st', randomIndexes st length max = some (idx, st') := by
  unfold randomIndexes
  have hu : wrapUnsigned 4 max = max := by
    unfold wrapUnsigned
    norm_num
    exact Int.emod_eq_of_lt (by omega) (by omega)
  split
  · rw [if_neg (by omega), if_neg (by rw [hu]; omega)]
    exact ⟨_, _, rfl⟩
  · exact ⟨_, _, rfl⟩

theorem randomIndexesCalls_consistent (calls : List (Int × Int))
    (hcalls : ∀ c ∈ calls, c.2 < 2147483648) :
    ∀ st st' : RandomState, st.consistent → randomIndexesCalls calls st = some st' →
      st'.consistent := by
  induction calls with
  | nil =>
    intro st st' hst h
    simp only [randomIndexesCalls, Option.some.injEq] at h
    rw [← h]
    exact hst
  | cons c rest ih =>
    intro st st' hst h
    simp only [randomIndexesCalls] at h
    split at h
    · exact absurd h (by simp)
    · rename_i r hr
      exact ih (fun c hc => hcalls c (List.mem_cons_of_mem _ hc)) r.2 st'
        (randomIndexes_consistent st r.2 c.1 c.2 r.1 hst (hcalls c (List.mem_cons_self _ _))
          hr).1 h

theorem RandomState.consistent_initial : RandomState.initial.consistent :=
  ⟨rfl, fun h => absurd h (by decide)⟩

/-- C34: after every sequence of calls of `randomIndexes` (with `int`
arguments) that returned, a call with `length >= 0` and `max > 0` returns
exactly `length` indexes, each in `[0, max)`; and when `max` is the product
`hSize * vSize` (as `int`) of positive sizes, the position `(i / hSize,
i % hSize)` that `Frame::getDataRange` computes from an index `i` of the
result has its row in `[0, vSize)` and its column in `[0, hSize)`. -/
theorem randomIndexes_range (calls : List (Int × Int)) (st : RandomState) (length max : Int)
    (hcalls : ∀ c ∈ calls, c.2 < 2147483648)
    (hst : randomIndexesCalls calls RandomState.initial = some st)
    (hlen : 0 ≤ length) (hmax : 0 < max) (hint : max < 2147483648) :
    ∃ idx st', randomIndexes st length max = some (idx, st') ∧
      (idx.length : Int) = length ∧ (∀ i ∈ idx, 0 ≤ i ∧ i < max) ∧
      ∀ hSize vSize : Int, 0 < hSize → 0 < vSize → max = wrapInt32 (hSize * vSize) →
        ∀ i ∈ idx, 0 ≤ i.tdiv hSize ∧ i.tdiv hSize < vSize ∧
          0 ≤ i.tmod hSize ∧ i.tmod hSize < hSize := by
  have hcons := randomIndexesCalls_consistent calls hcalls _ st
    RandomState.consistent_initial hst
  obtain ⟨idx, st', h⟩ := randomIndexes_defined st length max hlen hmax hint
  obtain ⟨⟨c1, c2⟩, e1, e2, e3⟩ := randomIndexes_consistent st st' length max idx hcons hint h
  have hrange : ∀ i ∈ idx, 0 ≤ i ∧ i < max := by
    intro i hi
    rw [e1] at hi
    exact c2 (by rw [e3]; exact hmax) i hi |>.imp id (fun h => by rw [e3] at h; exact h)
  refine ⟨idx, st', h, by rw [e1, c1, e2], hrange, ?_⟩
  intro hSize vSize hh hv hprod i hi
  obtain ⟨h0, h1⟩ := hrange i hi
  have hle : max ≤ hSize * vSize := by
    rw [hprod]
    have hp : 0 < hSize * vSize := Int.mul_pos hh hv
    unfold wrapInt32
    by_cases hs : hSize * vSize < 2147483648
    · have := wrapInt32_eq_self (x := hSize * vSize) (by omega) hs
      unfold wrapInt32 at this
      rw [this]
    · have := @Int.bmod_lt (hSize * vSize) 4294967296 (by norm_num)
      omega
  rw [Int.tdiv_eq_ediv h0 (le_of_lt hh), Int.tmod_eq_emod h0 (le_of_lt hh)]
  refine ⟨Int.ediv_nonneg h0 (le_of_lt hh), ?_, Int.emod_nonneg _ (by omega),
    Int.emod_lt_of_pos _ hh⟩
  apply Int.ediv_lt_of_lt_mul hh
  rw [mul_comm]
  omega

/-- C34 (witness): after the call `randomIndexes(2, 100)`, the call
`randomIndexes(2000, 6)` for a frame of `3 x 2` pixels. -/
theorem randomIndexes_range_witness :
    ∃ idx st', randomIndexes
        { s_length := 2, s_max := 100, s_seed := 2663043926, s_indexes := [25, 26] } 2000 6
        = some (idx, st') ∧
      (idx.length : Int) = 2000 ∧ (∀ i ∈ idx, 0 ≤ i ∧ i < 6) ∧
      ∀ i ∈ idx, 0 ≤ i.tdiv 3 ∧ i.tdiv 3 < 2 ∧ 0 ≤ i.tmod 3 ∧ i.tmod 3 < 3 := by
  obtain ⟨idx, st', h1, h2, h3, h4⟩ := randomIndexes_range [(2, 100)]
    { s_length := 2, s_max := 100, s_seed := 2663043926, s_indexes := [25, 26] } 2000 6
    (by decide) (by decide) (by decide) (by decide) (by decide)
  exact ⟨idx, st', h1, h2, h3, h4 3 2 (by decide) (by decide) (by decide)⟩

/-- C32 (amended): a call of `randomIndexes` that returns leaves the static
locals such that every further call with the same arguments returns the same
sequence and leaves them as they are, for any number of such calls in a row. -/
theorem randomIndexes_repeat (st st1 : RandomState) (length max : Int) (idx : List Int)
    (h : randomIndexes st length max = some (idx, st1)) :
    randomIndexes st1 length max = some (idx, st1) ∧
    ∀ k : Nat, randomIndexesCalls (List.replicate k (length, max)) st1 = some st1 := by
  have hstep : randomIndexes st1 length max = some (idx, st1) := by
    unfold randomIndexes at h ⊢
    split at h
    · split at h
      · exact absurd h (by simp)
      · split at h
        · exact absurd h (by simp)
        · simp only [Option.some.injEq, Prod.mk.injEq] at h
          obtain ⟨rfl, rfl⟩ := h
          simp
    · rename_i hc
      simp only [Option.some.injEq, Prod.mk.injEq] at h
      obtain ⟨rfl, rfl⟩ := h
      rw [if_neg hc]
  refine ⟨hstep, ?_⟩
  intro k
  induction k with
  | zero => rfl
  | succ k ih =>
    simp only [List.replicate_succ, randomIndexesCalls, hstep]
    exact ih

/-- C32 (witness): the call `randomIndexes(2, 100)` as the first call, and the
same call again. -/
theorem randomIndexes_repeat_witness :
    randomIndexes RandomState.initial 2 100
      = some ([25, 26],
          { s_length := 2, s_max := 100, s_seed := 2663043926, s_indexes := [25, 26] }) ∧
    randomIndexes
        { s_length := 2, s_max := 100, s_seed := 2663043926, s_indexes := [25, 26] } 2 100
      = some ([25, 26],
          { s_length := 2, s_max := 100, s_seed := 2663043926, s_indexes := [25, 26] }) :=
  ⟨by decide, (randomIndexes_repeat RandomState.initial _ 2 100 [25, 26] (by decide)).1⟩

/-- C32 (counterexample): the calls `randomIndexes(2, 100)`, `randomIndexes(2,
50)` and `randomIndexes(2, 100)` in this order: the generator is not set back,
and the third call returns another sequence than the first call with the same
arguments. -/
theorem randomIndexes_repeat_counterexample :
    (randomIndexes RandomState.initial 2 100).bind (fun a =>
      (randomIndexes a.2 2 50).bind (fun b =>
        (randomIndexes b.2 2 100).map (fun c => (a.1, b.1, c.1))))
      = some ([25, 26], [16, 22], [48, 49]) := by
  decide
/-! ## `emdTypeFromString` on the decimal text of a number -/

theorem wrapSigned_eq_self (w : Nat) (x : Int) (h1 : -(2 ^ (8 * w - 1) : Int) ≤ x)
    (h2 : x < (2 ^ (8 * w - 1) : Int)) (hw : 0 < w) : wrapSigned w x = x := by
  unfold wrapSigned
  have hpow : (2 : Int) ^ (8 * w) = 2 * 2 ^ (8 * w - 1) := by
    rw [← pow_succ']
    congr 1
    omega
  have hp : (0 : Int) < 2 ^ (8 * w - 1) := by positivity
  have hcast : (((2 : Nat) ^ (8 * w) : Nat) : Int) = 2 * 2 ^ (8 * w - 1) := by
    push_cast
    exact hpow
  unfold Int.bmod
  rw [hcast]
  by_cases hx : 0 ≤ x
  · rw [Int.emod_eq_of_lt hx (by omega)]
    rw [if_pos (by omega)]
  · have hm : x % (2 * 2 ^ (8 * w - 1)) = x + 2 * 2 ^ (8 * w - 1) := by
      rw [← Int.add_mul_emod_self_left x (2 * 2 ^ (8 * w - 1)) 1, mul_one]
      exact Int.emod_eq_of_lt (by omega) (by omega)
    rw [hm, if_neg (by omega)]
    omega

/-- C33 (the code at the failing input): for the kinds `Int8`, `UInt8`,
`Int16`, `Int32` and `Int64` a text that the conversion of `QString` reads as
a number `n` of the kind yields `n`. For `UInt16`, `UInt32` and `UInt64` the
number read is stored in a signed local (`int16_t`, `int32_t`, `int64_t`): the
text `40000` yields `-25536` for `UInt16`, the text `4294967295` yields `-1`
for `UInt32`, and the text `18446744073709551615` yields `-1` for `UInt64`;
in general the result is the number read in two's complement of the width. -/
theorem emdTypeFromString_roundTrip :
    emdTypeFromString exampleQString "40000" DataTypeUInt16 = QVariant.int (-25536) ∧
    emdTypeFromString exampleQString "4294967295" DataTypeUInt32 = QVariant.int (-1) ∧
    emdTypeFromString exampleQString "18446744073709551615" DataTypeUInt64
      = QVariant.longLong (-1) ∧
    emdTypeFromString exampleQString "32767" DataTypeUInt16 = QVariant.int 32767 ∧
    (∀ (qs : QStringConv) (s : String) (n : Int), qs.toUShort s = some n →
      emdTypeFromString qs s DataTypeUInt16 = QVariant.int (wrapSigned 2 n)) ∧
    (∀ (qs : QStringConv) (s : String) (n : Int), qs.toUInt s = some n →
      emdTypeFromString qs s DataTypeUInt32 = QVariant.int (wrapSigned 4 n)) ∧
    (∀ (qs : QStringConv) (s : String) (n : Int), qs.toULong s = some n →
      emdTypeFromString qs s DataTypeUInt64 = QVariant.longLong (wrapSigned 8 n)) ∧
    (∀ (qs : QStringConv) (s : String) (n : Int), qs.toShort s = some n →
      -128 ≤ n ∧ n < 128 → emdTypeFromString qs s DataTypeInt8 = QVariant.int n) ∧
    (∀ (qs : QStringConv) (s : String) (n : Int), qs.toUShort s = some n →
      0 ≤ n ∧ n < 256 → emdTypeFromString qs s DataTypeUInt8 = QVariant.int n) ∧
    (∀ (qs : QStringConv) (s : String) (n : Int), qs.toShort s = some n →
      -32768 ≤ n ∧ n < 32768 → emdTypeFromString qs s DataTypeInt16 = QVariant.int n) ∧
    (∀ (qs : QStringConv) (s : String) (n : Int), qs.toInt s = some n →
      -2147483648 ≤ n ∧ n < 2147483648 →
      emdTypeFromString qs s DataTypeInt32 = QVariant.int n) ∧
    (∀ (qs : QStringConv) (s : String) (n : Int), qs.toLong s = some n →
      -9223372036854775808 ≤ n ∧ n < 9223372036854775808 →
      emdTypeFromString qs s DataTypeInt64 = QVariant.longLong n) := by
  refine ⟨by decide, by decide, by decide, by decide, ?_, ?_, ?_, ?_, ?_, ?_, ?_, ?_⟩
  · intro qs s n h
    simp only [emdTypeFromString, h]
  · intro qs s n h
    simp only [emdTypeFromString, h]
    rfl
  · intro qs s n h
    simp only [emdTypeFromString, h]
    rfl
  · intro qs s n h hn
    simp only [emdTypeFromString, h]
    rw [wrapSigned_eq_self 1 n (by norm_num; omega) (by norm_num; omega) (by decide)]
  · intro qs s n h hn
    simp only [emdTypeFromString, h]
    unfold wrapUnsigned
    rw [Int.emod_eq_of_lt hn.1 (by norm_num; omega)]
  · intro qs s n h hn
    simp only [emdTypeFromString, h]
    rw [wrapSigned_eq_self 2 n (by norm_num; omega) (by norm_num; omega) (by decide)]
  · intro qs s n h hn
    simp only [emdTypeFromString, h]
    rw [wrapInt32_eq_self hn.1 hn.2]
  · intro qs s n h hn
    simp only [emdTypeFromString, h]
    have : wrapInt64 n = wrapSigned 8 n := rfl
    rw [this, wrapSigned_eq_self 8 n (by norm_num; omega) (by norm_num; omega) (by decide)]
/-! ## The stacks of the walk of `loadDm3` -/

theorem FileManager.popStacks_stacksOk (l : List Int) :
    ∀ s : FileManager.Dm3Loop, s.tagsRemainingStack = l → s.stacksOk →
      ∃ s1, FileManager.popStacks l s = some s1 ∧ s1.stacksOk := by
  induction l with
  | nil =>
    intro s _ hs
    exact ⟨s, rfl, hs⟩
  | cons top rest ih =>
    intro s hl hs
    simp only [FileManager.popStacks]
    split
    · obtain ⟨h1, h2⟩ := hs
      rw [hl] at h1 h2
      simp only [List.length_cons] at h1 h2
      cases hn : s.nodeStack with
      | nil => rw [hn] at h1; simp at h1
      | cons n nodes =>
        cases hu : s.utcStack with
        | nil => rw [hu] at h2; simp at h2
        | cons u utcs =>
          simp only
          apply ih
          · rfl
          · rw [hn] at h1
            rw [hu] at h2
            simp only [List.length_cons] at h1 h2
            exact ⟨by simp only; omega, by simp only; omega⟩
    · exact ⟨s, rfl, hs⟩

theorem FileManager.readSectionHeader_stacksOk (bytes : List Nat) (s s1 : FileManager.Dm3Loop)
    (t : Int) (name : String) (hs : s.stacksOk)
    (h : FileManager.readSectionHeader bytes s = some (t, name, s1)) : s1.stacksOk := by
  obtain ⟨-, h2, -, h4, h5, -, -⟩ := FileManager.readSectionHeader_frame bytes s s1 t name h
  unfold FileManager.Dm3Loop.stacksOk at hs ⊢
  rw [h2, h4, h5]
  exact hs

theorem FileManager.openDirectory_stacksOk (bytes : List Nat) (name : String)
    (s s2 : FileManager.Dm3Loop) (hs : s.stacksOk)
    (h : FileManager.openDirectory bytes name s = some s2) : s2.stacksOk := by
  unfold FileManager.openDirectory at h
  simp only at h
  split at h
  · exact absurd h (by simp)
  · split at h
    · exact absurd h (by simp)
    · simp only [Option.some.injEq] at h
      subst h
      obtain ⟨h1, h2⟩ := hs
      exact ⟨by simp only [List.length_cons]; omega, by simp only [List.length_cons]; omega⟩

theorem FileManager.readTag_stacksOk (ft : QtConv) (bytes : List Nat) (name : String)
    (s : FileManager.Dm3Loop) (p : FileManager.Dm3Pass) (flag : Bool) (hs : s.stacksOk)
    (h : FileManager.readTag ft bytes name s = some (p, flag)) : p.locals.stacksOk := by
  unfold FileManager.readTag at h
  split at h
  · exact absurd h (by simp)
  · split at h
    · exact absurd h (by simp)
    · simp only at h
      split at h
      · exact absurd h (by simp)
      · split at h
        · simp only [Option.some.injEq, Prod.mk.injEq] at h
          obtain ⟨rfl, -⟩ := h
          exact hs
        · split at h
          · exact absurd h (by simp)
          · split at h
            · exact absurd h (by simp)
            · split at h
              · exact absurd h (by simp)
              · simp only [Option.some.injEq, Prod.mk.injEq] at h
                obtain ⟨rfl, -⟩ := h
                exact hs
              · simp only [Option.some.injEq, Prod.mk.injEq] at h
                obtain ⟨rfl, -⟩ := h
                exact hs

theorem FileManager.loadDm3Pass_stacksOk (ft : QtConv) (bytes : List Nat)
    (s : FileManager.Dm3Loop) (p : FileManager.Dm3Pass) (hs : s.stacksOk)
    (h : FileManager.loadDm3Pass ft bytes s = some p) : p.locals.stacksOk := by
  unfold FileManager.loadDm3Pass at h
  split at h
  · exact absurd h (by simp)
  · rename_i t name s1 hh
    have h1 := FileManager.readSectionHeader_stacksOk bytes s s1 t name hs hh
    split at h
    · split at h
      · exact absurd h (by simp)
      · rename_i s2 hd
        have h2 := FileManager.openDirectory_stacksOk bytes name s1 s2 h1 hd
        obtain ⟨s3, e3, h3⟩ := FileManager.popStacks_stacksOk _ s2 rfl h2
        rw [e3] at h
        simp only [Option.map_some', Option.some.injEq] at h
        subst h
        exact h3
    · split at h
      · split at h
        · exact absurd h (by simp)
        · rename_i s2 hr
          have h2 := FileManager.readTag_stacksOk ft bytes name s1 _ _ h1 hr
          obtain ⟨s3, e3, h3⟩ := FileManager.popStacks_stacksOk _ s2 rfl h2
          rw [e3] at h
          simp only [Option.map_some', Option.some.injEq] at h
          subst h
          exact h3
        · rename_i pass flag hr
          simp only [Option.some.injEq] at h
          subst h
          exact FileManager.readTag_stacksOk ft bytes name s1 _ _ h1 hr
      · split at h
        · obtain ⟨s3, e3, h3⟩ := FileManager.popStacks_stacksOk _
            { s1 with endOfFile := true } rfl h1
          rw [e3] at h
          simp only [Option.map_some', Option.some.injEq] at h
          subst h
          exact h3
        · obtain ⟨s3, e3, h3⟩ := FileManager.popStacks_stacksOk _
            { s1 with readError := true
                      warnings := s1.warnings ++ ["Tag type read error: " ++ toString t] }
            rfl h1
          rw [e3] at h
          simp only [Option.map_some', Option.some.injEq] at h
          subst h
          exact h3

theorem FileManager.loadDm3Trace_stacksOk (ft : QtConv) (bytes : List Nat) (fuel : Nat) :
    ∀ s : FileManager.Dm3Loop, s.stacksOk →
      ∀ st ∈ FileManager.loadDm3Trace ft bytes fuel s, st.stacksOk := by
  induction fuel with
  | zero =>
    intro s _ st hst
    exact absurd hst (List.not_mem_nil _)
  | succ fuel ih =>
    intro s hs st hst
    simp only [FileManager.loadDm3Trace] at hst
    split at hst
    · exact absurd hst (List.not_mem_nil _)
    · rcases List.mem_cons.1 hst with rfl | hst
      · exact hs
      · split at hst
        · rename_i s' hp
          exact ih s' (FileManager.loadDm3Pass_stacksOk ft bytes s _ hs hp) st hst
        · exact absurd hst (List.not_mem_nil _)

/-- C39: for every stream, at the start of every pass of the loop of `loadDm3`
(from the locals that `loadDm3` sets before the loop) `nodeStack` holds one
entry more than `tagsRemainingStack` and `utcStack`, which have the same size.
So in the pass `nodeStack` has a top when a node is attached to it, and
wherever the pass reaches the loop that pops the stacks, `nodeStack` and
`utcStack` are not empty when they are popped: the loop has a result. -/
theorem loadDm3_stack_invariant (ft : QtConv) (bytes : List Nat) (fuel pos : Nat)
    (model : Model) (dm3Root : List Nat) (tagCount : Int) :
    ∀ st ∈ FileManager.loadDm3Trace ft bytes fuel
        { pos := pos, model := model, nodeStack := [dm3Root], tagsRemainingStack := [],
          utcStack := [], tagsRemaining := tagCount, unnamedTagCount := 1, tagName := none,
          dataList := [], dataTypeList := [], endOfFile := false, readError := false,
          warnings := [] },
      st.nodeStack.length = st.tagsRemainingStack.length + 1 ∧
      st.utcStack.length = st.tagsRemainingStack.length ∧
      ∀ (t : Int) (name : String) (s1 : FileManager.Dm3Loop),
        FileManager.readSectionHeader bytes st = some (t, name, s1) →
        s1.nodeStack.head?.isSome = true ∧
        (∀ s2, FileManager.openDirectory bytes name s1 = some s2 →
          (FileManager.popStacks s2.tagsRemainingStack s2).isSome = true) ∧
        (∀ s2, FileManager.readTag ft bytes name s1 = some (FileManager.Dm3Pass.next s2, true) →
          (FileManager.popStacks s2.tagsRemainingStack s2).isSome = true) ∧
        (FileManager.popStacks s1.tagsRemainingStack { s1 with endOfFile := true }).isSome
          = true ∧
        (∀ w, (FileManager.popStacks s1.tagsRemainingStack
          { s1 with readError := true, warnings := w }).isSome = true) := by
  intro st hst
  have h0 : FileManager.Dm3Loop.stacksOk
      { pos := pos, model := model, nodeStack := [dm3Root], tagsRemainingStack := [],
        utcStack := [], tagsRemaining := tagCount, unnamedTagCount := 1, tagName := none,
        dataList := [], dataTypeList := [], endOfFile := false, readError := false,
        warnings := [] } := ⟨rfl, rfl⟩
  have hs := FileManager.loadDm3Trace_stacksOk ft bytes fuel _ h0 st hst
  refine ⟨hs.1, hs.2, ?_⟩
  intro t name s1 hh
  have h1 := FileManager.readSectionHeader_stacksOk bytes st s1 t name hs hh
  have hpop : ∀ s2 : FileManager.Dm3Loop, s2.stacksOk →
      (FileManager.popStacks s2.tagsRemainingStack s2).isSome = true := by
    intro s2 h2
    obtain ⟨s3, e3, -⟩ := FileManager.popStacks_stacksOk _ s2 rfl h2
    rw [e3]
    rfl
  refine ⟨?_, ?_, ?_, hpop { s1 with endOfFile := true } h1, ?_⟩
  · cases hn : s1.nodeStack with
    | nil =>
      have := h1.1
      rw [hn] at this
      simp at this
    | cons n ns => rfl
  · intro s2 hd
    exact hpop s2 (FileManager.openDirectory_stacksOk bytes name s1 s2 h1 hd)
  · intro s2 hr
    exact hpop s2 (FileManager.readTag_stacksOk ft bytes name s1 _ _ h1 hr)
  · intro w
    exact hpop { s1 with readError := true, warnings := w } h1

theorem getD_mem_of_lt {α : Type} (l : List α) (i : Nat) (d : α) (h : i < l.length) :
    l.getD i d ∈ l := by
  rw [List.getD_eq_getElem l d h]
  exact List.getElem_mem h

/-- C39 (witness): the second pass over the stream `dm3Nested`, which starts
inside the directory `A`: two nodes on `nodeStack`, one entry on each of the
other stacks. -/
theorem loadDm3_stack_invariant_witness :
    (dm3NestedTrace.get? 1).map
        (fun st => (st.nodeStack.length, st.tagsRemainingStack.length, st.utcStack.length))
      = some (2, 1, 1) ∧
    (dm3NestedTrace.getD 1 (dm3Start 2)).nodeStack.length
      = (dm3NestedTrace.getD 1 (dm3Start 2)).tagsRemainingStack.length + 1 ∧
    (dm3NestedTrace.getD 1 (dm3Start 2)).utcStack.length
      = (dm3NestedTrace.getD 1 (dm3Start 2)).tagsRemainingStack.length :=
  have h := loadDm3_stack_invariant exampleQt dm3Nested 5 18 (dm3Start 2).model [5] 2
    (dm3NestedTrace.getD 1 (dm3Start 2))
    (getD_mem_of_lt dm3NestedTrace 1 (dm3Start 2) (by decide!))
  ⟨by decide!, h.1, h.2.1⟩
/-! ## The numbering of the entries without name in the walk of `loadDm3` -/

theorem FileManager.readSectionHeader_counter (bytes : List Nat) (s sh : FileManager.Dm3Loop)
    (t : Int) (name : String)
    (h : FileManager.readSectionHeader bytes s = some (t, name, sh)) :
    ∃ nm, FileManager.rawName bytes s = some nm ∧
      name = nm.getD (toString s.unnamedTagCount) ∧
      sh.unnamedTagCount
        = (if nm.isSome then s.unnamedTagCount else wrapInt32 (s.unnamedTagCount + 1)) := by
  unfold FileManager.readSectionHeader at h
  unfold FileManager.rawName
  simp only at h ⊢
  split at h
  · rename_i hpos
    rw [if_pos hpos]
    split at h
    · exact absurd h (by simp)
    · rename_i tagName pos hraw
      simp only [Option.some.injEq, Prod.mk.injEq] at h
      obtain ⟨-, rfl, rfl⟩ := h
      simp only [hraw]
      exact ⟨_, rfl, rfl, rfl⟩
  · rename_i hpos
    rw [if_neg hpos]
    simp only [Option.some.injEq, Prod.mk.injEq] at h
    obtain ⟨-, rfl, rfl⟩ := h
    exact ⟨none, rfl, rfl, rfl⟩

theorem FileManager.rawSectionAt_named (bytes : List Nat) (s : FileManager.Dm3Loop)
    (rs : RawSection) (h : FileManager.rawSectionAt bytes s = some rs) :
    FileManager.sectionAt bytes s = some (rs.named s.unnamedTagCount) := by
  unfold FileManager.rawSectionAt at h
  unfold FileManager.sectionAt
  split at h
  · rename_i t name sh nm hh hn
    obtain ⟨nm', e1, e2, -⟩ := FileManager.readSectionHeader_counter bytes s sh t name hh
    rw [hn] at e1
    obtain rfl := Option.some.inj e1
    rw [hh]
    simp only
    split at h
    · rename_i ht
      rw [if_pos ht]
      simp only [Option.some.injEq] at h
      subst h
      simp only [RawSection.named, e2]
    · rename_i ht
      rw [if_neg ht]
      split at h
      · rename_i ht1
        rw [if_pos ht1]
        simp only [Option.some.injEq] at h
        subst h
        simp only [RawSection.named, e2]
      · exact absurd h (by simp)
  · exact absurd h (by simp)

theorem FileManager.openDirectory_counters (bytes : List Nat) (name : String)
    (sh s2 : FileManager.Dm3Loop) (h : FileManager.openDirectory bytes name sh = some s2) :
    s2.tagsRemaining = (FileManager.streamInt bytes
      (FileManager.streamInt bytes (FileManager.streamInt bytes sh.pos 1 true false).2
        1 true false).2 4 true false).1 ∧
    s2.tagsRemainingStack = sh.tagsRemaining :: sh.tagsRemainingStack ∧
    s2.unnamedTagCount = 1 ∧ s2.utcStack = sh.unnamedTagCount :: sh.utcStack := by
  unfold FileManager.openDirectory at h
  simp only at h
  split at h
  · exact absurd h (by simp)
  · split at h
    · exact absurd h (by simp)
    · simp only [Option.some.injEq] at h
      subst h
      exact ⟨rfl, rfl, rfl, rfl⟩

theorem FileManager.readTag_counters (ft : QtConv) (bytes : List Nat) (name : String)
    (sh s2 : FileManager.Dm3Loop) (flag : Bool)
    (h : FileManager.readTag ft bytes name sh = some (FileManager.Dm3Pass.next s2, flag)) :
    (flag = false ∧ s2.readError = true) ∨
    (flag = true ∧ s2.tagsRemaining = wrapInt32 (sh.tagsRemaining - 1) ∧
      s2.tagsRemainingStack = sh.tagsRemainingStack ∧
      s2.unnamedTagCount = sh.unnamedTagCount ∧ s2.utcStack = sh.utcStack) := by
  unfold FileManager.readTag at h
  split at h
  · exact absurd h (by simp)
  · split at h
    · exact absurd h (by simp)
    · simp only at h
      split at h
      · exact absurd h (by simp)
      · split at h
        · simp only [Option.some.injEq, Prod.mk.injEq, FileManager.Dm3Pass.next.injEq] at h
          obtain ⟨rfl, rfl⟩ := h
          exact Or.inl ⟨rfl, rfl⟩
        · split at h
          · exact absurd h (by simp)
          · split at h
            · exact absurd h (by simp)
            · split at h
              · exact absurd h (by simp)
              · simp only [Option.some.injEq, Prod.mk.injEq, reduceCtorEq, false_and] at h
              · simp only [Option.some.injEq, Prod.mk.injEq,
                  FileManager.Dm3Pass.next.injEq] at h
                obtain ⟨rfl, rfl⟩ := h
                exact Or.inr ⟨rfl, rfl, rfl, rfl, rfl⟩

/-- A pass of the loop of `loadDm3` over the start of a directory, seen by the
counters: the locals before the loop that pops the stacks. -/
theorem FileManager.loadDm3Pass_counters_directory (ft : QtConv) (bytes : List Nat)
    (s s1 : FileManager.Dm3Loop) (name : Option String) (count : Int)
    (hsec : FileManager.rawSectionAt bytes s = some (RawSection.directory name count))
    (hpass : FileManager.loadDm3Pass ft bytes s = some (FileManager.Dm3Pass.next s1)) :
    ∃ s2, FileManager.popStacks s2.tagsRemainingStack s2 = some s1 ∧
      s2.tagsRemaining = count ∧ count < 2147483648 ∧
      s2.tagsRemainingStack = s.tagsRemaining :: s.tagsRemainingStack ∧
      s2.unnamedTagCount = 1 ∧
      s2.utcStack = (if name.isSome then s.unnamedTagCount
        else wrapInt32 (s.unnamedTagCount + 1)) :: s.utcStack := by
  unfold FileManager.rawSectionAt at hsec
  unfold FileManager.loadDm3Pass at hpass
  cases hh : FileManager.readSectionHeader bytes s with
  | none => rw [hh] at hsec; exact absurd hsec (by simp)
  | some r =>
    obtain ⟨t, nm, sh⟩ := r
    obtain ⟨nm', e1, -, e3⟩ := FileManager.readSectionHeader_counter bytes s sh t nm hh
    rw [hh, e1] at hsec
    rw [hh] at hpass
    simp only at hsec hpass
    obtain ⟨-, -, f3, f4, f5, -, -⟩ := FileManager.readSectionHeader_frame bytes s sh t nm hh
    by_cases ht : t = 20
    · rw [if_pos ht] at hsec hpass
      simp only [Option.some.injEq, RawSection.directory.injEq] at hsec
      obtain ⟨rfl, hcount⟩ := hsec
      cases ho : FileManager.openDirectory bytes nm sh with
      | none => rw [ho] at hpass; exact absurd hpass (by simp)
      | some s2 =>
        rw [ho] at hpass
        simp only [Option.map_eq_some', FileManager.Dm3Pass.next.injEq, exists_eq_right] at hpass
        obtain ⟨g1, g2, g3, g4⟩ := FileManager.openDirectory_counters bytes nm sh s2 ho
        refine ⟨s2, hpass, by rw [g1]; exact hcount, ?_, by rw [g2, f3, f4], g3,
          by rw [g4, e3, f5]⟩
        rw [← hcount]
        exact FileManager.streamInt_range _ _
    · rw [if_neg ht] at hsec
      split at hsec <;> exact absurd hsec (by simp)

/-- A pass of the loop of `loadDm3` over a leaf tag, seen by the counters: the
locals before the loop that pops the stacks. -/
theorem FileManager.loadDm3Pass_counters_tag (ft : QtConv) (bytes : List Nat)
    (s s1 : FileManager.Dm3Loop) (name : Option String)
    (hsec : FileManager.rawSectionAt bytes s = some (RawSection.tag name))
    (hpass : FileManager.loadDm3Pass ft bytes s = some (FileManager.Dm3Pass.next s1))
    (hne : s1.readError = false) :
    ∃ s2, FileManager.popStacks s2.tagsRemainingStack s2 = some s1 ∧
      s2.tagsRemaining = wrapInt32 (s.tagsRemaining - 1) ∧
      s2.tagsRemainingStack = s.tagsRemainingStack ∧
      s2.unnamedTagCount = (if name.isSome then s.unnamedTagCount
        else wrapInt32 (s.unnamedTagCount + 1)) ∧
      s2.utcStack = s.utcStack := by
  unfold FileManager.rawSectionAt at hsec
  unfold FileManager.loadDm3Pass at hpass
  cases hh : FileManager.readSectionHeader bytes s with
  | none => rw [hh] at hsec; exact absurd hsec (by simp)
  | some r =>
    obtain ⟨t, nm, sh⟩ := r
    obtain ⟨nm', e1, -, e3⟩ := FileManager.readSectionHeader_counter bytes s sh t nm hh
    rw [hh, e1] at hsec
    rw [hh] at hpass
    simp only at hsec hpass
    obtain ⟨-, -, f3, f4, f5, -, -⟩ := FileManager.readSectionHeader_frame bytes s sh t nm hh
    by_cases ht : t = 20
    · rw [if_pos ht] at hsec
      exact absurd hsec (by simp)
    · rw [if_neg ht] at hsec hpass
      by_cases ht1 : t = 21
      · rw [if_pos ht1] at hsec hpass
        simp only [Option.some.injEq, RawSection.tag.injEq] at hsec
        subst hsec
        cases hr : FileManager.readTag ft bytes nm sh with
        | none => rw [hr] at hpass; exact absurd hpass (by simp)
        | some r =>
          obtain ⟨pass, flag⟩ := r
          rw [hr] at hpass
          cases pass with
          | exit e sx =>
            simp only [Option.some.injEq, reduceCtorEq] at hpass
          | next s2 =>
            rcases FileManager.readTag_counters ft bytes nm sh s2 flag hr with
              ⟨hf, he⟩ | ⟨hf, a1, a2, a3, a4⟩
            · subst hf
              simp only [Option.some.injEq, FileManager.Dm3Pass.next.injEq] at hpass
              subst hpass
              rw [he] at hne
              exact absurd hne (by simp)
            · subst hf
              simp only [Option.map_eq_some', FileManager.Dm3Pass.next.injEq,
                exists_eq_right] at hpass
              exact ⟨s2, hpass, by rw [a1, f3], by rw [a2, f4], by rw [a3, e3],
                by rw [a4, f5]⟩
      · rw [if_neg ht1] at hsec
        exact absurd hsec (by simp)

theorem RawTree.rawSections_ne_nil (e : RawTree) : e.sections ≠ [] := by
  cases e <;> simp [RawTree.sections]

theorem RawTree.rawSectionsList_eq_nil (es : List RawTree) :
    RawTree.sectionsList es = [] ↔ es = [] := by
  cases es with
  | nil => simp [RawTree.sectionsList]
  | cons e es => simp [RawTree.sectionsList, RawTree.rawSections_ne_nil]

theorem RawTree.length_le_sectionsList (es : List RawTree) :
    es.length ≤ (RawTree.sectionsList es).length := by
  induction es with
  | nil => exact le_refl _
  | cons e es ih =>
    simp only [RawTree.sectionsList, List.length_cons, List.length_append]
    have : 1 ≤ e.sections.length := by
      cases h : e.sections with
      | nil => exact absurd h (RawTree.rawSections_ne_nil e)
      | cons a l => simp
    omega

theorem RawTree.namedList_length (es : List RawTree) :
    ∀ c : Int, (RawTree.namedList es c).length = es.length := by
  induction es with
  | nil => intro c; rfl
  | cons e es ih =>
    intro c
    simp only [RawTree.namedList, List.length_cons, ih]

theorem FileManager.normalizeCounters_single (f : Int × List RawTree) :
    FileManager.normalizeCounters [f] = [f] := by
  obtain ⟨p, es⟩ := f
  cases es <;> rfl

theorem FileManager.normalizeCounters_length_le (frames : FileManager.Dm3Counters) :
    (FileManager.normalizeCounters frames).length ≤ frames.length := by
  induction frames with
  | nil => exact le_refl _
  | cons f rest ih =>
    cases rest with
    | nil => rw [FileManager.normalizeCounters_single]
    | cons g rest' =>
      obtain ⟨p, es⟩ := f
      cases es with
      | nil =>
        simp only [FileManager.normalizeCounters, List.length_cons] at ih ⊢
        omega
      | cons e es' => exact le_refl _

theorem FileManager.normalizeCounters_idem (frames : FileManager.Dm3Counters) :
    FileManager.normalizeCounters (FileManager.normalizeCounters frames)
      = FileManager.normalizeCounters frames := by
  induction frames with
  | nil => rfl
  | cons f rest ih =>
    cases rest with
    | nil => rw [FileManager.normalizeCounters_single, FileManager.normalizeCounters_single]
    | cons g rest' =>
      obtain ⟨p, es⟩ := f
      cases es with
      | nil => simp only [FileManager.normalizeCounters, ih]
      | cons e es' => rfl

theorem FileManager.normalizedCounters_head (c : Int) (g : Int × List RawTree)
    (rest : FileManager.Dm3Counters)
    (h : FileManager.normalizeCounters ((c, []) :: g :: rest) = (c, []) :: g :: rest) :
    False := by
  have := FileManager.normalizeCounters_length_le (g :: rest)
  simp only [FileManager.normalizeCounters] at h
  rw [h] at this
  simp at this

theorem FileManager.countersSections_normalize (frames : FileManager.Dm3Counters) :
    FileManager.countersSections (FileManager.normalizeCounters frames)
      = FileManager.countersSections frames := by
  induction frames with
  | nil => rfl
  | cons f rest ih =>
    cases rest with
    | nil => rw [FileManager.normalizeCounters_single]
    | cons g rest' =>
      obtain ⟨p, es⟩ := f
      cases es with
      | nil =>
        simp only [FileManager.normalizeCounters, ih]
        simp [FileManager.countersSections, RawTree.sectionsList]
      | cons e es' => rfl

theorem FileManager.countersNamed_normalize (frames : FileManager.Dm3Counters) :
    FileManager.countersNamed (FileManager.normalizeCounters frames)
      = FileManager.countersNamed frames := by
  induction frames with
  | nil => rfl
  | cons f rest ih =>
    cases rest with
    | nil => rw [FileManager.normalizeCounters_single]
    | cons g rest' =>
      obtain ⟨p, es⟩ := f
      cases es with
      | nil =>
        simp only [FileManager.normalizeCounters, ih]
        simp [FileManager.countersNamed, RawTree.namedList, TagTree.sectionsList]
      | cons e es' => rfl

theorem FileManager.popStacks_counters (B : Int) (hB : B < 2147483648)
    (frames : FileManager.Dm3Counters) :
    ∀ s s1 : FileManager.Dm3Loop, FileManager.CountersOk s frames B →
      FileManager.popStacks s.tagsRemainingStack s = some s1 →
      FileManager.CountersOk s1 (FileManager.normalizeCounters frames) B := by
  induction frames with
  | nil =>
    intro s s1 h _
    exact absurd h.2 (by simp)
  | cons f rest ih =>
    intro s s1 h hp
    obtain ⟨hb, h1, h2, h3, h4⟩ := h
    cases rest with
    | nil =>
      simp only [List.map_nil] at h3
      rw [FileManager.normalizeCounters_single]
      rw [h3] at hp
      simp only [FileManager.popStacks, Option.some.injEq] at hp
      subst hp
      exact ⟨hb, h1, h2, by simpa using h3, h4⟩
    | cons g rest' =>
      obtain ⟨c, es⟩ := f
      cases es with
      | nil =>
        simp only [List.length_nil, Nat.cast_zero] at h2
        simp only [List.map_cons] at h3 h4
        rw [h3] at hp
        simp only [FileManager.popStacks, h2, if_true, h4] at hp
        split at hp
        · rename_i x nodes utc utcs hn hu
          simp only [List.cons.injEq] at hu
          obtain ⟨rfl, rfl⟩ := hu
          have hg := hb g (List.mem_cons_of_mem _ (List.mem_cons_self _ _))
          have hlen := RawTree.length_le_sectionsList g.2
          have hwrap : wrapInt32 ((g.2.length : Int) + 1 - 1) = g.2.length := by
            rw [add_sub_cancel_right]
            exact wrapInt32_eq_self (by omega) (by omega)
          simp only [FileManager.normalizeCounters]
          exact ih
            { s with nodeStack := nodes
                     tagsRemaining := wrapInt32 ((g.2.length : Int) + 1 - 1)
                     tagsRemainingStack := rest'.map (fun g => (g.2.length : Int) + 1)
                     unnamedTagCount := g.1
                     utcStack := rest'.map Prod.fst } s1
            ⟨fun f hf => hb f (List.mem_cons_of_mem _ hf), rfl, hwrap, rfl, rfl⟩ hp
        · exact absurd hp (by simp)
      | cons e es' =>
        rw [h3] at hp
        have hne : ¬ s.tagsRemaining = 0 := by
          rw [h2]
          simp only [List.length_cons]
          push_cast
          omega
        simp only [List.map_cons, FileManager.popStacks, if_neg hne, Option.some.injEq] at hp
        subst hp
        exact ⟨hb, h1, h2, h3, h4⟩

/-- The walk of `loadDm3` names the entries by the numbering: the sections that
the passes read are those of the open directories with the names of the
numbering. -/
theorem FileManager.walk_counters (ft : QtConv) (bytes : List Nat) (B : Int)
    (hB : B < 2147483648) :
    ∀ (n : Nat) (s s' : FileManager.Dm3Loop) (frames : FileManager.Dm3Counters),
      FileManager.CountersOk s frames B → FileManager.normalizeCounters frames = frames →
      FileManager.rawSectionsFrom ft bytes n s
        = some (FileManager.countersSections frames, s') →
      FileManager.sectionsFrom ft bytes n s = some (FileManager.countersNamed frames, s') := by
  intro n
  induction n with
  | zero =>
    intro s s' frames hok hnorm hsec
    simp only [FileManager.rawSectionsFrom, Option.some.injEq, Prod.mk.injEq] at hsec
    obtain ⟨hs, rfl⟩ := hsec
    cases frames with
    | nil => exact absurd hok.2 (by simp)
    | cons f rest =>
      obtain ⟨c, es⟩ := f
      simp only [FileManager.countersSections] at hs
      have hes : es = [] := (RawTree.rawSectionsList_eq_nil es).1 (List.append_eq_nil.1 hs.symm).1
      subst hes
      cases rest with
      | nil => rfl
      | cons g rest' => exact (FileManager.normalizedCounters_head c g rest' hnorm).elim
  | succ n ih =>
    intro s s' frames hok hnorm hsec
    cases frames with
    | nil => exact absurd hok.2 (by simp)
    | cons f rest =>
      obtain ⟨c0, es0⟩ := f
      simp only [FileManager.rawSectionsFrom] at hsec
      simp only [FileManager.sectionsFrom]
      split at hsec
      · exact absurd hsec (by simp)
      · rename_i hflags
        rw [if_neg hflags]
        split at hsec
        · rename_i sec s1 hsa hpa
          split at hsec
          · exact absurd hsec (by simp)
          · rename_i hre
            have hre' : s1.readError = false := by simpa using hre
            simp only [Option.map_eq_some', Prod.mk.injEq, Prod.exists] at hsec
            obtain ⟨secs', sx, hrun, hsecs, rfl⟩ := hsec
            obtain ⟨hb, h1, h2, h3, h4⟩ := hok
            simp only at h1 h2
            have hnamed := FileManager.rawSectionAt_named bytes s sec hsa
            rw [hnamed, hpa]
            simp only [hre', Bool.false_eq_true, if_false]
            have hb0 := hb (c0, es0) (List.mem_cons_self _ _)
            simp only at hb0
            cases es0 with
            | nil =>
              cases rest with
              | nil => simp [FileManager.countersSections, RawTree.sectionsList] at hsecs
              | cons g rest' =>
                exact (FileManager.normalizedCounters_head c0 g rest' hnorm).elim
            | cons e r =>
              have hlenr := RawTree.length_le_sectionsList r
              cases e with
              | tag name =>
                simp only [FileManager.countersSections, RawTree.sectionsList,
                  RawTree.sections, List.cons_append, List.nil_append, List.cons.injEq] at hsecs
                obtain ⟨rfl, hsecs⟩ := hsecs
                simp only [RawTree.sectionsList, RawTree.sections, List.cons_append,
                  List.nil_append, List.length_cons] at hb0
                push_cast at hb0
                obtain ⟨s2, hpop, g1, g2, g3, g4⟩ :=
                  FileManager.loadDm3Pass_counters_tag ft bytes s s1 name hsa hpa hre'
                have hc : (if name.isSome then s.unnamedTagCount
                    else wrapInt32 (s.unnamedTagCount + 1))
                    = (if (RawTree.tag name).hasName then c0 else c0 + 1) := by
                  rw [h1]
                  simp only [RawTree.hasName]
                  split
                  · rfl
                  · exact wrapInt32_eq_self (by omega) (by omega)
                have hok2 : FileManager.CountersOk s2
                    ((if (RawTree.tag name).hasName then c0 else c0 + 1, r) :: rest) B := by
                  refine ⟨?_, by rw [g3, hc], ?_, by rw [g2, h3], by rw [g4, h4]⟩
                  · intro f hf
                    rcases List.mem_cons.1 hf with rfl | hf
                    · simp only
                      split <;> constructor <;> omega
                    · exact hb f (List.mem_cons_of_mem _ hf)
                  · rw [g1, h2]
                    simp only [List.length_cons]
                    push_cast
                    rw [add_sub_cancel_right]
                    exact wrapInt32_eq_self (by omega) (by omega)
                have hok1 := FileManager.popStacks_counters B hB _ s2 s1 hok2 hpop
                have := ih s1 sx _ hok1 (FileManager.normalizeCounters_idem _)
                  (by rw [FileManager.countersSections_normalize, hrun, hsecs]; rfl)
                rw [this, FileManager.countersNamed_normalize]
                simp only [Option.map_some', RawSection.named, h1, FileManager.countersNamed,
                  RawTree.namedList, RawTree.named, TagTree.sectionsList, TagTree.sections,
                  List.cons_append, List.nil_append]
              | directory name sub =>
                simp only [FileManager.countersSections, RawTree.sectionsList,
                  RawTree.sections, List.cons_append, List.cons.injEq] at hsecs
                obtain ⟨rfl, hsecs⟩ := hsecs
                simp only [RawTree.sectionsList, RawTree.sections, List.cons_append,
                  List.length_cons, List.length_append] at hb0
                push_cast at hb0
                obtain ⟨s2, hpop, g1, -, g2, g3, g4⟩ :=
                  FileManager.loadDm3Pass_counters_directory ft bytes s s1 name sub.length
                    hsa hpa
                have hc : (if name.isSome then s.unnamedTagCount
                    else wrapInt32 (s.unnamedTagCount + 1))
                    = (if (RawTree.directory name sub).hasName then c0 else c0 + 1) := by
                  rw [h1]
                  simp only [RawTree.hasName]
                  split
                  · rfl
                  · exact wrapInt32_eq_self (by omega) (by omega)
                have hok2 : FileManager.CountersOk s2
                    ((1, sub) ::
                      (if (RawTree.directory name sub).hasName then c0 else c0 + 1, r) :: rest)
                    B := by
                  refine ⟨?_, g3, g1, ?_, by rw [g4, hc, h4]; rfl⟩
                  · intro f hf
                    rcases List.mem_cons.1 hf with rfl | hf
                    · simp only
                      constructor <;> omega
                    · rcases List.mem_cons.1 hf with rfl | hf
                      · simp only
                        split <;> constructor <;> omega
                      · exact hb f (List.mem_cons_of_mem _ hf)
                  · rw [g2, h2, h3]
                    simp only [List.length_cons, List.map_cons]
                    push_cast
                    rfl
                have hok1 := FileManager.popStacks_counters B hB _ s2 s1 hok2 hpop
                have := ih s1 sx _ hok1 (FileManager.normalizeCounters_idem _)
                  (by
                    rw [FileManager.countersSections_normalize, hrun, hsecs]
                    simp [FileManager.countersSections])
                rw [this, FileManager.countersNamed_normalize]
                simp only [Option.map_some', RawSection.named, h1, FileManager.countersNamed,
                  RawTree.namedList, RawTree.named, TagTree.sectionsList, TagTree.sections,
                  List.cons_append, List.nil_append, RawTree.namedList_length,
                  List.append_assoc]
        · exact absurd hsec (by simp)

theorem FileManager.rawSectionsFrom_length (ft : QtConv) (bytes : List Nat) :
    ∀ (n : Nat) (s s' : FileManager.Dm3Loop) (secs : List RawSection),
      FileManager.rawSectionsFrom ft bytes n s = some (secs, s') → secs.length = n := by
  intro n
  induction n with
  | zero =>
    intro s s' secs h
    simp only [FileManager.rawSectionsFrom, Option.some.injEq, Prod.mk.injEq] at h
    rw [← h.1]
    rfl
  | succ n ih =>
    intro s s' secs h
    simp only [FileManager.rawSectionsFrom] at h
    split at h
    · exact absurd h (by simp)
    · split at h
      · split at h
        · exact absurd h (by simp)
        · simp only [Option.map_eq_some', Prod.mk.injEq, Prod.exists] at h
          obtain ⟨secs', sx, hrun, rfl, rfl⟩ := h
          simp only [List.length_cons, ih _ _ _ hrun]
      · exact absurd h (by simp)

/-- When the next `n` passes of the loop of `loadDm3` read the sections of a
forest of entries, with the names as the stream holds them, from the locals with
the single open directory `root` and the counter `unnamedTagCount = c`, the
walk gives the entries the names of the numbering `RawTree.namedList forest c`:
in each directory the entries without name take the decimal texts of `c`,
`c + 1`, ... in stream order (1, 2, ... inside every sub-directory), counting
the tags and the sub-directories without name of that directory only; the
sections read carry these names, and the nodes appended to the children of
`root` mirror the forest with these names. -/
theorem FileManager.walk_numbers (ft : QtConv) (bytes : List Nat) (s s' : FileManager.Dm3Loop)
    (root : List Nat) (forest : List RawTree) (n : Nat)
    (hstack : s.nodeStack = [root]) (hroot : (s.model.m_root.at? root).isSome = true)
    (hcount : s.tagsRemaining = forest.length)
    (hrem : s.tagsRemainingStack = []) (hutc : s.utcStack = [])
    (hc : 0 ≤ s.unnamedTagCount) (hsmall : s.unnamedTagCount + n < 2147483648)
    (hread : FileManager.rawSectionsFrom ft bytes n s
      = some (RawTree.sectionsList forest, s')) :
    FileManager.sectionsFrom ft bytes n s
      = some (TagTree.sectionsList (RawTree.namedList forest s.unnamedTagCount), s') ∧
    ∃ nodes, TagTree.mirroredByList (RawTree.namedList forest s.unnamedTagCount) nodes = true ∧
      s'.model.m_root = s.model.m_root.appendAt root nodes := by
  have hn := FileManager.rawSectionsFrom_length ft bytes n s s' _ hread
  have hlen := RawTree.length_le_sectionsList forest
  have hok : FileManager.CountersOk s [(s.unnamedTagCount, forest)]
      (s.unnamedTagCount + n) := by
    refine ⟨?_, rfl, hcount, by rw [hrem]; rfl, by rw [hutc]; rfl⟩
    intro f hf
    rw [List.mem_singleton] at hf
    subst hf
    simp only
    constructor <;> omega
  have hsec := FileManager.walk_counters ft bytes _ hsmall n s s'
    [(s.unnamedTagCount, forest)] hok (FileManager.normalizeCounters_single _)
    (by rw [hread]; simp [FileManager.countersSections])
  have hsec' : FileManager.sectionsFrom ft bytes n s
      = some (TagTree.sectionsList (RawTree.namedList forest s.unnamedTagCount), s') := by
    rw [hsec]
    simp [FileManager.countersNamed]
  refine ⟨hsec', ?_⟩
  have hfr : FileManager.FramesOk s [(root, RawTree.namedList forest s.unnamedTagCount)] := by
    refine ⟨by rw [hstack]; rfl, ?_, ?_, ?_, by rw [hrem]; rfl, ?_, by rw [hutc]; rfl⟩
    · intro f hf
      rw [List.mem_singleton] at hf
      rw [hf]
      exact hroot
    · simp only [RawTree.namedList_length]
      exact hcount
    · simp only [RawTree.namedList_length]
      omega
    · intro g hg
      exact absurd hg (List.not_mem_nil _)
  obtain ⟨p, -, -, nodes, hnodes, hatt⟩ :=
    FileManager.walk_frames ft bytes n s s'
      [(root, RawTree.namedList forest s.unnamedTagCount)] hfr
      (FileManager.normalizeFrames_single _)
      (by rw [hsec']; simp [FileManager.framesSections])
  exact ⟨nodes, hnodes, hatt⟩

/-- The walk on the stream `dm3Unnamed` from the locals with which `loadDm3`
enters its loop: the root entries without name are `1`, `2` (a directory) and
`3`; inside the directory the tag without name is `1` (the tag `x` does not
count) and the empty directory without name is `2`. -/
theorem FileManager.walk_numbers_unnamed :
    RawTree.namedList dm3UnnamedForest 1
      = [TagTree.tag "1",
         TagTree.directory "2"
           [TagTree.tag "x", TagTree.tag "1", TagTree.directory "2" []],
         TagTree.tag "3"] ∧
    FileManager.sectionsFrom exampleQt dm3Unnamed 6 (dm3Start 3)
      = some (TagTree.sectionsList (RawTree.namedList dm3UnnamedForest 1), dm3UnnamedEnd) ∧
    ∃ nodes, TagTree.mirroredByList (RawTree.namedList dm3UnnamedForest 1) nodes = true ∧
      dm3UnnamedEnd.model.m_root = (dm3Start 3).model.m_root.appendAt [5] nodes :=
  ⟨rfl,
    FileManager.walk_numbers exampleQt dm3Unnamed (dm3Start 3) dm3UnnamedEnd [5]
      dm3UnnamedForest 6 rfl (by decide) (by decide) rfl rfl (by decide) (by decide)
      (option_eq_some_of_map _ _ (dm3Start 3) (by decide!))⟩
/-! ## Frame.cpp: the partial sort of `getDataRange` -/

theorem scanLoop_eq (before : Int → Int → Bool) (v : List Int) (val : Int)
    (hv : v.length = SAMPLE_CUTOFF) (fuel : Nat) :
    ∀ next : Nat, next ≤ SAMPLE_CUTOFF → SAMPLE_CUTOFF ≤ fuel + next →
      scanLoop before v val fuel next
        = some (next + ((v.drop next).takeWhile (fun x => before x val)).length) := by
  induction fuel with
  | zero =>
    intro next h1 h2
    have : next = v.length := by omega
    subst this
    simp only [scanLoop, List.drop_length, List.takeWhile_nil, List.length_nil, Nat.add_zero]
  | succ fuel ih =>
    intro next h1 h2
    unfold scanLoop
    by_cases hlt : next < SAMPLE_CUTOFF
    · rw [if_pos hlt]
      have hlt2 : next < v.length := by omega
      have hd : v.drop next = v.get ⟨next, hlt2⟩ :: v.drop (next + 1) := by
        rw [List.drop_eq_getElem_cons hlt2]
        rfl
      have hg : v.get? next = some (v.get ⟨next, hlt2⟩) := List.get?_eq_get hlt2
      rw [hg, hd]
      simp only []
      by_cases hb : before (v.get ⟨next, hlt2⟩) val = true
      · rw [if_pos hb, ih (next + 1) (by omega) (by omega), List.takeWhile_cons]
        simp only [hb, if_true, List.length_cons]
        congr 1
        omega
      · rw [if_neg hb, List.takeWhile_cons]
        simp only [hb, if_false, List.length_nil, Nat.add_zero]
        rfl
    · rw [if_neg hlt]
      have : next = v.length := by omega
      subst this
      simp only [List.drop_length, List.takeWhile_nil, List.length_nil, Nat.add_zero]

theorem shiftLoop_eq : ∀ (k : Nat) (v : List Int) (newVal : Int), k + 1 ≤ v.length →
    shiftLoop v (k + 1) newVal = (v.take (k + 1)).tail ++ newVal :: v.drop (k + 1) := by
  intro k
  induction k with
  | zero =>
    intro v newVal h
    cases v with
    | nil => simp at h
    | cons a t => simp [shiftLoop]
  | succ k ih =>
    intro v newVal h
    have hlt : k + 1 < v.length := by omega
    rw [shiftLoop, ih _ _ (by rw [List.length_set]; omega)]
    have h1 : (v.set (k + 1) newVal).take (k + 1) = v.take (k + 1) := by
      rw [List.set_take, List.set_eq_of_length_le]
      rw [List.length_take]
      omega
    have h2 : (v.set (k + 1) newVal).drop (k + 1) = newVal :: v.drop (k + 1 + 1) := by
      rw [List.drop_set, if_neg (Nat.lt_irrefl _), Nat.sub_self, List.drop_eq_getElem_cons hlt]
      rfl
    have h3 : v.take (k + 1 + 1) = v.take (k + 1) ++ [v.getD (k + 1) 0] := by
      rw [List.take_succ, List.getD_eq_getElem?_getD, List.getElem?_eq_getElem hlt]
      rfl
    have h4 : v.take (k + 1) ≠ [] := by
      intro h0
      have := congrArg List.length h0
      rw [List.length_take, List.length_nil] at this
      omega
    rw [h1, h2, h3, List.tail_append_of_ne_nil h4]
    simp

theorem insertSample_eq (before : Int → Int → Bool) (v : List Int) (val : Int)
    (hv : v.length = SAMPLE_CUTOFF) :
    insertSample before v val
      = some (match v.takeWhile (fun x => before x val) with
        | [] => v
        | _ :: rest => rest ++ val :: v.dropWhile (fun x => before x val)) := by
  unfold insertSample
  rw [scanLoop_eq before v val hv SAMPLE_CUTOFF 0 (Nat.zero_le _) (Nat.le_refl _)]
  simp only [List.drop_zero, Nat.zero_add, Option.map_some']
  have hsplit := List.takeWhile_append_dropWhile (fun x => before x val) v
  cases hP : v.takeWhile (fun x => before x val) with
  | nil => rfl
  | cons p rest =>
    simp only [List.length_cons]
    have hlen : rest.length + 1 ≤ v.length := by
      rw [← hsplit, hP]
      simp
    rw [shiftLoop_eq rest.length v val hlen]
    have ht : v.take (rest.length + 1) = p :: rest := by
      conv_lhs => rw [← hsplit, hP]
      exact List.take_left' rfl
    have hd : v.drop (rest.length + 1) = v.dropWhile (fun x => before x val) := by
      conv_lhs => rw [← hsplit, hP]
      exact List.drop_left' rfl
    rw [ht, hd]
    rfl

theorem KeepsFirst.insert_step (r : Int → Int → Prop) (htotal : ∀ a b, r a b ∨ r b a)
    (htrans : ∀ a b c, r a b → r b c → r a c) (before : Int → Int → Bool)
    (hbefore : ∀ x v, before x v = true ↔ ¬ r x v) (M : Int) (v seen : List Int) (val : Int)
    (h : KeepsFirst r M v seen) :
    ∃ v', insertSample before v val = some v' ∧ KeepsFirst r M v' (seen ++ [val]) := by
  obtain ⟨hlen, hsorted, R, hperm, hcross⟩ := h
  rw [insertSample_eq before v val hlen]
  have hsplit := List.takeWhile_append_dropWhile (fun x => before x val) v
  have hP : ∀ x ∈ v.takeWhile (fun x => before x val), ¬ r x val := by
    intro x hx
    exact (hbefore x val).1 (@List.mem_takeWhile_imp Int (fun x => before x val) v x hx)
  have hS : ∀ x ∈ v.dropWhile (fun x => before x val), r x val := by
    intro x hx
    have hne : v.dropWhile (fun x => before x val) ≠ [] := List.ne_nil_of_mem hx
    have hhead := List.head_dropWhile_not (fun x => before x val) v hne
    have hr0 : r ((v.dropWhile (fun x => before x val)).head hne) val := by
      by_contra hc
      have := (hbefore _ val).2 hc
      simp only [this] at hhead
      exact absurd hhead (by decide)
    have hsS : (v.dropWhile (fun x => before x val)).Pairwise (fun a b => r b a) := by
      rw [← hsplit] at hsorted
      exact (List.pairwise_append.1 hsorted).2.1
    cases hS0 : v.dropWhile (fun x => before x val) with
    | nil => exact absurd hS0 hne
    | cons s rest =>
      simp only [hS0, List.head_cons] at hr0
      rw [hS0] at hx hsS
      rcases List.mem_cons.1 hx with rfl | hx
      · exact hr0
      · exact htrans _ _ _ ((List.pairwise_cons.1 hsS).1 x hx) hr0
  generalize v.takeWhile (fun x => before x val) = P at hsplit hP ⊢
  generalize v.dropWhile (fun x => before x val) = S at hsplit hS ⊢
  subst hsplit
  cases P with
  | nil =>
    refine ⟨[] ++ S, rfl, hlen, hsorted, val :: R, ?_, ?_⟩
    · have h1 : (([] ++ S) ++ val :: R).Perm (val :: (([] ++ S) ++ R)) := List.perm_middle
      have h2 : (List.replicate SAMPLE_CUTOFF M ++ (seen ++ [val])).Perm
          (val :: (List.replicate SAMPLE_CUTOFF M ++ seen)) := by
        rw [← List.append_assoc]
        exact List.perm_append_singleton _ _
      exact h1.trans ((List.Perm.cons val hperm).trans h2.symm)
    · intro x hx y hy
      rcases List.mem_cons.1 hy with rfl | hy
      · exact hS x hx
      · exact hcross x hx y hy
  | cons p rest =>
    have hs := List.pairwise_cons.1 hsorted
    have hrp : ∀ x, x ∈ rest ∨ x ∈ S → r x p := by
      intro x hx
      apply hs.1 x
      rcases hx with hx | hx
      · exact List.mem_append_left _ hx
      · exact List.mem_append_right _ hx
    have hvalp : r val p := (htotal val p).resolve_right (hP p (List.mem_cons_self _ _))
    have hs2 := List.pairwise_append.1 hs.2
    refine ⟨rest ++ val :: S, rfl, ?_, ?_, p :: R, ?_, ?_⟩
    · rw [← hlen]
      simp only [List.length_append, List.length_cons]
      omega
    · rw [List.pairwise_append]
      refine ⟨hs2.1, List.pairwise_cons.2 ⟨fun s hs0 => hS s hs0, hs2.2.1⟩, ?_⟩
      intro x hx y hy
      rcases List.mem_cons.1 hy with rfl | hy
      · exact (htotal y x).resolve_right (hP x (List.mem_cons_of_mem _ hx))
      · exact hs2.2.2 x hx y hy
    · have h1 : ((rest ++ val :: S) ++ p :: R).Perm (val :: ((p :: rest ++ S) ++ R)) := by
        have a1 : ((rest ++ val :: S) ++ p :: R).Perm (p :: ((rest ++ val :: S) ++ R)) :=
          List.perm_middle
        have a2 : (rest ++ val :: S).Perm (val :: (rest ++ S)) := List.perm_middle
        have a3 := (List.Perm.append_right R a2).cons p
        refine a1.trans (a3.trans ?_)
        simp only [List.cons_append]
        exact List.Perm.swap _ _ _
      have h2 : (List.replicate SAMPLE_CUTOFF M ++ (seen ++ [val])).Perm
          (val :: (List.replicate SAMPLE_CUTOFF M ++ seen)) := by
        rw [← List.append_assoc]
        exact List.perm_append_singleton _ _
      exact h1.trans ((List.Perm.cons val hperm).trans h2.symm)
    · intro x hx y hy
      have hxcases : x = val ∨ x ∈ rest ∨ x ∈ S := by
        rcases List.mem_append.1 hx with hx | hx
        · exact Or.inr (Or.inl hx)
        · rcases List.mem_cons.1 hx with hx | hx
          · exact Or.inl hx
          · exact Or.inr (Or.inr hx)
      have hpv : p ∈ p :: rest ++ S := List.mem_cons_self _ _
      rcases List.mem_cons.1 hy with rfl | hy
      · rcases hxcases with rfl | hx
        · exact hvalp
        · exact hrp x hx
      · rcases hxcases with rfl | hx
        · exact htrans _ _ _ hvalp (hcross p hpv y hy)
        · apply hcross x _ y hy
          rcases hx with hx | hx
          · exact List.mem_cons_of_mem _ (List.mem_append_left _ hx)
          · exact List.mem_cons_of_mem _ (List.mem_append_right _ hx)

theorem KeepsFirst.initial (r : Int → Int → Prop) (htotal : ∀ a b, r a b ∨ r b a) (M : Int) :
    KeepsFirst r M (List.replicate SAMPLE_CUTOFF M) [] := by
  refine ⟨List.length_replicate _ _, ?_, [], List.Perm.refl _, ?_⟩
  · rw [List.pairwise_replicate]
    exact Or.inr ((htotal M M).elim id id)
  · intro x _ y hy
    exact absurd hy (List.not_mem_nil _)

theorem KeepsFirst.sorted_take (r : Int → Int → Prop) [DecidableRel r] [IsAntisymm Int r]
    (htotal : ∀ a b, r a b ∨ r b a) (htrans : ∀ a b c, r a b → r b c → r a c) (M : Int)
    (v vals : List Int) (h : KeepsFirst r M v vals) (hM : ∀ x ∈ vals, r x M)
    (hlen : SAMPLE_CUTOFF ≤ vals.length) :
    v.reverse = (vals.insertionSort r).take SAMPLE_CUTOFF := by
  haveI : IsTotal Int r := ⟨htotal⟩
  haveI : IsTrans Int r := ⟨htrans⟩
  obtain ⟨hv, hsorted, R, hperm, hcross⟩ := h
  have hA : (v.reverse ++ R.insertionSort r).Sorted r := by
    unfold List.Sorted
    rw [List.pairwise_append]
    refine ⟨List.pairwise_reverse.2 hsorted, List.sorted_insertionSort r R, ?_⟩
    intro x hx y hy
    exact hcross x (List.mem_reverse.1 hx) y ((List.perm_insertionSort r R).mem_iff.1 hy)
  have hB : (vals.insertionSort r ++ List.replicate SAMPLE_CUTOFF M).Sorted r := by
    unfold List.Sorted
    rw [List.pairwise_append]
    refine ⟨List.sorted_insertionSort r vals, ?_, ?_⟩
    · rw [List.pairwise_replicate]
      exact Or.inr ((htotal M M).elim id id)
    · intro x hx y hy
      rw [List.eq_of_mem_replicate hy]
      exact hM x ((List.perm_insertionSort r vals).mem_iff.1 hx)
  have hAB : (v.reverse ++ R.insertionSort r).Perm
      (vals.insertionSort r ++ List.replicate SAMPLE_CUTOFF M) := by
    have h1 : (v.reverse ++ R.insertionSort r).Perm (v ++ R) :=
      List.Perm.append (List.reverse_perm v) (List.perm_insertionSort r R)
    have h2 : (List.replicate SAMPLE_CUTOFF M ++ vals).Perm
        (vals.insertionSort r ++ List.replicate SAMPLE_CUTOFF M) :=
      List.perm_append_comm.trans
        (List.Perm.append_right _ (List.perm_insertionSort r vals).symm)
    exact h1.trans (hperm.trans h2)
  have heq := List.eq_of_perm_of_sorted hAB hA hB
  have hl : v.reverse.length = SAMPLE_CUTOFF := by rw [List.length_reverse, hv]
  have h3 := congrArg (List.take SAMPLE_CUTOFF) heq
  rw [List.take_left' hl, List.take_append_of_le_length] at h3
  · exact h3
  · rw [List.length_insertionSort]
    exact hlen

theorem option_mapM_cons {α β : Type} (f : α → Option β) (a : α) (l : List α) (vals : List β)
    (h : (a :: l).mapM f = some vals) :
    ∃ b bs, f a = some b ∧ l.mapM f = some bs ∧ vals = b :: bs := by
  rw [List.mapM_cons] at h
  cases hb : f a with
  | none =>
    rw [hb] at h
    exact absurd h (by simp)
  | some b =>
    cases hbs : l.mapM f with
    | none =>
      rw [hb, hbs] at h
      exact absurd h (by simp)
    | some bs =>
      rw [hb, hbs] at h
      refine ⟨b, bs, rfl, rfl, ?_⟩
      simpa using h.symm

theorem option_mapM_spec {α β : Type} (f : α → Option β) :
    ∀ (l : List α) (vals : List β), l.mapM f = some vals →
      vals.length = l.length ∧ ∀ v ∈ vals, ∃ a ∈ l, f a = some v := by
  intro l
  induction l with
  | nil =>
    intro vals h
    rw [List.mapM_nil] at h
    cases h
    exact ⟨rfl, fun v hv => absurd hv (List.not_mem_nil _)⟩
  | cons a l ih =>
    intro vals h
    obtain ⟨b, bs, hb, hbs, rfl⟩ := option_mapM_cons f a l vals h
    obtain ⟨h1, h2⟩ := ih bs hbs
    refine ⟨by simp [h1], ?_⟩
    intro v hv
    rcases List.mem_cons.1 hv with rfl | hv
    · exact ⟨a, List.mem_cons_self _ _, hb⟩
    · obtain ⟨a', ha', hf⟩ := h2 v hv
      exact ⟨a', List.mem_cons_of_mem _ ha', hf⟩

theorem sampleStep_keeps (data : FrameData) (buffer : List Nat) (type : DataType)
    (idx : List Int) :
    ∀ (passes : List Nat) (vals seen mins maxes : List Int),
      passes.mapM (fun iii => (idx.get? iii).bind (Frame.sampleAt data buffer type))
        = some vals →
      KeepsFirst (fun a b => a ≤ b) (typeMax type) mins seen →
      KeepsFirst (fun a b => a ≥ b) (typeLowest type) maxes seen →
      ∃ mins' maxes',
        passes.foldlM (Frame.sampleStep data buffer type idx) (mins, maxes)
          = some (mins', maxes') ∧
        KeepsFirst (fun a b => a ≤ b) (typeMax type) mins' (seen ++ vals) ∧
        KeepsFirst (fun a b => a ≥ b) (typeLowest type) maxes' (seen ++ vals) := by
  intro passes
  induction passes with
  | nil =>
    intro vals seen mins maxes h h1 h2
    rw [List.mapM_nil] at h
    cases h
    exact ⟨mins, maxes, rfl, by simpa using h1, by simpa using h2⟩
  | cons iii passes ih =>
    intro vals seen mins maxes h h1 h2
    obtain ⟨val, rest, hval, hrest, rfl⟩ := option_mapM_cons _ iii passes vals h
    obtain ⟨mins1, hm1, hk1⟩ := KeepsFirst.insert_step (fun a b => a ≤ b) le_total
      (fun _ _ _ => le_trans) (fun x v => decide (x > v))
      (fun x v => by simp) (typeMax type) mins seen val h1
    obtain ⟨maxes1, hm2, hk2⟩ := KeepsFirst.insert_step (fun a b => a ≥ b)
      (fun a b => (le_total a b).symm) (fun _ _ _ hab hbc => le_trans hbc hab)
      (fun x v => decide (x < v)) (fun x v => by simp) (typeLowest type) maxes seen val h2
    obtain ⟨mins', maxes', hfold, hk1', hk2'⟩ := ih rest (seen ++ [val]) mins1 maxes1 hrest hk1 hk2
    refine ⟨mins', maxes', ?_, by simpa using hk1', by simpa using hk2'⟩
    rw [List.foldlM_cons]
    have hstep : Frame.sampleStep data buffer type idx (mins, maxes) iii
        = some (mins1, maxes1) := by
      unfold Frame.sampleStep
      cases hi : idx.get? iii with
      | none =>
        rw [hi] at hval
        exact absurd hval (by simp)
      | some index =>
        rw [hi] at hval
        simp only [Option.some_bind] at hval
        simp only [hval, hm1, hm2]
    rw [hstep]
    exact hfold

theorem decodeLE_lt : ∀ bytes : List Nat, decodeLE bytes < 256 ^ bytes.length := by
  intro bytes
  induction bytes with
  | nil => simp [decodeLE]
  | cons b r ih =>
    simp only [decodeLE, List.length_cons, pow_succ]
    have := Nat.mod_lt b (by decide : 256 > 0)
    omega

theorem decodeValue_range (type : DataType) (bytes : List Nat)
    (hkind : isIntegerKind type = true) (hlen : bytes.length = typeWidth type) :
    typeLowest type ≤ decodeValue type bytes ∧ decodeValue type bytes ≤ typeMax type := by
  have h := decodeLE_lt bytes
  rw [hlen] at h
  have h1 := @Int.le_bmod (decodeLE bytes : Int) (2 ^ (8 * typeWidth type)) (by positivity)
  have h2 := @Int.bmod_lt (decodeLE bytes : Int) (2 ^ (8 * typeWidth type)) (by positivity)
  unfold decodeValue typeLowest typeMax wrapSigned
  cases type <;> simp only [isIntegerKind, Bool.false_eq_true] at hkind <;>
    simp only [typeSigned, typeWidth, if_true, if_false, Bool.false_eq_true] at h h1 h2 ⊢ <;>
    norm_num at h h1 h2 ⊢ <;>
    omega

theorem toFloat32_eq_self (x : Int) (h : x.natAbs ≤ 2 ^ 24) : toFloat32 x = x := by
  unfold toFloat32
  by_cases hlt : x.natAbs < 2 ^ 24
  · rw [if_pos hlt]
  · have heq : x.natAbs = 2 ^ 24 := by omega
    rcases Int.natAbs_eq x with hx | hx <;> rw [heq] at hx <;> subst hx <;> decide

theorem Frame.sampleAt_range (data : FrameData) (buffer : List Nat) (type : DataType)
    (index v : Int) (hkind : isIntegerKind type = true)
    (h : Frame.sampleAt data buffer type index = some v) :
    typeLowest type ≤ v ∧ v ≤ typeMax type := by
  unfold Frame.sampleAt at h
  split at h
  · exact absurd h (by simp)
  · unfold Frame.readReal at h
    split at h
    · cases hb : readBytes buffer _ (typeWidth type) with
      | none =>
        rw [hb] at h
        exact absurd h (by simp)
      | some bytes =>
        rw [hb] at h
        simp only [Option.map_some', Option.some.injEq] at h
        subst h
        exact decodeValue_range type bytes hkind (readBytes_length _ _ _ _ hb)
    · exact absurd h (by simp)

theorem Frame.sampleValues_spec (data : FrameData) (buffer : List Nat) (type : DataType)
    (idx vals : List Int) (hkind : isIntegerKind type = true)
    (h : Frame.sampleValues data buffer type idx = some vals) :
    vals.length = RANDOM_SAMPLE_SIZE ∧ ∀ v ∈ vals, typeLowest type ≤ v ∧ v ≤ typeMax type := by
  obtain ⟨h1, h2⟩ := option_mapM_spec _ _ vals h
  refine ⟨by rw [h1, List.length_range], ?_⟩
  intro v hv
  obtain ⟨iii, _, hf⟩ := h2 v hv
  cases hi : idx.get? iii with
  | none =>
    rw [hi] at hf
    exact absurd hf (by simp)
  | some index =>
    rw [hi] at hf
    exact Frame.sampleAt_range data buffer type index v hkind hf

theorem tenth_of_reverse (v sorted : List Int) (hlen : SAMPLE_CUTOFF ≤ sorted.length)
    (h : v.reverse = sorted.take SAMPLE_CUTOFF) :
    ∃ x, v.get? 0 = some x ∧ sorted.get? (SAMPLE_CUTOFF - 1) = some x ∧ x ∈ sorted := by
  have hv : v = (sorted.take SAMPLE_CUTOFF).reverse := by rw [← h, List.reverse_reverse]
  have hlt : SAMPLE_CUTOFF - 1 < sorted.length := by
    unfold SAMPLE_CUTOFF at hlen ⊢
    omega
  refine ⟨sorted.get ⟨SAMPLE_CUTOFF - 1, hlt⟩, ?_, List.get?_eq_get hlt, List.get_mem _ _ _⟩
  rw [hv, List.get?_eq_getElem?, List.getElem?_reverse, List.length_take,
    Nat.min_eq_left hlen, List.getElem?_take, Nat.sub_zero, if_pos (by decide),
    List.getElem?_eq_getElem hlt]
  · rfl
  · rw [List.length_take, Nat.min_eq_left hlen]
    decide

theorem narrow_natAbs (type : DataType) (v : Int) (hkind : isIntegerKind type = true)
    (hw : typeWidth type ≤ 2) (h : typeLowest type ≤ v ∧ v ≤ typeMax type) :
    v.natAbs ≤ 2 ^ 24 := by
  unfold typeLowest typeMax at h
  cases type <;> simp only [isIntegerKind, Bool.false_eq_true] at hkind <;>
    simp only [typeWidth] at hw <;>
    first
    | omega
    | (simp only [typeSigned, typeWidth, if_true, if_false, Bool.false_eq_true] at h
       norm_num at h
       omega)

theorem Frame.returnRange_exact (f : Frame) (type : DataType) (random : RandomState)
    (lo hi : Int) (hlo : typeLowest type ≤ lo ∧ lo ≤ typeMax type)
    (hhi : typeLowest type ≤ hi ∧ hi ≤ typeMax type)
    (hmin : f.m_minValue = some lo) (hmax : f.m_maxValue = some hi) :
    Frame.returnRange f type random = DataRange.range lo hi f random := by
  unfold Frame.returnRange fromFloat
  rw [hmin, hmax]
  simp only [Option.some_bind, if_pos hlo, if_pos hhi]

theorem Frame.getDataRange_sampled (f : Frame) (type : DataType) (buffer : List Nat)
    (random random' : RandomState) (idx vals : List Int)
    (hkind : isIntegerKind type = true)
    (hunset : f.m_minValue = none ∨ f.m_maxValue = none)
    (hfourier : Int.land f.m_data.attributes
      (Int.lor AttributeFourierTransformed AttributeFourierTransformedNoShift) = 0)
    (hidx : randomIndexes random RANDOM_SAMPLE_SIZE
      (wrapInt32 (f.m_data.hSize * f.m_data.vSize)) = some (idx, random'))
    (hvals : Frame.sampleValues f.m_data buffer type idx = some vals) :
    ∃ mins maxes lo hi,
      Frame.sampleLoop f.m_data buffer type idx = some (mins, maxes) ∧
      mins.reverse = (vals.insertionSort (fun a b => a ≤ b)).take SAMPLE_CUTOFF ∧
      maxes.reverse = (vals.insertionSort (fun a b => a ≥ b)).take SAMPLE_CUTOFF ∧
      (vals.insertionSort (fun a b => a ≤ b)).get? (SAMPLE_CUTOFF - 1) = some lo ∧
      (vals.insertionSort (fun a b => a ≥ b)).get? (SAMPLE_CUTOFF - 1) = some hi ∧
      (typeLowest type ≤ lo ∧ lo ≤ typeMax type) ∧
      (typeLowest type ≤ hi ∧ hi ≤ typeMax type) ∧
      Frame.getDataRange f type buffer random =
        Frame.returnRange
          { f with m_minValue := some (toFloat32 lo), m_maxValue := some (toFloat32 hi) }
          type random' := by
  obtain ⟨hlen, hrange⟩ := Frame.sampleValues_spec f.m_data buffer type idx vals hkind hvals
  have hten : SAMPLE_CUTOFF ≤ vals.length := by
    rw [hlen]
    decide
  obtain ⟨mins, maxes, hloop, hk1, hk2⟩ := sampleStep_keeps f.m_data buffer type idx
    (List.range RANDOM_SAMPLE_SIZE) vals [] _ _ hvals
    (KeepsFirst.initial (fun a b => a ≤ b) le_total (typeMax type))
    (KeepsFirst.initial (fun a b => a ≥ b) (fun a b => (le_total a b).symm) (typeLowest type))
  rw [List.nil_append] at hk1 hk2
  have hmins := KeepsFirst.sorted_take (fun a b => a ≤ b) le_total (fun _ _ _ => le_trans)
    (typeMax type) mins vals hk1 (fun x hx => (hrange x hx).2) hten
  have hmaxes := KeepsFirst.sorted_take (fun a b => a ≥ b) (fun a b => (le_total a b).symm)
    (fun _ _ _ hab hbc => le_trans hbc hab) (typeLowest type) maxes vals hk2
    (fun x hx => (hrange x hx).1) hten
  obtain ⟨lo, hlo0, hlo9, hlomem⟩ := tenth_of_reverse mins _
    (by rw [List.length_insertionSort]; exact hten) hmins
  obtain ⟨hi, hhi0, hhi9, hhimem⟩ := tenth_of_reverse maxes _
    (by rw [List.length_insertionSort]; exact hten) hmaxes
  have hlor := hrange lo ((List.perm_insertionSort _ vals).mem_iff.1 hlomem)
  have hhir := hrange hi ((List.perm_insertionSort _ vals).mem_iff.1 hhimem)
  have hget : Frame.getDataRange f type buffer random =
      Frame.returnRange
        { f with m_minValue := some (toFloat32 lo), m_maxValue := some (toFloat32 hi) }
        type random' := by
    unfold Frame.getDataRange
    rw [if_neg (by simp [hkind]), if_pos hunset, hidx]
    simp only []
    rw [if_neg (by simp [hfourier])]
    have hloop2 : Frame.sampleLoop f.m_data buffer type idx = some (mins, maxes) := hloop
    rw [hloop2]
    simp only [hlo0, hhi0]
  exact ⟨mins, maxes, lo, hi, hloop, hmins, hmaxes, hlo9, hhi9, hlor, hhir, hget⟩

theorem randomIndexes_first (max : Int) (hmax : 0 < max) (hint : max < 2147483648) :
    randomIndexes RandomState.initial RANDOM_SAMPLE_SIZE max
      = some (firstIndexes max, firstRandom max) := by
  have hu : wrapUnsigned 4 max = max := by
    unfold wrapUnsigned
    norm_num
    omega
  unfold randomIndexes
  rw [if_pos (Or.inl (by decide)), if_neg (by decide), hu, if_neg (by omega), Int.toNat_ofNat]
  unfold firstRandom firstIndexes
  exact rfl

theorem firstIndexes_spec (max : Int) (hmax : 0 < max) (hint : max < 2147483648) :
    (firstIndexes max).length = RANDOM_SAMPLE_SIZE ∧
    ∀ i ∈ firstIndexes max, 0 ≤ i ∧ i < max := by
  obtain ⟨h1, h2⟩ := randomIndexesLoop_spec max hmax hint RANDOM_SAMPLE_SIZE
    RandomState.initial.s_seed []
  refine ⟨by rw [firstIndexes, h1]; simp, ?_⟩
  intro i hi
  rcases h2 i hi with h | h
  · exact absurd h (List.not_mem_nil _)
  · exact h

theorem option_mapM_range (f : Int → Option Int) (g : Int → Int) (idx : List Int)
    (h : ∀ i ∈ idx, f i = some (g i)) (n : Nat) :
    ∀ s : Nat, s + n ≤ idx.length →
      (List.range' s n).mapM (fun iii => (idx.get? iii).bind f)
        = some (((idx.drop s).take n).map g) := by
  induction n with
  | zero =>
    intro s _
    rfl
  | succ n ih =>
    intro s hs
    have hlt : s < idx.length := by omega
    rw [List.range'_succ, List.mapM_cons, List.get?_eq_get hlt, Option.some_bind,
      h _ (List.get_mem _ _ _), ih (s + 1) (by omega), List.drop_eq_getElem_cons hlt]
    rfl

theorem Frame.sampleValues_map (data : FrameData) (buffer : List Nat) (type : DataType)
    (idx : List Int) (g : Int → Int) (hlen : idx.length = RANDOM_SAMPLE_SIZE)
    (h : ∀ i ∈ idx, Frame.sampleAt data buffer type i = some (g i)) :
    Frame.sampleValues data buffer type idx = some (idx.map g) := by
  unfold Frame.sampleValues
  rw [List.range_eq_range', option_mapM_range _ g idx h RANDOM_SAMPLE_SIZE 0 (by omega),
    List.drop_zero, ← hlen, List.take_length]

theorem sampleAt_small (i : Int) (h0 : 0 ≤ i) (h1 : i < 12) :
    Frame.sampleAt frameSmall.m_data bufferSmall DataTypeUInt8 i = some (12 - i) := by
  interval_cases i <;> rfl

theorem sampleValues_small :
    Frame.sampleValues frameSmall.m_data bufferSmall DataTypeUInt8 (firstIndexes 12)
      = some valuesSmall := by
  obtain ⟨h1, h2⟩ := firstIndexes_spec 12 (by decide) (by decide)
  unfold valuesSmall
  exact Frame.sampleValues_map frameSmall.m_data bufferSmall DataTypeUInt8 (firstIndexes 12)
    (fun i => 12 - i) h1 (fun i hi => sampleAt_small i (h2 i hi).1 (h2 i hi).2)

theorem sampleAt_pixel :
    Frame.sampleAt framePixel.m_data bufferPixel DataTypeInt32 0 = some 16777217 := by
  decide

theorem sampleValues_pixel :
    Frame.sampleValues framePixel.m_data bufferPixel DataTypeInt32 (firstIndexes 1)
      = some (List.replicate RANDOM_SAMPLE_SIZE 16777217) := by
  obtain ⟨h1, h2⟩ := firstIndexes_spec 1 (by decide) (by decide)
  have h3 := Frame.sampleValues_map framePixel.m_data bufferPixel DataTypeInt32
    (firstIndexes 1) (fun _ => 16777217) h1 (fun i hi => by
      have : i = 0 := by
        have := h2 i hi
        omega
      subst this
      exact sampleAt_pixel)
  rw [h3, List.map_const', h1]

/-- C31 (amended): for a frame of an integer kind without Fourier attribute
whose range is not yet set, when `randomIndexes` returns `idx` and the 2000
passes of the loop sample the values `vals`, the loop of `getDataRange` ends
with `mins` and `maxes` holding exactly the 10 smallest and the 10 largest
sampled values (`mins` reversed is the list of the first 10 of `vals` sorted
upwards, `maxes` reversed the first 10 of `vals` sorted downwards, repeated
values counted), and the frame stores the `float` nearest to the 10th smallest
value `lo` and to the 10th largest value `hi`. The call reports `lo` and `hi`
themselves when both have a magnitude of at most `2 ^ 24`, which is always so
for the kinds of 8 and 16 bits. -/
theorem getDataRange_partial_sort (f : Frame) (type : DataType) (buffer : List Nat)
    (random random' : RandomState) (idx vals : List Int)
    (hkind : isIntegerKind type = true)
    (hunset : f.m_minValue = none ∨ f.m_maxValue = none)
    (hfourier : Int.land f.m_data.attributes
      (Int.lor AttributeFourierTransformed AttributeFourierTransformedNoShift) = 0)
    (hidx : randomIndexes random RANDOM_SAMPLE_SIZE
      (wrapInt32 (f.m_data.hSize * f.m_data.vSize)) = some (idx, random'))
    (hvals : Frame.sampleValues f.m_data buffer type idx = some vals) :
    ∃ mins maxes lo hi,
      Frame.sampleLoop f.m_data buffer type idx = some (mins, maxes) ∧
      mins.reverse = (vals.insertionSort (fun a b => a ≤ b)).take SAMPLE_CUTOFF ∧
      maxes.reverse = (vals.insertionSort (fun a b => a ≥ b)).take SAMPLE_CUTOFF ∧
      (vals.insertionSort (fun a b => a ≤ b)).get? (SAMPLE_CUTOFF - 1) = some lo ∧
      (vals.insertionSort (fun a b => a ≥ b)).get? (SAMPLE_CUTOFF - 1) = some hi ∧
      Frame.getDataRange f type buffer random =
        Frame.returnRange
          { f with m_minValue := some (toFloat32 lo), m_maxValue := some (toFloat32 hi) }
          type random' ∧
      (lo.natAbs ≤ 2 ^ 24 → hi.natAbs ≤ 2 ^ 24 →
        Frame.getDataRange f type buffer random =
          DataRange.range lo hi { f with m_minValue := some lo, m_maxValue := some hi }
            random') ∧
      (typeWidth type ≤ 2 → lo.natAbs ≤ 2 ^ 24 ∧ hi.natAbs ≤ 2 ^ 24) := by
  obtain ⟨mins, maxes, lo, hi, hloop, hmins, hmaxes, hlo, hhi, hlor, hhir, hget⟩ :=
    Frame.getDataRange_sampled f type buffer random random' idx vals hkind hunset hfourier
      hidx hvals
  refine ⟨mins, maxes, lo, hi, hloop, hmins, hmaxes, hlo, hhi, hget, ?_, ?_⟩
  · intro h1 h2
    rw [hget, toFloat32_eq_self lo h1, toFloat32_eq_self hi h2]
    exact Frame.returnRange_exact _ type random' lo hi hlor hhir rfl rfl
  · intro hw
    exact ⟨narrow_natAbs type lo hkind hw hlor, narrow_natAbs type hi hkind hw hhir⟩

theorem randomIndexes_small :
    randomIndexes RandomState.initial RANDOM_SAMPLE_SIZE
        (wrapInt32 (frameSmall.m_data.hSize * frameSmall.m_data.vSize))
      = some (firstIndexes 12, firstRandom 12) := by
  have hm : wrapInt32 (frameSmall.m_data.hSize * frameSmall.m_data.vSize) = 12 := by decide
  rw [hm]
  exact randomIndexes_first 12 (by decide) (by decide)

theorem randomIndexes_pixel :
    randomIndexes RandomState.initial RANDOM_SAMPLE_SIZE
        (wrapInt32 (framePixel.m_data.hSize * framePixel.m_data.vSize))
      = some (firstIndexes 1, firstRandom 1) := by
  have hm : wrapInt32 (framePixel.m_data.hSize * framePixel.m_data.vSize) = 1 := by decide
  rw [hm]
  exact randomIndexes_first 1 (by decide) (by decide)

/-- C31 (witness): the frame `frameSmall` of `4 x 3` pixels of the kind
`UInt8` with the pixels `12, ..., 1`, at the first call of `randomIndexes` in
a program. The call reports the 10th smallest and the 10th largest of the
sampled values `valuesSmall`. -/
theorem getDataRange_partial_sort_witness :
    isIntegerKind DataTypeUInt8 = true ∧
    (frameSmall.m_minValue = none ∨ frameSmall.m_maxValue = none) ∧
    Int.land frameSmall.m_data.attributes
      (Int.lor AttributeFourierTransformed AttributeFourierTransformedNoShift) = 0 ∧
    randomIndexes RandomState.initial RANDOM_SAMPLE_SIZE
        (wrapInt32 (frameSmall.m_data.hSize * frameSmall.m_data.vSize))
      = some (firstIndexes 12, firstRandom 12) ∧
    Frame.sampleValues frameSmall.m_data bufferSmall DataTypeUInt8 (firstIndexes 12)
      = some valuesSmall ∧
    ∃ mins maxes lo hi,
      Frame.sampleLoop frameSmall.m_data bufferSmall DataTypeUInt8 (firstIndexes 12)
        = some (mins, maxes) ∧
      mins.reverse = (valuesSmall.insertionSort (fun a b => a ≤ b)).take SAMPLE_CUTOFF ∧
      maxes.reverse = (valuesSmall.insertionSort (fun a b => a ≥ b)).take SAMPLE_CUTOFF ∧
      (valuesSmall.insertionSort (fun a b => a ≤ b)).get? (SAMPLE_CUTOFF - 1) = some lo ∧
      (valuesSmall.insertionSort (fun a b => a ≥ b)).get? (SAMPLE_CUTOFF - 1) = some hi ∧
      (Frame.getDataRange frameSmall DataTypeUInt8 bufferSmall RandomState.initial).values?
        = some (lo, hi) := by
  refine ⟨rfl, Or.inl rfl, by decide, randomIndexes_small, sampleValues_small, ?_⟩
  obtain ⟨mins, maxes, lo, hi, h1, h2, h3, h4, h5, _, h7, h8⟩ :=
    getDataRange_partial_sort frameSmall DataTypeUInt8 bufferSmall RandomState.initial
      (firstRandom 12) (firstIndexes 12) valuesSmall rfl (Or.inl rfl) (by decide)
      randomIndexes_small sampleValues_small
  refine ⟨mins, maxes, lo, hi, h1, h2, h3, h4, h5, ?_⟩
  rw [h7 (h8 (by decide)).1 (h8 (by decide)).2]
  rfl

/-- C31 (counterexample): in a frame of one pixel of the kind
`Int32` with the value `16777217`, all 2000 sampled values are `16777217`, so
the 10th smallest and the 10th largest sampled value are `16777217`; the call
reports `16777216`, the value of the `float` that the frame stores. -/
theorem getDataRange_tenth_counterexample :
    randomIndexes RandomState.initial RANDOM_SAMPLE_SIZE
        (wrapInt32 (framePixel.m_data.hSize * framePixel.m_data.vSize))
      = some (firstIndexes 1, firstRandom 1) ∧
    Frame.sampleValues framePixel.m_data bufferPixel DataTypeInt32 (firstIndexes 1)
      = some (List.replicate RANDOM_SAMPLE_SIZE 16777217) ∧
    (Frame.getDataRange framePixel DataTypeInt32 bufferPixel RandomState.initial).values?
      = some (16777216, 16777216) := by
  refine ⟨randomIndexes_pixel, sampleValues_pixel, ?_⟩
  obtain ⟨mins, maxes, lo, hi, _, _, _, h4, h5, _, _, h6⟩ :=
    Frame.getDataRange_sampled framePixel DataTypeInt32 bufferPixel RandomState.initial
      (firstRandom 1) (firstIndexes 1) (List.replicate RANDOM_SAMPLE_SIZE 16777217) rfl
      (Or.inl rfl) (by decide) randomIndexes_pixel sampleValues_pixel
  have hlo : lo = 16777217 :=
    List.eq_of_mem_replicate ((List.perm_insertionSort _ _).mem_iff.1 (List.get?_mem h4))
  have hhi : hi = 16777217 :=
    List.eq_of_mem_replicate ((List.perm_insertionSort _ _).mem_iff.1 (List.get?_mem h5))
  subst hlo
  subst hhi
  have hf : toFloat32 16777217 = 16777216 := by decide
  rw [h6, hf, Frame.returnRange_exact _ DataTypeInt32 (firstRandom 1) 16777216 16777216
    (by decide) (by decide) rfl rfl]
  rfl
/-! ## The decoder of DM3 files on the bytes of a stream of simple values -/

theorem dm3NameOk_some (n : String) (h : dm3NameOk (some n) = true) :
    0 < n.length ∧ n.length < 65536 ∧ ∀ c ∈ n.data, 0 < c.toNat := by
  simp only [dm3NameOk, Bool.and_eq_true, decide_eq_true_eq, List.all_eq_true] at h
  exact ⟨h.1.1, h.1.2, fun c hc => (h.2 c hc).1⟩

/-- The start of a pass of the loop of `loadDm3` on the bytes of a section code
and a name. -/
theorem FileManager.readSectionHeader_chunk (bytes rest : List Nat) (s : FileManager.Dm3Loop)
    (code : Nat) (t : Int) (name : Option String)
    (ht : wrapSigned 1 (decodeLE [code]) = t) (hname : dm3NameOk name = true)
    (hd : bytes.drop s.pos
      = [code] ++ (beBytes 2 (name.getD "").length ++ (nameBytes (name.getD "") ++ rest))) :
    ∃ sh, FileManager.readSectionHeader bytes s
        = some (t, name.getD (toString s.unnamedTagCount), sh) ∧
      FileManager.rawName bytes s = some name ∧ bytes.drop sh.pos = rest ∧
      sh.dataList = s.dataList ∧ sh.warnings = s.warnings := by
  obtain ⟨e1, d1⟩ := FileManager.streamInt_chunk bytes [code] _ s.pos 1 true false hd rfl
    (by decide)
  obtain ⟨e2, d2⟩ := FileManager.streamInt_chunk bytes (beBytes 2 (name.getD "").length) _
    (s.pos + 1) 2 false false d1 (beBytes_length _ _) (by decide)
  simp only [if_true, Bool.false_eq_true, if_false, List.reverse_singleton, ht] at e1 e2
  cases name with
  | none =>
    have v2 : (decodeLE (beBytes 2 (("" : String).length : Nat)).reverse : Int) = 0 := by decide
    simp only [Option.getD_none, v2] at e2 d2 ⊢
    unfold FileManager.readSectionHeader FileManager.rawName
    simp only [e1, e2, gt_iff_lt, lt_self_iff_false, if_false]
    exact ⟨_, rfl, trivial, d2, rfl, rfl⟩
  | some n =>
    obtain ⟨h1, h2, h3⟩ := dm3NameOk_some n hname
    have hL : (0 : Int) < (n.length : Int) := by omega
    have v2 : (decodeLE (beBytes 2 n.length).reverse : Int) = n.length :=
      decodeLE_beBytes 2 _ (by omega) (by norm_num; omega)
    simp only [Option.getD_some, v2] at e2 d2 ⊢
    obtain ⟨e3, d3⟩ := FileManager.streamRaw_chunk bytes (nameBytes n) _ (s.pos + 1 + 2)
      (n.length : Int) d2 (by simp only [nameBytes, List.length_map]; rfl) hL
    unfold FileManager.readSectionHeader FileManager.rawName
    simp only [e1, e2, e3, gt_iff_lt, hL, if_true, cString_nameBytes n h3]
    exact ⟨_, rfl, trivial, d3, rfl, rfl⟩

theorem FileManager.popStacks_keeps (l : List Int) :
    ∀ s : FileManager.Dm3Loop, s.tagsRemainingStack = l → s.stacksOk →
      ∃ s1, FileManager.popStacks l s = some s1 ∧ s1.stacksOk ∧ s1.pos = s.pos ∧
        s1.model = s.model ∧ s1.endOfFile = s.endOfFile ∧ s1.readError = s.readError ∧
        s1.dataList = s.dataList ∧ s1.warnings = s.warnings ∧
        ∀ p ∈ s1.nodeStack, p ∈ s.nodeStack := by
  induction l with
  | nil =>
    intro s _ hs
    exact ⟨s, rfl, hs, rfl, rfl, rfl, rfl, rfl, rfl, fun p hp => hp⟩
  | cons top rest ih =>
    intro s hl hs
    simp only [FileManager.popStacks]
    split
    · obtain ⟨h1, h2⟩ := hs
      rw [hl] at h1 h2
      simp only [List.length_cons] at h1 h2
      cases hn : s.nodeStack with
      | nil => rw [hn] at h1; simp at h1
      | cons n nodes =>
        cases hu : s.utcStack with
        | nil => rw [hu] at h2; simp at h2
        | cons u utcs =>
          simp only
          rw [hn] at h1
          rw [hu] at h2
          simp only [List.length_cons] at h1 h2
          obtain ⟨s1, e1, g1, g2, g3, g4, g5, g6, g7, g8⟩ := ih
            { s with nodeStack := nodes, tagsRemaining := wrapInt32 (top - 1),
                     tagsRemainingStack := rest, unnamedTagCount := u, utcStack := utcs }
            rfl ⟨by simp only; omega, by simp only; omega⟩
          exact ⟨s1, e1, g1, g2, g3, g4, g5, g6, g7,
            fun p hp => List.mem_cons_of_mem _ (g8 p hp)⟩
    · exact ⟨s, rfl, hs, rfl, rfl, rfl, rfl, rfl, rfl, fun p hp => hp⟩

theorem wrapSigned_beBytes (v : Int) (h0 : 0 ≤ v) (h1 : v < 2147483648) :
    wrapSigned 4 (decodeLE (beBytes 4 v).reverse) = v := by
  rw [decodeLE_beBytes 4 v h0 (by norm_num; omega)]
  unfold wrapSigned
  norm_num
  unfold Int.bmod
  simp only [Nat.cast_ofNat]
  split <;> omega

/-- The pass of the loop of `loadDm3` over the bytes of the start of a
directory. -/
theorem FileManager.loadDm3Pass_directory_chunk (ft : QtConv) (bytes rest : List Nat)
    (s : FileManager.Dm3Loop) (name : Option String) (count : Int)
    (hname : dm3NameOk name = true) (hc0 : 0 ≤ count) (hc1 : count < 2147483648)
    (hd : bytes.drop s.pos = dm3Directory (name.getD "") count ++ rest)
    (hok : s.stacksOk) (hnodes : s.nodesOk) :
    ∃ s1, FileManager.loadDm3Pass ft bytes s = some (FileManager.Dm3Pass.next s1) ∧
      FileManager.rawSectionAt bytes s = some (RawSection.directory name count) ∧
      bytes.drop s1.pos = rest ∧ s1.stacksOk ∧ s1.nodesOk ∧
      s1.endOfFile = s.endOfFile ∧ s1.readError = s.readError ∧
      s1.dataList = s.dataList ∧ s1.warnings = s.warnings ∧
      s1.model.m_dataGroups = s.model.m_dataGroups := by
  simp only [dm3Directory, List.append_assoc] at hd
  obtain ⟨sh, eh, er, dh, hdl, hw⟩ := FileManager.readSectionHeader_chunk bytes _ s 20 20 name
    (by decide) hname hd
  obtain ⟨f1, f2, f3, f4, f5, f6, f7⟩ := FileManager.readSectionHeader_frame bytes s sh _ _ eh
  have hoksh := FileManager.readSectionHeader_stacksOk bytes s sh _ _ hok eh
  have hd' : bytes.drop sh.pos = [0] ++ ([0] ++ (beBytes 4 count ++ rest)) := dh
  obtain ⟨e1, d1⟩ := FileManager.streamInt_chunk bytes [0] _ sh.pos 1 true false hd' rfl
    (by decide)
  obtain ⟨e2, d2⟩ := FileManager.streamInt_chunk bytes [0] _ (sh.pos + 1) 1 true false d1 rfl
    (by decide)
  obtain ⟨e3, d3⟩ := FileManager.streamInt_chunk bytes (beBytes 4 count) _ (sh.pos + 1 + 1) 4
    true false d2 (beBytes_length _ _) (by decide)
  simp only [if_true, Bool.false_eq_true, if_false, wrapSigned_beBytes count hc0 hc1] at e1 e2 e3
  obtain ⟨top, stack, hstack⟩ : ∃ top stack, sh.nodeStack = top :: stack := by
    cases hn : sh.nodeStack with
    | nil =>
      have := hoksh.1
      rw [hn] at this
      simp at this
    | cons top stack => exact ⟨top, stack, rfl⟩
  obtain ⟨y, hy⟩ := Option.isSome_iff_exists.1
    (hnodes top (by rw [← f2, hstack]; exact List.mem_cons_self _ _))
  rw [← f1] at hy
  cases ho : FileManager.openDirectory bytes (name.getD (toString s.unnamedTagCount)) sh with
  | none =>
    unfold FileManager.openDirectory at ho
    simp only [hstack, List.head?_cons, Model.addNode_some _ _ _ _ _ hy] at ho
    exact absurd ho (by simp)
  | some s2 =>
    have hok2 := FileManager.openDirectory_stacksOk bytes _ sh s2 hoksh ho
    obtain ⟨g1, g2, -, -, -, g6, g7⟩ :=
      FileManager.openDirectory_frame bytes _ sh s2 top stack y hstack hy ho
    have hpos2 : s2.pos = sh.pos + 1 + 1 + 4 ∧ s2.dataList = sh.dataList ∧
        s2.warnings = sh.warnings ∧ s2.model.m_dataGroups = sh.model.m_dataGroups := by
      unfold FileManager.openDirectory at ho
      simp only [hstack, List.head?_cons, Model.addNode_some _ _ _ _ _ hy, e1, e2, e3,
        Option.some.injEq] at ho
      subst ho
      exact ⟨rfl, rfl, rfl, rfl⟩
    obtain ⟨s1, ep, k1, k2, k3, k4, k5, k6, k7, k8⟩ :=
      FileManager.popStacks_keeps _ s2 rfl hok2
    refine ⟨s1, ?_, ?_, ?_, k1, ?_, by rw [k4, g7, f7], by rw [k5, g6, f6],
      by rw [k6, hpos2.2.1, hdl], by rw [k7, hpos2.2.2.1, hw], by rw [k3, hpos2.2.2.2, f1]⟩
    · unfold FileManager.loadDm3Pass
      simp only [eh, if_true, ho, ep, Option.map_some']
    · unfold FileManager.rawSectionAt
      simp only [eh, er, if_true, e1, e2, e3]
    · rw [k2, hpos2.1]
      exact d3
    · intro p hp
      have hp2 := k8 p hp
      rw [g2] at hp2
      show (s1.model.m_root.at? p).isSome = true
      rw [k3, g1]
      rcases List.mem_cons.1 hp2 with rfl | hp2
      · rw [Node.at?_appended _ _ _ _ hy]
        rfl
      · apply Node.isSome_at?_appendAt
        rw [f1]
        apply hnodes
        rw [← f2, hstack]
        exact hp2

theorem FileManager.readEmdType_chunk (bytes value rest : List Nat) (pos : Nat) (type : Int)
    (htype : type ∈ [2, 3, 4, 5, 6, 7, 8, 9, 10])
    (hlen : (value.length : Int) = dm3TypeDepth type)
    (hd : bytes.drop pos = value ++ rest) :
    dm3ToEmdType type ≠ DataTypeUnknown ∧
    bytes.drop (FileManager.readEmdType bytes pos (dm3ToEmdType type)).2 = rest := by
  simp only [List.mem_cons, List.mem_singleton, List.not_mem_nil, or_false] at htype
  rcases htype with h | h | h | h | h | h | h | h | h <;> subst h
  · have hl : value.length = 2 := by
      have : dm3TypeDepth 2 = 2 := by decide
      rw [this] at hlen
      exact_mod_cast hlen
    refine ⟨by decide, ?_⟩
    obtain ⟨e, d⟩ := FileManager.streamInt_chunk bytes value rest pos 2 true true hd hl
      (by decide)
    have : dm3ToEmdType 2 = DataTypeInt16 := by decide
    rw [this]
    simp only [FileManager.readEmdType, e]
    exact d
  · have hl : value.length = 4 := by
      have : dm3TypeDepth 3 = 4 := by decide
      rw [this] at hlen
      exact_mod_cast hlen
    refine ⟨by decide, ?_⟩
    obtain ⟨e, d⟩ := FileManager.streamInt_chunk bytes value rest pos 4 true true hd hl
      (by decide)
    have : dm3ToEmdType 3 = DataTypeInt32 := by decide
    rw [this]
    simp only [FileManager.readEmdType, e]
    exact d
  · have hl : value.length = 2 := by
      have : dm3TypeDepth 4 = 2 := by decide
      rw [this] at hlen
      exact_mod_cast hlen
    refine ⟨by decide, ?_⟩
    obtain ⟨e, d⟩ := FileManager.streamInt_chunk bytes value rest pos 2 false true hd hl
      (by decide)
    have : dm3ToEmdType 4 = DataTypeUInt16 := by decide
    rw [this]
    simp only [FileManager.readEmdType, e]
    exact d
  · have hl : value.length = 4 := by
      have : dm3TypeDepth 5 = 4 := by decide
      rw [this] at hlen
      exact_mod_cast hlen
    refine ⟨by decide, ?_⟩
    obtain ⟨e, d⟩ := FileManager.streamInt_chunk bytes value rest pos 4 false true hd hl
      (by decide)
    have : dm3ToEmdType 5 = DataTypeUInt32 := by decide
    rw [this]
    simp only [FileManager.readEmdType, e]
    exact d
  · have hl : value.length = 4 := by
      have : dm3TypeDepth 6 = 4 := by decide
      rw [this] at hlen
      exact_mod_cast hlen
    refine ⟨by decide, ?_⟩
    obtain ⟨e, d⟩ := FileManager.streamInt_chunk bytes value rest pos 4 false true hd hl
      (by decide)
    have : dm3ToEmdType 6 = DataTypeFloat32 := by decide
    rw [this]
    simp only [FileManager.readEmdType, e]
    exact d
  · have hl : value.length = 8 := by
      have : dm3TypeDepth 7 = 8 := by decide
      rw [this] at hlen
      exact_mod_cast hlen
    refine ⟨by decide, ?_⟩
    obtain ⟨e, d⟩ := FileManager.streamInt_chunk bytes value rest pos 8 false true hd hl
      (by decide)
    have : dm3ToEmdType 7 = DataTypeFloat64 := by decide
    rw [this]
    simp only [FileManager.readEmdType, e]
    exact d
  · have hl : value.length = 1 := by
      have : dm3TypeDepth 8 = 1 := by decide
      rw [this] at hlen
      exact_mod_cast hlen
    refine ⟨by decide, ?_⟩
    obtain ⟨e, d⟩ := FileManager.streamInt_chunk bytes value rest pos 1 true true hd hl
      (by decide)
    have : dm3ToEmdType 8 = DataTypeBool := by decide
    rw [this]
    simp only [FileManager.readEmdType, e]
    exact d
  · have hl : value.length = 1 := by
      have : dm3TypeDepth 9 = 1 := by decide
      rw [this] at hlen
      exact_mod_cast hlen
    refine ⟨by decide, ?_⟩
    obtain ⟨e, d⟩ := FileManager.streamInt_chunk bytes value rest pos 1 true true hd hl
      (by decide)
    have : dm3ToEmdType 9 = DataTypeInt8 := by decide
    rw [this]
    simp only [FileManager.readEmdType, e]
    exact d
  · have hl : value.length = 1 := by
      have : dm3TypeDepth 10 = 1 := by decide
      rw [this] at hlen
      exact_mod_cast hlen
    refine ⟨by decide, ?_⟩
    obtain ⟨e, d⟩ := FileManager.streamInt_chunk bytes value rest pos 1 true true hd hl
      (by decide)
    have : dm3ToEmdType 10 = DataTypeInt8 := by decide
    rw [this]
    simp only [FileManager.readEmdType, e]
    exact d

/-- The branch of the tag of a pass of the loop of `loadDm3` on the bytes of a
delimiter, an info array of one simple type code and the value. -/
theorem FileManager.readTag_chunk (ft : QtConv) (bytes value rest : List Nat)
    (sh : FileManager.Dm3Loop) (nameString : String) (type : Int) (top : List Nat)
    (stack : List (List Nat)) (y : Node)
    (htype : type ∈ [2, 3, 4, 5, 6, 7, 8, 9, 10])
    (hlen : (value.length : Int) = dm3TypeDepth type)
    (hd : bytes.drop sh.pos
      = [37, 37, 37, 37] ++ (beBytes 4 1 ++ (beBytes 4 type ++ (value ++ rest))))
    (hstack : sh.nodeStack = top :: stack) (hy : sh.model.m_root.at? top = some y) :
    ∃ s2, FileManager.readTag ft bytes nameString sh
        = some (FileManager.Dm3Pass.next s2, true) ∧
      bytes.drop s2.pos = rest ∧ s2.dataList = sh.dataList ∧ s2.warnings = sh.warnings ∧
      s2.model.m_dataGroups = sh.model.m_dataGroups := by
  have ht0 : 0 ≤ type ∧ type < 2147483648 := by
    simp only [List.mem_cons, List.mem_singleton, List.not_mem_nil, or_false] at htype
    omega
  obtain ⟨e4, d4⟩ := FileManager.streamRaw_chunk bytes [37, 37, 37, 37] _ sh.pos 4 hd rfl
    (by decide)
  obtain ⟨e5, d5⟩ := FileManager.streamInt_chunk bytes (beBytes 4 1) _ _ 4 true false d4
    (beBytes_length _ _) (by decide)
  obtain ⟨e6, d6⟩ := FileManager.streamInt_chunk bytes (beBytes 4 type) _ _ 4 true false d5
    (beBytes_length _ _) (by decide)
  obtain ⟨hknown, d7⟩ := FileManager.readEmdType_chunk bytes value rest _ type htype hlen d6
  have v5 : wrapSigned 4 (decodeLE (beBytes 4 1).reverse) = 1 := by decide
  simp only [if_true, Bool.false_eq_true, if_false, v5,
    wrapSigned_beBytes type ht0.1 ht0.2] at e5 e6
  have hdelim : cString [37, 37, 37, 37] = "%%%%" := by decide
  have hinfo : FileManager.readInfo bytes 1 (sh.pos + Int.toNat 4 + 4)
      = ([type], sh.pos + Int.toNat 4 + 4 + 4) := by
    simp only [FileManager.readInfo, e6]
  have hvalue : FileManager.readTagValue ft bytes (sh.pos + Int.toNat 4 + 4 + 4) sh.tagName 1
      [type]
      = some (FileManager.TagValue.decoded
          (FileManager.readEmdType bytes (sh.pos + Int.toNat 4 + 4 + 4) (dm3ToEmdType type)).2
          (some ((FileManager.readEmdType bytes (sh.pos + Int.toNat 4 + 4 + 4)
            (dm3ToEmdType type)).1, dm3ToEmdType type)) none) := by
    unfold FileManager.readTagValue
    rw [if_pos rfl]
    simp only [List.get?_cons_zero]
    rw [if_pos hknown]
  unfold FileManager.readTag
  simp only [hstack, List.head?_cons, Model.addNode_some _ _ _ _ _ hy, Node.newAttribute_eq,
    Node.at?_appended _ _ _ _ hy, Node.replaceAt_appended _ _ _ _ _ hy, e4, hdelim, ne_eq,
    not_true_eq_false, if_false, e5, Int.toNat_one, hinfo, hvalue]
  rw [if_neg (by decide)]
  refine ⟨_, rfl, d7, ?_, rfl, rfl⟩
  simp

/-- The pass of the loop of `loadDm3` over the bytes of a leaf tag with one
value of a simple type. -/
theorem FileManager.loadDm3Pass_tag_chunk (ft : QtConv) (bytes rest : List Nat)
    (s : FileManager.Dm3Loop) (name : Option String) (type : Int) (value : List Nat)
    (hname : dm3NameOk name = true) (htype : type ∈ [2, 3, 4, 5, 6, 7, 8, 9, 10])
    (hlen : (value.length : Int) = dm3TypeDepth type)
    (hd : bytes.drop s.pos = dm3Tag (name.getD "") [type] value ++ rest)
    (hok : s.stacksOk) (hnodes : s.nodesOk) :
    ∃ s1, FileManager.loadDm3Pass ft bytes s = some (FileManager.Dm3Pass.next s1) ∧
      FileManager.rawSectionAt bytes s = some (RawSection.tag name) ∧
      bytes.drop s1.pos = rest ∧ s1.stacksOk ∧ s1.nodesOk ∧
      s1.endOfFile = s.endOfFile ∧ s1.readError = s.readError ∧
      s1.dataList = s.dataList ∧ s1.warnings = s.warnings ∧
      s1.model.m_dataGroups = s.model.m_dataGroups := by
  simp only [dm3Tag, List.append_assoc, List.map_cons, List.map_nil, List.flatten_cons,
    List.flatten_nil, List.append_nil, List.length_singleton, Nat.cast_one] at hd
  obtain ⟨sh, eh, er, dh, hdl, hw⟩ := FileManager.readSectionHeader_chunk bytes _ s 21 21 name
    (by decide) hname hd
  obtain ⟨f1, f2, f3, f4, f5, f6, f7⟩ := FileManager.readSectionHeader_frame bytes s sh _ _ eh
  have hoksh := FileManager.readSectionHeader_stacksOk bytes s sh _ _ hok eh
  obtain ⟨top, stack, hstack⟩ : ∃ top stack, sh.nodeStack = top :: stack := by
    cases hn : sh.nodeStack with
    | nil =>
      have := hoksh.1
      rw [hn] at this
      simp at this
    | cons top stack => exact ⟨top, stack, rfl⟩
  obtain ⟨y, hy⟩ := Option.isSome_iff_exists.1
    (hnodes top (by rw [← f2, hstack]; exact List.mem_cons_self _ _))
  rw [← f1] at hy
  obtain ⟨s2, er2, d2, hdl2, hw2, hg2⟩ := FileManager.readTag_chunk ft bytes value rest sh
    (name.getD (toString s.unnamedTagCount)) type top stack y htype hlen dh hstack hy
  have hok2 : s2.stacksOk := FileManager.readTag_stacksOk ft bytes _ sh _ _ hoksh er2
  rcases FileManager.readTag_next ft bytes _ sh s2 true top stack y hstack hy er2 with
    ⟨hf, -⟩ | ⟨-, a, -, g1, g2, -, -, -, g6, g7⟩
  · exact absurd hf (by decide)
  · obtain ⟨s1, ep, k1, k2, k3, k4, k5, k6, k7, k8⟩ :=
      FileManager.popStacks_keeps _ s2 rfl hok2
    refine ⟨s1, ?_, ?_, by rw [k2]; exact d2, k1, ?_, by rw [k4, g7, f7], by rw [k5, g6, f6],
      by rw [k6, hdl2, hdl], by rw [k7, hw2, hw], by rw [k3, hg2, f1]⟩
    · unfold FileManager.loadDm3Pass
      simp only [eh]
      rw [if_neg (by decide : ¬ (21 : Int) = 20)]
      simp only [if_true, er2, ep, Option.map_some']
    · unfold FileManager.rawSectionAt
      simp only [eh, er]
      rw [if_neg (by decide : ¬ (21 : Int) = 20)]
      simp only [if_true]
    · intro p hp
      have hp2 := k8 p hp
      rw [g2] at hp2
      show (s1.model.m_root.at? p).isSome = true
      rw [k3, g1]
      apply Node.isSome_at?_appendAt
      rw [f1]
      apply hnodes
      rw [← f2]
      exact hp2

theorem RawTree.sectionsList_append (a b : List RawTree) :
    RawTree.sectionsList (a ++ b) = RawTree.sectionsList a ++ RawTree.sectionsList b := by
  induction a with
  | nil => rfl
  | cons e es ih => simp only [List.cons_append, RawTree.sectionsList, List.append_eq, ih, List.append_assoc]

theorem Dm3Entry.rawList_append (a b : List Dm3Entry) :
    Dm3Entry.rawList (a ++ b) = Dm3Entry.rawList a ++ Dm3Entry.rawList b := by
  induction a with
  | nil => rfl
  | cons e es ih => simp only [List.cons_append, Dm3Entry.rawList, List.append_eq, ih]

theorem Dm3Entry.encodeList_append (a b : List Dm3Entry) :
    Dm3Entry.encodeList (a ++ b) = Dm3Entry.encodeList a ++ Dm3Entry.encodeList b := by
  induction a with
  | nil => rfl
  | cons e es ih => simp only [List.cons_append, Dm3Entry.encodeList, List.append_eq, ih, List.append_assoc]

theorem Dm3Entry.wellFormedList_append (a b : List Dm3Entry) :
    Dm3Entry.wellFormedList (a ++ b)
      = (Dm3Entry.wellFormedList a && Dm3Entry.wellFormedList b) := by
  induction a with
  | nil => simp only [List.nil_append, Dm3Entry.wellFormedList, Bool.true_and]
  | cons e es ih => simp only [List.cons_append, Dm3Entry.wellFormedList, List.append_eq, ih, Bool.and_assoc]

theorem Dm3Entry.rawList_length (a : List Dm3Entry) : (Dm3Entry.rawList a).length = a.length := by
  induction a with
  | nil => rfl
  | cons e es ih => simp only [Dm3Entry.rawList, List.length_cons, ih]

/-- The passes of the loop of `loadDm3` over the bytes of a list of entries
with simple values read the sections of the entries, with the names as the
stream holds them, and leave the stream after the entries. -/
theorem FileManager.rawSectionsFrom_encoded (ft : QtConv) (bytes tail : List Nat) :
    ∀ (n : Nat) (todo : List Dm3Entry) (s : FileManager.Dm3Loop),
      (RawTree.sectionsList (Dm3Entry.rawList todo)).length = n →
      Dm3Entry.wellFormedList todo = true →
      s.stacksOk → s.nodesOk → s.endOfFile = false → s.readError = false →
      bytes.drop s.pos = Dm3Entry.encodeList todo ++ tail →
      ∃ s', FileManager.rawSectionsFrom ft bytes n s
          = some (RawTree.sectionsList (Dm3Entry.rawList todo), s') ∧
        bytes.drop s'.pos = tail ∧ s'.stacksOk ∧ s'.nodesOk ∧
        s'.endOfFile = false ∧ s'.readError = false ∧
        s'.dataList = s.dataList ∧ s'.warnings = s.warnings ∧
        s'.model.m_dataGroups = s.model.m_dataGroups := by
  intro n
  induction n with
  | zero =>
    intro todo s hn _ hok hnodes he hr hd
    cases todo with
    | nil => exact ⟨s, rfl, hd, hok, hnodes, he, hr, rfl, rfl, rfl⟩
    | cons e es =>
      simp only [Dm3Entry.rawList, RawTree.sectionsList, List.length_append] at hn
      have : e.raw.sections ≠ [] := RawTree.rawSections_ne_nil _
      have : 0 < e.raw.sections.length := List.length_pos.2 this
      omega
  | succ n ih =>
    intro todo s hn hwf hok hnodes he hr hd
    have hflags : ¬ (s.endOfFile = true ∨ s.readError = true) := by
      rw [he, hr]
      simp
    cases todo with
    | nil => simp [Dm3Entry.rawList, RawTree.sectionsList] at hn
    | cons e es =>
      simp only [Dm3Entry.wellFormedList, Bool.and_eq_true] at hwf
      obtain ⟨hwe, hwes⟩ := hwf
      cases e with
      | tag name type value =>
        simp only [Dm3Entry.wellFormed, Bool.and_eq_true, decide_eq_true_eq] at hwe
        obtain ⟨⟨⟨hname, htype⟩, hlen⟩, -⟩ := hwe
        simp only [Dm3Entry.encodeList, Dm3Entry.encode, List.append_assoc] at hd
        obtain ⟨s1, ep, es1, d1, k1, k2, k3, k4, k5, k6, k7⟩ :=
          FileManager.loadDm3Pass_tag_chunk ft bytes _ s name type value hname htype hlen hd
            hok hnodes
        simp only [Dm3Entry.rawList, Dm3Entry.raw, RawTree.sectionsList, RawTree.sections,
          List.singleton_append, List.length_cons, Nat.add_right_cancel_iff] at hn ⊢
        obtain ⟨s', e', d', j1, j2, j3, j4, j5, j6, j7⟩ :=
          ih es s1 hn hwes k1 k2 (by rw [k3, he]) (by rw [k4, hr]) d1
        refine ⟨s', ?_, d', j1, j2, j3, j4, by rw [j5, k5], by rw [j6, k6], by rw [j7, k7]⟩
        simp only [FileManager.rawSectionsFrom]
        rw [if_neg hflags]
        simp only [es1, ep, k4, hr, Bool.false_eq_true, if_false, e', Option.map_some']
      | directory name sub =>
        simp only [Dm3Entry.wellFormed, Bool.and_eq_true, decide_eq_true_eq] at hwe
        obtain ⟨⟨hname, hcount⟩, hwsub⟩ := hwe
        simp only [Dm3Entry.encodeList, Dm3Entry.encode, List.append_assoc] at hd
        rw [← List.append_assoc (Dm3Entry.encodeList sub), ← Dm3Entry.encodeList_append] at hd
        obtain ⟨s1, ep, es1, d1, k1, k2, k3, k4, k5, k6, k7⟩ :=
          FileManager.loadDm3Pass_directory_chunk ft bytes _ s name sub.length hname
            (by omega) (by omega) hd hok hnodes
        have hsecs : RawTree.sectionsList (Dm3Entry.rawList (Dm3Entry.directory name sub :: es))
            = RawSection.directory name sub.length
              :: RawTree.sectionsList (Dm3Entry.rawList (sub ++ es)) := by
          simp only [Dm3Entry.rawList, Dm3Entry.raw, RawTree.sectionsList, RawTree.sections,
            List.cons_append, Dm3Entry.rawList_append, RawTree.sectionsList_append,
            Dm3Entry.rawList_length]
        rw [hsecs] at hn ⊢
        simp only [List.length_cons, Nat.add_right_cancel_iff] at hn
        obtain ⟨s', e', d', j1, j2, j3, j4, j5, j6, j7⟩ :=
          ih (sub ++ es) s1 hn
            (by rw [Dm3Entry.wellFormedList_append, hwsub, hwes]; rfl)
            k1 k2 (by rw [k3, he]) (by rw [k4, hr]) d1
        refine ⟨s', ?_, d', j1, j2, j3, j4, by rw [j5, k5], by rw [j6, k6], by rw [j7, k7]⟩
        simp only [FileManager.rawSectionsFrom]
        rw [if_neg hflags]
        simp only [es1, ep, k4, hr, Bool.false_eq_true, if_false, e', Option.map_some']

theorem dm3Stream_layout (forest : List Dm3Entry) :
    dm3Stream forest
      = beBytes 4 3 ++ (beBytes 4 0 ++ (beBytes 4 1 ++ ([0] ++ ([0] ++
          (beBytes 4 forest.length ++ (Dm3Entry.encodeList forest ++ [0])))))) := by
  simp [dm3Stream, dm3Header, List.append_assoc]

theorem Dm3Entry.length_le_passes (forest : List Dm3Entry) :
    forest.length ≤ Dm3Entry.passes forest := by
  unfold Dm3Entry.passes
  rw [← Dm3Entry.rawList_length forest]
  exact RawTree.length_le_sectionsList _

theorem Model.addNode_dm3 (emdModel : Model) :
    emdModel.addNode "dm3" GROUP none
      = some ({ emdModel with
                m_root := emdModel.m_root.appendAt [] [Node.mk "dm3" GROUP [] NodeSelf.group] },
              [] ++ [emdModel.m_root.children.length]) := by
  have := Model.addNode_some emdModel "dm3" GROUP [] emdModel.m_root (Node.at?_root _)
  rw [Node.newGroup_eq] at this
  exact this

/-- The run of `loadDm3` on the stream of a list of root entries with simple
values: the passes of the loop read the sections of the entries with the names
of the numbering, the loop ends at the end-of-stream section code, and the
call returns `ErrorNone` without warning with the model in which the Group
`dm3` holds nodes that mirror the entries. -/
theorem FileManager.loadDm3_encoded (ft : QtConv) (emdModel : Model) (forest : List Dm3Entry)
    (hwf : Dm3Entry.wellFormedList forest = true)
    (hpasses : Dm3Entry.passes forest + 1 < 2147483648) :
    ∃ s' nodes,
      FileManager.sectionsFrom ft (dm3Stream forest) (Dm3Entry.passes forest)
          (FileManager.dm3LoopStart emdModel forest.length)
        = some (TagTree.sectionsList (RawTree.namedList (Dm3Entry.rawList forest) 1), s') ∧
      TagTree.mirroredByList (RawTree.namedList (Dm3Entry.rawList forest) 1) nodes = true ∧
      ∀ fuel, FileManager.loadDm3 ft (some (dm3Stream forest)) emdModel
          (fuel + 1 + Dm3Entry.passes forest)
        = Run.done (FileManager.Error.ErrorNone,
            { emdModel with
              m_root := emdModel.m_root.appendAt []
                [Node.mk "dm3" GROUP nodes NodeSelf.group] },
            []) := by
  have hlen := Dm3Entry.length_le_passes forest
  have hL0 : (0 : Int) ≤ (forest.length : Int) := by omega
  have hL1 : (forest.length : Int) < 2147483648 := by omega
  have hd0 : (dm3Stream forest).drop 0 = _ := dm3Stream_layout forest
  obtain ⟨e1, d1⟩ := FileManager.streamInt_chunk _ (beBytes 4 3) _ 0 4 true false hd0
    (beBytes_length _ _) (by decide)
  obtain ⟨e2, d2⟩ := FileManager.streamInt_chunk _ (beBytes 4 0) _ _ 4 true false d1
    (beBytes_length _ _) (by decide)
  obtain ⟨e3, d3⟩ := FileManager.streamInt_chunk _ (beBytes 4 1) _ _ 4 true false d2
    (beBytes_length _ _) (by decide)
  obtain ⟨e4, d4⟩ := FileManager.streamInt_chunk _ [0] _ _ 1 true false d3 rfl (by decide)
  obtain ⟨e5, d5⟩ := FileManager.streamInt_chunk _ [0] _ _ 1 true false d4 rfl (by decide)
  obtain ⟨e6, d6⟩ := FileManager.streamInt_chunk _ (beBytes 4 forest.length) _ _ 4 true false d5
    (beBytes_length _ _) (by decide)
  have v1 : wrapSigned 4 (decodeLE (beBytes 4 3).reverse) = 3 := by decide
  have v2 : wrapSigned 4 (decodeLE (beBytes 4 0).reverse) = 0 := by decide
  have v3 : wrapSigned 4 (decodeLE (beBytes 4 1).reverse) = 1 := by decide
  have v4 : wrapSigned 1 (decodeLE ([0] : List Nat).reverse) = 0 := by decide
  simp only [if_true, Bool.false_eq_true, if_false, v1, v2, v3, v4,
    wrapSigned_beBytes _ hL0 hL1] at e1 e2 e3 e4 e5 e6
  have hadd := Model.addNode_dm3 emdModel
  have hstart : FileManager.dm3LoopStart emdModel forest.length
      = { pos := 0 + 4 + 4 + 4 + 1 + 1 + 4
          model := { emdModel with
            m_root := emdModel.m_root.appendAt [] [Node.mk "dm3" GROUP [] NodeSelf.group] }
          nodeStack := [[] ++ [emdModel.m_root.children.length]]
          tagsRemainingStack := [], utcStack := [], tagsRemaining := forest.length
          unnamedTagCount := 1, tagName := none, dataList := [], dataTypeList := []
          endOfFile := false, readError := false, warnings := [] } := by
    unfold FileManager.dm3LoopStart
    rw [hadd]
    rfl
  have hroot : ({ emdModel with
      m_root := emdModel.m_root.appendAt [] [Node.mk "dm3" GROUP [] NodeSelf.group] } : Model
      ).m_root.at? ([] ++ [emdModel.m_root.children.length])
      = some (Node.mk "dm3" GROUP [] NodeSelf.group) :=
    Node.at?_appended [] emdModel.m_root emdModel.m_root _ (Node.at?_root _)
  obtain ⟨s', hraw, dend, -, -, hend, herr, hdl, hwarn, hgroups⟩ :=
    FileManager.rawSectionsFrom_encoded ft (dm3Stream forest) [0] (Dm3Entry.passes forest)
      forest (FileManager.dm3LoopStart emdModel forest.length) rfl hwf
      (by rw [hstart]; exact ⟨rfl, rfl⟩)
      (by
        rw [hstart]
        intro p hp
        simp only [List.mem_singleton] at hp
        subst hp
        show (Node.at? _ _).isSome = true
        rw [hroot]
        rfl)
      (by rw [hstart]) (by rw [hstart])
      (by rw [hstart]; exact d6)
  obtain ⟨hsec, -⟩ := FileManager.walk_numbers ft (dm3Stream forest)
    (FileManager.dm3LoopStart emdModel forest.length) s'
    ([] ++ [emdModel.m_root.children.length]) (Dm3Entry.rawList forest)
    (Dm3Entry.passes forest) (by rw [hstart]) (by rw [hstart, hroot]; rfl)
    (by rw [hstart, Dm3Entry.rawList_length]) (by rw [hstart]) (by rw [hstart])
    (by rw [hstart]; show (0 : Int) ≤ 1; decide)
    (by rw [hstart]; show (1 : Int) + _ < _; omega) hraw
  have hsec1 : FileManager.sectionsFrom ft (dm3Stream forest) (Dm3Entry.passes forest)
      (FileManager.dm3LoopStart emdModel forest.length)
      = some (TagTree.sectionsList (RawTree.namedList (Dm3Entry.rawList forest) 1), s') := by
    rw [hsec, hstart]
  obtain ⟨hloop, -, htr, hrem, nodes, hmir, hmodel⟩ := FileManager.walk_mirrors ft
    (dm3Stream forest) (FileManager.dm3LoopStart emdModel forest.length) s'
    ([] ++ [emdModel.m_root.children.length])
    (RawTree.namedList (Dm3Entry.rawList forest) 1) (Dm3Entry.passes forest)
    (by rw [hstart]) (by rw [hstart, hroot]; rfl)
    (by rw [hstart, RawTree.namedList_length, Dm3Entry.rawList_length])
    (by rw [RawTree.namedList_length, Dm3Entry.rawList_length]; exact hL1)
    (by rw [hstart]) (by rw [hstart]) hsec1
  refine ⟨s', nodes, hsec1, hmir, ?_⟩
  intro fuel
  obtain ⟨s3, hp3, hm3, ht3, hw3, hf3, he3, hl3⟩ :=
    FileManager.loadDm3Pass_end ft (dm3Stream forest) s' dend hrem
  have hrun : FileManager.loadDm3Loop ft (dm3Stream forest) (fuel + 1 + Dm3Entry.passes forest)
      (FileManager.dm3LoopStart emdModel forest.length) = Run.done (none, s3) := by
    rw [hloop (fuel + 1), FileManager.loadDm3Loop, if_neg (by simp [hend, herr])]
    simp only [hp3]
    cases fuel <;> simp [FileManager.loadDm3Loop, hf3]
  rw [hstart] at hrun hdl hwarn hgroups hmodel
  unfold FileManager.loadDm3
  simp only [e1, e2, e3, e4, e5, e6, hadd, ne_eq, not_true_eq_false, if_false]
  rw [hrun]
  have hre : s3.readError = false := by rw [he3, herr]
  have hdl3 : s3.dataList = [] := by rw [hl3, hdl]
  have htr3 : s3.tagsRemaining = 0 := by rw [ht3, htr]
  have hwarn3 : s3.warnings = [] := by rw [hw3, hwarn]
  have hmodel3 : s3.model = { emdModel with
      m_root := emdModel.m_root.appendAt [] [Node.mk "dm3" GROUP nodes NodeSelf.group] } := by
    rw [hm3]
    have hr : s'.model.m_root
        = emdModel.m_root.appendAt [] [Node.mk "dm3" GROUP nodes NodeSelf.group] := by
      rw [hmodel]
      simp only
      rw [Node.appendAt_child [] emdModel.m_root emdModel.m_root _ _ (Node.at?_root _)]
      rfl
    cases hs : s'.model with
    | mk r g =>
      rw [hs] at hr hgroups
      simp only at hr hgroups
      rw [hr, hgroups]
  simp only [hre, hdl3, htr3, hwarn3, hf3, hmodel3, Bool.false_eq_true, if_false,
    List.length_nil, gt_iff_lt, lt_self_iff_false, not_true_eq_false, List.append_nil]

/-- C37 (the code at the failing input): on the stream `dm3String` the first
entry without name of the root directory, the tag that starts at byte 54 after
the named tag `S`, is named `2`: the pass before it starts at byte 38 inside
the tag `S`, reads the bytes of the string as a tag without name and gives it
the number 1. For every stream of entries whose leaf tags hold one value of a
simple type, the passes of the loop of `loadDm3` give the entries the names of
the numbering `RawTree.namedList`: in each directory the entries without name
take `1`, `2`, `3`, ... in stream order, the numbering starts at 1 inside every
sub-directory and goes on with the next number after it; the nodes that
`loadDm3` leaves below the Group `dm3` carry these names. -/
theorem loadDm3_numbers_unnamed :
    (FileManager.loadDm3Trace exampleQt dm3String 3 (dm3Start 2)).map (fun s => s.pos)
      = [18, 38, 54] ∧
    dm3String.drop 54 = dm3Tag "" [3] (leBytes 4 5) ++ [0] ∧
    (FileManager.sectionsFrom exampleQt dm3String 3 (dm3Start 2)).map Prod.fst
      = some [Dm3Section.tag "S", Dm3Section.tag "1", Dm3Section.tag "2"] ∧
    ∀ (ft : QtConv) (emdModel : Model) (forest : List Dm3Entry),
      Dm3Entry.wellFormedList forest = true →
      Dm3Entry.passes forest + 1 < 2147483648 →
      ∃ s' nodes,
        FileManager.sectionsFrom ft (dm3Stream forest) (Dm3Entry.passes forest)
            (FileManager.dm3LoopStart emdModel forest.length)
          = some (TagTree.sectionsList (RawTree.namedList (Dm3Entry.rawList forest) 1), s') ∧
        TagTree.mirroredByList (RawTree.namedList (Dm3Entry.rawList forest) 1) nodes = true ∧
        (FileManager.loadDm3 ft (some (dm3Stream forest)) emdModel
            (1 + Dm3Entry.passes forest)).result?.map (fun r => r.2.1.m_root)
          = some (emdModel.m_root.appendAt [] [Node.mk "dm3" GROUP nodes NodeSelf.group]) := by
  refine ⟨by decide!, by decide!, by decide!, ?_⟩
  intro ft emdModel forest hwf hpasses
  obtain ⟨s', nodes, hsec, hmir, hrun⟩ :=
    FileManager.loadDm3_encoded ft emdModel forest hwf hpasses
  refine ⟨s', nodes, hsec, hmir, ?_⟩
  have h0 := hrun 0
  rw [Nat.zero_add] at h0
  rw [h0]
  rfl

theorem dm3Start_eq (tagCount : Int) :
    dm3Start tagCount = FileManager.dm3LoopStart Model.create tagCount := rfl

end Emd
